import Mathlib

/-!
# OSRA structure recognition: the atom/bond graph passes of `osra_structure.cpp`

A shallow embedding of the graph-repair passes of `src/src/osra_structure.cpp`
together with the properties of these passes.

Modelling conventions (they apply to every definition below):

* `vector<atom_t>` and `vector<bond_t>` are index-addressed arenas.  The code
  never consults `vector::size()`; it addresses the arenas only through the
  explicit counts `n_atom` and `n_bond` that it passes around.  An arena is
  therefore a total map `Nat → atom_t` / `Nat → bond_t` used together with its
  count.  Reading outside the vector is undefined in the source; the model is
  total, so every statement holds in particular for in-range inputs.
* `double` values are rationals `ℚ`.  Their arithmetic is exact in the model, except in
  `find_limits_on_avg_bond` and `extend_dashed_bond_double`, whose statements depend on
  the rounding: these compute with the rounded operations `double_add`, `double_sub`,
  `double_mul`, `double_div` (the exact operation followed by `round_double`, the rounding
  of IEEE 754 binary64 to the nearest, ties to even).  NaN, infinities and subnormal
  numbers are not modelled.
* `int` indices are `Nat`, other `int` fields are `Int`.  The `int` counters of `count_area`
  are added modulo `2^32` (`wrap_int`), and the statement about them says for which grids
  they cannot overflow.
* The field `exists` of the source is spelled `exists_` (`exists` is reserved).
* `for (int i = 0; i < n; i++) body` is `forLoop body n`.  A loop whose number of rounds is
  not fixed on entry (`while (found)`, a `for` over a growing `n_bond`) carries a bound on its
  rounds; the bound chosen is shown, or argued in the comment, to be never reached.
* Functions of this repository that are not among the sources at hand (`osra_common.cpp`,
  the chemistry toolkit module) are parameters: the general statements hold for every
  choice of them.  Worked examples use the concrete plane geometry `euclid`, or `euclid_sq`,
  which states the near-parallel test without a square root.
* The traced paths of potrace are a list of path records (`next`) with an optional first
  child (`childlist`); pixels are read through the record `Image`, which stands for the
  arguments that the code hands on to `get_pixel`; `int(x)` of a `double` truncates towards
  zero (`to_int`).
* A table `vector<vector<double>>` is a list of lists.  The molecule `RWMol` of the chemistry
  toolkit, which `osra_rdkit.cpp` fills, is the list of the atomic numbers of its atoms and
  the list of its bonds.
-/

set_option autoImplicit false

namespace Osra

/-! ## Data model (`osra_openbabel.h`) -/

/-- The record `atom_s`; `curve` is an opaque handle on the traced path. -/
structure atom_t where
  x : ℚ
  y : ℚ
  label : String
  n : Int
  anum : Int
  curve : Nat
  exists_ : Bool
  corner : Bool
  terminal : Bool
  charge : Int
deriving DecidableEq

/-- The record `bond_s`; `curve` is an opaque handle on the traced path. -/
structure bond_t where
  a : Nat
  b : Nat
  type : Int
  curve : Nat
  exists_ : Bool
  hash : Bool
  wedge : Bool
  up : Bool
  down : Bool
  Small : Bool
  arom : Bool
  conjoined : Bool
deriving DecidableEq

/-- The record `molecule_statistics_s`. -/
structure molecule_statistics_t where
  rotors : Int
  fragments : Int
  rings56 : Int
deriving DecidableEq

/-- An arena of atoms, addressed by index. -/
abbrev Atoms := Nat → atom_t

/-- An arena of bonds, addressed by index. -/
abbrev Bonds := Nat → bond_t

/-- Assignment `v[i] = x` on an arena. -/
def upd {α : Type} (v : Nat → α) (i : Nat) (x : α) : Nat → α :=
  fun k => if k = i then x else v k

/-- The loop `for (int i = 0; i < n; i++) s = body i s`. -/
def forLoop {σ : Type} (body : Nat → σ → σ) : Nat → σ → σ
  | 0, s => s
  | n + 1, s => body n (forLoop body n s)

/-! ## `remove_zero_bonds` (lines 55-69) -/

/-- The test `(bond[i].a == bond[j].a && bond[i].b == bond[j].b) ||
(bond[i].a == bond[j].b && bond[i].b == bond[j].a)`. -/
def same_pair (p q : bond_t) : Bool :=
  (p.a == q.a && p.b == q.b) || (p.a == q.b && p.b == q.a)

/-- The statement `bond[j].exists = false`. -/
def kill (bond : Bonds) (j : Nat) : Bonds :=
  upd bond j { bond j with exists_ := false }

/-- The inner `j` loop of `remove_zero_bonds` for a fixed `i`. -/
def remove_zero_bonds_inner (n_bond i : Nat) (bond : Bonds) : Bonds :=
  forLoop (fun j bond =>
    if (bond j).exists_ && j != i && same_pair (bond i) (bond j) then kill bond j else bond)
    n_bond bond

/-- The body of the outer `i` loop of `remove_zero_bonds`. -/
def remove_zero_bonds_body (n_bond : Nat) (atom : Atoms) (i : Nat) (bond : Bonds) : Bonds :=
  if (bond i).exists_ then
    let bond := remove_zero_bonds_inner n_bond i bond
    let bond := if (bond i).a == (bond i).b then kill bond i else bond
    let bond :=
      if !(atom (bond i).a).exists_ || !(atom (bond i).b).exists_ then kill bond i else bond
    bond
  else bond

/-- The function `remove_zero_bonds(bond, n_bond, atom)`; the atoms are only read. -/
def remove_zero_bonds (bond : Bonds) (n_bond : Nat) (atom : Atoms) : Bonds :=
  forLoop (remove_zero_bonds_body n_bond atom) n_bond bond

/-- The arena `r` arises from `b` by switching exists flags off and nothing else. -/
def OnlyKills (b r : Bonds) : Prop :=
  ∀ k, r k = b k ∨ r k = { b k with exists_ := false }

/-! ## `assign_charge` (lines 858-907) -/

/-- The call `label.find_first_of(c)`: position of the first `c`, `none` for `string::npos`. -/
def find_first_of (label : String) (c : Char) : Option Nat :=
  if label.data.indexOf c < label.data.length then some (label.data.indexOf c) else none

/-- The call `label.erase(pos, 1)`. -/
def erase (label : String) (pos : Nat) : String :=
  ⟨label.data.eraseIdx pos⟩

/-- The test `label.length() > 0 && isalpha(label.at(0))` (`isalpha` in the C locale). -/
def starts_alpha (label : String) : Bool :=
  match label.data with
  | [] => false
  | c :: _ => c.isAlpha

/-- The loop `while (cont) ...` of `assign_charge` on the pair (label, charge), with a bound
on the number of rounds.  Every round that does not stop erases one character, so one round
more than the label has characters always reaches `cont = false`. -/
def charge_loop : Nat → String × Int → String × Int
  | 0, st => st
  | fuel + 1, (label, charge) =>
    match find_first_of label '-' with
    | some pos =>
      let label := erase label pos
      charge_loop fuel (label, if starts_alpha label then charge - 1 else charge)
    | none =>
      match find_first_of label '+' with
      | some pos =>
        let label := erase label pos
        charge_loop fuel (label, if starts_alpha label then charge + 1 else charge)
      | none => (label, charge)

/-- The first loop of `assign_charge`: bonds touching a non-existing atom are switched off. -/
def assign_charge_bonds (atom : Atoms) (n_bond : Nat) (bond : Bonds) : Bonds :=
  forLoop (fun j bond =>
    if (bond j).exists_ && (!(atom (bond j).a).exists_ || !(atom (bond j).b).exists_)
    then kill bond j else bond) n_bond bond

/-- The counters `n` (sum of incident bond orders) and `m` (incident bonds of order above 1)
of atom `i`. -/
def bond_order_sums (bond : Bonds) (n_bond i : Nat) : Int × Int :=
  forLoop (fun j (nm : Int × Int) =>
    if (bond j).exists_ && ((bond j).a == i || (bond j).b == i)
    then (nm.1 + (bond j).type, if (bond j).type > 1 then nm.2 + 1 else nm.2) else nm)
    n_bond (0, 0)

/-- The loop `if (bond[j].exists && bond[j].hash && bond[j].b == i) atom[i].charge = 0`. -/
def hash_reset (bond : Bonds) (n_bond i : Nat) (charge : Int) : Int :=
  forLoop (fun j charge =>
    if (bond j).exists_ && (bond j).hash && (bond j).b == i then 0 else charge) n_bond charge

/-- The body of the atom loop of `assign_charge`.  The parameter `fix_atom_name` stands for
`fix_atom_name(·, ·, fix, superatom, debug)` of `osra_common.cpp`, the lookup in the
caller-supplied normalization and superatom dictionaries. -/
def assign_charge_atom (fix_atom_name : String → Int → String) (bond : Bonds) (n_bond : Nat)
    (i : Nat) (atom : Atoms) : Atoms :=
  if (atom i).exists_ then
    let nm := bond_order_sums bond n_bond i
    let lc := charge_loop ((atom i).label.length + 1) ((atom i).label, 0)
    let charge := hash_reset bond n_bond i lc.2
    upd atom i { atom i with charge := charge, label := fix_atom_name lc.1 nm.1 }
  else atom

/-- The function `assign_charge(atom, bond, n_atom, n_bond, fix, superatom, debug)`. -/
def assign_charge (fix_atom_name : String → Int → String) (atom : Atoms) (bond : Bonds)
    (n_atom n_bond : Nat) : Atoms × Bonds :=
  let bond := assign_charge_bonds atom n_bond bond
  (forLoop (assign_charge_atom fix_atom_name bond n_bond) n_atom atom, bond)

/-- A blank atom record, as left by the constructions of `find_atoms`. -/
def atom0 : atom_t :=
  { x := 0, y := 0, label := " ", n := 0, anum := 0, curve := 0, exists_ := false,
    corner := false, terminal := false, charge := 0 }

/-- A blank bond record. -/
def bond0 : bond_t :=
  { a := 0, b := 0, type := 1, curve := 0, exists_ := false, hash := false, wedge := false,
    up := false, down := false, Small := false, arom := false, conjoined := false }

/-- An arena holding the listed records at indices 0, 1, ... and `d` elsewhere. -/
def arena {α : Type} (d : α) (l : List α) : Nat → α :=
  fun k => l.getD k d

/-- Two atoms, `"N+"` at index 0 and `"C"` at index 1. -/
def charge_atoms : Atoms :=
  arena atom0 [{ atom0 with label := "N+", exists_ := true },
    { atom0 with label := "C", exists_ := true, x := 10 }]

/-- One plain single bond from atom 0 to atom 1. -/
def charge_bonds_plain : Bonds :=
  arena bond0 [{ bond0 with a := 0, b := 1, exists_ := true }]

/-- One hashed bond from atom 0 (`a`) to atom 1 (`b`). -/
def charge_bonds_hash_from : Bonds :=
  arena bond0 [{ bond0 with a := 0, b := 1, exists_ := true, hash := true }]

/-- One hashed bond from atom 1 (`a`) to atom 0 (`b`). -/
def charge_bonds_hash_to : Bonds :=
  arena bond0 [{ bond0 with a := 1, b := 0, exists_ := true, hash := true }]

/-! ## Collaborators outside `src/` -/

/-- The geometric helpers and constants of `osra_common.cpp` / `osra_common.h`, which are
not part of the sources at hand.  They are pure functions of point coordinates
(`distance(x1, y1, x2, y2)`, `distance_from_bond_y(x0, y0, x1, y1, x, y)`, ...).  The two
bond-pair helpers `angle_between_bonds` and `distance_between_bonds` are taken as functions
of the coordinates of the four endpoint atoms, `a` and `b` of the first bond followed by
`a` and `b` of the second. -/
structure Geometry where
  distance : ℚ → ℚ → ℚ → ℚ → ℚ
  distance_from_bond_y : ℚ → ℚ → ℚ → ℚ → ℚ → ℚ → ℚ
  distance_from_bond_x_a : ℚ → ℚ → ℚ → ℚ → ℚ → ℚ → ℚ
  distance_from_bond_x_b : ℚ → ℚ → ℚ → ℚ → ℚ → ℚ → ℚ
  angle : ℚ → ℚ → ℚ → ℚ → ℚ → ℚ → ℚ → ℚ → ℚ
  separation : ℚ → ℚ → ℚ → ℚ → ℚ → ℚ → ℚ → ℚ → ℚ
  D_T_TOLERANCE : ℚ
  MAX_ATOMS : Nat

/-- Modelled from the spec: `bond_length(bond, i, atom)` of `osra_common.cpp` (absent), the
distance between the two endpoint atoms of bond `i`. -/
def bond_length (G : Geometry) (bond : Bonds) (i : Nat) (atom : Atoms) : ℚ :=
  G.distance (atom (bond i).a).x (atom (bond i).a).y (atom (bond i).b).x (atom (bond i).b).y

/-- Modelled from the spec: `terminal_bond(a, b, bond, n_bond)` of `osra_common.cpp`
(absent): the end `a` of bond `b` is terminal when no other existing bond touches atom `a`
("only one bond touches that atom"). -/
def terminal_bond (a b : Nat) (bond : Bonds) (n_bond : Nat) : Bool :=
  forLoop (fun l terminal =>
    if l != b && (bond l).exists_ && ((bond l).a == a || (bond l).b == a) then false
    else terminal) n_bond true

/-! ## `resolve_bridge_bonds` (lines 1624-1729) -/

/-- The list `con` of the existing bonds that touch atom `i`, in index order. -/
def incident_bonds (bond : Bonds) (n_bond i : Nat) : List Nat :=
  forLoop (fun j con =>
    if (bond j).exists_ && ((bond j).a == i || (bond j).b == i) then con ++ [j] else con)
    n_bond []

/-- The distances `y1`, `y2` of the two ends of bond `q` from the line of bond `p`. -/
def ends_from_line (G : Geometry) (atom : Atoms) (bond : Bonds) (p q : Nat) : ℚ × ℚ :=
  (G.distance_from_bond_y (atom (bond p).a).x (atom (bond p).a).y (atom (bond p).b).x
      (atom (bond p).b).y (atom (bond q).a).x (atom (bond q).a).y,
   G.distance_from_bond_y (atom (bond p).a).x (atom (bond p).a).y (atom (bond p).b).x
      (atom (bond p).b).y (atom (bond q).b).x (atom (bond q).b).y)

/-- The test `fabs(y1) > thickness || fabs(y2) > thickness`. -/
def off_line (G : Geometry) (atom : Atoms) (bond : Bonds) (thickness : ℚ) (p q : Nat) : Bool :=
  decide (|(ends_from_line G atom bond p q).1| > thickness) ||
    decide (|(ends_from_line G atom bond p q).2| > thickness)

/-- The loop `while ((con.size() > 2) && (e++ < 3))` on the pair (`b`, `con`); the first
argument is `3 - e`, the number of rounds the counter `e` still allows. -/
def pair_loop (off : Nat → Bool) : Nat → Nat × List Nat → Nat × List Nat
  | 0, st => st
  | r + 1, (b, con) =>
    if con.length > 2 then
      match con with
      | [] => (b, con)
      | b1 :: rest => pair_loop off r (b1, if off b1 then rest ++ [b1] else rest)
    else (b, con)

/-- The flag `terminal` over `term = [a, b, c, d]`. -/
def any_terminal (bond : Bonds) (n_bond : Nat) (term : List Nat) : Bool :=
  term.foldl (fun terminal k =>
    if terminal_bond (bond k).a k bond n_bond || terminal_bond (bond k).b k bond n_bond
    then true else terminal) false

/-- The gate of one junction: atom `i` exists and is unlabelled, exactly four existing bonds
touch it, a partner `b` on the line of the first one `a` is found, and the remaining two
`c`, `d` pass the order, co-linearity and terminal tests.  The result is the four bond
indices `(a, b, c, d)` of the reconnection about to be tried. -/
def bridge_candidate (G : Geometry) (thickness : ℚ) (n_bond i : Nat) (atom : Atoms)
    (bond : Bonds) : Option (Nat × Nat × Nat × Nat) :=
  if (atom i).exists_ && (atom i).label == " " then
    match incident_bonds bond n_bond i with
    | a :: rest =>
      if rest.length + 1 = 4 then
        match pair_loop (off_line G atom bond thickness a) 3 (0, rest) with
        | (b, [c, d]) =>
          if (bond a).type == 1 && (bond b).type == 1 && (bond c).type == 1 &&
              (bond d).type == 1 &&
              decide (|(ends_from_line G atom bond c d).1| < thickness) &&
              decide (|(ends_from_line G atom bond c d).2| < thickness) &&
              !any_terminal bond n_bond [a, b, c, d]
          then some (a, b, c, d) else none
        | _ => none
      else none
    | [] => none
  else none

/-- The four-way `if ... else if ...` that moves the end of bond `p` shared with bond `q`
to the other end of `q`. -/
def reattach (bond : Bonds) (p q : Nat) : Bonds :=
  if (bond p).a = (bond q).a then upd bond p { bond p with a := (bond q).b }
  else if (bond p).a = (bond q).b then upd bond p { bond p with a := (bond q).a }
  else if (bond p).b = (bond q).a then upd bond p { bond p with b := (bond q).b }
  else if (bond p).b = (bond q).b then upd bond p { bond p with b := (bond q).a }
  else bond

/-- The statement `bond[j].exists = true`. -/
def revive (bond : Bonds) (j : Nat) : Bonds :=
  upd bond j { bond j with exists_ := true }

/-- The tentative reconnection at junction `i` (lines 1679-1697). -/
def bridge_tentative (i a b c d : Nat) (s : Atoms × Bonds) : Atoms × Bonds :=
  let bond := kill (kill s.2 b) d
  let atom := upd s.1 i { s.1 i with exists_ := false }
  (atom, reattach (reattach bond a b) c d)

/-- The roll-back of the reconnection at junction `i` (lines 1704-1722). -/
def bridge_rollback (i a b c d : Nat) (s : Atoms × Bonds) : Atoms × Bonds :=
  let bond := revive (revive s.2 b) d
  let atom := upd s.1 i { s.1 i with exists_ := true }
  (atom, reattach (reattach bond a b) c d)

/-- The rejection test of lines 1700-1702 on the reference statistics `s1` and the
statistics `s2` of the tentatively reconnected graph. -/
def bridge_rejected (s1 s2 : molecule_statistics_t) : Bool :=
  s1.fragments != s2.fragments || s1.rotors != s2.rotors || s1.rings56 - s2.rings56 == 2

/-- The type of `caclulate_molecule_statistics(atom, bond, n_bond, avg_bond_length,
superatom, verbose)` of the chemistry toolkit module (absent), with the last three arguments
fixed.  Its declaration notes "this function changes the atoms", so it returns the atoms
along with the statistics; the bonds are `const`. -/
abbrev StatisticsFn := Atoms → Bonds → Nat → molecule_statistics_t × Atoms

/-- The body of the atom loop of `resolve_bridge_bonds` for atom `i`; `s1` is
`molecule_statistics1`. -/
def bridge_junction (stats : StatisticsFn) (G : Geometry) (thickness : ℚ) (n_bond : Nat)
    (s1 : molecule_statistics_t) (i : Nat) (s : Atoms × Bonds) : Atoms × Bonds :=
  match bridge_candidate G thickness n_bond i s.1 s.2 with
  | none => s
  | some (a, b, c, d) =>
    let t := bridge_tentative i a b c d s
    let r := stats t.1 t.2 n_bond
    if bridge_rejected s1 r.1 then bridge_rollback i a b c d (r.2, t.2) else (r.2, t.2)

/-- The function `resolve_bridge_bonds`; it returns `molecule_statistics1.fragments` and
leaves the repaired arenas. -/
def resolve_bridge_bonds (stats : StatisticsFn) (G : Geometry) (atom : Atoms) (n_atom : Nat)
    (bond : Bonds) (n_bond : Nat) (thickness : ℚ) : Int × Atoms × Bonds :=
  let r := stats atom bond n_bond
  (r.1.fragments, forLoop (bridge_junction stats G thickness n_bond r.1) n_atom (r.2, bond))

/-- The record that `reattach` leaves at index `p`, from the records `x = bond[p]` and
`y = bond[q]`. -/
def reattach_rec (x y : bond_t) : bond_t :=
  if x.a = y.a then { x with a := y.b }
  else if x.a = y.b then { x with a := y.a }
  else if x.b = y.a then { x with b := y.b }
  else if x.b = y.b then { x with b := y.a }
  else x

/-! ## A concrete geometry for worked examples

The general statements below hold for every `Geometry`.  Worked examples need one concrete
instance; `euclid` is the plane geometry the helper names describe, on exact rationals. -/

/-- The integer square root `⌊√n⌋` by linear search. -/
def isqrt (n : Nat) : Nat :=
  forLoop (fun k r => if (k + 1) * (k + 1) ≤ n then k + 1 else r) n 0

/-- Modelled from the spec: `sqrt` on `double` (libm), exact wherever the root is rational,
rounded down to a multiple of `1 / q.den` otherwise, and `0` on negative arguments. -/
def sqrtQ (q : ℚ) : ℚ :=
  (isqrt (q.num.toNat * q.den) : ℚ) / q.den

/-- Modelled from the spec: `distance(x1, y1, x2, y2)`, the Euclidean distance. -/
def euclid_distance (x1 y1 x2 y2 : ℚ) : ℚ :=
  sqrtQ ((x1 - x2) * (x1 - x2) + (y1 - y2) * (y1 - y2))

/-- Modelled from the spec: `distance_from_bond_y(x0, y0, x1, y1, x, y)`, the signed
perpendicular distance of `(x, y)` from the line through `(x0, y0)` and `(x1, y1)`. -/
def euclid_distance_from_bond_y (x0 y0 x1 y1 x y : ℚ) : ℚ :=
  (fun (cos sin : ℚ) => -(x - x0) * sin - (y - y0) * cos)
    ((x1 - x0) / euclid_distance x0 y0 x1 y1) (-(y1 - y0) / euclid_distance x0 y0 x1 y1)

/-- Modelled from the spec: `distance_from_bond_x_a(x0, y0, x1, y1, x, y)`, the signed
position of the projection of `(x, y)` along the bond, measured from its `a` end
`(x0, y0)`. -/
def euclid_distance_from_bond_x_a (x0 y0 x1 y1 x y : ℚ) : ℚ :=
  (fun (cos sin : ℚ) => (x - x0) * cos - (y - y0) * sin)
    ((x1 - x0) / euclid_distance x0 y0 x1 y1) (-(y1 - y0) / euclid_distance x0 y0 x1 y1)

/-- Modelled from the spec: `distance_from_bond_x_b(x0, y0, x1, y1, x, y)`, the same
position measured from the `b` end `(x1, y1)`. -/
def euclid_distance_from_bond_x_b (x0 y0 x1 y1 x y : ℚ) : ℚ :=
  euclid_distance_from_bond_x_a x0 y0 x1 y1 x y - euclid_distance x0 y0 x1 y1

/-- Modelled from the spec: `angle_between_bonds`, the cosine of the angle between the two
bond vectors ("angle within tolerance of parallel" is `|cos| > D_T_TOLERANCE`). -/
def euclid_angle (xa ya xb yb xc yc xd yd : ℚ) : ℚ :=
  ((xb - xa) * (xd - xc) + (yb - ya) * (yd - yc)) /
    (euclid_distance xa ya xb yb * euclid_distance xc yc xd yd)

/-- The constant `FLT_MAX` of `float.h`. -/
def FLT_MAX : ℚ := 340282346638528859811704183484516925440

/-- Modelled from the spec: `distance_between_bonds`, the perpendicular separation of the
second bond from the line of the first: the larger of the distances of its two ends, and
`FLT_MAX` when the two ends differ by 4 or more (the bonds are not parallel). -/
def euclid_separation (xa ya xb yb xc yc xd yd : ℚ) : ℚ :=
  (fun (y1 y3 : ℚ) => if |y1 - y3| ≥ 4 then FLT_MAX else max |y1| |y3|)
    (euclid_distance_from_bond_y xa ya xb yb xc yc)
    (euclid_distance_from_bond_y xa ya xb yb xd yd)

/-- The plane geometry on exact rationals, with `D_T_TOLERANCE = 0.95` and
`MAX_ATOMS = 10000`. -/
def euclid : Geometry :=
  { distance := euclid_distance
    distance_from_bond_y := euclid_distance_from_bond_y
    distance_from_bond_x_a := euclid_distance_from_bond_x_a
    distance_from_bond_x_b := euclid_distance_from_bond_x_b
    angle := euclid_angle
    separation := euclid_separation
    D_T_TOLERANCE := 95 / 100
    MAX_ATOMS := 10000 }

/-- The squared cosine of the angle between the vectors `(ux, uy)` and `(wx, wy)`. -/
def cos_sq (ux uy wx wy : ℚ) : ℚ :=
  (ux * wx + uy * wy) * (ux * wx + uy * wy) / ((ux * ux + uy * uy) * (wx * wx + wy * wy))

/-- Modelled from the spec: `angle_between_bonds` in squared form, the squared cosine of
the angle between the two bond vectors, which needs no square root and is exact on
rationals. -/
def square_angle (xa ya xb yb xc yc xd yd : ℚ) : ℚ :=
  cos_sq (xb - xa) (yb - ya) (xd - xc) (yd - yc)

/-- The plane geometry `euclid` with the near-parallel test in squared form:
`|cos| > 0.95` is `cos² > 0.9025`. -/
def euclid_sq : Geometry :=
  { distance := euclid_distance
    distance_from_bond_y := euclid_distance_from_bond_y
    distance_from_bond_x_a := euclid_distance_from_bond_x_a
    distance_from_bond_x_b := euclid_distance_from_bond_x_b
    angle := square_angle
    separation := euclid_separation
    D_T_TOLERANCE := 9025 / 10000
    MAX_ATOMS := 10000 }

/-- A blank existing atom at `(x, y)`. -/
def atom_at (x y : ℚ) : atom_t := { atom0 with x := x, y := y, exists_ := true }

/-- An existing single bond from atom `a` to atom `b`. -/
def single (a b : Nat) : bond_t := { bond0 with a := a, b := b, exists_ := true }

/-! ### The crossing example

Two copies of one drawing, 100 apart.  In a copy, atom 0 is an unlabelled vertex where the
horizontal stroke 1 - 0 - 2 crosses the vertical stroke 3 - 0 - 4; atoms 1, 7, 6, 5, 3 and 0
form a six-membered ring, atoms 2, 0, 4 a three-membered one. -/

/-- The atoms of the crossing example: the first copy at indices 0-7, the second at 8-15. -/
def cross_atoms : Atoms :=
  arena atom0
    [atom_at 10 10, atom_at 0 10, atom_at 20 10, atom_at 10 0, atom_at 10 20,
     atom_at 4 (-6), atom_at (-4) (-6), atom_at (-6) 4,
     atom_at 110 10, atom_at 100 10, atom_at 120 10, atom_at 110 0, atom_at 110 20,
     atom_at 104 (-6), atom_at 96 (-6), atom_at 94 4]

/-- The bonds of the crossing example: the first copy at indices 0-8, the second at 9-17. -/
def cross_bonds : Bonds :=
  arena bond0
    [single 0 1, single 0 2, single 0 3, single 0 4,
     single 1 7, single 7 6, single 6 5, single 5 3, single 2 4,
     single 8 9, single 8 10, single 8 11, single 8 12,
     single 9 15, single 15 14, single 14 13, single 13 11, single 10 12]

/-- The number of existing bonds below `n_bond`. -/
def count_bonds (bond : Bonds) (n_bond : Nat) : Nat :=
  forLoop (fun j c => if (bond j).exists_ then c + 1 else c) n_bond 0

/-- The statistics the chemistry toolkit reports on the three graphs of the crossing example
(18 bonds: both crossings present; 16 bonds: one resolved; 14 bonds: both resolved): two
fragments and no rotor throughout, and one ring of size 5 or 6 for every copy whose crossing
is still present (a resolved copy is a single seven-membered ring).  The atoms are handed
back untouched. -/
def cross_stats : StatisticsFn :=
  fun atom bond n_bond =>
    ({ rotors := 0, fragments := 2,
       rings56 := if count_bonds bond n_bond = 18 then 2
                  else if count_bonds bond n_bond = 16 then 1 else 0 }, atom)

/-- The reference statistics `molecule_statistics1` of the crossing example. -/
def cross_s1 : molecule_statistics_t :=
  (cross_stats cross_atoms cross_bonds 18).1

/-- The crossing example after the atom loop of `resolve_bridge_bonds` has handled atoms
0-7, that is just before the second crossing (atom 8) is examined. -/
def cross_mid : Atoms × Bonds :=
  forLoop (bridge_junction cross_stats euclid 1 18 cross_s1) 8 (cross_atoms, cross_bonds)

/-! ## `collapse_atoms` (lines 1731-1763) and `collapse_bonds` (lines 1765-1775) -/

/-- The bond loop of `collapse_atoms`: existing bonds that point at atom `j` are pointed at
atom `i`; the `else if` leaves the `b` end alone when the `a` end has matched. -/
def repoint (n_bond i j : Nat) (bond : Bonds) : Bonds :=
  forLoop (fun k bond =>
    if (bond k).exists_ then
      if (bond k).a == j then upd bond k { bond k with a := i }
      else if (bond k).b == j then upd bond k { bond k with b := i }
      else bond
    else bond) n_bond bond

/-- The merge of atom `j` into atom `i` (the body of the innermost `if`), on the atoms. -/
def merge_atoms (i j : Nat) (atom : Atoms) : Atoms :=
  let atom := upd atom j { atom j with exists_ := false }
  let atom := upd atom i { atom i with x := ((atom i).x + (atom j).x) / 2 }
  let atom := upd atom i { atom i with y := ((atom i).y + (atom j).y) / 2 }
  if (atom j).label ≠ " " ∧ (atom i).label = " " then
    upd atom i { atom i with label := (atom j).label }
  else atom

/-- The test `atom[j].exists && j != i && distance(...) < dist`. -/
def close_atoms (G : Geometry) (dist : ℚ) (i j : Nat) (atom : Atoms) : Bool :=
  (atom j).exists_ && j != i &&
    decide (G.distance (atom i).x (atom i).y (atom j).x (atom j).y < dist)

/-- One round of the `j` loop of `collapse_atoms`; the state is the pair of arenas together
with the flag `found`. -/
def collapse_atoms_step (G : Geometry) (n_bond : Nat) (dist : ℚ) (i j : Nat)
    (s : (Atoms × Bonds) × Bool) : (Atoms × Bonds) × Bool :=
  if close_atoms G dist i j s.1.1 then
    ((merge_atoms i j s.1.1, repoint n_bond i j s.1.2), true)
  else s

/-- One round of the `i` loop of `collapse_atoms`. -/
def collapse_atoms_row (G : Geometry) (n_atom n_bond : Nat) (dist : ℚ) (i : Nat)
    (s : (Atoms × Bonds) × Bool) : (Atoms × Bonds) × Bool :=
  if (s.1.1 i).exists_ then forLoop (collapse_atoms_step G n_bond dist i) n_atom s else s

/-- One pass of the `while (found)` loop: `found = false` followed by the two nested
loops. -/
def collapse_atoms_pass (G : Geometry) (n_atom n_bond : Nat) (dist : ℚ) (s : Atoms × Bonds) :
    (Atoms × Bonds) × Bool :=
  forLoop (collapse_atoms_row G n_atom n_bond dist) n_atom (s, false)

/-- The loop `while (found)` with a bound on the number of passes. -/
def collapse_atoms_loop (G : Geometry) (n_atom n_bond : Nat) (dist : ℚ) :
    Nat → Atoms × Bonds → Atoms × Bonds
  | 0, s => s
  | fuel + 1, s =>
    if (collapse_atoms_pass G n_atom n_bond dist s).2
    then collapse_atoms_loop G n_atom n_bond dist fuel (collapse_atoms_pass G n_atom n_bond dist s).1
    else (collapse_atoms_pass G n_atom n_bond dist s).1

/-- The function `collapse_atoms(atom, bond, n_atom, n_bond, dist)`.  Every pass that sets
`found` switches an atom off, so `n_atom + 1` passes always reach the pass that finds
nothing (`collapse_atoms_loop_stable`). -/
def collapse_atoms (G : Geometry) (atom : Atoms) (bond : Bonds) (n_atom n_bond : Nat)
    (dist : ℚ) : Atoms × Bonds :=
  collapse_atoms_loop G n_atom n_bond dist (n_atom + 1) (atom, bond)

/-- The function `collapse_bonds(atom, bond, n_bond, dist)`; the bonds are `const`.  The
four assignments are made in the order of the source, so the last two read the `a` end
already moved. -/
def collapse_bonds (G : Geometry) (atom : Atoms) (bond : Bonds) (n_bond : Nat) (dist : ℚ) :
    Atoms :=
  forLoop (fun i atom =>
    if (bond i).exists_ && decide (bond_length G bond i atom < dist) then
      let atom := upd atom (bond i).a
        { atom (bond i).a with x := ((atom (bond i).a).x + (atom (bond i).b).x) / 2 }
      let atom := upd atom (bond i).a
        { atom (bond i).a with y := ((atom (bond i).a).y + (atom (bond i).b).y) / 2 }
      let atom := upd atom (bond i).b
        { atom (bond i).b with x := ((atom (bond i).a).x + (atom (bond i).b).x) / 2 }
      let atom := upd atom (bond i).b
        { atom (bond i).b with y := ((atom (bond i).a).y + (atom (bond i).b).y) / 2 }
      atom
    else atom) n_bond atom

/-- The number of existing atoms among the first `n`. -/
def count_atoms (atom : Atoms) : Nat → Nat
  | 0 => 0
  | n + 1 => count_atoms atom n + (if (atom n).exists_ then 1 else 0)

/-- Three atoms on a line at x = 0, 6 and 4. -/
def line_atoms : Atoms :=
  arena atom0 [atom_at 0 0, atom_at 6 0, atom_at 4 0]

/-- One bond joining atom 0 and atom 2 of `line_atoms`. -/
def line_bonds : Bonds :=
  arena bond0 [single 0 2]

/-- Two atoms at x = 0 and x = 4. -/
def short_atoms : Atoms :=
  arena atom0 [atom_at 0 0, atom_at 4 0]

/-- One bond joining the two atoms of `short_atoms`. -/
def short_bonds : Bonds :=
  arena bond0 [single 0 1]

/-! ## `bonds_within_each_other` (lines 91-119) and `double_triple_bonds` (lines 392-589) -/

/-- Modelled from the spec: `angle_between_bonds(bond, i, j, atom)` of `osra_common.cpp`
(absent), a function of the positions of the four endpoint atoms. -/
def angle_between_bonds (G : Geometry) (bond : Bonds) (i j : Nat) (atom : Atoms) : ℚ :=
  G.angle (atom (bond i).a).x (atom (bond i).a).y (atom (bond i).b).x (atom (bond i).b).y
    (atom (bond j).a).x (atom (bond j).a).y (atom (bond j).b).x (atom (bond j).b).y

/-- Modelled from the spec: `distance_between_bonds(bond, i, j, atom)` of `osra_common.cpp`
(absent), a function of the positions of the four endpoint atoms. -/
def distance_between_bonds (G : Geometry) (bond : Bonds) (i j : Nat) (atom : Atoms) : ℚ :=
  G.separation (atom (bond i).a).x (atom (bond i).a).y (atom (bond i).b).x (atom (bond i).b).y
    (atom (bond j).a).x (atom (bond j).a).y (atom (bond j).b).x (atom (bond j).b).y

/-- The test `fabs(angle_between_bonds(bond, i, j, atom)) > D_T_TOLERANCE`. -/
def near_parallel (G : Geometry) (bond : Bonds) (i j : Nat) (atom : Atoms) : Bool :=
  decide (|angle_between_bonds G bond i j atom| > G.D_T_TOLERANCE)

/-- The body of `bonds_within_each_other` once the longer bond `i` and the other bond `j`
are chosen. -/
def within_ordered (G : Geometry) (bond : Bonds) (i j : Nat) (atom : Atoms) : Bool :=
  (fun (x3 x4 d1 : ℚ) => decide ((x3 + x4) / 2 > 0) && decide ((x3 + x4) / 2 < d1))
    (G.distance_from_bond_x_a (atom (bond i).a).x (atom (bond i).a).y (atom (bond i).b).x
      (atom (bond i).b).y (atom (bond j).a).x (atom (bond j).a).y)
    (G.distance_from_bond_x_a (atom (bond i).a).x (atom (bond i).a).y (atom (bond i).b).x
      (atom (bond i).b).y (atom (bond j).b).x (atom (bond j).b).y)
    (bond_length G bond i atom)

/-- The function `bonds_within_each_other(bond, ii, jj, atom)`. -/
def bonds_within_each_other (G : Geometry) (bond : Bonds) (ii jj : Nat) (atom : Atoms) : Bool :=
  if bond_length G bond ii atom > bond_length G bond jj atom
  then within_ordered G bond ii jj atom else within_ordered G bond jj ii atom

/-- The merge pattern that occurs five times in `double_triple_bonds`:
`bond[lose].exists = false; if (test) { bond[keep].type += bond[lose].type;
if (bond[lose].curve == bond[keep].curve) bond[keep].conjoined = true; }
if (bond[lose].arom) bond[keep].arom = true;`. -/
def absorb (bond : Bonds) (keep lose : Nat) (test : Bool) : Bonds :=
  let bond := kill bond lose
  let bond :=
    if test then
      let bond := upd bond keep { bond keep with type := (bond keep).type + (bond lose).type }
      if (bond lose).curve = (bond keep).curve
      then upd bond keep { bond keep with conjoined := true } else bond
    else bond
  if (bond lose).arom then upd bond keep { bond keep with arom := true } else bond

/-- The test `(l > m / 2) || (m > avg && m > 1.5 * l && l > 0.5 * avg)` on the length `l`
of the absorbed bond and the length `m` of the surviving one. -/
def adds_order (avg l m : ℚ) : Bool :=
  decide (l > m / 2) || (decide (m > avg) && decide (m > 3 / 2 * l) && decide (l > 1 / 2 * avg))

/-- One round of the triple-bond search (the `k` loop, lines 407-441) for the pair `i`, `j`;
the flag records `break`. -/
def triple_step (G : Geometry) (avg max_dist_double_bond : ℚ) (atom : Atoms) (i j : Nat)
    (l2 dij : ℚ) (k : Nat) (s : Bonds × Bool) : Bonds × Bool :=
  if s.2 then s
  else if (s.1 k).exists_ && near_parallel G s.1 k j atom then
    if decide (distance_between_bonds G s.1 k j atom ≤ max_dist_double_bond) &&
        bonds_within_each_other G s.1 k j atom then
      if distance_between_bonds G s.1 k i atom > dij then
        (absorb s.1 j k (adds_order avg (bond_length G s.1 k atom) l2), false)
      else
        (absorb s.1 k j (adds_order avg l2 (bond_length G s.1 k atom)), true)
    else s
  else s

/-- The triple-bond search `for (int k = j + 1; k < n_bond; k++)`. -/
def triple_search (G : Geometry) (avg max_dist_double_bond : ℚ) (atom : Atoms) (n_bond i j : Nat)
    (l2 dij : ℚ) (bond : Bonds) : Bonds :=
  (forLoop (fun t s => triple_step G avg max_dist_double_bond atom i j l2 dij (j + 1 + t) s)
    (n_bond - (j + 1)) (bond, false)).1

/-- The arenas with their counts, the state of `double_triple_bonds`. -/
structure graph_t where
  atom : Atoms
  bond : Bonds
  n_atom : Nat
  n_bond : Nat

/-- The statements `n++; if (n >= MAX_ATOMS) n--;`. -/
def bump (G : Geometry) (n : Nat) : Nat :=
  if n + 1 ≥ G.MAX_ATOMS then n else n + 1

/-- The first insertion of the extended case (lines 477-509): a new atom at distance `da`
from the `a` end of bond `ii` becomes the `a` end of `ii`, and a new single bond joins the old
`a` end to the new atom. -/
def insert_at_a (G : Geometry) (ii : Nat) (da l11 : ℚ) (g : graph_t) : graph_t :=
  let x := (g.atom (g.bond ii).a).x
    + ((g.atom (g.bond ii).b).x - (g.atom (g.bond ii).a).x) * da / l11
  let y := (g.atom (g.bond ii).a).y
    + ((g.atom (g.bond ii).b).y - (g.atom (g.bond ii).a).y) * da / l11
  let bond := upd g.bond g.n_bond
    { a := (g.bond ii).a, b := (g.bond g.n_bond).b, type := 1, curve := (g.bond ii).curve,
      exists_ := true, hash := false, wedge := false, up := false, down := false,
      Small := false, arom := false, conjoined := false }
  let atom := upd g.atom g.n_atom
    { x := x, y := y, label := " ", n := 0, anum := 0, curve := (bond ii).curve,
      exists_ := true, corner := false, terminal := false, charge := 0 }
  let bond := upd bond ii { bond ii with a := g.n_atom }
  let bond := upd bond g.n_bond { bond g.n_bond with b := (bond ii).a }
  { atom := atom, bond := bond, n_atom := bump G g.n_atom, n_bond := bump G g.n_bond }

/-- The second insertion of the extended case (lines 510-547), at the `b` end of bond
`ii`. -/
def insert_at_b (G : Geometry) (ii : Nat) (db l11 : ℚ) (g : graph_t) : graph_t :=
  let x := (g.atom (g.bond ii).b).x
    + ((g.atom (g.bond ii).a).x - (g.atom (g.bond ii).b).x) * db / l11
  let y := (g.atom (g.bond ii).b).y
    + ((g.atom (g.bond ii).a).y - (g.atom (g.bond ii).b).y) * db / l11
  let bond := upd g.bond g.n_bond
    { a := (g.bond ii).b, b := (g.bond g.n_bond).b, type := 1, curve := (g.bond ii).curve,
      exists_ := true, hash := false, wedge := false, up := false, down := false,
      Small := false, arom := false, conjoined := false }
  let atom := upd g.atom g.n_atom
    { x := x, y := y, label := " ", n := 0, anum := 0, curve := (bond ii).curve,
      exists_ := true, corner := false, terminal := false, charge := 0 }
  let bond := upd bond ii { bond ii with b := g.n_atom }
  let bond := upd bond g.n_bond { bond g.n_bond with b := (bond ii).b }
  { atom := atom, bond := bond, n_atom := bump G g.n_atom, n_bond := bump G g.n_bond }

/-- The two guarded insertions and the final merge of the extended case (lines 475-555),
for the distances `da`, `db` computed on entry. -/
def extended_merge_with (G : Geometry) (ii jj : Nat) (l11 l22 da db : ℚ) (g : graph_t) :
    graph_t :=
  let g := if da > 1 / 2 * l22 then insert_at_a G ii da l11 g else g
  let g := if db > 1 / 2 * l22 then insert_at_b G ii db l11 g else g
  { g with bond := absorb g.bond ii jj true }

/-- The extended case (lines 462-555) for the long bond `ii` (length `l11`) and the short
bond `jj` (length `l22`). -/
def extended_merge (G : Geometry) (ii jj : Nat) (l11 l22 : ℚ) (g : graph_t) : graph_t :=
  let aa := |G.distance_from_bond_x_a (g.atom (g.bond ii).a).x (g.atom (g.bond ii).a).y
    (g.atom (g.bond ii).b).x (g.atom (g.bond ii).b).y
    (g.atom (g.bond jj).a).x (g.atom (g.bond jj).a).y|
  let ab := |G.distance_from_bond_x_a (g.atom (g.bond ii).a).x (g.atom (g.bond ii).a).y
    (g.atom (g.bond ii).b).x (g.atom (g.bond ii).b).y
    (g.atom (g.bond jj).b).x (g.atom (g.bond jj).b).y|
  let ba := |G.distance_from_bond_x_b (g.atom (g.bond ii).a).x (g.atom (g.bond ii).a).y
    (g.atom (g.bond ii).b).x (g.atom (g.bond ii).b).y
    (g.atom (g.bond jj).a).x (g.atom (g.bond jj).a).y|
  let bb := |G.distance_from_bond_x_b (g.atom (g.bond ii).a).x (g.atom (g.bond ii).a).y
    (g.atom (g.bond ii).b).x (g.atom (g.bond ii).b).y
    (g.atom (g.bond jj).b).x (g.atom (g.bond jj).b).y|
  extended_merge_with G ii jj l11 l22 (min aa ab) (min ba bb) g

/-- The state of the `j` loop of `double_triple_bonds`: the graph, the counter `j` and the
flag that records `break`. -/
structure pair_state where
  g : graph_t
  j : Nat
  brk : Bool

/-- The body of the `j` loop (lines 400-585) for the bond `i` of length `l1`, without the
increment of `j`. -/
def pair_body (G : Geometry) (avg max_dist_double_bond : ℚ) (i : Nat) (l1 : ℚ) (j : Nat)
    (g : graph_t) : graph_t × Bool :=
  if (g.bond j).exists_ && near_parallel G g.bond i j g.atom then
    let l2 := bond_length G g.bond j g.atom
    let dij := distance_between_bonds G g.bond i j g.atom
    if decide (dij ≤ max_dist_double_bond) && bonds_within_each_other G g.bond i j g.atom then
      let found := triple_search G avg max_dist_double_bond g.atom g.n_bond i j l2 dij g.bond
      let g : graph_t := { g with bond := found }
      if !(g.bond j).exists_ then (g, false)
      else if decide (l1 > avg) && decide (l1 > 3 / 2 * l2) && decide (l2 > 1 / 2 * avg) then
        (extended_merge G i j l1 l2 g, false)
      else if decide (l2 > avg) && decide (l2 > 3 / 2 * l1) && decide (l1 > 1 / 2 * avg) then
        (extended_merge G j i l2 l1 g, true)
      else if l1 > l2 then
        ({ g with bond := absorb g.bond i j (decide (l2 > l1 / 2)) }, false)
      else
        ({ g with bond := absorb g.bond j i (decide (l1 > l2 / 2)) }, true)
    else (g, false)
  else (g, false)

/-- A loop `while (test) body` with a bound on the number of rounds. -/
def whileLoop {σ : Type} (test : σ → Bool) (body : σ → σ) : Nat → σ → σ
  | 0, s => s
  | fuel + 1, s => if test s then whileLoop test body fuel (body s) else s

/-- The loop `for (int j = i + 1; j < n_bond; j++)`; `n_bond` may grow inside the body, and
never beyond `MAX_ATOMS`, so `n_bond + MAX_ATOMS` rounds are enough. -/
def pair_loop_j (G : Geometry) (avg max_dist_double_bond : ℚ) (i : Nat) (g : graph_t) :
    graph_t :=
  (whileLoop (fun (s : pair_state) => !s.brk && decide (s.j < s.g.n_bond))
    (fun s =>
      { g := (pair_body G avg max_dist_double_bond i (bond_length G g.bond i g.atom) s.j s.g).1,
        j := s.j + 1,
        brk := (pair_body G avg max_dist_double_bond i (bond_length G g.bond i g.atom)
          s.j s.g).2 })
    (g.n_bond + G.MAX_ATOMS) { g := g, j := i + 1, brk := false }).g

/-- The function `double_triple_bonds(atom, bond, n_bond, avg, n_atom, max_dist_double_bond)`:
the loop `for (int i = 0; i < n_bond; i++)`; it returns `n_bond` and leaves the arenas and
`n_atom`. -/
def double_triple_bonds (G : Geometry) (atom : Atoms) (bond : Bonds) (n_bond : Nat) (avg : ℚ)
    (n_atom : Nat) (max_dist_double_bond : ℚ) : graph_t :=
  (whileLoop (fun (s : graph_t × Nat) => decide (s.2 < s.1.n_bond))
    (fun s =>
      (if (s.1.bond s.2).exists_ then pair_loop_j G avg max_dist_double_bond s.2 s.1 else s.1,
        s.2 + 1))
    (n_bond + G.MAX_ATOMS)
    ({ atom := atom, bond := bond, n_atom := n_atom, n_bond := n_bond }, 0)).1

/-- The arena `b` has the endpoints of `b0`, and exists flags have only been switched
off. -/
def SameShape (b0 b : Bonds) : Prop :=
  ∀ k, (b k).a = (b0 k).a ∧ (b k).b = (b0 k).b ∧ ((b k).exists_ = true → (b0 k).exists_ = true)

/-- No existing bond outside the set `prot` is near-parallel to a bond of `prot`, in either
argument order. -/
def Others (G : Geometry) (bond : Bonds) (atom : Atoms) (n_bond : Nat) (prot : Nat → Prop) :
    Prop :=
  ∀ z x, z < n_bond → x < n_bond → ¬ prot z → prot x → (bond z).exists_ = true →
    near_parallel G bond z x atom = false ∧ near_parallel G bond x z atom = false

/-- The graph `g` differs from `g0` at most in bond records, which keep their endpoints and
are not switched on. -/
def Quiet (g0 g : graph_t) : Prop :=
  g.atom = g0.atom ∧ g.n_atom = g0.n_atom ∧ g.n_bond = g0.n_bond ∧ SameShape g0.bond g.bond

/-- The atom capacity has been reached: `n_atom++` would be undone by
`if (n_atom >= MAX_ATOMS) n_atom--`. -/
def Capped (G : Geometry) (g : graph_t) : Prop := G.MAX_ATOMS ≤ g.n_atom + 1

/-- The near-parallel test of the geometry looks only at the lines that carry the two bonds:
a segment between two points of the line through `(x1, y1)` and `(x2, y2)` is near-parallel
to a second bond only if the bond from `(x1, y1)` to `(x2, y2)` is, in either argument
position of `angle_between_bonds`. -/
def LineInvariant (G : Geometry) : Prop :=
  ∀ (x1 y1 x2 y2 x3 y3 x4 y4 s t : ℚ),
    (|G.angle (x1 + s * (x2 - x1)) (y1 + s * (y2 - y1)) (x1 + t * (x2 - x1))
        (y1 + t * (y2 - y1)) x3 y3 x4 y4| > G.D_T_TOLERANCE →
      |G.angle x1 y1 x2 y2 x3 y3 x4 y4| > G.D_T_TOLERANCE) ∧
    (|G.angle x3 y3 x4 y4 (x1 + s * (x2 - x1)) (y1 + s * (y2 - y1)) (x1 + t * (x2 - x1))
        (y1 + t * (y2 - y1))| > G.D_T_TOLERANCE →
      |G.angle x3 y3 x4 y4 x1 y1 x2 y2| > G.D_T_TOLERANCE)

/-- The state of `double_triple_bonds` is calm with respect to a set `prot` of protected
bonds of the initial graph `g0`: the counts have not shrunk, the initial atoms are
untouched, the protected bonds keep their endpoints, which are initial atoms, and every
other existing bond ends at atoms below `n_atom` and is not near-parallel to any protected
bond, in either argument order. -/
structure Calm (G : Geometry) (prot : Nat → Prop) (g0 g : graph_t) : Prop where
  atoms_lo : g0.n_atom ≤ g.n_atom
  bonds_lo : g0.n_bond ≤ g.n_bond
  atoms_eq : ∀ k, k < g0.n_atom → g.atom k = g0.atom k
  prot_ends : ∀ x, prot x → x < g0.n_bond ∧
    (g.bond x).a = (g0.bond x).a ∧ (g.bond x).b = (g0.bond x).b ∧
    (g0.bond x).a < g0.n_atom ∧ (g0.bond x).b < g0.n_atom
  free : ∀ z, z < g.n_bond → ¬ prot z → (g.bond z).exists_ = true →
    (g.bond z).a < g.n_atom ∧ (g.bond z).b < g.n_atom ∧
    ∀ x, prot x →
      near_parallel G g.bond z x g.atom = false ∧ near_parallel G g.bond x z g.atom = false

/-- The near-parallel test on the positions of the four endpoints. -/
def near_parallel_at (G : Geometry) (x1 y1 x2 y2 x3 y3 x4 y4 : ℚ) : Bool :=
  decide (|G.angle x1 y1 x2 y2 x3 y3 x4 y4| > G.D_T_TOLERANCE)

/-- From `g` to `r` the counts have not shrunk, and `n_bond` has grown only below
`MAX_ATOMS`. -/
def Grows (G : Geometry) (g r : graph_t) : Prop :=
  g.n_atom ≤ r.n_atom ∧ g.n_bond ≤ r.n_bond ∧ (r.n_bond ≤ g.n_bond ∨ r.n_bond < G.MAX_ATOMS)

/-- The outcome of a triple-bond merge of the bonds `P`, `Q`, `R`: `P` is switched off and
exactly one of `Q`, `R` exists, with order 3. -/
def triple_done (b : Bonds) (P Q R : Nat) : Prop :=
  (b P).exists_ = false ∧
    (((b Q).exists_ = true ∧ (b Q).type = 3 ∧ (b R).exists_ = false) ∨
     ((b Q).exists_ = false ∧ (b R).exists_ = true ∧ (b R).type = 3))

/-- Two horizontal bonds of length 10, 3 apart, and a vertical bond of length 30 with a
vertical bond of length 5 beside it. -/
def double_atoms : Atoms :=
  arena atom0 [atom_at 0 0, atom_at 10 0, atom_at 0 3, atom_at 10 3, atom_at 20 0,
    atom_at 20 30, atom_at 22 15, atom_at 22 20]

/-- The bonds of `double_atoms`: bonds 0 and 1 are the parallel pair, bonds 2 and 3 the long
and the short vertical bond. -/
def double_bonds : Bonds :=
  arena bond0 [single 0 1, single 2 3, single 4 5, single 6 7]

/-- Three horizontal bonds of length 10 at heights 0, 2 and 4, and a vertical bond of
length 30 with a vertical bond of length 5 beside it. -/
def triple_atoms : Atoms :=
  arena atom0 [atom_at 0 0, atom_at 10 0, atom_at 0 2, atom_at 10 2, atom_at 0 4, atom_at 10 4,
    atom_at 20 0, atom_at 20 30, atom_at 22 15, atom_at 22 20]

/-- The bonds of `triple_atoms`, the middle line first; bonds 3 and 4 are the long and the
short vertical bond. -/
def triple_bonds : Bonds :=
  arena bond0 [single 2 3, single 0 1, single 4 5, single 6 7, single 8 9]

/-! ## `collapse_doubleup_bonds` (lines 71-82) -/

/-- The inner `j` loop of `collapse_doubleup_bonds` for a fixed `i`. -/
def collapse_doubleup_bonds_inner (n_bond i : Nat) (bond : Bonds) : Bonds :=
  forLoop (fun j bond =>
    if (bond j).exists_ && j != i && same_pair (bond i) (bond j) then
      let bond := kill bond j
      upd bond i { bond i with type := (bond i).type + 1 }
    else bond) n_bond bond

/-- The function `collapse_doubleup_bonds(bond, n_bond)`. -/
def collapse_doubleup_bonds (bond : Bonds) (n_bond : Nat) : Bonds :=
  forLoop (fun i bond =>
    if (bond i).exists_ then collapse_doubleup_bonds_inner n_bond i bond else bond) n_bond bond

/-- The size of the group of bond `i`: the number of existing bonds below `n` that join the
same unordered atom pair as bond `i` (bond `i` itself included). -/
def group_size (bond : Bonds) (n i : Nat) : Nat :=
  ((List.range n).filter (fun l => (bond l).exists_ && same_pair (bond i) (bond l))).length

/-- The number of existing bonds below `m`, other than bond `i`, that join the same unordered
atom pair as bond `i`. -/
def others_in_group (bond : Bonds) (i m : Nat) : Nat :=
  ((List.range m).filter
    (fun l => (bond l).exists_ && l != i && same_pair (bond i) (bond l))).length

/-- Some existing bond below `m` joins the same unordered atom pair as bond `t`. -/
def seen_below (bond : Bonds) (m t : Nat) : Prop :=
  ∃ l, l < m ∧ (bond l).exists_ = true ∧ same_pair (bond l) (bond t) = true

/-- Four bonds on three atoms: bonds 0, 2 and 3 join atoms 0 and 1 (bond 2 the other way
round), bond 1 joins atoms 1 and 2. -/
def doubleup_bonds : Bonds :=
  arena bond0 [single 0 1, single 1 2, single 1 0, { single 0 1 with type := 2 }]

/-- The state of the outer loop of `collapse_doubleup_bonds` after the rows below `m`, in
terms of the bonds on entry: bonds outside the range or not existing are untouched; a bond
that has an existing partner below it is switched off once a partner below `m` has been
seen; a bond without a partner below it has gained the orders of its group once its own row
is done. -/
structure Consolidated (bond : Bonds) (n m : Nat) (cur : Bonds) : Prop where
  out : ∀ t, n ≤ t ∨ (bond t).exists_ = false → cur t = bond t
  later : ∀ t, t < n → (bond t).exists_ = true → seen_below bond t t →
    (seen_below bond m t → cur t = { bond t with exists_ := false }) ∧
    (¬ seen_below bond m t → cur t = bond t)
  first : ∀ t, t < n → (bond t).exists_ = true → ¬ seen_below bond t t →
    (t < m → cur t = { bond t with type := (bond t).type + (others_in_group bond t n : Int) }) ∧
    (m ≤ t → cur t = bond t)

/-! ## `find_bonds` (lines 909-1004) and `find_atoms` (lines 1006-1133)

The vectorizer `potrace` is a library; its path records are modelled by the fields the code
reads.  The address of a path record, which the code stores in the `curve` fields, is the
field `id`.  A NULL-terminated chain `p, p->next, ...` is the list of its records. -/

/-- The record `potrace_dpoint_t`. -/
structure potrace_dpoint_t where
  x : ℚ
  y : ℚ
deriving DecidableEq

/-- One segment of a `potrace_curve_t`: `tag[i]` and the three control points `c[i][0]`,
`c[i][1]`, `c[i][2]`. -/
structure segment_t where
  tag : Int
  c0 : potrace_dpoint_t
  c1 : potrace_dpoint_t
  c2 : potrace_dpoint_t
deriving DecidableEq

/-- The constant `POTRACE_CURVETO` of `potracelib.h`. -/
def POTRACE_CURVETO : Int := 1

/-- The constant `POTRACE_CORNER` of `potracelib.h`. -/
def POTRACE_CORNER : Int := 2

/-- The record `potrace_path_t`: `id` is its address, `curve` the list of the `curve.n`
segments, `childlist` the first child in the path tree. -/
inductive potrace_path_t where
  | mk (id : Nat) (sign : Int) (area : Int) (curve : List segment_t)
      (childlist : Option potrace_path_t) : potrace_path_t

/-- The address of a path record. -/
def potrace_path_t.id : potrace_path_t → Nat
  | .mk id _ _ _ _ => id

/-- The field `sign`, `'+'` or `'-'` as an `int`. -/
def potrace_path_t.sign : potrace_path_t → Int
  | .mk _ sign _ _ _ => sign

/-- The field `area`. -/
def potrace_path_t.area : potrace_path_t → Int
  | .mk _ _ area _ _ => area

/-- The field `curve`. -/
def potrace_path_t.curve : potrace_path_t → List segment_t
  | .mk _ _ _ curve _ => curve

/-- The field `childlist`, `none` for NULL. -/
def potrace_path_t.childlist : potrace_path_t → Option potrace_path_t
  | .mk _ _ _ _ childlist => childlist

/-- The function `next_atom(cur, begin, total)`. -/
def next_atom (cur begin total : Nat) : Nat :=
  if cur + 1 > total - 1 then begin else cur + 1

/-- The function `dir_change(n, last, begin, total, atom)`.  Its loop steps `m` cyclically
through `[begin, total)` until it meets `n`, so `total - begin` rounds are enough. -/
def dir_change (G : Geometry) (V_DISPLACEMENT DIR_CHANGE : ℚ) (n last begin total : Nat)
    (atom : Atoms) : Bool :=
  let m := whileLoop
    (fun m => decide (G.distance (atom m).x (atom m).y (atom n).x (atom n).y < V_DISPLACEMENT)
      && m != n)
    (fun m => next_atom m begin total) (total - begin) (next_atom n begin total)
  if m == n then false
  else decide (|G.distance_from_bond_y (atom n).x (atom n).y (atom last).x (atom last).y
    (atom m).x (atom m).y| > DIR_CHANGE)

/-- The function `smaller_distance(n, last, begin, total, atom)`. -/
def smaller_distance (G : Geometry) (n last begin total : Nat) (atom : Atoms) : Bool :=
  decide (G.distance (atom n).x (atom n).y (atom last).x (atom last).y
    > G.distance (atom (next_atom n begin total)).x (atom (next_atom n begin total)).y
        (atom last).x (atom last).y)

/-- One round of the first loop of `find_bonds` on the pair (atoms, `last`), for the
counter `i`. -/
def find_bonds_mark_step (G : Geometry) (V_DISPLACEMENT DIR_CHANGE : ℚ) (b_atom n_atom : Nat)
    (i : Nat) (s : Atoms × Nat) : Atoms × Nat :=
  if (s.1 i).corner then (upd s.1 i { s.1 i with exists_ := true }, i)
  else if dir_change G V_DISPLACEMENT DIR_CHANGE i s.2 b_atom n_atom s.1 then
    (upd s.1 i { s.1 i with exists_ := true }, i)
  else if smaller_distance G i s.2 b_atom n_atom s.1 then
    (upd s.1 i { s.1 i with exists_ := true }, i)
  else s

/-- The first loop of `find_bonds`, `while (i < n_atom)` from `i = b_atom + 1`; every branch
ends with `i++`. -/
def find_bonds_mark (G : Geometry) (V_DISPLACEMENT DIR_CHANGE : ℚ) (atom : Atoms)
    (b_atom n_atom : Nat) : Atoms :=
  (forLoop (fun t s =>
      find_bonds_mark_step G V_DISPLACEMENT DIR_CHANGE b_atom n_atom (b_atom + 1 + t) s)
    (n_atom - (b_atom + 1)) (atom, b_atom)).1

/-- The search `j = next_atom(i, ...); while (!atom[j].exists) j = next_atom(j, ...)` for
the next existing atom of the curve.  It steps cyclically through `[b_atom, n_atom)`, so
`n_atom - b_atom` rounds are enough when some atom of the range exists. -/
def next_existing (atom : Atoms) (b_atom n_atom i : Nat) : Nat :=
  whileLoop (fun j => !(atom j).exists_) (fun j => next_atom j b_atom n_atom)
    (n_atom - b_atom) (next_atom i b_atom n_atom)

/-- One round of the second loop of `find_bonds` on the pair (bonds, `n_bond`): an existing
atom `i` gets a bond to the next existing atom of the curve. -/
def find_bonds_join_step (G : Geometry) (atom : Atoms) (b_atom n_atom p : Nat) (i : Nat)
    (s : Bonds × Nat) : Bonds × Nat :=
  if (atom i).exists_ then
    (upd s.1 s.2
      { a := i, b := next_existing atom b_atom n_atom i, type := 1, curve := p,
        exists_ := true, hash := false, wedge := false, up := false, down := false,
        Small := false, arom := false, conjoined := false },
      bump G s.2)
  else s

/-- The second loop of `find_bonds`, `for (i = b_atom; i < n_atom; i++)`. -/
def find_bonds_join (G : Geometry) (atom : Atoms) (bond : Bonds) (b_atom n_atom n_bond p : Nat) :
    Bonds × Nat :=
  forLoop (fun t s => find_bonds_join_step G atom b_atom n_atom p (b_atom + t) s)
    (n_atom - b_atom) (bond, n_bond)

/-- The function `find_bonds(atom, bond, b_atom, n_atom, n_bond, p)`: the arenas it leaves
and the bond count it returns. -/
def find_bonds (G : Geometry) (V_DISPLACEMENT DIR_CHANGE : ℚ) (atom : Atoms) (bond : Bonds)
    (b_atom n_atom n_bond p : Nat) : Atoms × Bonds × Nat :=
  let atom := find_bonds_mark G V_DISPLACEMENT DIR_CHANGE atom b_atom n_atom
  let r := find_bonds_join G atom bond b_atom n_atom n_bond p
  (atom, r.1, r.2)

/-- The statements `if (v < 0) v = 0; if (v > hi) v = hi;` on a coordinate. -/
def clamp (v : ℚ) (hi : Int) : ℚ :=
  let v := if v < 0 then 0 else v
  if v > hi then hi else v

/-- The atom that `find_atoms` writes at `atom[n_atom]` for the control point `c`. -/
def path_atom (c : potrace_dpoint_t) (width height : Int) (p : Nat) (corner : Bool) : atom_t :=
  { x := clamp c.x width, y := clamp c.y height, label := " ", n := 0, anum := 0, curve := p,
    exists_ := false, corner := corner, terminal := false, charge := 0 }

/-- The statements `atom[n_atom] = a; n_atom++; if (n_atom >= MAX_ATOMS) n_atom--;` on the
pair (atoms, `n_atom`). -/
def push_atom (G : Geometry) (a : atom_t) (s : Atoms × Nat) : Atoms × Nat :=
  (upd s.1 s.2 a, bump G s.2)

/-- The body of the loop `for (long i = 0; i < n; i++)` of `find_atoms` for segment `i` of
`n`. -/
def find_atoms_segment (G : Geometry) (width height : Int) (p n : Nat) (i : Nat)
    (sg : segment_t) (s : Atoms × Nat) : Atoms × Nat :=
  let s :=
    if sg.tag = POTRACE_CORNER then push_atom G (path_atom sg.c1 width height p true) s
    else if sg.tag = POTRACE_CURVETO then
      push_atom G (path_atom sg.c1 width height p false)
        (push_atom G (path_atom sg.c0 width height p false) s)
    else s
  if i != n - 1 then push_atom G (path_atom sg.c2 width height p false) s else s

/-- A segment for reads outside the curve. -/
def segment0 : segment_t := { tag := 0, c0 := ⟨0, 0⟩, c1 := ⟨0, 0⟩, c2 := ⟨0, 0⟩ }

/-- The body of the loop `while (p != NULL)` of `find_atoms` on the state (atoms, bonds,
`n_atom`, `n_bond`) for one path. -/
def find_atoms_path (G : Geometry) (V_DISPLACEMENT DIR_CHANGE : ℚ) (width height : Int)
    (g : graph_t) (p : potrace_path_t) : graph_t :=
  let n := p.curve.length
  let s := push_atom G (path_atom (p.curve.getD (n - 1) segment0).c2 width height p.id false)
    (g.atom, g.n_atom)
  let s := forLoop (fun i s =>
    find_atoms_segment G width height p.id n i (p.curve.getD i segment0) s) n s
  let r := find_bonds G V_DISPLACEMENT DIR_CHANGE s.1 g.bond g.n_atom s.2 g.n_bond p.id
  { atom := r.1, bond := r.2.1, n_atom := s.2, n_bond := r.2.2 }

/-- The function `find_atoms(p, atom, bond, n_bond, width, height)` on the chain of paths
`ps`: the arenas it leaves, the atom count it returns and the bond count it stores in
`*n_bond`. -/
def find_atoms (G : Geometry) (V_DISPLACEMENT DIR_CHANGE : ℚ) (ps : List potrace_path_t)
    (atom : Atoms) (bond : Bonds) (n_bond : Nat) (width height : Int) : graph_t :=
  ps.foldl (find_atoms_path G V_DISPLACEMENT DIR_CHANGE width height)
    { atom := atom, bond := bond, n_atom := 0, n_bond := n_bond }

/-- The atoms of `[b_atom, n_atom)` that exist, in ascending order. -/
def existing_atoms (atom : Atoms) (b_atom n_atom : Nat) : List Nat :=
  (List.range' b_atom (n_atom - b_atom)).filter (fun i => (atom i).exists_)

/-- The atom lies within the image: `0 <= x <= width` and `0 <= y <= height`. -/
def InImage (width height : Int) (a : atom_t) : Prop :=
  0 ≤ a.x ∧ a.x ≤ width ∧ 0 ≤ a.y ∧ a.y ≤ height

/-- A path with control points outside a 20 x 10 image: a corner segment followed by a
curve segment. -/
def stray_path : potrace_path_t :=
  .mk 7 43 10
    [{ tag := POTRACE_CORNER, c0 := ⟨0, 0⟩, c1 := ⟨-5, 14⟩, c2 := ⟨6, 4⟩ },
     { tag := POTRACE_CURVETO, c0 := ⟨24, 2⟩, c1 := ⟨10, -3⟩, c2 := ⟨2, 2⟩ }]
    none

/-- The five atoms of a curve, with corners at the indices 1 and 3. -/
def closing_atoms : Atoms :=
  arena atom0 [{ atom0 with x := 2, y := 2 }, { atom0 with x := 0, y := 10, corner := true },
    { atom0 with x := 3, y := 8 }, { atom0 with x := 20, y := 2, corner := true },
    { atom0 with x := 10, y := 0 }]

/-- The label without its `+` and `-` characters. -/
def strip_signs (label : String) : String :=
  ⟨label.data.filter (fun c => c != '-' && c != '+')⟩

/-- The number of `+` characters of the label minus the number of its `-` characters. -/
def sign_charge (label : String) : Int :=
  (label.data.count '+' : Int) - (label.data.count '-' : Int)

/-- Two atoms, `"N+-+"` at index 0 and `"C"` at index 1. -/
def signs_atoms : Atoms :=
  arena atom0 [{ atom0 with label := "N+-+", exists_ := true },
    { atom0 with label := "C", exists_ := true, x := 10 }]

/-! ## `dist_double_bonds` (lines 350-390) -/

/-- The call `std::sort(a.begin(), a.end())`. -/
def sort (a : List ℚ) : List ℚ := a.insertionSort (fun x y => x ≤ y)

/-- The function `bond_end_swap(bond, i)` (lines 84-89). -/
def bond_end_swap (bond : Bonds) (i : Nat) : Bonds :=
  upd bond i { bond i with a := (bond i).b, b := (bond i).a }

/-- The statements `if (h > thickness) bond[j].down = true; else if (h < -thickness)
bond[j].up = true;`. -/
def mark_down_up (bond : Bonds) (j : Nat) (h thickness : ℚ) : Bonds :=
  if h > thickness then upd bond j { bond j with down := true }
  else if h < -thickness then upd bond j { bond j with up := true }
  else bond

/-- The statements `if (h > thickness) bond[j].up = true; else if (h < -thickness)
bond[j].down = true;`. -/
def mark_up_down (bond : Bonds) (j : Nat) (h thickness : ℚ) : Bonds :=
  if h > thickness then upd bond j { bond j with up := true }
  else if h < -thickness then upd bond j { bond j with down := true }
  else bond

/-- The signed distance `distance_from_bond_y` of atom `k` from the line of bond `i`. -/
def height_over (G : Geometry) (atom : Atoms) (bond : Bonds) (i k : Nat) : ℚ :=
  G.distance_from_bond_y (atom (bond i).a).x (atom (bond i).a).y (atom (bond i).b).x
    (atom (bond i).b).y (atom k).x (atom k).y

/-- The body of the inner `j` loop of `find_up_down_bonds` for the double bond `i`. -/
def find_up_down_bonds_step (G : Geometry) (atom : Atoms) (thickness : ℚ) (i j : Nat)
    (bond : Bonds) : Bonds :=
  if (bond j).exists_ && (bond j).type == 1 && !(bond j).wedge && !(bond j).hash then
    let bond := upd bond j { bond j with down := false, up := false }
    if (bond j).b = (bond i).a then
      mark_down_up bond j (height_over G atom bond i (bond j).a) thickness
    else if (bond j).a = (bond i).a then
      let bond := bond_end_swap bond j
      mark_down_up bond j (height_over G atom bond i (bond j).a) thickness
    else if (bond j).a = (bond i).b then
      mark_up_down bond j (height_over G atom bond i (bond j).b) thickness
    else if (bond j).b = (bond i).b then
      let bond := bond_end_swap bond j
      mark_up_down bond j (height_over G atom bond i (bond j).b) thickness
    else bond
  else bond

/-- The body of the outer `i` loop of `find_up_down_bonds`. -/
def find_up_down_bonds_row (G : Geometry) (n_bond : Nat) (atom : Atoms) (thickness : ℚ)
    (i : Nat) (bond : Bonds) : Bonds :=
  if (bond i).exists_ && (bond i).type == 2 then
    let bond :=
      if (atom (bond i).a).x > (atom (bond i).b).x then bond_end_swap bond i else bond
    let bond :=
      if (atom (bond i).a).x = (atom (bond i).b).x ∧ (atom (bond i).a).y > (atom (bond i).b).y
      then bond_end_swap bond i else bond
    forLoop (find_up_down_bonds_step G atom thickness i) n_bond bond
  else bond

/-- The function `find_up_down_bonds(bond, n_bond, atom, thickness)`; the atoms are only
read. -/
def find_up_down_bonds (G : Geometry) (bond : Bonds) (n_bond : Nat) (atom : Atoms)
    (thickness : ℚ) : Bonds :=
  forLoop (find_up_down_bonds_row G n_bond atom thickness) n_bond bond

/-- Five atoms: a horizontal double bond 0 - 1 with a substituent atom 2 above its right
end, and a second horizontal double bond 3 - 4 further right. -/
def up_down_atoms : Atoms :=
  arena atom0 [atom_at 0 0, atom_at 10 0, atom_at 16 8, atom_at 40 0, atom_at 50 0]

/-- The bonds of `up_down_atoms`: the double bond 0 - 1, the single bond 1 - 2 and the double
bond 3 - 4. -/
def up_down_bonds : Bonds :=
  arena bond0 [{ single 0 1 with type := 2 }, single 1 2, { single 3 4 with type := 2 }]

/-! ## `find_old_aromatic_bonds` (lines 2252-2345) -/

/-- The curve helpers of `osra_common.cpp`, which are not part of the sources at hand:
`detect_curve(bond, n_bond, p)`, `delete_curve_with_children(atom, bond, n_atom, n_bond, p)`
and `delete_curve(atom, bond, n_atom, n_bond, curve)`; the last takes the address of the
path record. -/
structure CurveOps where
  detect_curve : Bonds → Nat → potrace_path_t → Bool
  delete_curve_with_children : Atoms → Bonds → Nat → Nat → potrace_path_t → Atoms × Bonds
  delete_curve : Atoms → Bonds → Nat → Nat → Nat → Atoms × Bonds

/-- The helpers of the ring test that lie outside the sources at hand: `angle4` of
`osra_common.cpp`, `acos` of `math.h`, and the constants `PI` and `V_DISPLACEMENT`. -/
structure RingMath where
  angle4 : ℚ → ℚ → ℚ → ℚ → ℚ → ℚ → ℚ → ℚ → ℚ
  acos : ℚ → ℚ
  PI : ℚ
  V_DISPLACEMENT : ℚ

/-- The character `'+'` as an `int`. -/
def PLUS : Int := 43

/-- The character `'-'` as an `int`. -/
def MINUS : Int := 45

/-- The loop `if (bond[i].exists) bond[i].arom = false`. -/
def clear_arom (bond : Bonds) (n_bond : Nat) : Bonds :=
  forLoop (fun i bond => if (bond i).exists_ then upd bond i { bond i with arom := false }
    else bond) n_bond bond

/-- The loop `if (bond[i].exists && bond[i].curve == p) bond[i].arom = true`. -/
def mark_curve_arom (bond : Bonds) (n_bond p : Nat) : Bonds :=
  forLoop (fun i bond =>
    if (bond i).exists_ && (bond i).curve == p then upd bond i { bond i with arom := true }
    else bond) n_bond bond

/-- The body of the first `while (p != NULL)` loop of `find_old_aromatic_bonds`, the
nested-curve mode. -/
def nested_curve_step (ops : CurveOps) (n_atom n_bond : Nat) (s : Atoms × Bonds)
    (p : potrace_path_t) : Atoms × Bonds :=
  if p.sign = MINUS ∧ ops.detect_curve s.2 n_bond p = true then
    match p.childlist with
    | some child =>
      if child.sign = PLUS then
        match child.childlist with
        | some gchild =>
          if gchild.sign = MINUS then
            ops.delete_curve_with_children s.1 (mark_curve_arom s.2 n_bond p.id) n_atom n_bond
              child
          else s
        | none => s
      else s
    | none => s
  else s

/-- The largest distance between two of the atoms `vert` (lines 2301-2307). -/
def ring_diameter (G : Geometry) (atom : Atoms) (vert : List Nat) : ℚ :=
  forLoop (fun i d =>
    forLoop (fun t d =>
      if G.distance (atom (vert.getD i 0)).x (atom (vert.getD i 0)).y
          (atom (vert.getD (i + 1 + t) 0)).x (atom (vert.getD (i + 1 + t) 0)).y > d
      then G.distance (atom (vert.getD i 0)).x (atom (vert.getD i 0)).y
          (atom (vert.getD (i + 1 + t) 0)).x (atom (vert.getD (i + 1 + t) 0)).y
      else d) (vert.length - (i + 1)) d) vert.length 0

/-- The marking loop of the ring mode (lines 2326-2338) for the circle found around
`(cx, cy)`. -/
def mark_ring_arom (G : Geometry) (M : RingMath) (atom : Atoms) (n_bond : Nat)
    (avg diameter cx cy : ℚ) (bond : Bonds) : Bonds :=
  forLoop (fun i bond =>
    if (bond i).exists_ then
      if M.acos (M.angle4 (atom (bond i).b).x (atom (bond i).b).y (atom (bond i).a).x
            (atom (bond i).a).y cx cy (atom (bond i).a).x (atom (bond i).a).y) * 180 / M.PI < 90 ∧
          G.distance (((atom (bond i).a).x + (atom (bond i).b).x) / 2)
            (((atom (bond i).a).y + (atom (bond i).b).y) / 2) cx cy < avg / 3 + diameter / 2
      then upd bond i { bond i with arom := true } else bond
    else bond) n_bond bond

/-- The body of the second `while (p1 != NULL)` loop of `find_old_aromatic_bonds`, the ring
mode. -/
def ring_step (G : Geometry) (M : RingMath) (ops : CurveOps) (n_atom n_bond : Nat) (avg : ℚ)
    (s : Atoms × Bonds) (p1 : potrace_path_t) : Atoms × Bonds :=
  if p1.sign = PLUS ∧ ops.detect_curve s.2 n_bond p1 = true then
    match p1.childlist with
    | some child =>
      if child.sign = MINUS then
        let circum := forLoop (fun i c =>
          if (s.2 i).exists_ && (s.2 i).curve == p1.id then c + bond_length G s.2 i s.1 else c)
          n_bond (0 : ℚ)
        let vert := (List.range n_atom).filter
          (fun i => (s.1 i).exists_ && (s.1 i).curve == p1.id)
        if vert.length > 4 then
          let diameter := ring_diameter G s.1 vert
          let cx := (forLoop (fun i c => c + (s.1 (vert.getD i 0)).x) vert.length (0 : ℚ))
            / vert.length
          let cy := (forLoop (fun i c => c + (s.1 (vert.getD i 0)).y) vert.length (0 : ℚ))
            / vert.length
          let centered := forLoop (fun i c =>
            if |G.distance (s.1 (vert.getD i 0)).x (s.1 (vert.getD i 0)).y cx cy - diameter / 2|
                > M.V_DISPLACEMENT then false else c) vert.length true
          if circum < M.PI * diameter ∧ diameter > avg / 2 ∧ diameter < 3 * avg ∧
              centered = true then
            ((ops.delete_curve_with_children s.1 s.2 n_atom n_bond p1).1,
              mark_ring_arom G M (ops.delete_curve_with_children s.1 s.2 n_atom n_bond p1).1
                n_bond avg diameter cx cy
                (ops.delete_curve_with_children s.1 s.2 n_atom n_bond p1).2)
          else s
        else s
      else s
    | none => s
  else s

/-- The function `find_old_aromatic_bonds(p, bond, n_bond, atom, n_atom, avg)` on the chain
of paths `ps`. -/
def find_old_aromatic_bonds (G : Geometry) (M : RingMath) (ops : CurveOps)
    (ps : List potrace_path_t) (bond : Bonds) (n_bond : Nat) (atom : Atoms) (n_atom : Nat)
    (avg : ℚ) : Atoms × Bonds :=
  ps.foldl (ring_step G M ops n_atom n_bond avg)
    (ps.foldl (nested_curve_step ops n_atom n_bond) (atom, clear_arom bond n_bond))

/-- The arena `r` arises from `b` by switching exists flags off and arom flags on; curves
are untouched. -/
def AromOnly (b r : Bonds) : Prop :=
  ∀ k, (r k).curve = (b k).curve ∧ ((r k).exists_ = true → (b k).exists_ = true) ∧
    ((b k).arom = true → (r k).arom = true)

/-- Modelled from the spec: `detect_curve`, true when some existing bond lies on the curve
("carrying at least one existing bond"). -/
def detect_on_curve (bond : Bonds) (n_bond : Nat) (p : potrace_path_t) : Bool :=
  (List.range n_bond).any (fun i => (bond i).exists_ && (bond i).curve == p.id)

/-- Modelled from the spec: a deletion that switches off the atoms and bonds of the curve
itself ("the inner decorative circle curves are deleted"); the children are left to the
caller of this stand-in. -/
def delete_on_curve (atom : Atoms) (bond : Bonds) (p : Nat) : Atoms × Bonds :=
  (fun k => if (atom k).curve = p then { atom k with exists_ := false } else atom k,
    fun k => if (bond k).curve = p then { bond k with exists_ := false } else bond k)

/-- The stand-ins for the curve helpers in the worked examples. -/
def curve_ops : CurveOps :=
  { detect_curve := detect_on_curve
    delete_curve_with_children := fun atom bond _ _ p => delete_on_curve atom bond p.id
    delete_curve := fun atom bond _ _ p => delete_on_curve atom bond p }

/-- A solid curve 1 with a hole child 2 that has a solid child 3: the nesting that the
claim describes. -/
def solid_outer : potrace_path_t :=
  .mk 1 PLUS 100 [] (some (.mk 2 MINUS 50 [] (some (.mk 3 PLUS 20 [] none))))

/-- A hole curve 1 with a solid child 2 that has a hole child 3: the nesting that the code
tests for. -/
def hole_outer : potrace_path_t :=
  .mk 1 MINUS 100 [] (some (.mk 2 PLUS 50 [] (some (.mk 3 MINUS 20 [] none))))

/-- Two bonds on three atoms, bond 0 on curve 1 and bond 1 on curve 2. -/
def ring_bonds : Bonds :=
  arena bond0 [{ single 0 1 with curve := 1 }, { single 1 2 with curve := 2 }]

/-- The atoms of `ring_bonds`, atoms 0 and 1 on curve 1 and atom 2 on curve 2. -/
def ring_atoms : Atoms :=
  arena atom0 [{ atom_at 0 0 with curve := 1 }, { atom_at 10 0 with curve := 1 },
    { atom_at 10 10 with curve := 2 }]

/-- Stand-ins for the numerical helpers of the ring mode in the worked examples: `angle4`
is the cosine of the angle between the two vectors, `PI` is 355/113, and `acos` is replaced
by the chord `PI / 2 * (1 - x)`, which agrees with the arc cosine at -1, 0 and 1 (so the test
`acos(x) * 180 / PI < 90` is `x > 0`). -/
def ring_math : RingMath :=
  { angle4 := euclid_angle
    acos := fun x => 355 / 113 / 2 * (1 - x)
    PI := 355 / 113
    V_DISPLACEMENT := 2 }

/-! ## `find_dashed_bonds` (lines 1221-1514) and `extend_dashed_bond` (lines 1161-1174)

The first loop of `find_dashed_bonds` (lines 1233-1351) collects the centroids of the small
curves in the array `dot`; it reads the image through `get_pixel`, which is not part of the
sources at hand.  The definitions of this section start from its result, the array `dot`
with its count `n_dot`; the first loop itself is `collect_dots` further down, and
`find_dashed_bonds_paths` is the whole function. -/

/-- The record `dash_t` of `osra_common.h` (not part of the sources at hand), with the
fields that the code uses. -/
structure dash_t where
  x : ℚ
  y : ℚ
  curve : Nat
  free : Bool
  area : Int
deriving DecidableEq

/-- An array of dashes, addressed by index. -/
abbrev Dashes := Nat → dash_t

/-- The function `extend_dashed_bond(a, b, n, atom)`. -/
def extend_dashed_bond (G : Geometry) (a b n : Nat) (atom : Atoms) : Atoms :=
  let x0 := (atom a).x
  let y0 := (atom a).y
  let x1 := (atom b).x
  let y1 := (atom b).y
  let l := G.distance x0 y0 x1 y1
  let kx := (x1 - x0) / l
  let ky := (y1 - y0) / l
  let atom := upd atom a { atom a with x := kx * (-1 * l / ((n : ℚ) - 1)) + x0 }
  let atom := upd atom a { atom a with y := ky * (-1 * l / ((n : ℚ) - 1)) + y0 }
  let atom := upd atom b { atom b with x := kx * l / ((n : ℚ) - 1) + x1 }
  upd atom b { atom b with y := ky * l / ((n : ℚ) - 1) + y1 }

/-! ## `double` arithmetic

The model computes with exact rationals.  Where a statement depends on the rounding of a
`double` operation, the operation is modelled as the exact operation followed by
`round_double`, the rounding of IEEE 754 binary64 to the nearest number with a significand
of 53 bits, a tie going to the even significand.  The range of the exponent is not limited
in the model: overflow to infinity, subnormal numbers and NaN are outside it. -/

/-- The number of halvings that bring `n` below 2, counted for at most `fuel` of them. -/
def halvings : Nat → Nat → Nat
  | 0, _ => 0
  | fuel + 1, n => if n < 2 then 0 else halvings fuel (n / 2) + 1

/-- The exponent of a natural number `n` other than 0: the `e` with `2^e ≤ n < 2^(e+1)`;
`n` halvings are more than enough. -/
def floor_log2 (n : Nat) : Nat := halvings n n

/-- The exponent of a positive rational `q`: the integer `e` with `2^e ≤ q < 2^(e+1)`. -/
def binade (q : ℚ) : Int :=
  if (2 : ℚ) ^ ((floor_log2 q.num.natAbs : Int) - (floor_log2 q.den : Int)) ≤ q then
    (floor_log2 q.num.natAbs : Int) - (floor_log2 q.den : Int)
  else (floor_log2 q.num.natAbs : Int) - (floor_log2 q.den : Int) - 1

/-- The integer nearest to `x`, the even one of the two when `x` lies half way. -/
def round_half_even (x : ℚ) : Int :=
  if x - ⌊x⌋ < 1 / 2 then ⌊x⌋
  else if x - ⌊x⌋ > 1 / 2 then ⌊x⌋ + 1
  else if ⌊x⌋ % 2 = 0 then ⌊x⌋ else ⌊x⌋ + 1

/-- The `double` nearest to the rational `q`: `q` is scaled by a power of two into the range
from `2^52` to `2^53`, rounded to the nearest integer, and scaled back. -/
def round_double (q : ℚ) : ℚ :=
  if q = 0 then 0
  else
    (if q < 0 then -1 else 1) * (round_half_even (|q| * 2 ^ (52 - binade |q|)) : ℚ)
      / 2 ^ (52 - binade |q|)

/-- The `double` sum `a + b`. -/
def double_add (a b : ℚ) : ℚ := round_double (a + b)

/-- The `double` difference `a - b`. -/
def double_sub (a b : ℚ) : ℚ := round_double (a - b)

/-- The `double` product `a * b`. -/
def double_mul (a b : ℚ) : ℚ := round_double (a * b)

/-- The `double` quotient `a / b`, for `b` other than 0. -/
def double_div (a b : ℚ) : ℚ := round_double (a / b)

/-- The function `extend_dashed_bond(a, b, n, atom)` in `double` arithmetic: every operation
of lines 1167-1173 is rounded on its own.  `-1. * l / (n - 1)` is `(-1. * l) / (n - 1)` and
`kx * l / (n - 1)` is `(kx * l) / (n - 1)`; `n - 1` is an `int`; `l` is the `double` that
`distance` returns. -/
def extend_dashed_bond_double (G : Geometry) (a b n : Nat) (atom : Atoms) : Atoms :=
  let x0 := (atom a).x
  let y0 := (atom a).y
  let x1 := (atom b).x
  let y1 := (atom b).y
  let l := G.distance x0 y0 x1 y1
  let kx := double_div (double_sub x1 x0) l
  let ky := double_div (double_sub y1 y0) l
  let atom := upd atom a { atom a with
    x := double_add (double_mul kx (double_div (double_mul (-1) l) ((n : ℚ) - 1))) x0 }
  let atom := upd atom a { atom a with
    y := double_add (double_mul ky (double_div (double_mul (-1) l) ((n : ℚ) - 1))) y0 }
  let atom := upd atom b { atom b with
    x := double_add (double_div (double_mul kx l) ((n : ℚ) - 1)) x1 }
  upd atom b { atom b with
    y := double_add (double_div (double_mul ky l) ((n : ℚ) - 1)) y1 }

/-- The number `x` is the number `y` up to `k` roundings to `double`, each of a relative
error of at most `2^(-53)`. -/
def RoundedTo (k : Nat) (x y : ℚ) : Prop :=
  |x - y| ≤ ((1 + 1 / 2 ^ 53) ^ k - 1) * |y|

/-- Two atoms at `(0, 0)` and `(7, 24)`, 25 apart. -/
def slanted_atoms : Atoms :=
  arena atom0 [{ atom0 with x := 0, y := 0, exists_ := true },
    { atom0 with x := 7, y := 24, exists_ := true }]

/-- The state of the grouping of dashes around `dot[i]`: the array `dot`, the group `dash`
with its size `n`, the flag `found`, the bounding box `l`, `r`, `t`, `b` and the running
midpoint `mx`, `my`. -/
structure dash_group where
  dot : Dashes
  dash : Dashes
  n : Nat
  found : Bool
  l : ℚ
  r : ℚ
  t : ℚ
  b : ℚ
  mx : ℚ
  my : ℚ

/-- The statements that take the dash `dash[n]` into the group: the bounding box grows, the
midpoint moves halfway to the dash, and `n` is incremented. -/
def take_dash (g : dash_group) : dash_group :=
  { g with
    l := if (g.dash g.n).x < g.l then (g.dash g.n).x else g.l
    r := if (g.dash g.n).x > g.r then (g.dash g.n).x else g.r
    t := if (g.dash g.n).y < g.t then (g.dash g.n).y else g.t
    b := if (g.dash g.n).y > g.b then (g.dash g.n).y else g.b
    mx := (g.mx + (g.dash g.n).x) / 2
    my := (g.my + (g.dash g.n).y) / 2
    n := g.n + 1 }

/-- The search for the free dot nearest to `dash[0]` among `dot[i + 1 ..]` (lines
1368-1375), on the triple (`dash[1]`, `dist_next`, `next_dot`). -/
def nearest_to_first (G : Geometry) (dist : ℚ) (dot : Dashes) (n_dot i : Nat) (d0 : dash_t) :
    dash_t × ℚ × Nat :=
  forLoop (fun t s =>
    if (dot (i + 1 + t)).free &&
        decide (G.distance d0.x d0.y (dot (i + 1 + t)).x (dot (i + 1 + t)).y ≤ dist) &&
        decide (G.distance d0.x d0.y (dot (i + 1 + t)).x (dot (i + 1 + t)).y < s.2.1)
    then (dot (i + 1 + t), G.distance d0.x d0.y (dot (i + 1 + t)).x (dot (i + 1 + t)).y,
      i + 1 + t)
    else s) (n_dot - (i + 1)) (d0, FLT_MAX, i)

/-- The search of one round of the `while` loop (lines 1393-1405) for the free dot nearest
to the midpoint among `dot[next_dot + 1 ..]` and close to the line of the group, on the
tuple (`dash[n]`, `dist_next`, `found`, `minj`). -/
def nearest_to_middle (G : Geometry) (V_DISPLACEMENT dist : ℚ) (n_dot next_dot : Nat)
    (g : dash_group) : dash_t × ℚ × Bool × Nat :=
  forLoop (fun t s =>
    if (g.dot (next_dot + 1 + t)).free &&
        decide (G.distance g.mx g.my (g.dot (next_dot + 1 + t)).x (g.dot (next_dot + 1 + t)).y
          ≤ dist) &&
        decide (G.distance g.mx g.my (g.dot (next_dot + 1 + t)).x (g.dot (next_dot + 1 + t)).y
          < s.2.1) &&
        decide (|G.distance_from_bond_y (g.dash 0).x (g.dash 0).y (g.dash (g.n - 1)).x
          (g.dash (g.n - 1)).y (g.dot (next_dot + 1 + t)).x (g.dot (next_dot + 1 + t)).y|
          < V_DISPLACEMENT)
    then (g.dot (next_dot + 1 + t),
      G.distance g.mx g.my (g.dot (next_dot + 1 + t)).x (g.dot (next_dot + 1 + t)).y, true,
      next_dot + 1 + t)
    else s) (n_dot - (next_dot + 1)) (g.dash g.n, FLT_MAX, false, next_dot)

/-- One round of the loop `while (n > 1 && found)`. -/
def grow_group (G : Geometry) (V_DISPLACEMENT dist : ℚ) (n_dot next_dot : Nat)
    (g : dash_group) : dash_group :=
  if (nearest_to_middle G V_DISPLACEMENT dist n_dot next_dot g).2.2.1 then
    take_dash
      { g with
        dash := upd g.dash g.n (nearest_to_middle G V_DISPLACEMENT dist n_dot next_dot g).1
        found := true
        dot := upd g.dot (nearest_to_middle G V_DISPLACEMENT dist n_dot next_dot g).2.2.2
          { g.dot (nearest_to_middle G V_DISPLACEMENT dist n_dot next_dot g).2.2.2 with
            free := false } }
  else { g with found := false }

/-- The grouping of dashes that starts at the free dot `i` (lines 1355-1429).  Every round
of the `while` loop but the last takes a free dot, so `n_dot + 1` rounds are enough. -/
def gather_dashes (G : Geometry) (V_DISPLACEMENT dist : ℚ) (dot : Dashes) (n_dot i : Nat) :
    dash_group :=
  let dot1 := upd dot i { dot i with free := false }
  let s := nearest_to_first G dist dot1 n_dot i (dot i)
  let g0 : dash_group :=
    { dot := dot1, dash := upd (fun _ => dot i) 1 s.1, n := 1, found := true,
      l := (dot i).x, r := (dot i).x, t := (dot i).y, b := (dot i).y,
      mx := (dot i).x, my := (dot i).y }
  let g1 : dash_group :=
    if s.2.2 != i then
      take_dash { g0 with dot := upd dot1 s.2.2 { dot1 s.2.2 with free := false } }
    else g0
  whileLoop (fun g => decide (g.n > 1) && g.found)
    (grow_group G V_DISPLACEMENT dist n_dot s.2.2) (n_dot + 1) g1

/-- The call `qsort(dash, n, sizeof(dash_t), comp_dashes_x)` or `comp_dashes_y`; dashes with
equal keys, whose order `qsort` leaves open, keep their order here. -/
def sort_dashes (by_x : Bool) (dash : Dashes) (n : Nat) : List dash_t :=
  ((List.range n).map dash).insertionSort
    (fun p q => if by_x then p.x ≤ q.x else p.y ≤ q.y)

/-- The test `one_line` (lines 1441-1454) on the sorted dashes. -/
def one_line (V_DISPLACEMENT : ℚ) (d : List dash_t) (d0 dl : dash_t) : Bool :=
  forLoop (fun t ok =>
    if |(if |dl.x - d0.x| > |dl.y - d0.y|
          then (dl.y - d0.y) / (dl.x - d0.x) * ((d.getD (1 + t) d0).x - d0.x)
            - ((d.getD (1 + t) d0).y - d0.y)
          else (dl.x - d0.x) / (dl.y - d0.y) * ((d.getD (1 + t) d0).y - d0.y)
            - ((d.getD (1 + t) d0).x - d0.x))| > V_DISPLACEMENT
    then false else ok) (d.length - 2) true

/-- A new existing atom at the centroid of a dash (lines 1459-1488). -/
def dash_atom (d : dash_t) : atom_t :=
  { x := d.x, y := d.y, label := " ", n := 0, anum := 0, curve := d.curve, exists_ := true,
    corner := false, terminal := false, charge := 0 }

/-- The hashed bond between the two new atoms (lines 1489-1509), with the ends swapped when
the first dash has the larger area. -/
def dash_bond (n_atom : Nat) (d0 dl : dash_t) : bond_t :=
  { a := if d0.area > dl.area then n_atom - 1 else n_atom - 2
    b := if d0.area > dl.area then n_atom - 2 else n_atom - 1
    type := 1, curve := d0.curve, exists_ := true, hash := true, wedge := false, up := false,
    down := false, Small := false, arom := false, conjoined := false }

/-- The creation of the dashed bond from the sorted dashes `d0, ..., dl` of a group of `n`
(lines 1456-1510): the curves of the dashes are deleted, two atoms are appended at the
extreme centroids, a hashed bond joins them and is extended. -/
def dashed_bond (G : Geometry) (ops : CurveOps) (d : List dash_t) (n : Nat) (d0 dl : dash_t)
    (g : graph_t) : graph_t :=
  let s := forLoop (fun j (s : Atoms × Bonds) =>
    ops.delete_curve s.1 s.2 g.n_atom g.n_bond (d.getD j d0).curve) n (g.atom, g.bond)
  let s1 := push_atom G (dash_atom dl) (push_atom G (dash_atom d0) (s.1, g.n_atom))
  let bond := upd s.2 g.n_bond (dash_bond s1.2 d0 dl)
  { atom := extend_dashed_bond G (bond g.n_bond).a (bond g.n_bond).b n s1.1
    bond := bond
    n_atom := s1.2
    n_bond := bump G g.n_bond }

/-- The dashes of a group in the order that `qsort` gives them: by `x` when the bounding box
is wider than high, by `y` otherwise (lines 1433-1440). -/
def sorted_group (g : dash_group) : List dash_t :=
  sort_dashes (decide (g.r - g.l > g.b - g.t)) g.dash g.n

/-- The dash `dash[0]` after sorting. -/
def first_dash (g : dash_group) : dash_t :=
  (sorted_group g).getD 0 (g.dash 0)

/-- The dash `dash[n - 1]` after sorting. -/
def last_dash (g : dash_group) : dash_t :=
  (sorted_group g).getD (g.n - 1) (g.dash 0)

/-- The statement `if (n > 2) { ... }` (lines 1431-1511) for a gathered group. -/
def group_bond (G : Geometry) (ops : CurveOps) (V_DISPLACEMENT : ℚ) (g : dash_group)
    (gr : graph_t) : graph_t :=
  if g.n > 2 then
    if one_line V_DISPLACEMENT (sorted_group g) (first_dash g) (last_dash g) then
      dashed_bond G ops (sorted_group g) g.n (first_dash g) (last_dash g) gr
    else gr
  else gr

/-- The body of the loop over the dots (lines 1353-1512) on the pair (`dot`, graph). -/
def find_dashed_bonds_dot (G : Geometry) (ops : CurveOps) (V_DISPLACEMENT dist : ℚ)
    (n_dot i : Nat) (s : Dashes × graph_t) : Dashes × graph_t :=
  if (s.1 i).free then
    ((gather_dashes G V_DISPLACEMENT dist s.1 n_dot i).dot,
      group_bond G ops V_DISPLACEMENT (gather_dashes G V_DISPLACEMENT dist s.1 n_dot i) s.2)
  else s

/-- The second part of `find_dashed_bonds`, from the collected dots on: the graph it leaves,
with the atom count it returns and the bond count it stores in `*n_bond`. -/
def find_dashed_bonds (G : Geometry) (ops : CurveOps) (V_DISPLACEMENT dist : ℚ) (dot : Dashes)
    (n_dot : Nat) (g : graph_t) : graph_t :=
  (forLoop (find_dashed_bonds_dot G ops V_DISPLACEMENT dist n_dot) n_dot (dot, g)).2

/-- The number of free dots among the first `n`. -/
def free_dots (dot : Dashes) (n : Nat) : Nat :=
  ((List.range n).filter (fun j => (dot j).free)).length

/-- The arguments `image`, `bgColor`, `THRESHOLD_BOND` of the functions that read pixels:
`get_pixel x y` stands for `get_pixel(image, bgColor, x, y, THRESHOLD_BOND)`. -/
structure Image where
  columns : Nat
  rows : Nat
  get_pixel : Int → Int → Int

/-- The conversion `int(q)` of a `double`. -/
def to_int (q : ℚ) : Int := Int.tdiv q.num q.den

/-- The function `thickness_hor(image, x1, y1, bgColor, THRESHOLD_BOND)`.  The first `while`
loop ends when `x1 + i` reaches `width` and the second when `x1 - i` falls below `0`, so
`width - x1` and `x1` rounds are enough. -/
def thickness_hor (image : Image) (x1 y1 : Int) : Int :=
  let width : Int := image.columns
  let s0 := image.get_pixel x1 y1
  let xa := if s0 == 0 && decide (x1 + 1 < width) then x1 + 1 else x1
  let sa := if s0 == 0 && decide (x1 + 1 < width) then image.get_pixel (x1 + 1) y1 else s0
  let xb := if sa == 0 && decide (xa - 2 ≥ 0) then xa - 2 else xa
  let sb := if sa == 0 && decide (xa - 2 ≥ 0) then image.get_pixel (xa - 2) y1 else sa
  if sb == 1 then
    (whileLoop (fun (st : Int × Int) => decide (xb + st.1 < width) && st.2 == 1)
        (fun st => (st.1 + 1, image.get_pixel (xb + st.1) y1)) (width - xb).toNat (0, sb)).1 - 1
      + ((whileLoop (fun (st : Int × Int) => decide (xb - st.1 ≥ 0) && st.2 == 1)
        (fun st => (st.1 + 1, image.get_pixel (xb - st.1) y1)) xb.toNat (1, 1)).1 - 1)
  else 0

/-- The function `thickness_ver(image, x1, y1, bgColor, THRESHOLD_BOND)`. -/
def thickness_ver (image : Image) (x1 y1 : Int) : Int :=
  let height : Int := image.rows
  let s0 := image.get_pixel x1 y1
  let ya := if s0 == 0 && decide (y1 + 1 < height) then y1 + 1 else y1
  let sa := if s0 == 0 && decide (y1 + 1 < height) then image.get_pixel x1 (y1 + 1) else s0
  let yb := if sa == 0 && decide (ya - 2 ≥ 0) then ya - 2 else ya
  let sb := if sa == 0 && decide (ya - 2 ≥ 0) then image.get_pixel x1 (ya - 2) else sa
  if sb == 1 then
    (whileLoop (fun (st : Int × Int) => decide (yb + st.1 < height) && st.2 == 1)
        (fun st => (st.1 + 1, image.get_pixel x1 (yb + st.1))) (height - yb).toNat (0, sb)).1 - 1
      + ((whileLoop (fun (st : Int × Int) => decide (yb - st.1 ≥ 0) && st.2 == 1)
        (fun st => (st.1 + 1, image.get_pixel x1 (yb - st.1))) yb.toNat (1, 1)).1 - 1)
  else 0

/-- The variables of the sampling loops of `find_wedge_bonds`: the regression points
`x_reg`, `y_reg`, the sums `avg_x`, `avg_y`, the largest thickness `w`, the last thickness
`old`, and whether the loop has left by `break`. -/
structure wedge_samples where
  x_reg : List Int
  y_reg : List Int
  avg_x : ℚ
  avg_y : ℚ
  w : Int
  old : Int
  brk : Bool

/-- The body of a sampling loop after the thickness `t` at position `j` has been read. -/
def take_sample (MAX_BOND_THICKNESS : Int) (avg : ℚ) (j t : Int) (s : wedge_samples) :
    wedge_samples :=
  if s.brk then s
  else if |t - s.old| > 2 then { s with brk := true }
  else if t < 2 * MAX_BOND_THICKNESS ∧ (t : ℚ) < avg / 3 ∧ t > 0 then
    { s with
      x_reg := s.x_reg ++ [j], y_reg := s.y_reg ++ [t], avg_x := s.avg_x + j,
      avg_y := s.avg_y + t, w := max s.w t, old := t }
  else { s with old := t }

/-- The sampling of the vertical thickness along `x` (lines 1967-2010) for a bond from
`(a_x, a_y)` to `(b_x, b_y)` with middle column `x1`. -/
def sample_ver (image : Image) (MAX_BOND_THICKNESS : Int) (avg : ℚ) (a_x a_y b_x b_y : ℚ)
    (x1 max_c min_c w3_ver : Int) : wedge_samples :=
  let s : wedge_samples :=
    { x_reg := [], y_reg := [], avg_x := 0, avg_y := 0, w := w3_ver, old := w3_ver,
      brk := false }
  let s := forLoop (fun k s =>
    take_sample MAX_BOND_THICKNESS avg (x1 + 1 + k)
      (thickness_ver image (x1 + 1 + k)
        (to_int (a_y + (b_y - a_y) * (((x1 + 1 + k : Int) : ℚ) - a_x) / (b_x - a_x)))) s)
    (max_c - x1).toNat s
  forLoop (fun k s =>
    take_sample MAX_BOND_THICKNESS avg (x1 - 1 - k)
      (thickness_ver image (x1 - 1 - k)
        (to_int (a_y + (b_y - a_y) * (((x1 - 1 - k : Int) : ℚ) - a_x) / (b_x - a_x)))) s)
    (x1 - min_c).toNat { s with old := w3_ver, brk := false }

/-- The sampling of the horizontal thickness along `y` (lines 2012-2054). -/
def sample_hor (image : Image) (MAX_BOND_THICKNESS : Int) (avg : ℚ) (a_x a_y b_x b_y : ℚ)
    (y1 max_c min_c w3_hor : Int) : wedge_samples :=
  let s : wedge_samples :=
    { x_reg := [], y_reg := [], avg_x := 0, avg_y := 0, w := w3_hor, old := w3_hor,
      brk := false }
  let s := forLoop (fun k s =>
    take_sample MAX_BOND_THICKNESS avg (y1 + 1 + k)
      (thickness_hor image
        (to_int (a_x + (b_x - a_x) * (((y1 + 1 + k : Int) : ℚ) - a_y) / (b_y - a_y)))
        (y1 + 1 + k)) s)
    (max_c - y1).toNat s
  forLoop (fun k s =>
    take_sample MAX_BOND_THICKNESS avg (y1 - 1 - k)
      (thickness_hor image
        (to_int (a_x + (b_x - a_x) * (((y1 - 1 - k : Int) : ℚ) - a_y) / (b_y - a_y)))
        (y1 - 1 - k)) s)
    (y1 - min_c).toNat { s with old := w3_hor, brk := false }

/-- The outcome of the sampling of one bond: whether the thickness was sampled along `x`,
the bounds `max_c` and `min_c` of the sampled span, `sign`, the largest thickness `w`, the
mean thickness `avg_y` and the slope `beta` of the regression of thickness on position. -/
structure wedge_fit where
  along_x : Bool
  max_c : Int
  min_c : Int
  sign : Int
  w : Int
  avg_y : ℚ
  beta : ℚ

/-- The regression of lines 2055-2065 on the sampled points. -/
def fit_slope (s : wedge_samples) : ℚ :=
  let avg_x := s.avg_x / (s.x_reg.length : ℚ)
  let avg_y := s.avg_y / (s.y_reg.length : ℚ)
  let numerator := forLoop (fun j (r : ℚ) =>
    r + 1 * ((s.x_reg.getD j 0 : ℚ) - avg_x) * ((s.y_reg.getD j 0 : ℚ) - avg_y))
    s.x_reg.length 0
  let denominator := forLoop (fun j (r : ℚ) =>
    r + 1 * ((s.x_reg.getD j 0 : ℚ) - avg_x) * ((s.x_reg.getD j 0 : ℚ) - avg_x))
    s.x_reg.length 0
  if denominator ≠ 0 then numerator / denominator else 0

/-- The sampling and the regression (lines 1966-2065) for a bond from atom `a` to atom `b`
whose middle has the thicknesses `w3_ver` and `w3_hor`, not both zero.  When no position is
sampled, the source divides the sums by zero: its `avg_y` is NaN, that of the model is 0; the
statements below do not use `avg_y`. -/
def fit_thickness (image : Image) (MAX_BOND_THICKNESS : Int) (avg : ℚ) (dist : Int)
    (a b : atom_t) : wedge_fit :=
  let x1 := to_int ((a.x + b.x) / 2)
  let y1 := to_int ((a.y + b.y) / 2)
  let w3_ver := thickness_ver image x1 y1
  let w3_hor := thickness_hor image x1 y1
  if (w3_ver < w3_hor ∧ w3_ver > 0) ∨ w3_hor = 0 then
    let max_c := to_int (max a.x b.x) - dist
    let min_c := to_int (min a.x b.x) + dist
    let s := sample_ver image MAX_BOND_THICKNESS avg a.x a.y b.x b.y x1 max_c min_c w3_ver
    { along_x := true, max_c := max_c, min_c := min_c
      sign := if b.x < a.x then -1 else 1
      w := s.w, avg_y := s.avg_y / (s.y_reg.length : ℚ), beta := fit_slope s }
  else
    let max_c := to_int (max a.y b.y) - dist
    let min_c := to_int (min a.y b.y) + dist
    let s := sample_hor image MAX_BOND_THICKNESS avg a.x a.y b.x b.y y1 max_c min_c w3_hor
    { along_x := false, max_c := max_c, min_c := min_c
      sign := if b.y < a.y then -1 else 1
      w := s.w, avg_y := s.avg_y / (s.y_reg.length : ℚ), beta := fit_slope s }

/-- The classification of bond `i` (lines 2067-2072): the bond becomes a wedge when the
slope times the sampled span exceeds `limit`, and its ends are swapped when
`beta * sign < 0`. -/
def classify_wedge (limit : Int) (f : wedge_fit) (bond : Bonds) (i : Nat) : Bonds :=
  if |f.beta| * ((f.max_c - f.min_c : Int) : ℚ) > (limit : ℚ) then
    if f.beta * (f.sign : ℚ) < 0 then
      bond_end_swap (upd bond i { bond i with wedge := true }) i
    else upd bond i { bond i with wedge := true }
  else bond

/-- The loop `for (int k = 0; k < n_bond; k++)` that hands the bond ends at the merged atom
`j` over to the `b` end of bond `i`. -/
def redirect_ends (n_bond i j : Nat) (bond : Bonds) : Bonds :=
  forLoop (fun k bond =>
    if (bond k).exists_ then
      if (bond k).a = j then upd bond k { bond k with a := (bond i).b }
      else if (bond k).b = j then upd bond k { bond k with b := (bond i).b }
      else bond
    else bond) n_bond bond

/-- The merge of the atoms within `w` of the `b` end of the wedge bond `i` (lines
2073-2095). -/
def merge_wide_end (G : Geometry) (n_atom n_bond i : Nat) (w : Int) (s : Atoms × Bonds) :
    Atoms × Bonds :=
  forLoop (fun j (s : Atoms × Bonds) =>
    if (s.1 j).exists_ && j != (s.2 i).b &&
        decide (G.distance (s.1 (s.2 i).b).x (s.1 (s.2 i).b).y (s.1 j).x (s.1 j).y ≤ (w : ℚ))
    then
      let atom := upd s.1 j { s.1 j with exists_ := false }
      let atom := upd atom (s.2 i).b
        { atom (s.2 i).b with x := ((atom (s.2 i).b).x + (atom j).x) / 2 }
      let atom := upd atom (s.2 i).b
        { atom (s.2 i).b with y := ((atom (s.2 i).b).y + (atom j).y) / 2 }
      (atom, redirect_ends n_bond i j s.2)
    else s) n_atom s

/-- The variables of the loop over the bonds of `find_wedge_bonds`: the atoms, the bonds,
the vector `a` and the count `n`. -/
structure wedge_state where
  atom : Atoms
  bond : Bonds
  a : List ℚ
  n : Nat

/-- The body of the loop over the bonds of `find_wedge_bonds` for bond `i`. -/
def find_wedge_bonds_bond (image : Image) (G : Geometry) (MAX_BOND_THICKNESS : Int)
    (n_atom n_bond : Nat) (max_dist_double_bond avg : ℚ) (limit dist : Int) (i : Nat)
    (st : wedge_state) : wedge_state :=
  if (st.bond i).exists_ && !(st.bond i).hash && decide ((st.bond i).type = 1) &&
      decide (bond_length G st.bond i st.atom > max_dist_double_bond) then
    if thickness_ver image
          (to_int (((st.atom (st.bond i).a).x + (st.atom (st.bond i).b).x) / 2))
          (to_int (((st.atom (st.bond i).a).y + (st.atom (st.bond i).b).y) / 2)) = 0 ∧
        thickness_hor image
          (to_int (((st.atom (st.bond i).a).x + (st.atom (st.bond i).b).x) / 2))
          (to_int (((st.atom (st.bond i).a).y + (st.atom (st.bond i).b).y) / 2)) = 0 then st
    else
      let f := fit_thickness image MAX_BOND_THICKNESS avg dist (st.atom (st.bond i).a)
        (st.atom (st.bond i).b)
      let bond := classify_wedge limit f st.bond i
      let s := if (bond i).wedge then merge_wide_end G n_atom n_bond i f.w (st.atom, bond)
        else (st.atom, bond)
      if !(s.2 i).wedge then
        { atom := s.1, bond := s.2, a := st.a ++ [((to_int f.avg_y : Int) : ℚ)], n := st.n + 1 }
      else { st with atom := s.1, bond := s.2 }
  else st

/-- The function `find_wedge_bonds`: the value it returns with the atoms and bonds it
leaves. -/
def find_wedge_bonds (image : Image) (G : Geometry) (MAX_BOND_THICKNESS : Int) (atom : Atoms)
    (n_atom : Nat) (bond : Bonds) (n_bond : Nat) (max_dist_double_bond avg : ℚ)
    (limit dist : Int) : ℚ × Atoms × Bonds :=
  let st := forLoop
    (find_wedge_bonds_bond image G MAX_BOND_THICKNESS n_atom n_bond max_dist_double_bond avg
      limit dist)
    n_bond { atom := atom, bond := bond, a := [3 / 2], n := 0 }
  (if st.n > 0 then (sort st.a).getD ((st.n - 1) / 2) 0 else 3 / 2, st.atom, st.bond)

/-- A picture 6 wide and 11 high with a short thick wedge: column `x` for `0 ≤ x ≤ 4` is
black from row 5 to row `5 + x`. -/
def short_wedge : Image :=
  { columns := 6, rows := 11
    get_pixel := fun x y => if 0 ≤ x ∧ x ≤ 4 ∧ 5 ≤ y ∧ y ≤ 5 + x then 1 else 0 }

/-- The two atoms at the ends of the short wedge. -/
def short_wedge_atoms : Atoms :=
  arena atom0
    [{ atom0 with x := 0, y := 5, exists_ := true },
     { atom0 with x := 4, y := 5, exists_ := true }]

/-- The one bond of the short wedge, from atom 0 to atom 1. -/
def short_wedge_bonds : Bonds :=
  arena bond0 [{ bond0 with a := 0, b := 1, exists_ := true }]

/-- The coordinate of an atom along the axis on which the thickness was sampled. -/
def along (f : wedge_fit) (p : atom_t) : ℚ :=
  if f.along_x then p.x else p.y

/-- A picture 14 wide and 16 high with a wedge 13 long: column `x` for `0 ≤ x ≤ 12` is black
from row 8 to row `8 + x / 3`. -/
def long_wedge : Image :=
  { columns := 14, rows := 16
    get_pixel := fun x y => if 0 ≤ x ∧ x ≤ 12 ∧ 8 ≤ y ∧ y ≤ 8 + x / 3 then 1 else 0 }

/-- The two atoms at the ends of the long wedge: atom 0 at the wide end. -/
def long_wedge_atoms : Atoms :=
  arena atom0
    [{ atom0 with x := 12, y := 8, exists_ := true },
     { atom0 with x := 0, y := 8, exists_ := true }]

/-- The one bond of the long wedge, from atom 0 at the wide end to atom 1. -/
def long_wedge_bonds : Bonds :=
  arena bond0 [{ bond0 with a := 0, b := 1, exists_ := true }]

/-- The state of the loop of `find_wedge_bonds` on entry, for the long wedge. -/
def long_wedge_state : wedge_state :=
  { atom := long_wedge_atoms, bond := long_wedge_bonds, a := [3 / 2], n := 0 }

/-- The sampling outcome for the bond of the long wedge, with `MAX_BOND_THICKNESS = 10`,
`avg = 30` and `dist = 1`. -/
def long_wedge_fit : wedge_fit :=
  fit_thickness long_wedge 10 30 1 (long_wedge_state.atom (long_wedge_state.bond 0).a)
    (long_wedge_state.atom (long_wedge_state.bond 0).b)

/-- The canonical order of the ends of a bond: the `a` end leftmost, then topmost. -/
def Canonical (atom : Atoms) (b : bond_t) : Prop :=
  (atom b.a).x < (atom b.b).x ∨ ((atom b.a).x = (atom b.b).x ∧ (atom b.a).y ≤ (atom b.b).y)

/-- The bonds `r` have the orders and exists flags of the bonds `b`, and every bond that is
not single is the same in both. -/
def KeepsDouble (b r : Bonds) : Prop :=
  ∀ k, (r k).type = (b k).type ∧ (r k).exists_ = (b k).exists_ ∧ ((b k).type ≠ 1 → r k = b k)

/-- The bonds of `up_down_atoms` with the first double bond given from right to left. -/
def reversed_bonds : Bonds :=
  arena bond0 [{ single 1 0 with type := 2 }, single 1 2, { single 3 4 with type := 2 }]

/-- A division `p / q` of the source that records a zero divisor: `none` stands for the
division by zero. -/
def checked_div (p q : ℚ) : Option ℚ :=
  if q = 0 then none else some (p / q)

/-- The function `extend_dashed_bond(a, b, n, atom)` with every division checked: `none`
when one of its divisions has a zero divisor. -/
def extend_dashed_bond_checked (G : Geometry) (a b n : Nat) (atom : Atoms) : Option Atoms :=
  let x0 := (atom a).x
  let y0 := (atom a).y
  let x1 := (atom b).x
  let y1 := (atom b).y
  let l := G.distance x0 y0 x1 y1
  (checked_div (x1 - x0) l).bind fun kx =>
  (checked_div (y1 - y0) l).bind fun ky =>
  (checked_div (-1 * l) ((n : ℚ) - 1)).bind fun sx =>
  let atom := upd atom a { atom a with x := kx * sx + x0 }
  (checked_div (-1 * l) ((n : ℚ) - 1)).bind fun sy =>
  let atom := upd atom a { atom a with y := ky * sy + y0 }
  (checked_div (kx * l) ((n : ℚ) - 1)).bind fun tx =>
  let atom := upd atom b { atom b with x := tx + x1 }
  (checked_div (ky * l) ((n : ℚ) - 1)).bind fun ty =>
  some (upd atom b { atom b with y := ty + y1 })

/-- Two atoms at the same position `(3, 4)`. -/
def coincident_atoms : Atoms :=
  arena atom0 [{ atom0 with x := 3, y := 4, exists_ := true },
    { atom0 with x := 3, y := 4, exists_ := true }]

/-- Two atoms 10 apart on a horizontal line. -/
def apart_atoms : Atoms :=
  arena atom0 [{ atom0 with x := 0, y := 4, exists_ := true },
    { atom0 with x := 10, y := 4, exists_ := true }]

/-! ## `flatten_bonds` (lines 2347-2494) -/

/-- The loop that counts the other existing bonds of order below 3 at the atom `p` (an end
of bond `i`), on the pair (`n`, `f`). -/
def flatten_count (n_bond i p : Nat) (bond : Bonds) : Nat × Nat :=
  forLoop (fun j (s : Nat × Nat) =>
    if j != i && (bond j).exists_ && decide ((bond j).type < 3) &&
        (p == (bond j).a || p == (bond j).b) then (s.1 + 1, j)
    else s) n_bond (0, i)

/-- The statements that hand the order and the flags of the absorbed bond `f` over to bond
`i`: `if (lf > li) bond[i].type = bond[f].type; if (bond[f].arom) bond[i].arom = true; ...`. -/
def flatten_inherit (lf li : ℚ) (i f : Nat) (bond : Bonds) : Bonds :=
  let bond := if lf > li then upd bond i { bond i with type := (bond f).type } else bond
  let bond := if (bond f).arom then upd bond i { bond i with arom := true } else bond
  let bond := if (bond f).hash then upd bond i { bond i with hash := true } else bond
  if (bond f).wedge then upd bond i { bond i with wedge := true } else bond

/-- The first half of the body of the loop over the bonds: the atom at the `a` end of bond
`i`. -/
def flatten_a (G : Geometry) (n_bond : Nat) (maxh li : ℚ) (i : Nat)
    (s : (Atoms × Bonds) × Bool) : (Atoms × Bonds) × Bool :=
  let atom := s.1.1
  let bond := s.1.2
  if (atom (bond i).a).label = " " then
    let f := (flatten_count n_bond i (bond i).a bond).2
    let lf := bond_length G bond f atom
    if (flatten_count n_bond i (bond i).a bond).1 = 1 then
      if (bond i).a = (bond f).b then
        if |G.distance_from_bond_y (atom (bond i).a).x (atom (bond i).a).y (atom (bond i).b).x
              (atom (bond i).b).y (atom (bond f).a).x (atom (bond f).a).y| ≤ maxh ∧
            G.distance_from_bond_x_a (atom (bond i).a).x (atom (bond i).a).y (atom (bond i).b).x
              (atom (bond i).b).y (atom (bond f).a).x (atom (bond f).a).y < 0 then
          let bond := upd bond f { bond f with exists_ := false }
          let atom := upd atom (bond f).b { atom (bond f).b with exists_ := false }
          let bond := upd bond i { bond i with a := (bond f).a }
          ((atom, flatten_inherit lf li i f bond), true)
        else s
      else
        if |G.distance_from_bond_y (atom (bond i).a).x (atom (bond i).a).y (atom (bond i).b).x
              (atom (bond i).b).y (atom (bond f).b).x (atom (bond f).b).y| ≤ maxh ∧
            G.distance_from_bond_x_a (atom (bond i).a).x (atom (bond i).a).y (atom (bond i).b).x
              (atom (bond i).b).y (atom (bond f).b).x (atom (bond f).b).y < 0 then
          let bond := upd bond f { bond f with exists_ := false }
          let atom := upd atom (bond f).a { atom (bond f).a with exists_ := false }
          let bond :=
            if (bond f).hash || (bond f).wedge then
              upd (upd bond i { bond i with a := (bond i).b }) i
                { upd bond i { bond i with a := (bond i).b } i with b := (bond f).b }
            else upd bond i { bond i with a := (bond f).b }
          ((atom, flatten_inherit lf li i f bond), true)
        else s
    else s
  else s

/-- The second half of the body of the loop over the bonds: the atom at the `b` end of bond
`i`. -/
def flatten_b (G : Geometry) (n_bond : Nat) (maxh li : ℚ) (i : Nat)
    (s : (Atoms × Bonds) × Bool) : (Atoms × Bonds) × Bool :=
  let atom := s.1.1
  let bond := s.1.2
  if (atom (bond i).b).label = " " then
    let f := (flatten_count n_bond i (bond i).b bond).2
    let lf := bond_length G bond f atom
    if (flatten_count n_bond i (bond i).b bond).1 = 1 then
      if (bond i).b = (bond f).b then
        if |G.distance_from_bond_y (atom (bond i).a).x (atom (bond i).a).y (atom (bond i).b).x
              (atom (bond i).b).y (atom (bond f).a).x (atom (bond f).a).y| ≤ maxh ∧
            G.distance_from_bond_x_b (atom (bond i).a).x (atom (bond i).a).y (atom (bond i).b).x
              (atom (bond i).b).y (atom (bond f).a).x (atom (bond f).a).y > 0 then
          let bond := upd bond f { bond f with exists_ := false }
          let atom := upd atom (bond f).b { atom (bond f).b with exists_ := false }
          let bond :=
            if (bond f).hash || (bond f).wedge then
              upd (upd bond i { bond i with b := (bond i).a }) i
                { upd bond i { bond i with b := (bond i).a } i with a := (bond f).a }
            else upd bond i { bond i with b := (bond f).a }
          ((atom, flatten_inherit lf li i f bond), true)
        else s
      else
        if |G.distance_from_bond_y (atom (bond i).a).x (atom (bond i).a).y (atom (bond i).b).x
              (atom (bond i).b).y (atom (bond f).b).x (atom (bond f).b).y| ≤ maxh ∧
            G.distance_from_bond_x_b (atom (bond i).a).x (atom (bond i).a).y (atom (bond i).b).x
              (atom (bond i).b).y (atom (bond f).b).x (atom (bond f).b).y > 0 then
          let bond := upd bond f { bond f with exists_ := false }
          let atom := upd atom (bond f).a { atom (bond f).a with exists_ := false }
          let bond := upd bond i { bond i with b := (bond f).b }
          ((atom, flatten_inherit lf li i f bond), true)
        else s
    else s
  else s

/-- The body of the loop over the bonds of `flatten_bonds`; the length `li` of bond `i` is
taken once, before the first half. -/
def flatten_bonds_bond (G : Geometry) (n_bond : Nat) (maxh : ℚ) (i : Nat)
    (s : (Atoms × Bonds) × Bool) : (Atoms × Bonds) × Bool :=
  if (s.1.2 i).exists_ && decide ((s.1.2 i).type < 3) then
    flatten_b G n_bond maxh (bond_length G s.1.2 i s.1.1) i
      (flatten_a G n_bond maxh (bond_length G s.1.2 i s.1.1) i s)
  else s

/-- One pass of the loop `while (found)` of `flatten_bonds`: `found = false` followed by the
loop over the bonds. -/
def flatten_bonds_pass (G : Geometry) (n_bond : Nat) (maxh : ℚ) (s : Atoms × Bonds) :
    (Atoms × Bonds) × Bool :=
  forLoop (flatten_bonds_bond G n_bond maxh) n_bond (s, false)

/-- The function `flatten_bonds(bond, n_bond, atom, maxh)`.  Every merge switches an
existing bond off and no bond is switched on, so a pass that sets `found` leaves fewer
existing bonds and `n_bond + 1` passes are enough. -/
def flatten_bonds (G : Geometry) (bond : Bonds) (n_bond : Nat) (atom : Atoms) (maxh : ℚ) :
    (Atoms × Bonds) × Bool :=
  whileLoop (fun (s : (Atoms × Bonds) × Bool) => s.2)
    (fun s => flatten_bonds_pass G n_bond maxh s.1) (n_bond + 1) ((atom, bond), true)

/-- Four atoms: `A = (0, 0)`, `B = (10, 0)` and `C = (20, 0)` on a line, and `D = (10, 10)`
above `B`, labelled `N`. -/
def nitrile_atoms : Atoms :=
  arena atom0 [atom_at 0 0, atom_at 10 0, atom_at 20 0, { atom_at 10 10 with label := "N" }]

/-- The bonds of `nitrile_atoms`: the single bonds `B - C` and `A - B` and the triple bond
`B - D`. -/
def nitrile_bonds : Bonds :=
  arena bond0 [single 1 2, single 0 1, { single 1 3 with type := 3 }]

/-- The graph of `double_atoms` and `double_bonds` on entry. -/
def double_graph : graph_t :=
  { atom := double_atoms, bond := double_bonds, n_atom := 8, n_bond := 4 }

/-- The split of bond `i` at the end `p` of bond `j` (lines 1802-1827 for `p = bond[j].a`,
lines 1842-1867 for `p = bond[j].b`): a new bond from `p` to the `b` end of bond `i` takes the
order, the curve and the flags `hash`, `wedge`, `arom`, `conjoined` of bond `i`; then bond `i`
ends at `p` and loses its wedge flag.  The state is the pair (bonds, `n_bond`). -/
def split_bond (G : Geometry) (i j : Nat) (at_a : Bool) (s : Bonds × Nat) : Bonds × Nat :=
  let bond := upd s.1 s.2
    { a := if at_a then (s.1 j).a else (s.1 j).b
      b := (s.1 i).b
      type := (s.1 i).type
      curve := (s.1 i).curve
      exists_ := true
      hash := if (s.1 i).hash then true else false
      wedge := if (s.1 i).wedge then true else false
      up := false
      down := false
      Small := false
      arom := if (s.1 i).arom then true else false
      conjoined := (s.1 i).conjoined }
  let bond := upd bond i { bond i with b := if at_a then (bond j).a else (bond j).b }
  (upd bond i { bond i with wedge := false }, bump G s.2)

/-- The test of the inner loop of `fix_one_sided_bonds` on bond `j`. -/
def one_sided_candidate (G : Geometry) (avg : ℚ) (atom : Atoms) (i j : Nat) (bond : Bonds) :
    Bool :=
  (bond j).exists_ && j != i && decide ((bond j).type < 3) &&
    decide (|angle_between_bonds G bond i j atom| < G.D_T_TOLERANCE) &&
    decide (bond_length G bond j atom > avg / 3)

/-- The distance `fabs(distance_from_bond_y(...))` of atom `p` from the line of bond `i`. -/
def beside_line (G : Geometry) (atom : Atoms) (bond : Bonds) (i p : Nat) : ℚ :=
  |G.distance_from_bond_y (atom (bond i).a).x (atom (bond i).a).y (atom (bond i).b).x
    (atom (bond i).b).y (atom p).x (atom p).y|

/-- The distance `distance_from_bond_x_a(...)` of atom `p` from the `a` end of bond `i`,
measured along the bond. -/
def along_line (G : Geometry) (atom : Atoms) (bond : Bonds) (i p : Nat) : ℚ :=
  G.distance_from_bond_x_a (atom (bond i).a).x (atom (bond i).a).y (atom (bond i).b).x
    (atom (bond i).b).y (atom p).x (atom p).y

/-- The body of the inner loop of `fix_one_sided_bonds` for the bond `i`, whose length `l`
was taken when its round began, and the bond `j`. -/
def one_sided_pair (G : Geometry) (thickness avg l : ℚ) (atom : Atoms) (i j : Nat)
    (s : Bonds × Nat) : Bonds × Nat :=
  if one_sided_candidate G avg atom i j s.1 then
    if beside_line G atom s.1 i (s.1 j).a < thickness ∧
        ¬ ((s.1 j).a = (s.1 i).b ∨ (s.1 j).a = (s.1 i).a) then
      if along_line G atom s.1 i (s.1 j).a > 0 ∧ along_line G atom s.1 i (s.1 j).a < l then
        if (s.1 j).b = (s.1 i).b ∨ (s.1 j).b = (s.1 i).a then (kill s.1 j, s.2)
        else split_bond G i j true s
      else s
    else if beside_line G atom s.1 i (s.1 j).b < thickness ∧
        ¬ ((s.1 j).b = (s.1 i).b ∨ (s.1 j).b = (s.1 i).a) then
      if along_line G atom s.1 i (s.1 j).b > 0 ∧ along_line G atom s.1 i (s.1 j).b < l then
        if (s.1 j).a = (s.1 i).b ∨ (s.1 j).a = (s.1 i).a then (kill s.1 j, s.2)
        else split_bond G i j false s
      else s
    else s
  else s

/-- The loop `for (int j = 0; j < n_bond; j++)` for the bond `i`; `n_bond` may grow inside
the body, and never beyond `MAX_ATOMS`, so `n_bond + MAX_ATOMS` rounds are enough. -/
def one_sided_row (G : Geometry) (thickness avg l : ℚ) (atom : Atoms) (i : Nat)
    (s : Bonds × Nat) : Bonds × Nat :=
  (whileLoop (fun (t : (Bonds × Nat) × Nat) => decide (t.2 < t.1.2))
    (fun t => (one_sided_pair G thickness avg l atom i t.2 t.1, t.2 + 1))
    (s.2 + G.MAX_ATOMS) (s, 0)).1

/-- The function `fix_one_sided_bonds(bond, n_bond, atom, thickness, avg)`: the loop
`for (int i = 0; i < n_bond; i++)`; it returns `n_bond`, and the atoms are `const`. -/
def fix_one_sided_bonds (G : Geometry) (bond : Bonds) (n_bond : Nat) (atom : Atoms)
    (thickness avg : ℚ) : Bonds × Nat :=
  (whileLoop (fun (t : (Bonds × Nat) × Nat) => decide (t.2 < t.1.2))
    (fun t =>
      (if (t.1.1 t.2).exists_ && decide ((t.1.1 t.2).type < 3) &&
          decide (bond_length G t.1.1 t.2 atom > avg / 3)
        then one_sided_row G thickness avg (bond_length G t.1.1 t.2 atom) atom t.2 t.1
        else t.1, t.2 + 1))
    (n_bond + G.MAX_ATOMS) ((bond, n_bond), 0)).1

/-- A long horizontal bond from `(0, 0)` to `(30, 0)` and a vertical bond that ends on it at
`(10, 0)`, at a separate atom. -/
def tee_atoms : Atoms :=
  arena atom0 [atom_at 0 0, atom_at 30 0, atom_at 10 0, atom_at 10 20]

/-- The bonds of `tee_atoms`: the long bond 0 from atom 0 to atom 1, a wedge of order 2, and
the bond 1 from atom 2 to atom 3. -/
def tee_bonds : Bonds :=
  arena bond0 [{ single 0 1 with type := 2, wedge := true, arom := true, curve := 7 },
    single 2 3]

/-- The state `t` (the bonds and `n_bond`) comes from the state `s` by the split of bond `i`
at the atom `p`: the entry `bond[n_bond]` of `s` now holds an existing bond from `p` to the
former `b` end of bond `i` with the order, the curve and the flags `hash`, `wedge`, `arom`,
`conjoined` of bond `i`, bond `i` ends at `p` and is no wedge, no other bond has changed, and
`n_bond` has gone through `n_bond++; if (n_bond >= MAX_ATOMS) n_bond--;`. -/
structure SplitAt (G : Geometry) (i p : Nat) (s t : Bonds × Nat) : Prop where
  count : t.2 = bump G s.2
  piece : t.1 s.2
    = { a := p, b := (s.1 i).b, type := (s.1 i).type, curve := (s.1 i).curve, exists_ := true
        hash := (s.1 i).hash, wedge := (s.1 i).wedge, up := false, down := false
        Small := false, arom := (s.1 i).arom, conjoined := (s.1 i).conjoined }
  cut : t.1 i = { s.1 i with b := p, wedge := false }
  rest : ∀ k, k ≠ i → k ≠ s.2 → t.1 k = s.1 k

/-- The conditions under which the body of the inner loop of `fix_one_sided_bonds` splits
bond `i` at the atom `p` in the state `s`: `i` and `j` are bonds below `n_bond`, bond `i`
exists, bond `j` passes the test of the inner loop, `p` is an end of bond `j`, no end of
bond `j` is an end of bond `i`, `p` is nearer than `thickness` to the line of bond `i`, and
its distance along bond `i` from the `a` end is positive. -/
structure SplitsAt (G : Geometry) (atom : Atoms) (thickness avg : ℚ) (i j p : Nat)
    (s : Bonds × Nat) : Prop where
  i_lt : i < s.2
  j_lt : j < s.2
  i_exists : (s.1 i).exists_ = true
  candidate : one_sided_candidate G avg atom i j s.1 = true
  is_end : p = (s.1 j).a ∨ p = (s.1 j).b
  no_share : (s.1 j).a ≠ (s.1 i).a ∧ (s.1 j).a ≠ (s.1 i).b ∧
    (s.1 j).b ≠ (s.1 i).a ∧ (s.1 j).b ≠ (s.1 i).b
  beside : beside_line G atom s.1 i p < thickness
  along : 0 < along_line G atom s.1 i p

/-- The conditions under which the body of the inner loop of `fix_one_sided_bonds` switches
bond `j` off in the state `s`: bond `j` passes the test of the inner loop for the existing
bond `i`, and one end of bond `j` is an end of bond `i`. -/
structure DropsAt (G : Geometry) (atom : Atoms) (avg : ℚ) (i j : Nat) (s : Bonds × Nat) :
    Prop where
  i_lt : i < s.2
  j_lt : j < s.2
  i_exists : (s.1 i).exists_ = true
  candidate : one_sided_candidate G avg atom i j s.1 = true
  share : (s.1 j).a = (s.1 i).a ∨ (s.1 j).a = (s.1 i).b ∨
    (s.1 j).b = (s.1 i).a ∨ (s.1 j).b = (s.1 i).b

/-- The states that are reached from the state `s0` by changes of the two kinds that the
body of the inner loop of `fix_one_sided_bonds` makes, with the number of the splits among
them: a bond is switched off (`DropsAt`), or a bond is split (`SplitsAt`, `SplitAt`). -/
inductive OneSidedRun (G : Geometry) (atom : Atoms) (thickness avg : ℚ) (s0 : Bonds × Nat) :
    Nat → Bonds × Nat → Prop
  | begin : OneSidedRun G atom thickness avg s0 0 s0
  | drop (k : Nat) (s : Bonds × Nat) (i j : Nat) :
      OneSidedRun G atom thickness avg s0 k s → DropsAt G atom avg i j s →
      OneSidedRun G atom thickness avg s0 k (kill s.1 j, s.2)
  | split (k : Nat) (s t : Bonds × Nat) (i j p : Nat) :
      OneSidedRun G atom thickness avg s0 k s → SplitsAt G atom thickness avg i j p s →
      SplitAt G i p s t → OneSidedRun G atom thickness avg s0 (k + 1) t

/-- The value of `n_bond` after `k` splits from the value `n`: every split raises it by
one, except that it is not raised to `MAX_ATOMS` or beyond. -/
def split_count (G : Geometry) (n k : Nat) : Nat :=
  min (n + k) (max n (G.MAX_ATOMS - 1))
/-- The long horizontal bond from `(0, 0)` to `(30, 0)` and two vertical bonds that end on it
at `(10, 0)` and at `(20, 0)`, at separate atoms. -/
def comb_atoms : Atoms :=
  arena atom0 [atom_at 0 0, atom_at 30 0, atom_at 10 0, atom_at 10 20, atom_at 20 0,
    atom_at 20 20]

/-- The bonds of `comb_atoms`: the long bond 0 from atom 0 to atom 1, the bond 1 from atom 2
to atom 3 and the bond 2 from atom 4 to atom 5. -/
def comb_bonds : Bonds :=
  arena bond0 [single 0 1, single 2 3, single 4 5]

/-! ## `extend_terminal_bond_to_bonds` (lines 736-856) -/

/-- The variables `found`, `l`, `minb` of a search for the atom to snap to. -/
structure snap_t where
  found : Bool
  l : Nat
  minb : ℚ

/-- The test and the assignments for one candidate atom `p` (an end `ai` or `bi` of bond
`i`) in the search for the `a` end of bond `j`: `d` is measured from the `a` end of `j`, and
`d < bl / 2` is asked. -/
def try_atom_a (G : Geometry) (avg bl y_dist y_dist1 h1 xa ya xb yb : ℚ) (atom : Atoms)
    (bond : Bonds) (j p : Nat) (s : snap_t) : snap_t :=
  if p ≠ (bond j).a ∧ p ≠ (bond j).b then
    if |G.distance_from_bond_x_a xa ya xb yb (atom p).x (atom p).y| ≤ avg / 2 ∧
        |G.distance_from_bond_y xa ya xb yb (atom p).x (atom p).y| ≤ y_dist ∧
        |G.distance_from_bond_x_a xa ya xb yb (atom p).x (atom p).y| < s.minb ∧
        G.distance_from_bond_x_a xa ya xb yb (atom p).x (atom p).y < bl / 2 ∧ h1 < y_dist1 then
      { found := true, l := p,
        minb := |G.distance_from_bond_x_a xa ya xb yb (atom p).x (atom p).y| }
    else s
  else s

/-- The test and the assignments for one candidate atom `p` in the search for the `b` end
of bond `j`: `d` is measured from the `b` end of `j`, and `d > -bl / 2` is asked. -/
def try_atom_b (G : Geometry) (avg bl y_dist y_dist1 h1 xa ya xb yb : ℚ) (atom : Atoms)
    (bond : Bonds) (j p : Nat) (s : snap_t) : snap_t :=
  if p ≠ (bond j).a ∧ p ≠ (bond j).b then
    if |G.distance_from_bond_x_b xa ya xb yb (atom p).x (atom p).y| ≤ avg / 2 ∧
        |G.distance_from_bond_y xa ya xb yb (atom p).x (atom p).y| ≤ y_dist ∧
        |G.distance_from_bond_x_b xa ya xb yb (atom p).x (atom p).y| < s.minb ∧
        G.distance_from_bond_x_b xa ya xb yb (atom p).x (atom p).y > -bl / 2 ∧ h1 < y_dist1 then
      { found := true, l := p,
        minb := |G.distance_from_bond_x_b xa ya xb yb (atom p).x (atom p).y| }
    else s
  else s

/-- The limit `y_dist` or `y_dist1`: `maxh`, raised by `max_dist_double_bond` for a bond of
order above 1 that is not conjoined. -/
def snap_limit (maxh max_dist_double_bond : ℚ) (b : bond_t) : ℚ :=
  if b.type > 1 ∧ b.conjoined = false then maxh + max_dist_double_bond else maxh

/-- The search loop for the terminal `a` end of bond `j` (lines 757-795); `xa`, `ya`, `xb`,
`yb`, `bl` and `not_corner_a` were taken at the head of the round of `j`. -/
def snap_search_a (G : Geometry) (avg maxh max_dist_double_bond : ℚ) (n_bond j : Nat)
    (xa ya xb yb bl : ℚ) (not_corner_a : Bool) (atom : Atoms) (bond : Bonds) : snap_t :=
  forLoop (fun i (s : snap_t) =>
    if (bond i).exists_ && i != j then
      if not_corner_a then
        let h1 := |G.distance_from_bond_y (atom (bond i).a).x (atom (bond i).a).y
          (atom (bond i).b).x (atom (bond i).b).y xa ya|
        let y_dist := snap_limit maxh max_dist_double_bond (bond j)
        let y_dist1 := snap_limit maxh max_dist_double_bond (bond i)
        try_atom_a G avg bl y_dist y_dist1 h1 xa ya xb yb atom bond j (bond i).b
          (try_atom_a G avg bl y_dist y_dist1 h1 xa ya xb yb atom bond j (bond i).a s)
      else s
    else s) n_bond { found := false, l := 0, minb := FLT_MAX }

/-- The search loop for the terminal `b` end of bond `j` (lines 805-843). -/
def snap_search_b (G : Geometry) (avg maxh max_dist_double_bond : ℚ) (n_bond j : Nat)
    (xa ya xb yb bl : ℚ) (not_corner_b : Bool) (atom : Atoms) (bond : Bonds) : snap_t :=
  forLoop (fun i (s : snap_t) =>
    if (bond i).exists_ && i != j then
      if not_corner_b then
        let h1 := |G.distance_from_bond_y (atom (bond i).a).x (atom (bond i).a).y
          (atom (bond i).b).x (atom (bond i).b).y xb yb|
        let y_dist := snap_limit maxh max_dist_double_bond (bond j)
        let y_dist1 := snap_limit maxh max_dist_double_bond (bond i)
        try_atom_b G avg bl y_dist y_dist1 h1 xa ya xb yb atom bond j (bond i).b
          (try_atom_b G avg bl y_dist y_dist1 h1 xa ya xb yb atom bond j (bond i).a s)
      else s
    else s) n_bond { found := false, l := 0, minb := FLT_MAX }

/-- The snap of an end of bond `j` that lies at atom `e` to the atom `l` (lines 796-802 and
844-850): atom `l` moves to the middle between atom `e` and itself. -/
def snap_atom (atom : Atoms) (e l : Nat) : Atoms :=
  let atom := upd atom l { atom l with x := ((atom e).x + (atom l).x) / 2 }
  upd atom l { atom l with y := ((atom e).y + (atom l).y) / 2 }

/-- The state of `extend_terminal_bond_to_bonds`: the atoms, the bonds and the flag
`found_intersection`. -/
structure snap_state where
  atom : Atoms
  bond : Bonds
  found_intersection : Bool

/-- The first half of the round of bond `j`: the search for its `a` end and the snap. -/
def snap_a (G : Geometry) (avg maxh max_dist_double_bond : ℚ) (n_bond j : Nat)
    (xa ya xb yb bl : ℚ) (not_corner_a : Bool) (s : snap_state) : snap_state :=
  if (snap_search_a G avg maxh max_dist_double_bond n_bond j xa ya xb yb bl not_corner_a
      s.atom s.bond).found then
    { atom := snap_atom s.atom (s.bond j).a
        (snap_search_a G avg maxh max_dist_double_bond n_bond j xa ya xb yb bl not_corner_a
          s.atom s.bond).l
      bond := upd s.bond j { s.bond j with
        a := (snap_search_a G avg maxh max_dist_double_bond n_bond j xa ya xb yb bl not_corner_a
          s.atom s.bond).l }
      found_intersection := true }
  else s

/-- The second half of the round of bond `j`: the search for its `b` end and the snap. -/
def snap_b (G : Geometry) (avg maxh max_dist_double_bond : ℚ) (n_bond j : Nat)
    (xa ya xb yb bl : ℚ) (not_corner_b : Bool) (s : snap_state) : snap_state :=
  if (snap_search_b G avg maxh max_dist_double_bond n_bond j xa ya xb yb bl not_corner_b
      s.atom s.bond).found then
    { atom := snap_atom s.atom (s.bond j).b
        (snap_search_b G avg maxh max_dist_double_bond n_bond j xa ya xb yb bl not_corner_b
          s.atom s.bond).l
      bond := upd s.bond j { s.bond j with
        b := (snap_search_b G avg maxh max_dist_double_bond n_bond j xa ya xb yb bl not_corner_b
          s.atom s.bond).l }
      found_intersection := true }
  else s

/-- The round of bond `j` (lines 745-851): the tests `terminal_bond` of the two ends, the
positions of the two ends and the length of the bond are taken once, at its head. -/
def extend_terminal_bond (G : Geometry) (avg maxh max_dist_double_bond : ℚ) (n_bond j : Nat)
    (s : snap_state) : snap_state :=
  if (s.bond j).exists_ then
    snap_b G avg maxh max_dist_double_bond n_bond j
      (s.atom (s.bond j).a).x (s.atom (s.bond j).a).y (s.atom (s.bond j).b).x
      (s.atom (s.bond j).b).y (bond_length G s.bond j s.atom)
      (terminal_bond (s.bond j).b j s.bond n_bond)
      (snap_a G avg maxh max_dist_double_bond n_bond j
        (s.atom (s.bond j).a).x (s.atom (s.bond j).a).y (s.atom (s.bond j).b).x
        (s.atom (s.bond j).b).y (bond_length G s.bond j s.atom)
        (terminal_bond (s.bond j).a j s.bond n_bond) s)
  else s

/-- One pass of the loop `while (found_intersection)`: the flag is cleared and the loop over
the bonds runs. -/
def extend_terminal_pass (G : Geometry) (avg maxh max_dist_double_bond : ℚ) (n_bond : Nat)
    (s : snap_state) : snap_state :=
  forLoop (extend_terminal_bond G avg maxh max_dist_double_bond n_bond) n_bond
    { s with found_intersection := false }

/-- The number of terminal ends of bond `k`: 0 for a bond that does not exist. -/
def terminal_ends_of (bond : Bonds) (n_bond k : Nat) : Nat :=
  if (bond k).exists_ then
    (if terminal_bond (bond k).a k bond n_bond then 1 else 0)
      + (if terminal_bond (bond k).b k bond n_bond then 1 else 0)
  else 0

/-- The number of terminal ends of the existing bonds below `n_bond`. -/
def terminal_ends (bond : Bonds) (n_bond : Nat) : Nat :=
  ((List.range n_bond).map (terminal_ends_of bond n_bond)).sum

/-- The function `extend_terminal_bond_to_bonds(atom, bond, n_bond, avg, maxh,
max_dist_double_bond)`.  A pass that snaps an end leaves fewer terminal ends, and there are
at most `2 * n_bond` of them, so `2 * n_bond + 1` passes are enough. -/
def extend_terminal_bond_to_bonds (G : Geometry) (atom : Atoms) (bond : Bonds) (n_bond : Nat)
    (avg maxh max_dist_double_bond : ℚ) : snap_state :=
  whileLoop (fun (s : snap_state) => s.found_intersection)
    (extend_terminal_pass G avg maxh max_dist_double_bond n_bond) (2 * n_bond + 1)
    { atom := atom, bond := bond, found_intersection := true }

/-- Two bonds that nearly meet: bond 0 from `(0, 0)` to `(10, 0)` and bond 1 from `(12, 0)`
to `(12, 10)`. -/
def gap_atoms : Atoms :=
  arena atom0 [atom_at 0 0, atom_at 10 0, atom_at 12 0, atom_at 12 10]

/-- The bonds of `gap_atoms`. -/
def gap_bonds : Bonds :=
  arena bond0 [single 0 1, single 2 3]

/-! ## `count_area` (lines 1176-1219)

The grid `box` is a `vector<vector<int>>` with `w = box.size()` columns of `h = box[0].size()`
cells; the model addresses it by a pair of `int` indices.  The counters `a`, `xm`, `ym` are
`int`: their additions wrap around at 32 bits in the model (`wrap_int`); `count_area_fills`
is stated for the grids on which they cannot overflow, and
`count_area_overflows_on_long_row` evaluates a grid on which the sum `xm` does. -/

/-- The value of an `int` computation: the representative of `v` modulo `2^32` between
`-2^31` and `2^31 - 1`. -/
def wrap_int (v : Int) : Int := (v + 2147483648) % 4294967296 - 2147483648

/-- The assignment `box[i][j] = v`. -/
def set_cell (box : Int → Int → Int) (i j v : Int) : Int → Int → Int :=
  fun x y => if x = i ∧ y = j then v else box x y

/-- The variables of the loop of `count_area`: the grid, the two lists `cx`, `cy` and the
counters `a`, `xm`, `ym`. -/
structure fill_t where
  box : Int → Int → Int
  cx : List Int
  cy : List Int
  a : Int
  xm : Int
  ym : Int

/-- The body of the two nested neighbour loops for the cell `(i, j)`. -/
def fill_visit (w h : Nat) (i j : Int) (s : fill_t) : fill_t :=
  if i < w ∧ j < h ∧ i ≥ 0 ∧ j ≥ 0 ∧ s.box i j = 1 then
    { s with cx := s.cx ++ [i], cy := s.cy ++ [j], box := set_cell s.box i j 2 }
  else s

/-- One round of the loop `while (!cx.empty())`: the front cell is taken off the lists, set
to 0 and counted, and its neighbours that are 1 are appended and set to 2. -/
def fill_round (w h : Nat) (s : fill_t) : fill_t :=
  forLoop (fun di t =>
    forLoop (fun dj t => fill_visit w h (s.cx.headD 0 - 1 + di) (s.cy.headD 0 - 1 + dj) t) 3 t)
    3
    { box := set_cell s.box (s.cx.headD 0) (s.cy.headD 0) 0, cx := s.cx.tail, cy := s.cy.tail,
      a := wrap_int (s.a + 1), xm := wrap_int (s.xm + s.cx.headD 0),
      ym := wrap_int (s.ym + s.cy.headD 0) }

/-- The state in which the loop of `count_area` starts from the cell `(x, y)`: the cell is
set to 2 and is the only member of the lists. -/
def fill_start (box : Int → Int → Int) (x y : Int) : fill_t :=
  { box := set_cell box x y 2, cx := [x], cy := [y], a := 0, xm := 0, ym := 0 }

/-- The loop `while (!cx.empty())` of `count_area`, run for at most `fuel` rounds. -/
def count_area_loop (box : Int → Int → Int) (w h : Nat) (x y : Int) (fuel : Nat) : fill_t :=
  whileLoop (fun (s : fill_t) => !s.cx.isEmpty) (fill_round w h) fuel (fill_start box x y)

/-- The function `count_area(box, x0, y0)`: the value it returns, the grid it leaves, and
the values it leaves in `x0` and `y0`.  Every round takes a cell off the lists and every cell
is appended at most once, so `w * h + 1` rounds are enough. -/
def count_area (box : Int → Int → Int) (w h : Nat) (x0 y0 : ℚ) :
    Int × (Int → Int → Int) × ℚ × ℚ :=
  if box (to_int x0) (to_int y0) = 1 then
    let s := count_area_loop box w h (to_int x0) (to_int y0) (w * h + 1)
    (s.a, s.box, 1 * (s.xm : ℚ) / (s.a : ℚ), 1 * (s.ym : ℚ) / (s.a : ℚ))
  else (0, box, x0, y0)

/-- The cell `q` is one of the eight neighbours of the cell `p`, or `p` itself. -/
def Adjacent (p q : Int × Int) : Prop :=
  (q.1 = p.1 - 1 ∨ q.1 = p.1 ∨ q.1 = p.1 + 1) ∧ (q.2 = p.2 - 1 ∨ q.2 = p.2 ∨ q.2 = p.2 + 1)

/-- The cell `q` lies in the grid and holds 1. -/
def OneCell (box : Int → Int → Int) (w h : Nat) (q : Int × Int) : Prop :=
  0 ≤ q.1 ∧ q.1 < w ∧ 0 ≤ q.2 ∧ q.2 < h ∧ box q.1 q.2 = 1

/-- The 8-connected component of the cell `s` among the cells of the grid that hold 1. -/
def Component (box : Int → Int → Int) (w h : Nat) (s p : Int × Int) : Prop :=
  Relation.ReflTransGen (fun u v => Adjacent u v ∧ OneCell box w h v) s p

/-- The nine cells that the neighbour loops visit around the cell `(x, y)`, in the order of
the loops. -/
def nine (x y : Int) : List (Int × Int) :=
  [(x - 1 + (0 : Nat), y - 1 + (0 : Nat)), (x - 1 + (0 : Nat), y - 1 + (1 : Nat)),
   (x - 1 + (0 : Nat), y - 1 + (2 : Nat)), (x - 1 + (1 : Nat), y - 1 + (0 : Nat)),
   (x - 1 + (1 : Nat), y - 1 + (1 : Nat)), (x - 1 + (1 : Nat), y - 1 + (2 : Nat)),
   (x - 1 + (2 : Nat), y - 1 + (0 : Nat)), (x - 1 + (2 : Nat), y - 1 + (1 : Nat)),
   (x - 1 + (2 : Nat), y - 1 + (2 : Nat))]

/-- The invariant of the loop of `count_area` on the grid `B` with start cell `s0`: `P` are
the cells counted so far and the lists hold the cells still to be counted, `cur` is the cell
whose neighbours are being visited and `seen` the neighbours visited. -/
structure Filling (B : Int → Int → Int) (w h : Nat) (s0 : Int × Int) (P : List (Int × Int))
    (cur : Int × Int) (seen : List (Int × Int)) (s : fill_t) : Prop where
  len : s.cx.length = s.cy.length
  nodup : (P ++ s.cx.zip s.cy).Nodup
  comp : ∀ p, p ∈ P ++ s.cx.zip s.cy → OneCell B w h p ∧ Component B w h s0 p
  box_done : ∀ p, p ∈ P → s.box p.1 p.2 = 0
  box_wait : ∀ p, p ∈ s.cx.zip s.cy → s.box p.1 p.2 = 2
  box_rest : ∀ p, p ∉ P ++ s.cx.zip s.cy → s.box p.1 p.2 = B p.1 p.2
  count : s.a = wrap_int P.length ∧ s.xm = wrap_int (P.map Prod.fst).sum ∧
    s.ym = wrap_int (P.map Prod.snd).sum
  closed : ∀ p q, p ∈ P → p ≠ cur ∨ q ∈ seen → Adjacent p q → OneCell B w h q →
    q ∈ P ++ s.cx.zip s.cy
  start_in : s0 ∈ P ++ s.cx.zip s.cy

/-- A 4 by 4 grid for the examples: the cells (1,1), (2,1), (2,2) hold 1 and touch each
other, the cell (0,3) holds 1 and touches none of them, every other cell holds 0. -/
def tiny_box : Int → Int → Int :=
  fun i j => if (i, j) ∈ [((1 : Int), (1 : Int)), (2, 1), (2, 2), (0, 3)] then 1 else 0

/-- A grid of one row of 65537 columns for the examples: every cell holds 1. -/
def long_row : Int → Int → Int :=
  fun i j => if 0 ≤ i ∧ i < 65537 ∧ j = 0 then 1 else 0

/-! ## `find_dashed_bonds`: the loop over the paths (lines 1224-1351)

The grid `box` holds `get_pixel(img, bg, i, j, THRESHOLD)` for the pixels `(i, j)` of the
image.  For a thick dash `count_area` starts from the mean of the clamped control points,
which the clamps keep within `0 .. width` and `0 .. height`, so a start cell in column
`width` or row `height` is not excluded by the source; the grid of the model is read there
like anywhere else.  The array `dot` has 100 entries in the source; the model's array is
addressed by every index, and the statements about it say which indices the code uses. -/

/-- The statements `cx = point.x; if (cx<0) cx=0; if (cx>width) cx=width;` for a coordinate
`v` of a control point: the conversion to `int` and the two clamps. -/
def clamp_coord (v : ℚ) (hi : Int) : Int :=
  if (if to_int v < 0 then 0 else to_int v) > hi then hi
  else (if to_int v < 0 then 0 else to_int v)

/-- The running values for one curve: the sums `dot[n_dot].x`, `dot[n_dot].y`, the box `l`,
`r`, `t`, `b`, and the count `tot`. -/
structure dot_box where
  x : ℚ
  y : ℚ
  l : ℚ
  r : ℚ
  t : ℚ
  b : ℚ
  tot : Int

/-- The statements for one control point: it is clamped and added to the sums, and the box
is adjusted (the last test of the source reads `if (cx > b) b = cy;`). -/
def add_point (width height : Int) (pt : potrace_dpoint_t) (s : dot_box) : dot_box :=
  { s with
    x := s.x + clamp_coord pt.x width
    y := s.y + clamp_coord pt.y height
    l := if (clamp_coord pt.x width : ℚ) < s.l then clamp_coord pt.x width else s.l
    r := if (clamp_coord pt.x width : ℚ) > s.r then clamp_coord pt.x width else s.r
    t := if (clamp_coord pt.y height : ℚ) < s.t then clamp_coord pt.y height else s.t
    b := if (clamp_coord pt.x width : ℚ) > s.b then clamp_coord pt.y height else s.b }

/-- The body of the loop `for (long i = 0; i < n; i++)` of `find_dashed_bonds` for segment
`i` of `n`. -/
def add_segment (width height : Int) (n i : Nat) (sg : segment_t) (s : dot_box) : dot_box :=
  let s1 :=
    if sg.tag = POTRACE_CORNER then
      { add_point width height sg.c1 s with tot := s.tot + 1 }
    else if sg.tag = POTRACE_CURVETO then
      { add_point width height sg.c1 (add_point width height sg.c0 s) with tot := s.tot + 2 }
    else s
  if i != n - 1 then { add_point width height sg.c2 s1 with tot := s1.tot + 1 } else s1

/-- The sums, the box and the count of the control points of a curve (lines 1241-1337). -/
def curve_box (width height : Int) (curve : List segment_t) : dot_box :=
  forLoop (fun i s => add_segment width height curve.length i (curve.getD i segment0) s)
    curve.length
    { x := clamp_coord (curve.getD (curve.length - 1) segment0).c2.x width
      y := clamp_coord (curve.getD (curve.length - 1) segment0).c2.y height
      l := clamp_coord (curve.getD (curve.length - 1) segment0).c2.x width
      r := clamp_coord (curve.getD (curve.length - 1) segment0).c2.x width
      t := clamp_coord (curve.getD (curve.length - 1) segment0).c2.y height
      b := clamp_coord (curve.getD (curve.length - 1) segment0).c2.y height
      tot := 1 }

/-- The variables of the loop over the paths: the array `dot`, its count `n_dot`, and the
grid `box`. -/
structure dots_t where
  dot : Dashes
  n_dot : Nat
  box : Int → Int → Int

/-- The body of the loop `while (p != NULL)` of `find_dashed_bonds` for one path (lines
1235-1350): a solid curve of area below `max` is written to `dot[n_dot]`, and `n_dot` is
incremented when the box of the curve is small, and decremented again when it reaches
100. -/
def collect_dot (G : Geometry) (img : Image) (max : Int) (avg : ℚ) (thick : Bool) (s : dots_t)
    (p : potrace_path_t) : dots_t :=
  if p.sign = PLUS ∧ p.area < max then
    let cb := curve_box img.columns img.rows p.curve
    let ca := count_area s.box img.columns img.rows (cb.x / cb.tot) (cb.y / cb.tot)
    let d : dash_t :=
      if thick then { x := ca.2.2.1, y := ca.2.2.2, curve := p.id, free := true, area := ca.1 }
      else { x := cb.x / cb.tot, y := cb.y / cb.tot, curve := p.id, free := true,
             area := p.area }
    let n1 := if G.distance cb.l cb.t cb.r cb.b < avg / 3 then s.n_dot + 1 else s.n_dot
    { dot := upd s.dot s.n_dot d
      n_dot := if n1 ≥ 100 then n1 - 1 else n1
      box := if thick then ca.2.1 else s.box }
  else s

/-- An entry of `dot` that has not been written. -/
def dash0 : dash_t := { x := 0, y := 0, curve := 0, free := false, area := 0 }

/-- The first part of `find_dashed_bonds` on the chain of paths `ps` (lines 1224-1351): the
array `dot` with its count and the grid it leaves. -/
def collect_dots (G : Geometry) (img : Image) (max : Int) (avg : ℚ) (thick : Bool)
    (ps : List potrace_path_t) : dots_t :=
  ps.foldl (collect_dot G img max avg thick)
    { dot := fun _ => dash0, n_dot := 0, box := fun i j => img.get_pixel i j }

/-- The group with which the loop `while (n > 1 && found)` starts for the dot `i` (lines
1355-1388): `dash[0]` is the dot `i`, and the nearest free dot after it within `dist`, if
there is one, is `dash[1]`; the second component is `next_dot`. -/
def gather_start (G : Geometry) (dist : ℚ) (dot : Dashes) (n_dot i : Nat) : dash_group × Nat :=
  let dot1 := upd dot i { dot i with free := false }
  let s := nearest_to_first G dist dot1 n_dot i (dot i)
  let g0 : dash_group :=
    { dot := dot1, dash := upd (fun _ => dot i) 1 s.1, n := 1, found := true,
      l := (dot i).x, r := (dot i).x, t := (dot i).y, b := (dot i).y,
      mx := (dot i).x, my := (dot i).y }
  (if s.2.2 != i then
      take_dash { g0 with dot := upd dot1 s.2.2 { dot1 s.2.2 with free := false } }
    else g0, s.2.2)

/-- The group of the dot `i` at the head of the loop `while (n > 1 && found)` after at most
`k` rounds. -/
def gather_rounds (G : Geometry) (V_DISPLACEMENT dist : ℚ) (dot : Dashes) (n_dot i k : Nat) :
    dash_group :=
  whileLoop (fun g => decide (g.n > 1) && g.found)
    (grow_group G V_DISPLACEMENT dist n_dot (gather_start G dist dot n_dot i).2) k
    (gather_start G dist dot n_dot i).1

/-- The function `find_dashed_bonds(p, atom, bond, n_atom, n_bond, max, avg, img, bg,
THRESHOLD, thick, dist)` on the chain of paths `ps`: the graph it leaves, with the atom count
it returns and the bond count it stores in `*n_bond`. -/
def find_dashed_bonds_paths (G : Geometry) (ops : CurveOps) (V_DISPLACEMENT : ℚ)
    (ps : List potrace_path_t) (g : graph_t) (max : Int) (avg : ℚ) (img : Image) (thick : Bool)
    (dist : ℚ) : graph_t :=
  find_dashed_bonds G ops V_DISPLACEMENT dist (collect_dots G img max avg thick ps).dot
    (collect_dots G img max avg thick ps).n_dot g

/-- A square curve of four corners with centre `(x, y)` and side 2. -/
def square_path (id : Nat) (x y : ℚ) : potrace_path_t :=
  .mk id 43 4
    [{ tag := POTRACE_CORNER, c0 := ⟨0, 0⟩, c1 := ⟨x - 1, y - 1⟩, c2 := ⟨x, y - 1⟩ },
     { tag := POTRACE_CORNER, c0 := ⟨0, 0⟩, c1 := ⟨x + 1, y - 1⟩, c2 := ⟨x + 1, y⟩ },
     { tag := POTRACE_CORNER, c0 := ⟨0, 0⟩, c1 := ⟨x + 1, y + 1⟩, c2 := ⟨x, y + 1⟩ },
     { tag := POTRACE_CORNER, c0 := ⟨0, 0⟩, c1 := ⟨x - 1, y + 1⟩, c2 := ⟨x - 1, y⟩ }]
    none

/-- A picture 30 wide and 10 high with three dashes, squares of side 2 around (5,5), (12,5)
and (19,5). -/
def dash_image : Image :=
  { columns := 30, rows := 10
    get_pixel := fun x y =>
      if 4 ≤ y ∧ y ≤ 5 ∧ ((4 ≤ x ∧ x ≤ 5) ∨ (11 ≤ x ∧ x ≤ 12) ∨ (18 ≤ x ∧ x ≤ 19)) then 1
      else 0 }

/-- The curves of the three dashes of `dash_image`. -/
def dash_paths : List potrace_path_t :=
  [square_path 1 5 5, square_path 2 12 5, square_path 3 19 5]

/-! ## `remove_disconnected_atoms` (lines 37-53) -/

/-- The inner loop of `remove_disconnected_atoms` for atom `i`: the atom is switched on
again when an existing bond below `n_bond` has it as an end. -/
def reconnect_atom (bond : Bonds) (n_bond i : Nat) (atom : Atoms) : Atoms :=
  forLoop (fun j (atom : Atoms) =>
    if (bond j).exists_ && (decide (i = (bond j).a) || decide (i = (bond j).b)) then
      upd atom i { atom i with exists_ := true }
    else atom) n_bond atom

/-- The function `remove_disconnected_atoms(atom, bond, n_atom, n_bond)`: the atoms it
leaves; the bonds are only read. -/
def remove_disconnected_atoms (atom : Atoms) (bond : Bonds) (n_atom n_bond : Nat) : Atoms :=
  forLoop (fun i (atom : Atoms) =>
    if (atom i).exists_ then
      reconnect_atom bond n_bond i (upd atom i { atom i with exists_ := false })
    else atom) n_atom atom

/-- Some existing bond below `n_bond` has atom `i` as its end `a` or `b`. -/
def Bonded (bond : Bonds) (n_bond i : Nat) : Prop :=
  ∃ j, j < n_bond ∧ (bond j).exists_ = true ∧ ((bond j).a = i ∨ (bond j).b = i)

/-- Three atoms and one bond: the atoms 0 and 1 are joined by the bond, the atom 2 exists and
is not touched by any bond. -/
def lone_atoms : Atoms :=
  arena atom0 [{ atom0 with exists_ := true }, { atom0 with x := 10, exists_ := true },
    { atom0 with x := 20, label := "N", exists_ := true }]

/-- The one bond of `lone_atoms`. -/
def lone_bonds : Bonds :=
  arena bond0 [{ bond0 with a := 0, b := 1, exists_ := true }]

/-- The transposed image `T(I)`: rows and columns exchanged. -/
def transpose (image : Image) : Image :=
  { columns := image.rows, rows := image.columns
    get_pixel := fun x y => image.get_pixel y x }

/-! ## `getAnum` and `superatom` (`osra_rdkit.cpp`, lines 44-376)

The molecule `RWMol` belongs to the chemistry toolkit RDKit.  The model keeps what the code
of this file puts into it: the atomic numbers of its atoms, whose position in the list is
the atom index, and its bonds.  `mol->addAtom(a)` appends the atom and returns its index,
and `mol->addBond(i, j, order)` appends a bond; the code uses the value that `addAtom`
returns as an atom index in `addBond`. -/

/-- The bond orders `Bond::SINGLE`, `Bond::DOUBLE`, `Bond::TRIPLE`, `Bond::AROMATIC`. -/
inductive BondType where
  | SINGLE
  | DOUBLE
  | TRIPLE
  | AROMATIC
deriving DecidableEq

/-- A bond of a molecule: the indices of its two atoms and its order. -/
structure mol_bond where
  first : Nat
  second : Nat
  order : BondType
deriving DecidableEq

/-- The molecule: the atomic numbers of the atoms and the bonds. -/
structure RWMol where
  atoms : List Int
  bonds : List mol_bond
deriving DecidableEq

/-- The statements `Atom *a = new Atom(anum); aid = mol->addAtom(a);`: the molecule with
the new atom, and its index. -/
def RWMol.addAtom (mol : RWMol) (anum : Int) : RWMol × Nat :=
  ({ mol with atoms := mol.atoms ++ [anum] }, mol.atoms.length)

/-- The statement `mol->addBond(i, j, order)`. -/
def RWMol.addBond (mol : RWMol) (i j : Nat) (order : BondType) : RWMol :=
  { mol with bonds := mol.bonds ++ [{ first := i, second := j, order := order }] }

/-- The function `addMeX(mol, aid)`. -/
def addMeX (mol : RWMol) (aid : Nat) : RWMol :=
  let m1 := mol.addAtom 6
  m1.1.addBond aid m1.2 .SINGLE

/-- The function `addOR(mol, aid)`; the query atom it adds has the atomic number 0. -/
def addOR (mol : RWMol) (aid : Nat) : RWMol :=
  let m1 := mol.addAtom 0
  m1.1.addBond aid m1.2 .SINGLE

/-- The function `addCF(mol, aid)`. -/
def addCF (mol : RWMol) (aid : Nat) : RWMol :=
  let m1 := mol.addAtom 9
  m1.1.addBond aid m1.2 .SINGLE

/-- The function `addCF3(mol, aid)`. -/
def addCF3 (mol : RWMol) (aid : Nat) : RWMol :=
  let m1 := mol.addAtom 9
  let m2 := m1.1.addAtom 9
  let m3 := m2.1.addAtom 9
  ((m3.1.addBond m1.2 aid .SINGLE).addBond m2.2 aid .SINGLE).addBond m3.2 aid .SINGLE

/-- The function `addF3CN(mol, aid)`. -/
def addF3CN (mol : RWMol) (aid : Nat) : RWMol :=
  let m1 := mol.addAtom 9
  let m2 := m1.1.addAtom 9
  let m3 := m2.1.addAtom 9
  let m4 := m3.1.addAtom 6
  (((m4.1.addBond m1.2 m4.2 .SINGLE).addBond m2.2 m4.2 .SINGLE).addBond m3.2 m4.2
    .SINGLE).addBond m4.2 aid .SINGLE

/-- The function `addPh(mol, aid)`. -/
def addPh (mol : RWMol) (aid : Nat) : RWMol :=
  let m1 := mol.addAtom 6
  let m2 := m1.1.addAtom 6
  let m3 := m2.1.addAtom 6
  let m4 := m3.1.addAtom 6
  let m5 := m4.1.addAtom 6
  (((((m5.1.addBond m1.2 m2.2 .AROMATIC).addBond m2.2 m3.2 .AROMATIC).addBond m3.2 m4.2
    .AROMATIC).addBond m4.2 m5.2 .AROMATIC).addBond m5.2 aid .AROMATIC).addBond m1.2 aid
    .AROMATIC

/-- The function `addBzO(mol, aid)`. -/
def addBzO (mol : RWMol) (aid : Nat) : RWMol :=
  let m1 := mol.addAtom 6
  let m2 := m1.1.addAtom 6
  let m3 := m2.1.addAtom 6
  let m4 := m3.1.addAtom 6
  let m5 := m4.1.addAtom 6
  let m6 := m5.1.addAtom 6
  let m := (((((m6.1.addBond m1.2 m2.2 .AROMATIC).addBond m2.2 m3.2 .AROMATIC).addBond m3.2
    m4.2 .AROMATIC).addBond m4.2 m5.2 .AROMATIC).addBond m5.2 m6.2 .AROMATIC).addBond m1.2
    m6.2 .AROMATIC
  let m7 := m.addAtom 6
  (m7.1.addBond m1.2 m7.2 .SINGLE).addBond aid m7.2 .SINGLE

/-- The function `addTHPO(mol, aid)`. -/
def addTHPO (mol : RWMol) (aid : Nat) : RWMol :=
  let m1 := mol.addAtom 6
  let m2 := m1.1.addAtom 8
  let m3 := m2.1.addAtom 6
  let m4 := m3.1.addAtom 6
  let m5 := m4.1.addAtom 6
  let m6 := m5.1.addAtom 6
  ((((((m6.1.addBond m1.2 m2.2 .SINGLE).addBond m2.2 m3.2 .SINGLE).addBond m3.2 m4.2
    .SINGLE).addBond m4.2 m5.2 .SINGLE).addBond m5.2 m6.2 .SINGLE).addBond m1.2 m6.2
    .SINGLE).addBond aid m1.2 .SINGLE

/-- The function `addNO2(mol, aid)`. -/
def addNO2 (mol : RWMol) (aid : Nat) : RWMol :=
  let m1 := mol.addAtom 8
  let m2 := m1.1.addAtom 8
  (m2.1.addBond m1.2 aid .DOUBLE).addBond m2.2 aid .DOUBLE

/-- The function `addNO(mol, aid)`. -/
def addNO (mol : RWMol) (aid : Nat) : RWMol :=
  let m1 := mol.addAtom 8
  m1.1.addBond m1.2 aid .DOUBLE

/-- The function `addNOHCH3(mol, aid)`. -/
def addNOHCH3 (mol : RWMol) (aid : Nat) : RWMol :=
  let m1 := mol.addAtom 6
  let m2 := m1.1.addAtom 8
  (m2.1.addBond m1.2 aid .SINGLE).addBond m2.2 aid .SINGLE

/-- The function `addSO3H(mol, aid)`. -/
def addSO3H (mol : RWMol) (aid : Nat) : RWMol :=
  let m1 := mol.addAtom 8
  let m2 := m1.1.addAtom 8
  let m3 := m2.1.addAtom 8
  ((m3.1.addBond m1.2 aid .SINGLE).addBond m2.2 aid .DOUBLE).addBond m3.2 aid .DOUBLE

/-- The function `addNC(mol, aid)`. -/
def addNC (mol : RWMol) (aid : Nat) : RWMol :=
  let m1 := mol.addAtom 7
  m1.1.addBond m1.2 aid .TRIPLE

/-- The function `addnBu(mol, aid)`. -/
def addnBu (mol : RWMol) (aid : Nat) : RWMol :=
  let m1 := mol.addAtom 6
  let m2 := m1.1.addAtom 6
  let m3 := m2.1.addAtom 6
  ((m3.1.addBond m2.2 m3.2 .SINGLE).addBond m1.2 m2.2 .SINGLE).addBond m3.2 aid .SINGLE

/-- The function `addiPr(mol, aid)`. -/
def addiPr (mol : RWMol) (aid : Nat) : RWMol :=
  let m1 := mol.addAtom 6
  let m2 := m1.1.addAtom 6
  (m2.1.addBond m1.2 m2.2 .SINGLE).addBond m2.2 aid .SINGLE

/-- The function `addEtO(mol, aid)`. -/
def addEtO (mol : RWMol) (aid : Nat) : RWMol :=
  let m1 := mol.addAtom 6
  let m2 := m1.1.addAtom 6
  (m2.1.addBond m1.2 m2.2 .SINGLE).addBond m2.2 aid .SINGLE

/-- The function `addOiBu(mol, aid)`. -/
def addOiBu (mol : RWMol) (aid : Nat) : RWMol :=
  let m1 := mol.addAtom 6
  let m2 := m1.1.addAtom 6
  let m3 := m2.1.addAtom 6
  let m4 := m3.1.addAtom 6
  (((m4.1.addBond aid m1.2 .SINGLE).addBond m1.2 m2.2 .SINGLE).addBond m2.2 m3.2
    .SINGLE).addBond m2.2 m4.2 .SINGLE

/-- The function `addtBu(mol, aid)`. -/
def addtBu (mol : RWMol) (aid : Nat) : RWMol :=
  let m1 := mol.addAtom 6
  let m2 := m1.1.addAtom 6
  let m3 := m2.1.addAtom 6
  ((m3.1.addBond m1.2 aid .SINGLE).addBond m2.2 aid .SINGLE).addBond m3.2 aid .SINGLE

/-- The function `addCOOH(mol, aid)`. -/
def addCOOH (mol : RWMol) (aid : Nat) : RWMol :=
  let m1 := mol.addAtom 8
  let m2 := m1.1.addAtom 8
  (m2.1.addBond m1.2 aid .DOUBLE).addBond m2.2 aid .SINGLE

/-- The function `addAc(mol, aid)`. -/
def addAc (mol : RWMol) (aid : Nat) : RWMol :=
  let m1 := mol.addAtom 8
  let m2 := m1.1.addAtom 6
  (m2.1.addBond m1.2 aid .DOUBLE).addBond m2.2 aid .SINGLE

/-- The function `addAcO(mol, aid)`. -/
def addAcO (mol : RWMol) (aid : Nat) : RWMol :=
  let m1 := mol.addAtom 6
  let m2 := m1.1.addAtom 8
  let m3 := m2.1.addAtom 6
  ((m3.1.addBond m2.2 m3.2 .DOUBLE).addBond m1.2 m3.2 .SINGLE).addBond m3.2 aid .SINGLE

/-- The function `getAnum(s)`. -/
def getAnum (s : String) : Int :=
  if s = "C" then 6
  else if s = "N" then 7
  else if s = "H" then 1
  else if s = "O" then 8
  else if s = "F" then 9
  else if s = "P" then 15
  else if s = "S" then 16
  else if s = "I" then 53
  else if s = "Cl" then 17
  else if s = "Br" then 35
  else if s = "X" then 0
  else if s = "Ar" then 18
  else if s = "MeO" then 8
  else if s = "CF" then 6
  else if s = "CF3" then 6
  else if s = "F3CN" then 7
  else if s = "CN" then 6
  else if s = "nBu" then 6
  else if s = "EtO" then 8
  else if s = "OiBu" then 8
  else if s = "iPr" then 6
  else if s = "tBu" then 6
  else if s = "COOH" then 6
  else if s = "Ac" then 6
  else if s = "AcO" then 8
  else if s = "NO2" then 7
  else if s = "NO" then 7
  else if s = "Ph" then 6
  else if s = "MeS" then 16
  else if s = "MeN" then 7
  else if s = "SO3H" then 16
  else if s = "OR" then 8
  else if s = "BzO" then 8
  else if s = "N(OH)CH3" then 7
  else if s = "THPO" then 8
  else 6

/-- The tests of `getAnum` as a table: the labels with the values returned for them, in the
order of the tests. -/
def anum_table : List (String × Int) :=
  [("C", 6), ("N", 7), ("H", 1), ("O", 8), ("F", 9), ("P", 15), ("S", 16), ("I", 53),
   ("Cl", 17), ("Br", 35), ("X", 0), ("Ar", 18), ("MeO", 8), ("CF", 6), ("CF3", 6),
   ("F3CN", 7), ("CN", 6), ("nBu", 6), ("EtO", 8), ("OiBu", 8), ("iPr", 6), ("tBu", 6),
   ("COOH", 6), ("Ac", 6), ("AcO", 8), ("NO2", 7), ("NO", 7), ("Ph", 6), ("MeS", 16),
   ("MeN", 7), ("SO3H", 16), ("OR", 8), ("BzO", 8), ("N(OH)CH3", 7), ("THPO", 8)]

/-- The labels that `getAnum` lists, in the order of its tests. -/
def anum_labels : List String := anum_table.map Prod.fst

/-- A chain of tests `if (s == k) return (v);` for the rows `(k, v)` of a table, ending
with `return (d);`. -/
def test_chain (d : Int) (s : String) : List (String × Int) → Int
  | [] => d
  | row :: rows => if s = row.1 then row.2 else test_chain d s rows

/-- The function `superatom(s, mol, n)`: the tests follow each other without `else`. -/
def superatom (s : String) (mol : RWMol) (n : Nat) : RWMol :=
  let mol := if s = "MeO" then addMeX mol n else mol
  let mol := if s = "CF" then addCF mol n else mol
  let mol := if s = "CF3" then addCF3 mol n else mol
  let mol := if s = "F3CN" then addF3CN mol n else mol
  let mol := if s = "CN" then addNC mol n else mol
  let mol := if s = "nBu" then addnBu mol n else mol
  let mol := if s = "EtO" then addEtO mol n else mol
  let mol := if s = "OiBu" then addOiBu mol n else mol
  let mol := if s = "iPr" then addiPr mol n else mol
  let mol := if s = "tBu" then addtBu mol n else mol
  let mol := if s = "COOH" then addCOOH mol n else mol
  let mol := if s = "Ac" then addAc mol n else mol
  let mol := if s = "AcO" then addAcO mol n else mol
  let mol := if s = "NO2" then addNO2 mol n else mol
  let mol := if s = "NO" then addNO mol n else mol
  let mol := if s = "Ph" then addPh mol n else mol
  let mol := if s = "MeS" then addMeX mol n else mol
  let mol := if s = "MeN" then addMeX mol n else mol
  let mol := if s = "SO3H" then addSO3H mol n else mol
  let mol := if s = "OR" then addOR mol n else mol
  let mol := if s = "BzO" then addBzO mol n else mol
  let mol := if s = "N(OH)CH3" then addNOHCH3 mol n else mol
  if s = "THPO" then addTHPO mol n else mol

/-- The statements of `get_smiles` that put a labelled atom into the molecule (lines
411-424): an atom with the atomic number `getAnum(label)` is added and `superatom` expands
the label at it. -/
def add_labelled_atom (label : String) (mol : RWMol) : RWMol :=
  superatom label (mol.addAtom (getAnum label)).1 (mol.addAtom (getAnum label)).2

/-- The two atoms `p` and `q` are joined by a bond of the molecule. -/
def Joined (mol : RWMol) (p q : Nat) : Prop :=
  ∃ b, b ∈ mol.bonds ∧ ((b.first = p ∧ b.second = q) ∨ (b.first = q ∧ b.second = p))

/-- A molecule without atoms and bonds. -/
def empty_mol : RWMol := { atoms := [], bonds := [] }

/-- The clamped control points that the body of the loop over the segments reads for
segment `i` of `n`, in the order in which it reads them. -/
def segment_points (width height : Int) (n i : Nat) (sg : segment_t) : List (Int × Int) :=
  (if sg.tag = POTRACE_CORNER then
      [(clamp_coord sg.c1.x width, clamp_coord sg.c1.y height)]
    else if sg.tag = POTRACE_CURVETO then
      [(clamp_coord sg.c0.x width, clamp_coord sg.c0.y height),
       (clamp_coord sg.c1.x width, clamp_coord sg.c1.y height)]
    else [])
  ++ (if i != n - 1 then [(clamp_coord sg.c2.x width, clamp_coord sg.c2.y height)] else [])

/-- The clamped control points of the first `m` segments of a curve, after the end point of
the last segment, with which the code starts. -/
def curve_points_upto (width height : Int) (curve : List segment_t) (m : Nat) :
    List (Int × Int) :=
  forLoop (fun i pts =>
      pts ++ segment_points width height curve.length i (curve.getD i segment0)) m
    [(clamp_coord (curve.getD (curve.length - 1) segment0).c2.x width,
      clamp_coord (curve.getD (curve.length - 1) segment0).c2.y height)]

/-- The clamped integer control points of a curve, in the order in which
`find_dashed_bonds` reads them. -/
def curve_points (width height : Int) (curve : List segment_t) : List (Int × Int) :=
  curve_points_upto width height curve curve.length

/-- A thin upright curve in a picture 30 wide and 60 high: its control points have `x = 2`
and `y` from 50 down to 5. -/
def tall_path : potrace_path_t :=
  .mk 1 43 4
    [{ tag := POTRACE_CORNER, c0 := ⟨0, 0⟩, c1 := ⟨2, 50⟩, c2 := ⟨2, 35⟩ },
     { tag := POTRACE_CORNER, c0 := ⟨0, 0⟩, c1 := ⟨2, 20⟩, c2 := ⟨2, 5⟩ }]
    none

/-- A picture 30 wide and 60 high without black pixels. -/
def tall_image : Image :=
  { columns := 30, rows := 60, get_pixel := fun _ _ => 0 }

/-- The sides `l`, `r`, `t` of the box are the smallest `x`, the largest `x` and the smallest
`y` of the points `pts`. -/
def ThreeSides (pts : List (Int × Int)) (s : dot_box) : Prop :=
  (∀ p, p ∈ pts → s.l ≤ (p.1 : ℚ) ∧ (p.1 : ℚ) ≤ s.r ∧ s.t ≤ (p.2 : ℚ)) ∧
  (∃ p, p ∈ pts ∧ s.l = (p.1 : ℚ)) ∧ (∃ p, p ∈ pts ∧ s.r = (p.1 : ℚ)) ∧
  (∃ p, p ∈ pts ∧ s.t = (p.2 : ℚ))

/-- The pixels `a .. b` of row `y` form a maximal run of foreground pixels of the image: they
lie in the image and are 1, and the run ends on each side at the border of the image or at a
pixel that is not 1. -/
def MaximalRun (image : Image) (y a b : Int) : Prop :=
  0 ≤ a ∧ a ≤ b ∧ b < image.columns ∧ (∀ x, a ≤ x → x ≤ b → image.get_pixel x y = 1) ∧
  (a = 0 ∨ image.get_pixel (a - 1) y ≠ 1) ∧
  (b + 1 = image.columns ∨ image.get_pixel (b + 1) y ≠ 1)

/-- A picture 7 wide and 3 high: row 0 has the run of the three pixels 2 .. 4, row 1 is black
from border to border, row 2 has the one black pixel 4; outside the picture the pixel test
gives 0. -/
def run_image : Image :=
  { columns := 7, rows := 3
    get_pixel := fun x y =>
      if 0 ≤ x ∧ x < 7 ∧ ((y = 0 ∧ 2 ≤ x ∧ x ≤ 4) ∨ y = 1 ∨ (y = 2 ∧ x = 4)) then 1 else 0 }

/-- The bond record `q` is the record `p` but for its two ends. -/
def SameButEnds (p q : bond_t) : Prop :=
  q = { p with a := q.a, b := q.b }

/-- The atom record `q` is the record `p` but for its position. -/
def SameButPlace (p q : atom_t) : Prop :=
  q = { p with x := q.x, y := q.y }

/-- From the state `s` to the state `t` nothing has changed but ends of bonds and positions
of atoms. -/
def SnapFrame (s t : snap_state) : Prop :=
  (∀ k, SameButEnds (s.bond k) (t.bond k)) ∧ (∀ k, SameButPlace (s.atom k) (t.atom k))

/-- No existing bond below `n_bond` joins an atom to itself. -/
def NoSelfLoop (bond : Bonds) (n_bond : Nat) : Prop :=
  ∀ k, k < n_bond → (bond k).exists_ = true → (bond k).a ≠ (bond k).b

/-! ## `extend_terminal_bond_to_label` (lines 591-734)

The records `letters_t` and `label_t` belong to `osra_common.h`, which is not among the
sources at hand; they are modelled with the fields that the code reads.  The bonds are
`const` in the source and are not part of the result. -/

/-- The record `letters_t`: a single character `a` at `(x, y)` with the radius `r`, and the
flag `free`. -/
structure letters_t where
  a : Char
  x : ℚ
  y : ℚ
  r : ℚ
  free : Bool

/-- The record `label_t`: a text fragment `a` with the centres `(x1, y1)`, `(x2, y2)` and the
radii `r1`, `r2` of its first and last character. -/
structure label_t where
  a : String
  x1 : ℚ
  y1 : ℚ
  r1 : ℚ
  x2 : ℚ
  y2 : ℚ
  r2 : ℚ

/-- The character `s[0]` of a `std::string`: the null character for the empty string. -/
def first_char (s : String) : Char :=
  s.data.headD (Char.ofNat 0)

/-- The variables `found1`, `l1`, `minb` (or `found2`, `l2`, `minb`) of a search; the index
is an `int` and `-1` before any assignment. -/
structure label_pick where
  found : Bool
  l : Int
  minb : ℚ

/-- The limit `y_dist = maxh + r / 2`, raised by `max_dist_double_bond` for a bond of order
above 1. -/
def label_limit (maxh max_dist_double_bond r : ℚ) (b : bond_t) : ℚ :=
  if b.type > 1 then maxh + r / 2 + max_dist_double_bond else maxh + r / 2

/-- The test and the assignments for the candidate `i` at the distance `d` along the bond
and `h` from its line, with the radius `r`; `near` is the test `d < bl / 2` for the `a` end
and `d > -bl / 2` for the `b` end. -/
def pick_try (avg y_dist h d r : ℚ) (near : Bool) (i : Nat) (s : label_pick) : label_pick :=
  if |d| - r ≤ avg ∧ h ≤ y_dist ∧ |d| - r < s.minb ∧ near = true then
    { found := true, l := i, minb := |d| - r }
  else s

/-- The loop over the labels for the `a` end of bond `j` (lines 614-641). -/
def label_search_a (G : Geometry) (label : Nat → label_t) (n_label : Nat) (bj : bond_t)
    (avg maxh max_dist_double_bond xa ya xb yb bl : ℚ) (s : label_pick) : label_pick :=
  forLoop (fun i (s : label_pick) =>
    if first_char (label i).a ≠ '+' ∧ first_char (label i).a ≠ '-' then
      pick_try avg (label_limit maxh max_dist_double_bond (label i).r2 bj)
        |G.distance_from_bond_y xa ya xb yb (label i).x2 (label i).y2|
        (G.distance_from_bond_x_a xa ya xb yb (label i).x2 (label i).y2) (label i).r2
        (decide (G.distance_from_bond_x_a xa ya xb yb (label i).x2 (label i).y2 < bl / 2)) i
        (pick_try avg (label_limit maxh max_dist_double_bond (label i).r1 bj)
          |G.distance_from_bond_y xa ya xb yb (label i).x1 (label i).y1|
          (G.distance_from_bond_x_a xa ya xb yb (label i).x1 (label i).y1) (label i).r1
          (decide (G.distance_from_bond_x_a xa ya xb yb (label i).x1 (label i).y1 < bl / 2)) i
          s)
    else s) n_label s

/-- The loop over the letters for the `a` end of bond `j` (lines 642-657). -/
def letter_search_a (G : Geometry) (letters : Nat → letters_t) (n_letters : Nat) (bj : bond_t)
    (avg maxh max_dist_double_bond xa ya xb yb bl : ℚ) (s : label_pick) : label_pick :=
  forLoop (fun i (s : label_pick) =>
    if (letters i).free = true ∧ (letters i).a ≠ '+' ∧ (letters i).a ≠ '-' then
      pick_try avg (label_limit maxh max_dist_double_bond (letters i).r bj)
        |G.distance_from_bond_y xa ya xb yb (letters i).x (letters i).y|
        (G.distance_from_bond_x_a xa ya xb yb (letters i).x (letters i).y) (letters i).r
        (decide (G.distance_from_bond_x_a xa ya xb yb (letters i).x (letters i).y < bl / 2)) i s
    else s) n_letters s

/-- The loop over the labels for the `b` end of bond `j` (lines 675-702), with the test
`i != l1` on the current value of `l1`. -/
def label_search_b (G : Geometry) (label : Nat → label_t) (n_label : Nat) (bj : bond_t)
    (avg maxh max_dist_double_bond xa ya xb yb bl : ℚ) (s : label_pick) : label_pick :=
  forLoop (fun i (s : label_pick) =>
    if first_char (label i).a ≠ '+' ∧ first_char (label i).a ≠ '-' ∧ (i : Int) ≠ s.l then
      pick_try avg (label_limit maxh max_dist_double_bond (label i).r2 bj)
        |G.distance_from_bond_y xa ya xb yb (label i).x2 (label i).y2|
        (G.distance_from_bond_x_b xa ya xb yb (label i).x2 (label i).y2) (label i).r2
        (decide (G.distance_from_bond_x_b xa ya xb yb (label i).x2 (label i).y2 > -bl / 2)) i
        (pick_try avg (label_limit maxh max_dist_double_bond (label i).r1 bj)
          |G.distance_from_bond_y xa ya xb yb (label i).x1 (label i).y1|
          (G.distance_from_bond_x_b xa ya xb yb (label i).x1 (label i).y1) (label i).r1
          (decide (G.distance_from_bond_x_b xa ya xb yb (label i).x1 (label i).y1 > -bl / 2)) i
          s)
    else s) n_label s

/-- The loop over the letters for the `b` end of bond `j` (lines 703-718), with the test
`i != l2` on the current value of `l2`. -/
def letter_search_b (G : Geometry) (letters : Nat → letters_t) (n_letters : Nat) (bj : bond_t)
    (avg maxh max_dist_double_bond xa ya xb yb bl : ℚ) (s : label_pick) : label_pick :=
  forLoop (fun i (s : label_pick) =>
    if (letters i).free = true ∧ (letters i).a ≠ '+' ∧ (letters i).a ≠ '-' ∧
        (i : Int) ≠ s.l then
      pick_try avg (label_limit maxh max_dist_double_bond (letters i).r bj)
        |G.distance_from_bond_y xa ya xb yb (letters i).x (letters i).y|
        (G.distance_from_bond_x_b xa ya xb yb (letters i).x (letters i).y) (letters i).r
        (decide (G.distance_from_bond_x_b xa ya xb yb (letters i).x (letters i).y > -bl / 2)) i
        s
    else s) n_letters s

/-- The assignments to the atom `e` after the two searches (lines 658-669 and 720-731): the
letter found, in upper case, or else the label found, with its position. -/
def put_label (letters : Nat → letters_t) (label : Nat → label_t) (e : Nat)
    (p1 p2 : label_pick) (atom : Atoms) : Atoms :=
  if p2.found then
    upd atom e { atom e with
      label := String.singleton (letters p2.l.toNat).a.toUpper
      x := (letters p2.l.toNat).x
      y := (letters p2.l.toNat).y }
  else if p1.found then
    upd atom e { atom e with
      label := (label p1.l.toNat).a
      x := ((label p1.l.toNat).x1 + (label p1.l.toNat).x2) / 2
      y := ((label p1.l.toNat).y1 + (label p1.l.toNat).y2) / 2 }
  else atom

/-- The picks `(found1, l1, minb)` and `(found2, l2, minb)` of the `a` end of bond `j`; both
indices stay `-1` when the end is a corner. -/
def picks_a (G : Geometry) (letters : Nat → letters_t) (n_letters : Nat)
    (label : Nat → label_t) (n_label : Nat) (bj : bond_t)
    (avg maxh max_dist_double_bond xa ya xb yb bl : ℚ) (not_corner_a : Bool) :
    label_pick × label_pick :=
  if not_corner_a then
    (label_search_a G label n_label bj avg maxh max_dist_double_bond xa ya xb yb bl
      { found := false, l := -1, minb := FLT_MAX },
     letter_search_a G letters n_letters bj avg maxh max_dist_double_bond xa ya xb yb bl
      { found := false, l := -1,
        minb := (label_search_a G label n_label bj avg maxh max_dist_double_bond xa ya xb yb bl
          { found := false, l := -1, minb := FLT_MAX }).minb })
  else ({ found := false, l := -1, minb := FLT_MAX }, { found := false, l := -1, minb := FLT_MAX })

/-- The picks of the `b` end of bond `j`: the searches start from the indices `l1`, `l2` that
the `a` end has left, with `found1`, `found2` cleared and `minb` reset. -/
def picks_b (G : Geometry) (letters : Nat → letters_t) (n_letters : Nat)
    (label : Nat → label_t) (n_label : Nat) (bj : bond_t)
    (avg maxh max_dist_double_bond xa ya xb yb bl : ℚ) (l1 l2 : Int) :
    label_pick × label_pick :=
  (label_search_b G label n_label bj avg maxh max_dist_double_bond xa ya xb yb bl
    { found := false, l := l1, minb := FLT_MAX },
   letter_search_b G letters n_letters bj avg maxh max_dist_double_bond xa ya xb yb bl
    { found := false, l := l2,
      minb := (label_search_b G label n_label bj avg maxh max_dist_double_bond xa ya xb yb bl
        { found := false, l := l1, minb := FLT_MAX }).minb })

/-- The round of bond `j` of `extend_terminal_bond_to_label` (lines 596-733): the tests of
the two ends, the positions of the two ends and the length of the bond are taken at its
head. -/
def label_bond (G : Geometry) (letters : Nat → letters_t) (n_letters : Nat) (bond : Bonds)
    (n_bond : Nat) (label : Nat → label_t) (n_label : Nat)
    (avg maxh max_dist_double_bond : ℚ) (j : Nat) (atom : Atoms) : Atoms :=
  if (bond j).exists_ then
    let not_corner_a :=
      terminal_bond (bond j).a j bond n_bond && decide ((atom (bond j).a).label = " ")
    let not_corner_b :=
      terminal_bond (bond j).b j bond n_bond && decide ((atom (bond j).b).label = " ")
    let xa := (atom (bond j).a).x
    let ya := (atom (bond j).a).y
    let xb := (atom (bond j).b).x
    let yb := (atom (bond j).b).y
    let bl := bond_length G bond j atom
    let pa := picks_a G letters n_letters label n_label (bond j) avg maxh max_dist_double_bond
      xa ya xb yb bl not_corner_a
    let atom1 :=
      if not_corner_a then put_label letters label (bond j).a pa.1 pa.2 atom else atom
    let pb := picks_b G letters n_letters label n_label (bond j) avg maxh max_dist_double_bond
      xa ya xb yb bl pa.1.l pa.2.l
    if not_corner_b then put_label letters label (bond j).b pb.1 pb.2 atom1 else atom1
  else atom

/-- The function `extend_terminal_bond_to_label(atom, letters, n_letters, bond, n_bond,
label, n_label, avg, maxh, max_dist_double_bond)`: the atoms it leaves. -/
def extend_terminal_bond_to_label (G : Geometry) (atom : Atoms) (letters : Nat → letters_t)
    (n_letters : Nat) (bond : Bonds) (n_bond : Nat) (label : Nat → label_t) (n_label : Nat)
    (avg maxh max_dist_double_bond : ℚ) : Atoms :=
  forLoop (label_bond G letters n_letters bond n_bond label n_label avg maxh
    max_dist_double_bond) n_bond atom

/-- The atom record `q` is the record `p`, or `p` with the text and the middle of a label
whose first character is neither `+` nor `-`, or `p` with the character, in upper case, and
the position of a free letter that is neither `+` nor `-`. -/
def Labelled (letters : Nat → letters_t) (n_letters : Nat) (label : Nat → label_t)
    (n_label : Nat) (p q : atom_t) : Prop :=
  q = p ∨
  (∃ i, i < n_label ∧ first_char (label i).a ≠ '+' ∧ first_char (label i).a ≠ '-' ∧
    q = { p with
          label := (label i).a
          x := ((label i).x1 + (label i).x2) / 2
          y := ((label i).y1 + (label i).y2) / 2 }) ∨
  (∃ i, i < n_letters ∧ (letters i).free = true ∧ (letters i).a ≠ '+' ∧ (letters i).a ≠ '-' ∧
    q = { p with
          label := String.singleton (letters i).a.toUpper
          x := (letters i).x
          y := (letters i).y })

/-- Two atoms at the ends of one bond, both without a label, and a third atom labelled
`N`. -/
def bare_atoms : Atoms :=
  arena atom0 [{ atom_at 0 0 with label := " " }, { atom_at 20 0 with label := " " },
    { atom_at 40 0 with label := "N" }]

/-- The bond between the atoms 0 and 1 of `bare_atoms`. -/
def bare_bonds : Bonds :=
  arena bond0 [single 0 1]

/-- Two labels near the `b` end of the bond of `bare_bonds`: the charge `+2` at `(24, 0)` and
the fragment `OH` at `(26, 0)`. -/
def near_labels : Nat → label_t :=
  arena { a := "", x1 := 0, y1 := 0, r1 := 0, x2 := 0, y2 := 0, r2 := 0 }
    [{ a := "+2", x1 := 23, y1 := 0, r1 := 1, x2 := 25, y2 := 0, r2 := 1 },
     { a := "OH", x1 := 25, y1 := 0, r1 := 1, x2 := 27, y2 := 0, r2 := 1 }]

/-- One letter near the `a` end of the bond of `bare_bonds`: a free `c` at `(-4, 0)`. -/
def near_letters : Nat → letters_t :=
  arena { a := ' ', x := 0, y := 0, r := 0, free := false }
    [{ a := 'c', x := -4, y := 0, r := 1, free := true }]

/-! ## `find_limits_on_avg_bond` (lines 2514-2550)

A table `vector<vector<double>>` is a list of pages, each a list of numbers; `t[l][i]` is
`(t.getD l []).getD i 0`, which is the entry for every index that the loops reach when the
two tables have the same shape. -/

/-- The variables `max_ind_conf`, `min_bond`, `max_bond` of the first loop. -/
structure limits_t where
  max_ind_conf : ℚ
  min_bond : ℚ
  max_bond : ℚ

/-- The body of the first loop for the entry with bond length `v` and confidence `c`. -/
def best_entry (v c : ℚ) (s : limits_t) : limits_t :=
  if s.max_ind_conf < c then { max_ind_conf := c, min_bond := v, max_bond := v } else s

/-- The first loop (lines 2519-2526): it runs over the shape of `pages_of_ind_conf`. -/
def best_limits (min_bond max_bond : ℚ) (pages_of_avg_bonds pages_of_ind_conf : List (List ℚ)) :
    limits_t :=
  forLoop (fun l (s : limits_t) =>
    forLoop (fun i (s : limits_t) =>
      best_entry ((pages_of_avg_bonds.getD l []).getD i 0)
        ((pages_of_ind_conf.getD l []).getD i 0) s)
      (pages_of_ind_conf.getD l []).length s)
    pages_of_ind_conf.length
    { max_ind_conf := -FLT_MAX, min_bond := min_bond, max_bond := max_bond }

/-- The variables `min_bond`, `max_bond`, `flag` of the loop `while (flag)`. -/
structure window_t where
  min_bond : ℚ
  max_bond : ℚ
  flag : Bool

/-- The body of the inner loops of a pass for the entry with bond length `v` and confidence
`c`: the two tests, the second on the value of `min_bond` and `max_bond` after the first.
The differences are `double` differences, and `0.1` is the `double` nearest to `1/10`. -/
def widen_entry (max_ind_conf v c : ℚ) (s : window_t) : window_t :=
  let s1 : window_t :=
    if v > s.max_bond ∧ (double_sub v s.max_bond < 5 ∨
        c > double_sub max_ind_conf (round_double (1 / 10))) then
      { s with max_bond := v, flag := true }
    else s
  if v < s1.min_bond ∧ (double_sub s1.min_bond v < 5 ∨
      c > double_sub max_ind_conf (round_double (1 / 10))) then
    { s1 with min_bond := v, flag := true }
  else s1

/-- One pass of the loop `while (flag)` (lines 2530-2546): the flag is cleared and the loops
run over the shape of `pages_of_avg_bonds`. -/
def widen_pass (max_ind_conf : ℚ) (pages_of_avg_bonds pages_of_ind_conf : List (List ℚ))
    (s : window_t) : window_t :=
  forLoop (fun l (s : window_t) =>
    forLoop (fun i (s : window_t) =>
      widen_entry max_ind_conf ((pages_of_avg_bonds.getD l []).getD i 0)
        ((pages_of_ind_conf.getD l []).getD i 0) s)
      (pages_of_avg_bonds.getD l []).length s)
    pages_of_avg_bonds.length { s with flag := false }

/-- The loop `while (flag)` run for at most `fuel` passes. -/
def widen_loop (pages_of_avg_bonds pages_of_ind_conf : List (List ℚ)) (b : limits_t)
    (fuel : Nat) : window_t :=
  whileLoop (fun (s : window_t) => s.flag)
    (widen_pass b.max_ind_conf pages_of_avg_bonds pages_of_ind_conf) fuel
    { min_bond := b.min_bond, max_bond := b.max_bond, flag := true }

/-- The function `find_limits_on_avg_bond(min_bond, max_bond, pages_of_avg_bonds,
pages_of_ind_conf)`: the values it leaves in `min_bond` and `max_bond`, after the `double`
operations `min_bond--` and `max_bond++`.  A pass that sets the flag moves a limit onto an
entry beyond it, so it leaves fewer entries beyond the limits, and twice the number of
entries plus one passes are enough. -/
def find_limits_on_avg_bond (min_bond max_bond : ℚ)
    (pages_of_avg_bonds pages_of_ind_conf : List (List ℚ)) : ℚ × ℚ :=
  let b := best_limits min_bond max_bond pages_of_avg_bonds pages_of_ind_conf
  let w := widen_loop pages_of_avg_bonds pages_of_ind_conf b
    (2 * (pages_of_avg_bonds.map List.length).sum + 1)
  (double_sub w.min_bond 1, double_add w.max_bond 1)

/-- The entries of two tables of the same shape, page by page: the pairs of a bond length
and its confidence. -/
def table_entries (pages_of_avg_bonds pages_of_ind_conf : List (List ℚ)) : List (ℚ × ℚ) :=
  (List.zipWith List.zip pages_of_avg_bonds pages_of_ind_conf).flatten

/-- The two tables have the same shape: as many pages, and as many entries on each page. -/
def SameTableShape (pages_of_avg_bonds pages_of_ind_conf : List (List ℚ)) : Prop :=
  List.Forall₂ (fun p q => p.length = q.length) pages_of_avg_bonds pages_of_ind_conf

/-- The entry `e0` is the first entry of the list with the largest confidence: the entries
before it have a smaller confidence and the entries after it none that is larger. -/
def FirstBest (entries : List (ℚ × ℚ)) (e0 : ℚ × ℚ) : Prop :=
  ∃ before after, entries = before ++ e0 :: after ∧ (∀ e, e ∈ before → e.2 < e0.2) ∧
    (∀ e, e ∈ after → e.2 ≤ e0.2)

/-- Neither test of a pass fires for the entry `e` at the limits `lo` and `hi`. -/
def Settled (max_ind_conf lo hi : ℚ) (e : ℚ × ℚ) : Prop :=
  ¬ (e.1 > hi ∧ (double_sub e.1 hi < 5 ∨
    e.2 > double_sub max_ind_conf (round_double (1 / 10)))) ∧
  ¬ (e.1 < lo ∧ (double_sub lo e.1 < 5 ∨
    e.2 > double_sub max_ind_conf (round_double (1 / 10))))

/-- The number of entries above the limit `hi` plus the number of entries below the limit
`lo`. -/
def beyond (entries : List (ℚ × ℚ)) (lo hi : ℚ) : Nat :=
  entries.countP (fun e => decide (e.1 > hi)) + entries.countP (fun e => decide (e.1 < lo))

/-- Two pages of average bond lengths. -/
def bond_pages : List (List ℚ) := [[20, 30, 23], [10, 26]]

/-- The confidences of `bond_pages`. -/
def conf_pages : List (List ℚ) := [[1 / 2, 1 / 4, 1 / 4], [1 / 4, 7 / 16]]

/-- A page of two average bond lengths. -/
def edge_bonds : List (List ℚ) := [[20, 30]]

/-- The confidences of `edge_bonds`: 1 and the `double` nearest to `0.9`, which is larger
than `9/10`. -/
def edge_confs : List (List ℚ) := [[1, round_double (9 / 10)]]

/-- The confidences of `edge_bonds` in a second example: the `double`s nearest to `0.3` and
to `0.2`. -/
def edge_confs_low : List (List ℚ) := [[round_double (3 / 10), round_double (1 / 5)]]

/-! # Properties -/

/-! ## Loops and arenas -/

theorem forLoop_succ {σ : Type} (body : Nat → σ → σ) (n : Nat) (s : σ) :
    forLoop body (n + 1) s = body n (forLoop body n s) := rfl

/-- Loop invariant rule for `forLoop`. -/
theorem forLoop_inv {σ : Type} (body : Nat → σ → σ) (P : Nat → σ → Prop) (n : Nat) (s : σ)
    (h0 : P 0 s) (hs : ∀ i t, i < n → P i t → P (i + 1) (body i t)) :
    P n (forLoop body n s) := by
  induction n with
  | zero => exact h0
  | succ m ih =>
    rw [forLoop_succ]
    exact hs m _ (Nat.lt_succ_self m)
      (ih (fun i t hi hp => hs i t (Nat.lt_succ_of_lt hi) hp))

theorem upd_same {α : Type} (v : Nat → α) (i : Nat) (x : α) : upd v i x i = x := by
  simp [upd]

theorem upd_other {α : Type} (v : Nat → α) (i k : Nat) (x : α) (h : k ≠ i) :
    upd v i x k = v k := by
  simp [upd, h]

/-! ## `remove_zero_bonds` -/

theorem OnlyKills.refl_kills (b : Bonds) : OnlyKills b b := fun _ => Or.inl rfl

theorem OnlyKills.trans_kills {b r t : Bonds} (h1 : OnlyKills b r) (h2 : OnlyKills r t) :
    OnlyKills b t := by
  intro k
  rcases h1 k with h | h <;> rcases h2 k with g | g <;> simp [g, h]

theorem OnlyKills.kill (b : Bonds) (j : Nat) : OnlyKills b (kill b j) := by
  intro k
  by_cases h : k = j
  · subst h; right; simp [Osra.kill, upd]
  · left; simp [Osra.kill, upd, h]

theorem OnlyKills.a_eq {b r : Bonds} (h : OnlyKills b r) (k : Nat) : (r k).a = (b k).a := by
  rcases h k with g | g <;> simp [g]

theorem OnlyKills.b_eq {b r : Bonds} (h : OnlyKills b r) (k : Nat) : (r k).b = (b k).b := by
  rcases h k with g | g <;> simp [g]

theorem OnlyKills.exists_of {b r : Bonds} (h : OnlyKills b r) (k : Nat)
    (hk : (r k).exists_ = true) : (b k).exists_ = true := by
  rcases h k with g | g
  · rw [← g]; exact hk
  · rw [g] at hk; simp at hk

theorem OnlyKills.same_pair {b r : Bonds} (h : OnlyKills b r) (k l : Nat) :
    same_pair (r k) (r l) = same_pair (b k) (b l) := by
  simp [Osra.same_pair, h.a_eq, h.b_eq]

/-- The inner loop only kills, leaves bond `i` alone, and kills every duplicate of bond `i`
below the loop bound. -/
theorem remove_zero_bonds_inner_spec (i : Nat) (bond : Bonds) (m : Nat) :
    let r := forLoop (fun j bond =>
      if (bond j).exists_ && j != i && same_pair (bond i) (bond j) then kill bond j else bond)
      m bond
    OnlyKills bond r ∧ r i = bond i ∧
      ∀ k, k < m → k ≠ i → (r k).exists_ = true → same_pair (bond i) (bond k) = false := by
  induction m with
  | zero =>
    exact ⟨OnlyKills.refl_kills _, rfl, fun k hk => absurd hk (Nat.not_lt_zero k)⟩
  | succ m ih =>
    obtain ⟨h1, h2, h3⟩ := ih
    simp only [forLoop_succ]
    generalize forLoop (fun j bond =>
      if (bond j).exists_ && j != i && same_pair (bond i) (bond j) then kill bond j else bond)
      m bond = r at h1 h2 h3
    by_cases hc : ((r m).exists_ && m != i && same_pair (r i) (r m)) = true
    · rw [if_pos hc]
      simp only [Bool.and_eq_true, bne_iff_ne, ne_eq] at hc
      refine ⟨h1.trans_kills (OnlyKills.kill r m), ?_, ?_⟩
      · rw [Osra.kill, upd_other _ _ _ _ (Ne.symm hc.1.2)]; exact h2
      · intro k hk hki hex
        by_cases hkm : k = m
        · subst hkm; simp [Osra.kill, upd] at hex
        · rw [Osra.kill, upd_other _ _ _ _ hkm] at hex
          exact h3 k (by omega) hki hex
    · rw [if_neg hc]
      refine ⟨h1, h2, ?_⟩
      intro k hk hki hex
      by_cases hkm : k = m
      · subst hkm
        have hsp : Osra.same_pair (r i) (r k) = false := by
          simp only [Bool.and_eq_true, bne_iff_ne, ne_eq, not_and, Bool.not_eq_true] at hc
          exact hc ⟨hex, hki⟩
        rw [h1.same_pair] at hsp
        exact hsp
      · exact h3 k (by omega) hki hex

/-- One outer step of `remove_zero_bonds`: it only kills; if bond `i` survives the step it is
no self-loop, its endpoint atoms exist, and no other surviving bond joins the same pair. -/
theorem remove_zero_bonds_body_spec (n_bond : Nat) (atom : Atoms) (i : Nat) (bond : Bonds) :
    let r := remove_zero_bonds_body n_bond atom i bond
    OnlyKills bond r ∧
      ((r i).exists_ = true →
        (bond i).a ≠ (bond i).b ∧ (atom (bond i).a).exists_ = true ∧
          (atom (bond i).b).exists_ = true ∧
          ∀ k, k < n_bond → k ≠ i → (r k).exists_ = true →
            same_pair (bond i) (bond k) = false) := by
  unfold remove_zero_bonds_body
  by_cases hi : (bond i).exists_ = true
  · simp only [hi, if_true]
    obtain ⟨h1, h2, h3⟩ := remove_zero_bonds_inner_spec i bond n_bond
    simp only [remove_zero_bonds_inner]
    generalize forLoop (fun j bond =>
      if (bond j).exists_ && j != i && same_pair (bond i) (bond j) then kill bond j else bond)
      n_bond bond = r at h1 h2 h3
    by_cases hab : (bond i).a = (bond i).b
    · -- self-loop: bond `i` is switched off
      have hk : OnlyKills bond (kill r i) := h1.trans_kills (OnlyKills.kill r i)
      have hki : (kill r i i).exists_ = false := by simp [kill, upd]
      have hkk : kill (kill r i) i = kill r i := by
        funext k; by_cases h : k = i <;> simp [kill, upd, h]
      simp only [h2, hab, beq_self_eq_true, if_true]
      split
      · rw [hkk]; exact ⟨hk, fun h => by rw [hki] at h; cases h⟩
      · exact ⟨hk, fun h => by rw [hki] at h; cases h⟩
    · have hne : ((r i).a == (r i).b) = false := by simp [h2, hab]
      simp only [hne, Bool.false_eq_true, if_false]
      by_cases hat : (!(atom (r i).a).exists_ || !(atom (r i).b).exists_) = true
      · rw [if_pos hat]
        refine ⟨h1.trans_kills (OnlyKills.kill r i), fun h => ?_⟩
        simp [kill, upd] at h
      · rw [if_neg hat]
        refine ⟨h1, fun _ => ⟨hab, ?_, ?_, h3⟩⟩
        · rw [h2] at hat; simpa using (show (atom (bond i).a).exists_ = true by
            cases h : (atom (bond i).a).exists_ <;> simp_all)
        · rw [h2] at hat; simpa using (show (atom (bond i).b).exists_ = true by
            cases h : (atom (bond i).b).exists_ <;> simp_all)
  · simp only [hi, Bool.false_eq_true, if_false]
    exact ⟨OnlyKills.refl_kills _, fun h => h.elim⟩

/-- C1. After `remove_zero_bonds` every bond below `n_bond` that still exists joins two
distinct atoms that both exist, and no two distinct existing bonds join the same unordered
atom pair.  The call changes no endpoint and never switches an exists flag on (the atoms are
only read, so no atom flag changes at all). -/
theorem remove_zero_bonds_establishes_invariant (bond : Bonds) (n_bond : Nat) (atom : Atoms) :
    (∀ k, (remove_zero_bonds bond n_bond atom k).a = (bond k).a ∧
        (remove_zero_bonds bond n_bond atom k).b = (bond k).b ∧
        ((remove_zero_bonds bond n_bond atom k).exists_ = true → (bond k).exists_ = true)) ∧
    (∀ k, k < n_bond → (remove_zero_bonds bond n_bond atom k).exists_ = true →
        (remove_zero_bonds bond n_bond atom k).a ≠ (remove_zero_bonds bond n_bond atom k).b ∧
        (atom (remove_zero_bonds bond n_bond atom k).a).exists_ = true ∧
        (atom (remove_zero_bonds bond n_bond atom k).b).exists_ = true) ∧
    (∀ k l, k < n_bond → l < n_bond → k ≠ l →
        (remove_zero_bonds bond n_bond atom k).exists_ = true →
        (remove_zero_bonds bond n_bond atom l).exists_ = true →
        ¬ (((remove_zero_bonds bond n_bond atom k).a = (remove_zero_bonds bond n_bond atom l).a ∧
            (remove_zero_bonds bond n_bond atom k).b = (remove_zero_bonds bond n_bond atom l).b) ∨
           ((remove_zero_bonds bond n_bond atom k).a = (remove_zero_bonds bond n_bond atom l).b ∧
            (remove_zero_bonds bond n_bond atom k).b = (remove_zero_bonds bond n_bond atom l).a))) := by
  -- invariant of the outer loop after `m` rounds
  have key : ∀ m, m ≤ n_bond →
      OnlyKills bond (forLoop (remove_zero_bonds_body n_bond atom) m bond) ∧
      ∀ k, k < m → (forLoop (remove_zero_bonds_body n_bond atom) m bond k).exists_ = true →
        (bond k).a ≠ (bond k).b ∧ (atom (bond k).a).exists_ = true ∧
        (atom (bond k).b).exists_ = true ∧
        ∀ l, l < n_bond → l ≠ k →
          (forLoop (remove_zero_bonds_body n_bond atom) m bond l).exists_ = true →
          same_pair (bond k) (bond l) = false := by
    intro m
    induction m with
    | zero => exact fun _ => ⟨OnlyKills.refl_kills _, fun k hk => absurd hk (Nat.not_lt_zero k)⟩
    | succ m ih =>
      intro hm
      obtain ⟨h1, h2⟩ := ih (by omega)
      rw [forLoop_succ]
      generalize forLoop (remove_zero_bonds_body n_bond atom) m bond = r at h1 h2
      obtain ⟨g1, g2⟩ := remove_zero_bonds_body_spec n_bond atom m r
      refine ⟨h1.trans_kills g1, ?_⟩
      intro k hk hex
      by_cases hkm : k = m
      · subst hkm
        obtain ⟨q1, q2, q3, q4⟩ := g2 hex
        simp only [h1.a_eq, h1.b_eq] at q1 q2 q3
        refine ⟨q1, q2, q3, fun l hl hlk hexl => ?_⟩
        rw [← h1.same_pair]
        exact q4 l hl hlk hexl
      · obtain ⟨q1, q2, q3, q4⟩ := h2 k (by omega) (g1.exists_of k hex)
        exact ⟨q1, q2, q3, fun l hl hlk hexl => q4 l hl hlk (g1.exists_of l hexl)⟩
  obtain ⟨h1, h2⟩ := key n_bond (Nat.le_refl _)
  unfold remove_zero_bonds
  generalize forLoop (remove_zero_bonds_body n_bond atom) n_bond bond = r at h1 h2
  refine ⟨fun k => ⟨h1.a_eq k, h1.b_eq k, h1.exists_of k⟩, ?_, ?_⟩
  · intro k hk hex
    obtain ⟨q1, q2, q3, _⟩ := h2 k hk hex
    simp only [h1.a_eq, h1.b_eq]
    exact ⟨q1, q2, q3⟩
  · intro k l hk hl hkl hexk hexl hsame
    obtain ⟨_, _, _, q4⟩ := h2 k hk hexk
    have := q4 l hl (Ne.symm hkl) hexl
    simp only [h1.a_eq, h1.b_eq] at hsame
    simp [same_pair] at this
    rcases hsame with ⟨e1, e2⟩ | ⟨e1, e2⟩
    · exact absurd e2 (this.1 e1)
    · exact absurd e2 (this.2 e1)

/-! ## `assign_charge` -/

/-- A loop whose round `i` rewrites only index `i` from the record it finds there processes
every index below the bound exactly once, from its original record. -/
theorem forLoop_pointwise {α : Type} (step : Nat → α → α) (v : Nat → α) (m : Nat) :
    ∀ k, forLoop (fun i (w : Nat → α) => upd w i (step i (w i))) m v k
      = if k < m then step k (v k) else v k := by
  induction m with
  | zero => intro k; simp [forLoop]
  | succ m ih =>
    intro k
    rw [forLoop_succ]
    by_cases hk : k = m
    · subst hk
      simp [upd, ih]
    · rw [upd_other _ _ _ _ hk, ih]
      by_cases h : k < m
      · simp [h, Nat.lt_succ_of_lt h]
      · have : ¬ k < m + 1 := by omega
        simp [h, this]

theorem assign_charge_bonds_apply (atom : Atoms) (n_bond : Nat) (bond : Bonds) (j : Nat) :
    assign_charge_bonds atom n_bond bond j
      = if j < n_bond ∧ (bond j).exists_ = true ∧
            ((atom (bond j).a).exists_ = false ∨ (atom (bond j).b).exists_ = false)
        then { bond j with exists_ := false } else bond j := by
  have h : assign_charge_bonds atom n_bond bond
      = forLoop (fun i (w : Bonds) => upd w i
          (if (w i).exists_ && (!(atom (w i).a).exists_ || !(atom (w i).b).exists_)
           then { w i with exists_ := false } else w i)) n_bond bond := by
    unfold assign_charge_bonds
    congr 1
    funext i w
    split
    · rfl
    · funext k
      by_cases hk : k = i
      · subst hk; simp [upd]
      · simp [upd, hk]
  rw [h, forLoop_pointwise (fun _ (r : bond_t) =>
    if r.exists_ && (!(atom r.a).exists_ || !(atom r.b).exists_)
    then { r with exists_ := false } else r)]
  by_cases hj : j < n_bond
  · by_cases hc : ((bond j).exists_ && (!(atom (bond j).a).exists_ || !(atom (bond j).b).exists_)) = true
    · have hc2 := hc
      simp only [Bool.and_eq_true, Bool.or_eq_true, Bool.not_eq_true'] at hc2
      rw [if_pos hj, if_pos hc, if_pos ⟨hj, hc2⟩]
    · have hc2 := hc
      simp only [Bool.and_eq_true, Bool.or_eq_true, Bool.not_eq_true'] at hc2
      rw [if_pos hj, if_neg hc, if_neg (fun h => hc2 h.2)]
  · rw [if_neg hj, if_neg (fun h => hj h.1)]

/-- The atom loop of `assign_charge` handles every atom from its original record. -/
theorem assign_charge_atoms_apply (f : String → Int → String) (bond : Bonds) (n_bond : Nat)
    (atom : Atoms) (m k : Nat) :
    forLoop (assign_charge_atom f bond n_bond) m atom k
      = if k < m then assign_charge_atom f bond n_bond k atom k else atom k := by
  have h : assign_charge_atom f bond n_bond
      = fun i (w : Atoms) => upd w i
          (if (w i).exists_ then
            { w i with
              charge := hash_reset bond n_bond i
                (charge_loop ((w i).label.length + 1) ((w i).label, 0)).2,
              label := f (charge_loop ((w i).label.length + 1) ((w i).label, 0)).1
                (bond_order_sums bond n_bond i).1 }
           else w i) := by
    funext i w
    unfold assign_charge_atom
    split
    · rfl
    · funext k
      by_cases hk : k = i
      · subst hk; simp [upd]
      · simp [upd, hk]
  rw [h, forLoop_pointwise (fun i (r : atom_t) =>
    if r.exists_ then
      { r with
        charge := hash_reset bond n_bond i (charge_loop (r.label.length + 1) (r.label, 0)).2,
        label := f (charge_loop (r.label.length + 1) (r.label, 0)).1
          (bond_order_sums bond n_bond i).1 }
    else r)]
  by_cases hk : k < m
  · simp only [hk, if_true, upd_same]
  · simp only [hk, if_false]

/-- Without an existing hashed bond ending (`b`) at atom `i` the charge is kept. -/
theorem hash_reset_none (bond : Bonds) (n_bond i : Nat) (c : Int)
    (h : ∀ j, j < n_bond → (bond j).exists_ = true → (bond j).hash = true → (bond j).b ≠ i) :
    hash_reset bond n_bond i c = c := by
  unfold hash_reset
  induction n_bond with
  | zero => rfl
  | succ m ih =>
    rw [forLoop_succ, ih (fun j hj => h j (Nat.lt_succ_of_lt hj))]
    have := h m (Nat.lt_succ_self m)
    by_cases h1 : (bond m).exists_ = true <;> by_cases h2 : (bond m).hash = true
    · simp [h1, h2, this h1 h2]
    · simp [h2]
    · simp [h1]
    · simp [h1]

/-- An existing hashed bond ending (`b`) at atom `i` resets the charge to zero. -/
theorem hash_reset_some (bond : Bonds) (n_bond i : Nat) (c : Int) (j : Nat) (hj : j < n_bond)
    (h1 : (bond j).exists_ = true) (h2 : (bond j).hash = true) (h3 : (bond j).b = i) :
    hash_reset bond n_bond i c = 0 := by
  unfold hash_reset
  have key : ∀ m, j < m →
      forLoop (fun j charge =>
        if (bond j).exists_ && (bond j).hash && (bond j).b == i then 0 else charge) m c = 0 := by
    intro m
    induction m with
    | zero => intro h; omega
    | succ m ih =>
      intro hm
      rw [forLoop_succ]
      by_cases hjm : j = m
      · subst hjm; simp [h1, h2, h3]
      · rw [ih (by omega)]; simp
  exact key n_bond hj

/-- C2. Charge parsing, plain case: an existing atom labelled `"N+"` that is not the `b`
endpoint of an existing hashed bond gets charge `+1`, and the label handed to the
normalization lookup `fix_atom_name` is exactly `"N"` (whatever that lookup is). -/
theorem assign_charge_plain (fix_atom_name : String → Int → String) (atom : Atoms)
    (bond : Bonds) (n_atom n_bond i : Nat) (hi : i < n_atom)
    (hex : (atom i).exists_ = true) (hl : (atom i).label = "N+")
    (hh : ∀ j, j < n_bond → (bond j).exists_ = true → (bond j).hash = true → (bond j).b ≠ i) :
    ((assign_charge fix_atom_name atom bond n_atom n_bond).1 i).charge = 1 ∧
    ((assign_charge fix_atom_name atom bond n_atom n_bond).1 i).label
      = fix_atom_name "N" (bond_order_sums (assign_charge_bonds atom n_bond bond) n_bond i).1 := by
  have hh2 : ∀ j, j < n_bond → (assign_charge_bonds atom n_bond bond j).exists_ = true →
      (assign_charge_bonds atom n_bond bond j).hash = true →
      (assign_charge_bonds atom n_bond bond j).b ≠ i := by
    intro j hj
    rw [assign_charge_bonds_apply]
    split
    · intro h; simp at h
    · exact hh j hj
  have hloop : charge_loop ((atom i).label.length + 1) ((atom i).label, 0) = ("N", 1) := by
    rw [hl]; decide
  simp only [assign_charge, assign_charge_atoms_apply, hi, if_true]
  unfold assign_charge_atom
  simp only [hex, if_true, upd_same, hloop, hash_reset_none _ _ _ _ hh2, and_self]

/-- Witness for C2: the atom `"N+"` with one plain bond. -/
theorem assign_charge_plain_witness :
    ((assign_charge (fun s _ => s) charge_atoms charge_bonds_plain 2 1).1 0).charge = 1 ∧
    ((assign_charge (fun s _ => s) charge_atoms charge_bonds_plain 2 1).1 0).label
      = (fun (s : String) (_ : Int) => s) "N"
        (bond_order_sums (assign_charge_bonds charge_atoms 1 charge_bonds_plain) 1 0).1 :=
  assign_charge_plain (fun s _ => s) charge_atoms charge_bonds_plain 2 1 0 (by decide)
    (by decide) (by decide) (by decide)

/-- C3, as stated, fails: atom 0 exists, is labelled `"N+"`, its sole incident existing bond
(bond 0) is hashed and joins it to an existing atom, atom 0 is the `a` endpoint of that bond,
and `assign_charge` leaves it with charge `+1`, not `0`. -/
theorem assign_charge_hashed_a_endpoint_keeps_charge :
    (charge_atoms 0).exists_ = true ∧ (charge_atoms 0).label = "N+" ∧
    (charge_bonds_hash_from 0).exists_ = true ∧ (charge_bonds_hash_from 0).hash = true ∧
    (charge_bonds_hash_from 0).a = 0 ∧ (charge_bonds_hash_from 0).b = 1 ∧
    (charge_atoms 1).exists_ = true ∧
    ((assign_charge (fun s _ => s) charge_atoms charge_bonds_hash_from 2 1).1 0).charge = 1 ∧
    ((assign_charge (fun s _ => s) charge_atoms charge_bonds_hash_from 2 1).1 0).charge ≠ 0 := by
  decide

/-- C3, amended. An existing atom (in particular one labelled `"N+"`) that is the `b`
endpoint of an existing hashed bond whose other endpoint atom exists gets charge `0`. -/
theorem assign_charge_hashed_b_endpoint (fix_atom_name : String → Int → String) (atom : Atoms)
    (bond : Bonds) (n_atom n_bond i j : Nat) (hi : i < n_atom)
    (hex : (atom i).exists_ = true) (hj : j < n_bond)
    (hbe : (bond j).exists_ = true) (hbh : (bond j).hash = true) (hbb : (bond j).b = i)
    (hba : (atom (bond j).a).exists_ = true) :
    ((assign_charge fix_atom_name atom bond n_atom n_bond).1 i).charge = 0 := by
  have hsame : assign_charge_bonds atom n_bond bond j = bond j := by
    rw [assign_charge_bonds_apply]
    have hb : (atom (bond j).b).exists_ = true := by rw [hbb]; exact hex
    simp [hba, hb]
  have hreset : ∀ c, hash_reset (assign_charge_bonds atom n_bond bond) n_bond i c = 0 :=
    fun c => hash_reset_some _ n_bond i c j hj (by rw [hsame]; exact hbe)
      (by rw [hsame]; exact hbh) (by rw [hsame]; exact hbb)
  simp only [assign_charge, assign_charge_atoms_apply, hi, if_true]
  unfold assign_charge_atom
  simp only [hex, if_true, upd_same, hreset]

/-- Witness for the amended C3: the atom `"N+"` at the `b` end of a hashed bond. -/
theorem assign_charge_hashed_b_endpoint_witness :
    ((assign_charge (fun s _ => s) charge_atoms charge_bonds_hash_to 2 1).1 0).charge = 0 :=
  assign_charge_hashed_b_endpoint (fun s _ => s) charge_atoms charge_bonds_hash_to 2 1 0 0
    (by decide) (by decide) (by decide) (by decide) (by decide) (by decide) (by decide)

/-! ## `resolve_bridge_bonds` -/

theorem upd_self {α : Type} (v : Nat → α) (i : Nat) : upd v i (v i) = v := by
  funext k
  by_cases h : k = i
  · subst h; simp [upd]
  · simp [upd, h]

theorem reattach_eq (bond : Bonds) (p q : Nat) :
    reattach bond p q = upd bond p (reattach_rec (bond p) (bond q)) := by
  unfold reattach reattach_rec
  split_ifs <;> first | rfl | exact (upd_self bond p).symm

/-- Applying the endpoint move twice against a bond with the same endpoints restores the
record: the move is its own inverse. -/
theorem reattach_rec_undo (x y z : bond_t) (ha : z.a = y.a) (hb : z.b = y.b) :
    reattach_rec (reattach_rec x y) z = x := by
  obtain ⟨xa, xb, _, _, _, _, _, _, _, _, _, _⟩ := x
  obtain ⟨ya, yb, _, _, _, _, _, _, _, _, _, _⟩ := y
  obtain ⟨za, zb, _, _, _, _, _, _, _, _, _, _⟩ := z
  simp only at ha hb
  subst ha hb
  rcases eq_or_ne xa za with rfl | h1
  · rcases eq_or_ne zb xa with rfl | h5
    · simp [reattach_rec]
    · simp [reattach_rec, h5]
  · rcases eq_or_ne xa zb with rfl | h2
    · simp [reattach_rec, h1]
    · rcases eq_or_ne xb za with rfl | h3
      · rcases eq_or_ne zb xb with rfl | h5
        · simp [reattach_rec, h1]
        · simp [reattach_rec, h1, h2, h5]
      · rcases eq_or_ne xb zb with rfl | h4
        · simp [reattach_rec, h1, h2, h3]
        · simp [reattach_rec, h1, h2, h3, h4]

theorem incident_bonds_eq_filter (bond : Bonds) (n_bond i : Nat) :
    incident_bonds bond n_bond i
      = (List.range n_bond).filter
          (fun j => (bond j).exists_ && ((bond j).a == i || (bond j).b == i)) := by
  unfold incident_bonds
  induction n_bond with
  | zero => rfl
  | succ m ih =>
    rw [forLoop_succ, ih, List.range_succ, List.filter_append]
    by_cases h : ((bond m).exists_ && ((bond m).a == i || (bond m).b == i)) = true
    · simp [h]
    · simp [h]

theorem incident_bonds_nodup (bond : Bonds) (n_bond i : Nat) :
    (incident_bonds bond n_bond i).Nodup := by
  rw [incident_bonds_eq_filter]
  exact (List.nodup_range n_bond).filter _

theorem incident_bonds_exists (bond : Bonds) (n_bond i j : Nat)
    (h : j ∈ incident_bonds bond n_bond i) : (bond j).exists_ = true := by
  rw [incident_bonds_eq_filter, List.mem_filter] at h
  simp only [Bool.and_eq_true] at h
  exact h.2.1

/-- The partner search on three remaining bonds ends in one of four ways. -/
theorem pair_loop_three (off : Nat → Bool) (j1 j2 j3 : Nat) :
    pair_loop off 3 (0, [j1, j2, j3]) = (j1, [j2, j3]) ∨
    pair_loop off 3 (0, [j1, j2, j3]) = (j2, [j3, j1]) ∨
    pair_loop off 3 (0, [j1, j2, j3]) = (j3, [j1, j2]) ∨
    pair_loop off 3 (0, [j1, j2, j3]) = (j3, [j1, j2, j3]) := by
  cases h1 : off j1 <;> cases h2 : off j2 <;> cases h3 : off j3 <;>
    simp [pair_loop, h1, h2, h3]

/-- What the gate of a junction guarantees about the four chosen bonds. -/
theorem bridge_candidate_sound (G : Geometry) (thickness : ℚ) (n_bond i : Nat) (atom : Atoms)
    (bond : Bonds) (a b c d : Nat)
    (h : bridge_candidate G thickness n_bond i atom bond = some (a, b, c, d)) :
    (atom i).exists_ = true ∧
    (bond a).exists_ = true ∧ (bond b).exists_ = true ∧
    (bond c).exists_ = true ∧ (bond d).exists_ = true ∧
    a ≠ b ∧ a ≠ c ∧ a ≠ d ∧ b ≠ c ∧ b ≠ d ∧ c ≠ d := by
  unfold bridge_candidate at h
  split at h
  case isFalse => cases h
  case isTrue hat =>
    have hnd := incident_bonds_nodup bond n_bond i
    have hex := incident_bonds_exists bond n_bond i
    generalize incident_bonds bond n_bond i = con at h hnd hex
    simp only [Bool.and_eq_true] at hat
    match con, h, hnd, hex with
    | [], h, _, _ => cases h
    | [_], h, _, _ => simp at h
    | [_, _], h, _, _ => simp at h
    | [_, _, _], h, _, _ => simp at h
    | _ :: _ :: _ :: _ :: _ :: _, h, _, _ => simp at h
    | [j0, j1, j2, j3], h, hnd, hex =>
      simp only [List.length_cons, List.length_nil, if_true] at h
      have e0 := hex j0 (by simp)
      have e1 := hex j1 (by simp)
      have e2 := hex j2 (by simp)
      have e3 := hex j3 (by simp)
      simp only [List.nodup_cons, List.mem_cons, List.mem_singleton, not_or,
        List.not_mem_nil, not_false_eq_true, List.nodup_nil, and_true] at hnd
      obtain ⟨⟨n01, n02, n03⟩, ⟨n12, n13⟩, n23⟩ := hnd
      rcases pair_loop_three (off_line G atom bond thickness j0) j1 j2 j3 with hp | hp | hp | hp
      all_goals rw [hp] at h
      all_goals simp only at h
      all_goals try (split at h)
      all_goals cases h
      all_goals
        refine ⟨hat.1, ?_, ?_, ?_, ?_, ?_, ?_, ?_, ?_, ?_, ?_⟩ <;> first | assumption | omega

/-- The bond part of the roll-back undoes the bond part of the tentative reconnection. -/
theorem bridge_bonds_restore (bond : Bonds) (a b c d : Nat)
    (hab : a ≠ b) (hac : a ≠ c) (had : a ≠ d) (hbc : b ≠ c) (hbd : b ≠ d) (hcd : c ≠ d)
    (eb : (bond b).exists_ = true) (ed : (bond d).exists_ = true) :
    reattach (reattach (revive (revive
      (reattach (reattach (kill (kill bond b) d) a b) c d) b) d) a b) c d = bond := by
  have rb : ({ bond b with exists_ := true } : bond_t) = bond b := by
    rw [← eb]
  have rd : ({ bond d with exists_ := true } : bond_t) = bond d := by
    rw [← ed]
  funext k
  simp only [reattach_eq, revive, kill]
  by_cases ka : k = a
  · subst ka
    simp [upd, hab, hac, had, hbc, hbd, hcd, hab.symm, hac.symm, had.symm, hbc.symm, hbd.symm,
      hcd.symm, reattach_rec_undo, rb, rd]
  · by_cases kb : k = b
    · subst kb
      simp [upd, hab, hac, had, hbc, hbd, hcd, hab.symm, hac.symm, had.symm, hbc.symm,
        hbd.symm, hcd.symm, reattach_rec_undo, rb, rd]
    · by_cases kc : k = c
      · subst kc
        simp [upd, hab, hac, had, hbc, hbd, hcd, hab.symm, hac.symm, had.symm, hbc.symm,
          hbd.symm, hcd.symm, reattach_rec_undo, rb, rd]
      · by_cases kd : k = d
        · subst kd
          simp [upd, hab, hac, had, hbc, hbd, hcd, hab.symm, hac.symm, had.symm, hbc.symm,
            hbd.symm, hcd.symm, reattach_rec_undo, rb, rd]
        · simp [upd, ka, kb, kc, kd]

/-- C4. Bridge roll-back is exact: whenever the gate of junction `i` admits a reconnection
`(a, b, c, d)` and the statistics test rejects it, the junction step returns every bond
record (endpoints `a`, `b`, exists flag and all other fields) and every atom exists flag
exactly as before the tentative reconnection.  No hypothesis on self-loops or duplicate bonds
is needed.  The statistics collaborator may rewrite atoms; it is only assumed to leave
their exists flags alone. -/
theorem bridge_rollback_exact (stats : StatisticsFn) (G : Geometry) (thickness : ℚ)
    (n_bond : Nat) (s1 : molecule_statistics_t) (i : Nat) (atom : Atoms) (bond : Bonds)
    (a b c d : Nat)
    (hframe : ∀ (at1 : Atoms) (bo : Bonds) (n k : Nat),
      ((stats at1 bo n).2 k).exists_ = (at1 k).exists_)
    (hc : bridge_candidate G thickness n_bond i atom bond = some (a, b, c, d))
    (hrej : bridge_rejected s1
      (stats (bridge_tentative i a b c d (atom, bond)).1
        (bridge_tentative i a b c d (atom, bond)).2 n_bond).1 = true) :
    (bridge_junction stats G thickness n_bond s1 i (atom, bond)).2 = bond ∧
    ∀ k, ((bridge_junction stats G thickness n_bond s1 i (atom, bond)).1 k).exists_
      = (atom k).exists_ := by
  obtain ⟨hi, _, eb, _, ed, hab, hac, had, hbc, hbd, hcd⟩ :=
    bridge_candidate_sound G thickness n_bond i atom bond a b c d hc
  unfold bridge_junction
  simp only [hc, hrej, if_true]
  constructor
  · exact bridge_bonds_restore bond a b c d hab hac had hbc hbd hcd eb ed
  · intro k
    simp only [bridge_rollback]
    by_cases hk : k = i
    · subst hk
      simp [upd, hi]
    · rw [upd_other _ _ _ _ hk, hframe]
      simp [bridge_tentative, upd, hk]

/-- Witness for C4: the second crossing of the crossing example is tried and rejected, and
the junction step hands back the bonds and the atom exists flags it found. -/
theorem bridge_rollback_exact_witness :
    (bridge_junction cross_stats euclid 1 18 cross_s1 8 (cross_mid.1, cross_mid.2)).2
      = cross_mid.2 ∧
    ∀ k, ((bridge_junction cross_stats euclid 1 18 cross_s1 8 (cross_mid.1, cross_mid.2)).1
      k).exists_ = (cross_mid.1 k).exists_ :=
  bridge_rollback_exact cross_stats euclid 1 18 cross_s1 8 cross_mid.1 cross_mid.2 9 10 11 12
    (fun _ _ _ _ => rfl) (by decide!) (by decide!)

/-- C5, the code at the failing input.  In the crossing example the first crossing (atom 0)
is reconnected and kept: the 5/6-ring count goes from 2 to 1.  At the second crossing
(atom 8) the gate admits the reconnection `(9, 10, 11, 12)`; against the statistics of the
graph just before it the reconnection passes the test (fragments 2 = 2, rotors 0 = 0, rings
1 - 0 = 1), yet `resolve_bridge_bonds` rolls it back, because it compares with the
statistics taken once at entry (rings 2 - 0 = 2): atom 8 and bonds 10 and 12 still exist on
return and bond 9 still ends at atom 8. -/
theorem resolve_bridge_bonds_stale_reference :
    -- the first reconnection was kept
    (cross_mid.1 0).exists_ = false ∧ (cross_mid.2 1).exists_ = false ∧
    (cross_mid.2 3).exists_ = false ∧
    ((cross_mid.2 0).a, (cross_mid.2 0).b) = (2, 1) ∧
    ((cross_mid.2 2).a, (cross_mid.2 2).b) = (4, 3) ∧
    (cross_stats cross_mid.1 cross_mid.2 18).1 = { rotors := 0, fragments := 2, rings56 := 1 } ∧
    -- the second reconnection is admitted and acceptable relative to the graph just before it
    bridge_candidate euclid 1 18 8 cross_mid.1 cross_mid.2 = some (9, 10, 11, 12) ∧
    (cross_stats (bridge_tentative 8 9 10 11 12 cross_mid).1
      (bridge_tentative 8 9 10 11 12 cross_mid).2 18).1
      = { rotors := 0, fragments := 2, rings56 := 0 } ∧
    bridge_rejected (cross_stats cross_mid.1 cross_mid.2 18).1
      (cross_stats (bridge_tentative 8 9 10 11 12 cross_mid).1
        (bridge_tentative 8 9 10 11 12 cross_mid).2 18).1 = false ∧
    -- the code rejects it against the statistics taken at entry and rolls it back
    cross_s1 = { rotors := 0, fragments := 2, rings56 := 2 } ∧
    bridge_rejected cross_s1
      (cross_stats (bridge_tentative 8 9 10 11 12 cross_mid).1
        (bridge_tentative 8 9 10 11 12 cross_mid).2 18).1 = true ∧
    ((resolve_bridge_bonds cross_stats euclid cross_atoms 16 cross_bonds 18 1).2.1 8).exists_
      = true ∧
    ((resolve_bridge_bonds cross_stats euclid cross_atoms 16 cross_bonds 18 1).2.2 10).exists_
      = true ∧
    ((resolve_bridge_bonds cross_stats euclid cross_atoms 16 cross_bonds 18 1).2.2 12).exists_
      = true ∧
    ((resolve_bridge_bonds cross_stats euclid cross_atoms 16 cross_bonds 18 1).2.2 9).a = 8 := by
  refine ⟨?_, ?_, ?_, ?_, ?_, ?_, ?_, ?_, ?_, ?_, ?_, ?_, ?_, ?_, ?_⟩ <;> decide!

/-! ## `collapse_atoms` -/

/-- A loop over a state with a flag that rounds can only raise while they leave the rest
alone otherwise: if the flag is down at the end, no round changed anything. -/
theorem forLoop_flag {σ : Type} (body : Nat → σ × Bool → σ × Bool)
    (hb : ∀ i s, (body i s).2 = false → body i s = s) (n : Nat) (s : σ × Bool)
    (h : (forLoop body n s).2 = false) :
    forLoop body n s = s ∧ ∀ i, i < n → body i s = s := by
  induction n with
  | zero => exact ⟨rfl, fun i hi => absurd hi (Nat.not_lt_zero i)⟩
  | succ m ih =>
    rw [forLoop_succ] at h ⊢
    have h1 := hb m _ h
    rw [h1] at h
    obtain ⟨h2, h3⟩ := ih h
    rw [h1, h2]
    refine ⟨rfl, fun i hi => ?_⟩
    by_cases him : i = m
    · subst him; rw [← h2]; rw [h1, h2]
    · exact h3 i (by omega)

theorem collapse_atoms_step_flag (G : Geometry) (n_bond : Nat) (dist : ℚ) (i j : Nat)
    (s : (Atoms × Bonds) × Bool) (h : (collapse_atoms_step G n_bond dist i j s).2 = false) :
    collapse_atoms_step G n_bond dist i j s = s := by
  unfold collapse_atoms_step at h ⊢
  split at h
  · cases h
  · rename_i hc; rw [if_neg hc]

theorem collapse_atoms_row_flag (G : Geometry) (n_atom n_bond : Nat) (dist : ℚ) (i : Nat)
    (s : (Atoms × Bonds) × Bool) (h : (collapse_atoms_row G n_atom n_bond dist i s).2 = false) :
    collapse_atoms_row G n_atom n_bond dist i s = s := by
  unfold collapse_atoms_row at h ⊢
  split at h
  · rename_i hc
    rw [if_pos hc]
    exact (forLoop_flag _ (collapse_atoms_step_flag G n_bond dist i) n_atom s h).1
  · rename_i hc; rw [if_neg hc]

/-- A pass that leaves `found` down has changed nothing, and no pair of distinct existing
atoms is closer than `dist`. -/
theorem collapse_atoms_pass_quiet (G : Geometry) (n_atom n_bond : Nat) (dist : ℚ)
    (s : Atoms × Bonds) (h : (collapse_atoms_pass G n_atom n_bond dist s).2 = false) :
    (collapse_atoms_pass G n_atom n_bond dist s).1 = s ∧
    ∀ i j, i < n_atom → j < n_atom → i ≠ j → (s.1 i).exists_ = true →
      (s.1 j).exists_ = true →
      ¬ G.distance (s.1 i).x (s.1 i).y (s.1 j).x (s.1 j).y < dist := by
  unfold collapse_atoms_pass at h ⊢
  obtain ⟨h1, h2⟩ := forLoop_flag _ (collapse_atoms_row_flag G n_atom n_bond dist) n_atom
    (s, false) h
  refine ⟨by rw [h1], ?_⟩
  intro i j hi hj hij hei hej hd
  have hrow := h2 i hi
  unfold collapse_atoms_row at hrow
  rw [if_pos (by exact hei)] at hrow
  have hfl : (forLoop (collapse_atoms_step G n_bond dist i) n_atom (s, false)).2 = false := by
    rw [hrow]
  have hstep := (forLoop_flag _ (collapse_atoms_step_flag G n_bond dist i) n_atom
    (s, false) hfl).2 j hj
  unfold collapse_atoms_step at hstep
  have hc : close_atoms G dist i j s.1 = true := by
    simp [close_atoms, hej, Ne.symm hij, hd]
  rw [if_pos (by exact hc)] at hstep
  have := congrArg Prod.snd hstep
  simp at this

theorem count_atoms_le (atom : Atoms) (n : Nat) : count_atoms atom n ≤ n := by
  induction n with
  | zero => simp [count_atoms]
  | succ m ih =>
    simp only [count_atoms]
    split <;> omega

theorem count_atoms_upd_flag (atom : Atoms) (k : Nat) (a : atom_t) (n : Nat)
    (h : a.exists_ = (atom k).exists_) : count_atoms (upd atom k a) n = count_atoms atom n := by
  induction n with
  | zero => rfl
  | succ m ih =>
    simp only [count_atoms, ih]
    by_cases hk : m = k
    · subst hk; simp [upd, h]
    · simp [upd, hk]

theorem count_atoms_upd_kill (atom : Atoms) (k : Nat) (a : atom_t) (n : Nat)
    (hk : k < n) (h1 : (atom k).exists_ = true) (h2 : a.exists_ = false) :
    count_atoms (upd atom k a) n + 1 = count_atoms atom n := by
  induction n with
  | zero => omega
  | succ m ih =>
    simp only [count_atoms]
    by_cases hkm : k = m
    · subst hkm
      have h0 : count_atoms (upd atom k a) k = count_atoms atom k := by
        clear ih hk
        have : ∀ n, n ≤ k → count_atoms (upd atom k a) n = count_atoms atom n := by
          intro n
          induction n with
          | zero => intro _; rfl
          | succ j ihj =>
            intro hj
            simp only [count_atoms, ihj (by omega)]
            have : j ≠ k := by omega
            simp [upd, this]
        exact this k (Nat.le_refl k)
      simp [upd, h0, h1, h2]
    · have := ih (by omega)
      have hne : m ≠ k := fun e => hkm e.symm
      simp only [upd, hne, if_false]
      omega

/-- Merging an existing atom `j ≠ i` below `n` into atom `i` removes one existing atom. -/
theorem count_atoms_merge (atom : Atoms) (i j n : Nat) (hj : j < n) (hij : j ≠ i)
    (he : (atom j).exists_ = true) :
    count_atoms (merge_atoms i j atom) n + 1 = count_atoms atom n := by
  have hk := count_atoms_upd_kill atom j { atom j with exists_ := false } n hj he rfl
  have hi : (upd atom j { atom j with exists_ := false } i) = atom i := by
    simp [upd, Ne.symm hij]
  unfold merge_atoms
  simp only
  split
  · rw [count_atoms_upd_flag, count_atoms_upd_flag, count_atoms_upd_flag, hk]
    · simp [upd]
    · simp [upd]
    · simp [upd]
  · rw [count_atoms_upd_flag, count_atoms_upd_flag, hk]
    · simp [upd]
    · simp [upd]

/-- The potential of the pass: existing atoms, plus one once `found` is up.  No round of
the `j` loop raises it. -/
theorem collapse_atoms_step_count (G : Geometry) (n_atom n_bond : Nat) (dist : ℚ) (i j : Nat)
    (hj : j < n_atom) (s : (Atoms × Bonds) × Bool) :
    count_atoms (collapse_atoms_step G n_bond dist i j s).1.1 n_atom
        + (if (collapse_atoms_step G n_bond dist i j s).2 then 1 else 0)
      ≤ count_atoms s.1.1 n_atom + (if s.2 then 1 else 0) := by
  unfold collapse_atoms_step
  split
  · rename_i hc
    simp only [close_atoms, Bool.and_eq_true, bne_iff_ne, ne_eq] at hc
    have := count_atoms_merge s.1.1 i j n_atom hj hc.1.2 hc.1.1
    simp only [if_true]
    omega
  · exact Nat.le_refl _

theorem collapse_atoms_row_count (G : Geometry) (n_atom n_bond : Nat) (dist : ℚ) (i : Nat)
    (s : (Atoms × Bonds) × Bool) :
    count_atoms (collapse_atoms_row G n_atom n_bond dist i s).1.1 n_atom
        + (if (collapse_atoms_row G n_atom n_bond dist i s).2 then 1 else 0)
      ≤ count_atoms s.1.1 n_atom + (if s.2 then 1 else 0) := by
  unfold collapse_atoms_row
  split
  · exact forLoop_inv (collapse_atoms_step G n_bond dist i)
      (fun _ t => count_atoms t.1.1 n_atom + (if t.2 then 1 else 0)
        ≤ count_atoms s.1.1 n_atom + (if s.2 then 1 else 0)) n_atom s (Nat.le_refl _)
      (fun j t hj ht =>
        Nat.le_trans (collapse_atoms_step_count G n_atom n_bond dist i j hj t) ht)
  · exact Nat.le_refl _

/-- A pass that raises `found` leaves strictly fewer existing atoms. -/
theorem collapse_atoms_pass_count (G : Geometry) (n_atom n_bond : Nat) (dist : ℚ)
    (s : Atoms × Bonds) (h : (collapse_atoms_pass G n_atom n_bond dist s).2 = true) :
    count_atoms (collapse_atoms_pass G n_atom n_bond dist s).1.1 n_atom
      < count_atoms s.1 n_atom := by
  have key := forLoop_inv (collapse_atoms_row G n_atom n_bond dist)
    (fun _ t => count_atoms t.1.1 n_atom + (if t.2 then 1 else 0)
      ≤ count_atoms s.1 n_atom) n_atom (s, false) (by simp)
    (fun i t _ ht => Nat.le_trans (collapse_atoms_row_count G n_atom n_bond dist i t) ht)
  simp only at key
  unfold collapse_atoms_pass at h ⊢
  rw [h] at key
  simp only [if_true] at key
  omega

/-- With more passes allowed than there are existing atoms the `while (found)` loop ends in
a state on which a further pass finds nothing: the fuel never runs out. -/
theorem collapse_atoms_loop_stable (G : Geometry) (n_atom n_bond : Nat) (dist : ℚ)
    (fuel : Nat) (s : Atoms × Bonds) (hf : count_atoms s.1 n_atom < fuel) :
    (collapse_atoms_pass G n_atom n_bond dist
      (collapse_atoms_loop G n_atom n_bond dist fuel s)).2 = false := by
  induction fuel generalizing s with
  | zero => omega
  | succ m ih =>
    unfold collapse_atoms_loop
    by_cases hp : (collapse_atoms_pass G n_atom n_bond dist s).2 = true
    · rw [if_pos hp]
      have := collapse_atoms_pass_count G n_atom n_bond dist s hp
      exact ih _ (by omega)
    · rw [if_neg hp]
      have hp2 : (collapse_atoms_pass G n_atom n_bond dist s).2 = false := by
        simpa using hp
      rw [(collapse_atoms_pass_quiet G n_atom n_bond dist s hp2).1]
      exact hp2

/-- C6. Idempotence of atom collapsing: running `collapse_atoms` on its own output (same
`dist`) returns that output unchanged, atoms and bonds alike; and on return no two distinct
existing atoms below `n_atom` are closer than `dist`.  This holds for every `distance`
helper. -/
theorem collapse_atoms_idempotent (G : Geometry) (atom : Atoms) (bond : Bonds)
    (n_atom n_bond : Nat) (dist : ℚ) :
    collapse_atoms G (collapse_atoms G atom bond n_atom n_bond dist).1
        (collapse_atoms G atom bond n_atom n_bond dist).2 n_atom n_bond dist
      = collapse_atoms G atom bond n_atom n_bond dist ∧
    ∀ i j, i < n_atom → j < n_atom → i ≠ j →
      ((collapse_atoms G atom bond n_atom n_bond dist).1 i).exists_ = true →
      ((collapse_atoms G atom bond n_atom n_bond dist).1 j).exists_ = true →
      ¬ G.distance ((collapse_atoms G atom bond n_atom n_bond dist).1 i).x
          ((collapse_atoms G atom bond n_atom n_bond dist).1 i).y
          ((collapse_atoms G atom bond n_atom n_bond dist).1 j).x
          ((collapse_atoms G atom bond n_atom n_bond dist).1 j).y < dist := by
  have hq := collapse_atoms_loop_stable G n_atom n_bond dist (n_atom + 1) (atom, bond)
    (Nat.lt_succ_of_le (count_atoms_le atom n_atom))
  obtain ⟨h1, h2⟩ := collapse_atoms_pass_quiet G n_atom n_bond dist _ hq
  refine ⟨?_, h2⟩
  show collapse_atoms_loop G n_atom n_bond dist (n_atom + 1)
      ((collapse_atoms G atom bond n_atom n_bond dist).1,
        (collapse_atoms G atom bond n_atom n_bond dist).2)
    = collapse_atoms G atom bond n_atom n_bond dist
  have hq2 : (collapse_atoms_pass G n_atom n_bond dist
      ((collapse_atoms G atom bond n_atom n_bond dist).1,
        (collapse_atoms G atom bond n_atom n_bond dist).2)).2 = false := hq
  unfold collapse_atoms_loop
  rw [if_neg (by rw [hq2]; simp)]
  exact h1

/-! ## `collapse_bonds` -/

/-- C7, the code at the failing input.  Two atoms at (0, 0) and (4, 0) joined by one
existing bond of length 4, `dist = 5`: the bond is shorter than `dist`, its endpoint atoms
are distinct and belong to no other bond.  `collapse_bonds` moves the `a` end to the
midpoint (2, 0) but the `b` end to (3, 0), the midpoint of the moved `a` end and the old
`b` end; the two ends do not coincide, and a second run moves them again. -/
theorem collapse_bonds_misses_midpoint :
    (short_bonds 0).exists_ = true ∧ (short_bonds 0).a = 0 ∧ (short_bonds 0).b = 1 ∧
    bond_length euclid short_bonds 0 short_atoms = 4 ∧
    ((collapse_bonds euclid short_atoms short_bonds 1 5 0).x,
      (collapse_bonds euclid short_atoms short_bonds 1 5 0).y) = (2, 0) ∧
    ((collapse_bonds euclid short_atoms short_bonds 1 5 1).x,
      (collapse_bonds euclid short_atoms short_bonds 1 5 1).y) = (3, 0) ∧
    (collapse_bonds euclid (collapse_bonds euclid short_atoms short_bonds 1 5) short_bonds 1 5
      0).x = 5 / 2 ∧
    (collapse_bonds euclid (collapse_bonds euclid short_atoms short_bonds 1 5) short_bonds 1 5
      1).x = 11 / 4 := by
  refine ⟨?_, ?_, ?_, ?_, ?_, ?_, ?_, ?_⟩ <;> decide!

/-! ## `collapse_atoms` and bond endpoints -/

/-- C8, the code at the failing input.  Atoms 0, 1, 2 at x = 0, 6, 4 on one line, all
existing, one existing bond joining the distinct atoms 0 and 2, `dist = 5`.  Atom 2 is merged
into atom 0 (the bond becomes the self-loop 0 - 0), then atom 0 is merged into atom 1; the
`else if` repoints only the `a` end of the self-loop.  On return bond 0 exists and its `b`
end is atom 0, which no longer exists. -/
theorem collapse_atoms_leaves_dangling_end :
    (line_bonds 0).exists_ = true ∧ (line_bonds 0).a = 0 ∧ (line_bonds 0).b = 2 ∧
    (line_atoms 0).exists_ = true ∧ (line_atoms 2).exists_ = true ∧
    ((collapse_atoms euclid line_atoms line_bonds 3 1 5).2 0).exists_ = true ∧
    ((collapse_atoms euclid line_atoms line_bonds 3 1 5).2 0).a = 1 ∧
    ((collapse_atoms euclid line_atoms line_bonds 3 1 5).2 0).b = 0 ∧
    ((collapse_atoms euclid line_atoms line_bonds 3 1 5).1 0).exists_ = false := by
  refine ⟨?_, ?_, ?_, ?_, ?_, ?_, ?_, ?_, ?_⟩ <;> decide!

/-! ## `double_triple_bonds` -/

theorem SameShape.refl_shape (b : Bonds) : SameShape b b := fun _ => ⟨rfl, rfl, id⟩

theorem SameShape.trans_shape {b0 b1 b2 : Bonds} (h1 : SameShape b0 b1) (h2 : SameShape b1 b2) :
    SameShape b0 b2 := fun k =>
  ⟨Eq.trans (h2 k).1 (h1 k).1, Eq.trans (h2 k).2.1 (h1 k).2.1,
    fun h => (h1 k).2.2 ((h2 k).2.2 h)⟩

theorem SameShape.bond_length_eq {b0 b : Bonds} (h : SameShape b0 b) (G : Geometry) (i : Nat)
    (atom : Atoms) : bond_length G b i atom = bond_length G b0 i atom := by
  simp only [Osra.bond_length, (h i).1, (h i).2.1]

theorem SameShape.near_parallel_eq {b0 b : Bonds} (h : SameShape b0 b) (G : Geometry) (i j : Nat)
    (atom : Atoms) : near_parallel G b i j atom = near_parallel G b0 i j atom := by
  simp only [Osra.near_parallel, angle_between_bonds, (h i).1, (h i).2.1, (h j).1, (h j).2.1]

theorem SameShape.distance_between_bonds_eq {b0 b : Bonds} (h : SameShape b0 b) (G : Geometry)
    (i j : Nat) (atom : Atoms) :
    distance_between_bonds G b i j atom = distance_between_bonds G b0 i j atom := by
  simp only [Osra.distance_between_bonds, (h i).1, (h i).2.1, (h j).1, (h j).2.1]

theorem SameShape.bonds_within_each_other_eq {b0 b : Bonds} (h : SameShape b0 b) (G : Geometry)
    (i j : Nat) (atom : Atoms) :
    bonds_within_each_other G b i j atom = bonds_within_each_other G b0 i j atom := by
  simp only [Osra.bonds_within_each_other, within_ordered, Osra.bond_length, (h i).1,
    (h i).2.1, (h j).1, (h j).2.1]

/-- What `absorb` does: bond `lose` is switched off, bond `keep` gains the order of `lose`
when `test` holds, no endpoint moves and no other bond changes. -/
theorem absorb_spec (bond : Bonds) (keep lose : Nat) (test : Bool) (hne : keep ≠ lose) :
    SameShape bond (absorb bond keep lose test) ∧
    (absorb bond keep lose test lose).exists_ = false ∧
    (absorb bond keep lose test keep).exists_ = (bond keep).exists_ ∧
    (absorb bond keep lose test keep).type
      = (if test then (bond keep).type + (bond lose).type else (bond keep).type) ∧
    ∀ z, z ≠ keep → z ≠ lose → absorb bond keep lose test z = bond z := by
  have hne2 : lose ≠ keep := Ne.symm hne
  refine ⟨?_, ?_, ?_, ?_, ?_⟩
  · intro k
    by_cases hk : k = keep
    · subst hk
      unfold absorb
      simp only [kill]
      cases test <;> (split_ifs <;> simp [upd, hne, hne2])
    · by_cases hl : k = lose
      · subst hl
        unfold absorb
        simp only [kill]
        cases test <;> (split_ifs <;> simp [upd, hne, hne2])
      · unfold absorb
        simp only [kill]
        cases test <;> (split_ifs <;> simp [upd, hk, hl])
  · unfold absorb
    simp only [kill]
    cases test <;> (split_ifs <;> simp [upd, hne, hne2])
  · unfold absorb
    simp only [kill]
    cases test <;> (split_ifs <;> simp [upd, hne, hne2])
  · unfold absorb
    simp only [kill]
    cases test <;> (split_ifs <;> simp [upd, hne, hne2])
  · intro z hk hl
    unfold absorb
    simp only [kill]
    cases test <;> (split_ifs <;> simp [upd, hk, hl])

/-- The triple-bond search for the pair `i`, `j` moves no endpoint, switches nothing on, and
changes, besides bond `j`, only existing bonds `z > j` that are near-parallel to `j`; without
such a bond it changes nothing. -/
theorem triple_search_frame (G : Geometry) (avg max_dist_double_bond : ℚ) (atom : Atoms)
    (n_bond i j : Nat) (l2 dij : ℚ) (bond : Bonds) :
    SameShape bond (triple_search G avg max_dist_double_bond atom n_bond i j l2 dij bond) ∧
    (∀ z, z ≠ j →
      ¬ (j < z ∧ z < n_bond ∧ (bond z).exists_ = true ∧ near_parallel G bond z j atom = true) →
      triple_search G avg max_dist_double_bond atom n_bond i j l2 dij bond z = bond z) ∧
    ((∀ z, j < z → z < n_bond → (bond z).exists_ = true →
        near_parallel G bond z j atom = false) →
      triple_search G avg max_dist_double_bond atom n_bond i j l2 dij bond = bond) := by
  unfold triple_search
  have key : ∀ m, m ≤ n_bond - (j + 1) →
      SameShape bond (forLoop (fun t s =>
        triple_step G avg max_dist_double_bond atom i j l2 dij (j + 1 + t) s) m (bond, false)).1 ∧
      (∀ z, z ≠ j →
        ¬ (j < z ∧ z < n_bond ∧ (bond z).exists_ = true ∧
          near_parallel G bond z j atom = true) →
        (forLoop (fun t s =>
          triple_step G avg max_dist_double_bond atom i j l2 dij (j + 1 + t) s) m
            (bond, false)).1 z = bond z) ∧
      ((∀ z, j < z → z < n_bond → (bond z).exists_ = true →
          near_parallel G bond z j atom = false) →
        (forLoop (fun t s =>
          triple_step G avg max_dist_double_bond atom i j l2 dij (j + 1 + t) s) m
            (bond, false)) = (bond, false)) := by
    intro m
    induction m with
    | zero => intro _; exact ⟨SameShape.refl_shape _, fun _ _ _ => rfl, fun _ => rfl⟩
    | succ m ih =>
      intro hm
      obtain ⟨h1, h2, h3⟩ := ih (by omega)
      rw [forLoop_succ]
      generalize forLoop (fun t s =>
        triple_step G avg max_dist_double_bond atom i j l2 dij (j + 1 + t) s) m
          (bond, false) = s at h1 h2 h3
      have hkj : j + 1 + m ≠ j := by omega
      have hjk : j ≠ j + 1 + m := by omega
      unfold triple_step
      by_cases hb : s.2 = true
      · simp only [hb, if_true]
        exact ⟨h1, h2, fun hno => by rw [h3 hno] at hb; cases hb⟩
      · simp only [hb, Bool.false_eq_true, if_false]
        by_cases hc : ((s.1 (j + 1 + m)).exists_ && near_parallel G s.1 (j + 1 + m) j atom) = true
        · have hc' := hc
          simp only [Bool.and_eq_true] at hc'
          have hcand : j < j + 1 + m ∧ j + 1 + m < n_bond ∧ (bond (j + 1 + m)).exists_ = true ∧
              near_parallel G bond (j + 1 + m) j atom = true :=
            ⟨by omega, by omega, (h1 _).2.2 hc'.1, by rw [← h1.near_parallel_eq]; exact hc'.2⟩
          have hno : ¬ (∀ z, j < z → z < n_bond → (bond z).exists_ = true →
              near_parallel G bond z j atom = false) := by
            intro hno
            have := hno _ hcand.1 hcand.2.1 hcand.2.2.1
            rw [hcand.2.2.2] at this
            cases this
          simp only [hc, if_true]
          split
          · split
            · obtain ⟨a1, _, _, _, a5⟩ := absorb_spec s.1 j (j + 1 + m)
                (adds_order avg (bond_length G s.1 (j + 1 + m) atom) l2) hjk
              refine ⟨h1.trans_shape a1, fun z hz hcz => ?_, fun h => absurd h hno⟩
              have hzk : z ≠ j + 1 + m := by
                intro e; subst e; exact hcz hcand
              show absorb s.1 j (j + 1 + m) _ z = bond z
              rw [a5 z hz hzk]; exact h2 z hz hcz
            · obtain ⟨a1, _, _, _, a5⟩ := absorb_spec s.1 (j + 1 + m) j
                (adds_order avg l2 (bond_length G s.1 (j + 1 + m) atom)) hkj
              refine ⟨h1.trans_shape a1, fun z hz hcz => ?_, fun h => absurd h hno⟩
              have hzk : z ≠ j + 1 + m := by
                intro e; subst e; exact hcz hcand
              show absorb s.1 (j + 1 + m) j _ z = bond z
              rw [a5 z hzk hz]; exact h2 z hz hcz
          · exact ⟨h1, h2, fun h => absurd h hno⟩
        · simp only [hc, Bool.false_eq_true, if_false]
          exact ⟨h1, h2, h3⟩
  obtain ⟨h1, h2, h3⟩ := key (n_bond - (j + 1)) (Nat.le_refl _)
  exact ⟨h1, h2, fun hno => by rw [h3 hno]⟩

theorem Quiet.refl_quiet (g : graph_t) : Quiet g g := ⟨rfl, rfl, rfl, SameShape.refl_shape _⟩

/-- Invariant rule for `whileLoop` with a variant: with enough fuel the loop ends because
its test fails, in a state that satisfies the invariant. -/
theorem whileLoop_inv {σ : Type} (test : σ → Bool) (body : σ → σ) (Inv : σ → Prop)
    (μ : σ → Nat)
    (hstep : ∀ s, Inv s → test s = true → Inv (body s) ∧ μ (body s) < μ s) :
    ∀ fuel s, Inv s → μ s ≤ fuel →
      Inv (whileLoop test body fuel s) ∧ test (whileLoop test body fuel s) = false := by
  intro fuel
  induction fuel with
  | zero =>
    intro s hs hμ
    unfold whileLoop
    refine ⟨hs, ?_⟩
    by_contra ht
    have := (hstep s hs (by simpa using ht)).2
    omega
  | succ m ih =>
    intro s hs hμ
    unfold whileLoop
    by_cases ht : test s = true
    · rw [if_pos ht]
      obtain ⟨h1, h2⟩ := hstep s hs ht
      exact ih (body s) h1 (by omega)
    · rw [if_neg ht]
      exact ⟨hs, by simpa using ht⟩

/-- The body of the `j` loop does nothing, and does not `break`, on a bond `j` that does not
exist or is not near-parallel to bond `i`. -/
theorem pair_body_skip (G : Geometry) (avg max_dist_double_bond : ℚ) (i j : Nat) (l1 : ℚ)
    (g : graph_t)
    (h : (g.bond j).exists_ = false ∨ near_parallel G g.bond i j g.atom = false) :
    pair_body G avg max_dist_double_bond i l1 j g = (g, false) := by
  unfold pair_body
  rcases h with h | h <;> simp [h]

/-- The plain merge of two bonds of equal positive length: when bond `j` is existing,
near-parallel to bond `i`, close enough and overlapping, and `T` is what the triple-bond
search leaves with bond `j` still existing, the body ends in the branch that switches bond
`i` off, adds its order to bond `j`, and breaks out of the `j` loop. -/
theorem pair_body_merge (G : Geometry) (avg max_dist_double_bond : ℚ) (i j : Nat) (l1 : ℚ)
    (g : graph_t) (T : Bonds)
    (hje : (g.bond j).exists_ = true) (hpar : near_parallel G g.bond i j g.atom = true)
    (hsep : distance_between_bonds G g.bond i j g.atom ≤ max_dist_double_bond)
    (hwi : bonds_within_each_other G g.bond i j g.atom = true)
    (hT : triple_search G avg max_dist_double_bond g.atom g.n_bond i j
      (bond_length G g.bond j g.atom) (distance_between_bonds G g.bond i j g.atom) g.bond = T)
    (hTj : (T j).exists_ = true)
    (hl : bond_length G g.bond j g.atom = l1) (hpos : 0 < l1) :
    pair_body G avg max_dist_double_bond i l1 j g
      = ({ g with bond := absorb T j i true }, true) := by
  subst hl
  unfold pair_body
  generalize bond_length G g.bond j g.atom = l at hT hpos
  have h1 : (decide (l > avg) && decide (l > 3 / 2 * l) && decide (l > 1 / 2 * avg))
      = false := by
    have : ¬ l > 3 / 2 * l := by linarith
    simp [this]
  have h2 : decide (l > l / 2) = true := by
    have : l > l / 2 := by linarith
    simp [this]
  simp only [hje, hpar, Bool.and_self, if_true, hsep, decide_True, hwi, hT, hTj, Bool.not_true,
    Bool.false_eq_true, if_false, h1, gt_iff_lt, lt_self_iff_false, h2]

/-- The row `i = P` of `double_triple_bonds` in the setting of C9: the `j` loop skips every
bond up to `Q`, merges `P` into `Q` and breaks. -/
theorem pair_loop_j_double (G : Geometry) (avg max_dist_double_bond : ℚ) (g0 g : graph_t)
    (P Q : Nat) (hPQ : P < Q) (hQ : Q < g0.n_bond)
    (hq : Quiet g0 g) (hgP : g.bond P = g0.bond P) (hgQ : g.bond Q = g0.bond Q)
    (hoth : Others G g0.bond g0.atom g0.n_bond (fun y => y = P ∨ y = Q))
    (hQe : (g0.bond Q).exists_ = true)
    (hPt : (g0.bond P).type = 1) (hQt : (g0.bond Q).type = 1)
    (hlen : bond_length G g0.bond P g0.atom = bond_length G g0.bond Q g0.atom)
    (hpos : 0 < bond_length G g0.bond P g0.atom)
    (hpar : near_parallel G g0.bond P Q g0.atom = true)
    (hwi : bonds_within_each_other G g0.bond P Q g0.atom = true)
    (hsep : distance_between_bonds G g0.bond P Q g0.atom ≤ max_dist_double_bond) :
    Quiet g0 (pair_loop_j G avg max_dist_double_bond P g) ∧
    ((pair_loop_j G avg max_dist_double_bond P g).bond P).exists_ = false ∧
    ((pair_loop_j G avg max_dist_double_bond P g).bond Q).exists_ = true ∧
    ((pair_loop_j G avg max_dist_double_bond P g).bond Q).type = 2 := by
  have hl1 : bond_length G g.bond P g.atom = bond_length G g0.bond P g0.atom := by
    rw [hq.2.2.2.bond_length_eq, hq.1]
  unfold pair_loop_j
  rw [hl1]
  have key := whileLoop_inv
    (fun (s : pair_state) => !s.brk && decide (s.j < s.g.n_bond))
    (fun s =>
      { g := (pair_body G avg max_dist_double_bond P (bond_length G g0.bond P g0.atom)
          s.j s.g).1,
        j := s.j + 1,
        brk := (pair_body G avg max_dist_double_bond P (bond_length G g0.bond P g0.atom)
          s.j s.g).2 })
    (fun s => Quiet g0 s.g ∧ P < s.j ∧
      ((s.brk = false ∧ s.j ≤ Q ∧ s.g.bond P = g0.bond P ∧ s.g.bond Q = g0.bond Q) ∨
       (s.brk = true ∧ (s.g.bond P).exists_ = false ∧ (s.g.bond Q).exists_ = true ∧
         (s.g.bond Q).type = 2)))
    (fun s => if s.brk then 0 else g0.n_bond - s.j)
    (by
      intro s hs ht
      obtain ⟨sq, sPj, sphase⟩ := hs
      simp only [Bool.and_eq_true, Bool.not_eq_true', decide_eq_true_eq] at ht
      rw [sq.2.2.1] at ht
      rcases sphase with ⟨_, sjQ, sP, sQ⟩ | ⟨hb, _⟩
      swap
      · rw [hb] at ht; cases ht.1
      by_cases hjQ : s.j = Q
      · -- the merge
        have hnear : near_parallel G s.g.bond P s.j s.g.atom = true := by
          rw [sq.2.2.2.near_parallel_eq, sq.1, hjQ]; exact hpar
        have hT := (triple_search_frame G avg max_dist_double_bond s.g.atom s.g.n_bond P s.j
          (bond_length G s.g.bond s.j s.g.atom)
          (distance_between_bonds G s.g.bond P s.j s.g.atom) s.g.bond).2.2 (by
            intro z hz hzn hze
            rw [sq.2.2.2.near_parallel_eq, sq.1, hjQ]
            rw [sq.2.2.1] at hzn
            exact (hoth z Q hzn hQ (by simp only [not_or]; omega) (Or.inr rfl)
              ((sq.2.2.2 z).2.2 hze)).1)
        have hm := pair_body_merge G avg max_dist_double_bond P s.j
          (bond_length G g0.bond P g0.atom) s.g s.g.bond
          (by rw [hjQ, sQ]; exact hQe) hnear
          (by rw [sq.2.2.2.distance_between_bonds_eq, sq.1, hjQ]; exact hsep)
          (by rw [sq.2.2.2.bonds_within_each_other_eq, sq.1, hjQ]; exact hwi)
          hT (by rw [hjQ, sQ]; exact hQe)
          (by rw [sq.2.2.2.bond_length_eq, sq.1, hjQ]; exact hlen.symm) hpos
        obtain ⟨a1, a2, a3, a4, _⟩ := absorb_spec s.g.bond s.j P true (by omega)
        dsimp only
        rw [hm]
        refine ⟨⟨⟨sq.1, sq.2.1, sq.2.2.1, sq.2.2.2.trans_shape a1⟩, by omega, Or.inr ⟨rfl, a2, ?_, ?_⟩⟩,
          ?_⟩
        · show (absorb s.g.bond s.j P true Q).exists_ = true
          rw [← hjQ, a3, hjQ, sQ]; exact hQe
        · show (absorb s.g.bond s.j P true Q).type = 2
          rw [← hjQ, a4, hjQ, sQ, sP, hPt, hQt]; rfl
        · simp only [ht.1, Bool.false_eq_true, if_false, if_true]; omega
      · -- a bond below `Q`: skipped
        have hskip := pair_body_skip G avg max_dist_double_bond P s.j
          (bond_length G g0.bond P g0.atom) s.g (by
            by_cases hje : (s.g.bond s.j).exists_ = true
            · right
              rw [sq.2.2.2.near_parallel_eq, sq.1]
              exact (hoth s.j P ht.2 (by omega) (by simp only [not_or]; omega) (Or.inl rfl)
                ((sq.2.2.2 _).2.2 hje)).2
            · left; simpa using hje)
        dsimp only
        rw [hskip]
        refine ⟨⟨sq, by omega, Or.inl ⟨rfl, by omega, sP, sQ⟩⟩, ?_⟩
        simp only [ht.1, Bool.false_eq_true, if_false]
        omega)
    (g.n_bond + G.MAX_ATOMS) { g := g, j := P + 1, brk := false }
    ⟨hq, Nat.lt_succ_self P, Or.inl ⟨rfl, Nat.succ_le_of_lt hPQ, hgP, hgQ⟩⟩
    (by simp only [Bool.false_eq_true, if_false]; rw [hq.2.2.1]; omega)
  obtain ⟨⟨kq, _, kphase⟩, ktest⟩ := key
  rcases kphase with ⟨hb, hj, _, _⟩ | ⟨_, h1, h2, h3⟩
  · exfalso
    simp only [hb, Bool.not_false, Bool.true_and, decide_eq_false_iff_not, not_lt] at ktest
    rw [kq.2.2.1] at ktest
    omega
  · exact ⟨kq, h1, h2, h3⟩

/-! ### Calm states: the rounds that do not involve the protected bonds -/

/-- The near-parallel test reads only the positions of the four endpoint atoms. -/
theorem near_parallel_congr (G : Geometry) (b1 b2 : Bonds) (a1 a2 : Atoms) (i j : Nat)
    (h1 : a1 (b1 i).a = a2 (b2 i).a) (h2 : a1 (b1 i).b = a2 (b2 i).b)
    (h3 : a1 (b1 j).a = a2 (b2 j).a) (h4 : a1 (b1 j).b = a2 (b2 j).b) :
    near_parallel G b1 i j a1 = near_parallel G b2 i j a2 := by
  simp only [near_parallel, angle_between_bonds, h1, h2, h3, h4]

/-- Changes of bond records that move no endpoint and switch nothing on keep the state
calm. -/
theorem Calm.of_same_shape {G : Geometry} {prot : Nat → Prop} {g0 g : graph_t}
    (hc : Calm G prot g0 g) (b : Bonds) (hs : SameShape g.bond b) :
    Calm G prot g0 { g with bond := b } where
  atoms_lo := hc.atoms_lo
  bonds_lo := hc.bonds_lo
  atoms_eq := hc.atoms_eq
  prot_ends := fun x hx =>
    ⟨(hc.prot_ends x hx).1, (hs x).1.trans (hc.prot_ends x hx).2.1,
      (hs x).2.1.trans (hc.prot_ends x hx).2.2.1, (hc.prot_ends x hx).2.2.2⟩
  free := fun z hz hnz hze => by
    obtain ⟨f1, f2, f3⟩ := hc.free z hz hnz ((hs z).2.2 hze)
    refine ⟨by rw [(hs z).1]; exact f1, by rw [(hs z).2.1]; exact f2, fun x hx => ?_⟩
    show near_parallel G b z x g.atom = false ∧ near_parallel G b x z g.atom = false
    rw [hs.near_parallel_eq, hs.near_parallel_eq]
    exact f3 x hx

/-! ### The insertions of the extended case -/

theorem near_parallel_eq_at (G : Geometry) (bond : Bonds) (i j : Nat) (atom : Atoms) :
    near_parallel G bond i j atom
      = near_parallel_at G (atom (bond i).a).x (atom (bond i).a).y (atom (bond i).b).x
          (atom (bond i).b).y (atom (bond j).a).x (atom (bond j).a).y (atom (bond j).b).x
          (atom (bond j).b).y := rfl

/-- A segment on the line of a bond that is not near-parallel to a second bond is not
near-parallel to it either (first argument position). -/
theorem LineInvariant.first {G : Geometry} (hL : LineInvariant G)
    {x1 y1 x2 y2 x3 y3 x4 y4 : ℚ}
    (h : near_parallel_at G x1 y1 x2 y2 x3 y3 x4 y4 = false) (s t : ℚ)
    {ux uy vx vy : ℚ} (e1 : ux = x1 + s * (x2 - x1)) (e2 : uy = y1 + s * (y2 - y1))
    (e3 : vx = x1 + t * (x2 - x1)) (e4 : vy = y1 + t * (y2 - y1)) :
    near_parallel_at G ux uy vx vy x3 y3 x4 y4 = false := by
  subst e1 e2 e3 e4
  by_contra hc
  simp only [near_parallel_at, Bool.not_eq_false, decide_eq_true_eq] at hc
  have := (hL x1 y1 x2 y2 x3 y3 x4 y4 s t).1 hc
  simp only [near_parallel_at, decide_eq_false_iff_not] at h
  exact h this

/-- The same in the second argument position. -/
theorem LineInvariant.second {G : Geometry} (hL : LineInvariant G)
    {x1 y1 x2 y2 x3 y3 x4 y4 : ℚ}
    (h : near_parallel_at G x3 y3 x4 y4 x1 y1 x2 y2 = false) (s t : ℚ)
    {ux uy vx vy : ℚ} (e1 : ux = x1 + s * (x2 - x1)) (e2 : uy = y1 + s * (y2 - y1))
    (e3 : vx = x1 + t * (x2 - x1)) (e4 : vy = y1 + t * (y2 - y1)) :
    near_parallel_at G x3 y3 x4 y4 ux uy vx vy = false := by
  subst e1 e2 e3 e4
  by_contra hc
  simp only [near_parallel_at, Bool.not_eq_false, decide_eq_true_eq] at hc
  have := (hL x1 y1 x2 y2 x3 y3 x4 y4 s t).2 hc
  simp only [near_parallel_at, decide_eq_false_iff_not] at h
  exact h this

theorem bump_ge (G : Geometry) (n : Nat) : n ≤ bump G n := by
  unfold bump; split <;> omega

theorem bump_le (G : Geometry) (n : Nat) : bump G n ≤ n + 1 := by
  unfold bump; split <;> omega

theorem bump_bound (G : Geometry) (n : Nat) : bump G n = n ∨ bump G n < G.MAX_ATOMS := by
  unfold bump; split
  · exact Or.inl rfl
  · right; omega

theorem bump_free (G : Geometry) (g : graph_t) (h : ¬ Capped G g) :
    bump G g.n_atom = g.n_atom + 1 := by
  unfold Capped at h
  unfold bump
  rw [if_neg (by omega)]

/-- The first insertion of the extended case on a bond `ii` outside the protected set, below
the atom capacity: the state stays calm, no other bond below `n_bond` changes, and bond `ii`
still exists. -/
theorem insert_at_a_calm (G : Geometry) (prot : Nat → Prop) (g0 g : graph_t) (ii : Nat)
    (da l11 : ℚ) (hL : LineInvariant G) (hc : Calm G prot g0 g) (hii : ii < g.n_bond)
    (hnp : ¬ prot ii) (hie : (g.bond ii).exists_ = true) (hcap : ¬ Capped G g) :
    Calm G prot g0 (insert_at_a G ii da l11 g) ∧
    (∀ z, z < g.n_bond → z ≠ ii → (insert_at_a G ii da l11 g).bond z = g.bond z) ∧
    ((insert_at_a G ii da l11 g).bond ii).exists_ = true ∧
    (insert_at_a G ii da l11 g).n_bond = bump G g.n_bond ∧
    (insert_at_a G ii da l11 g).n_atom = g.n_atom + 1 := by
  have hm : ii ≠ g.n_bond := by omega
  have hm' : g.n_bond ≠ ii := by omega
  obtain ⟨fa, fb, fnp⟩ := hc.free ii hii hnp hie
  have hfa : (g.bond ii).a ≠ g.n_atom := by omega
  have hfb : (g.bond ii).b ≠ g.n_atom := by omega
  -- the pieces of the new state
  have hn_atom : (insert_at_a G ii da l11 g).n_atom = g.n_atom + 1 := by
    simp only [insert_at_a]; exact bump_free G g hcap
  have hn_bond : (insert_at_a G ii da l11 g).n_bond = bump G g.n_bond := by
    simp only [insert_at_a]
  have hatom : ∀ k, k ≠ g.n_atom → (insert_at_a G ii da l11 g).atom k = g.atom k := by
    intro k hk; simp only [insert_at_a, upd, hk, if_false]
  have hnewx : ((insert_at_a G ii da l11 g).atom g.n_atom).x
      = (g.atom (g.bond ii).a).x
        + da / l11 * ((g.atom (g.bond ii).b).x - (g.atom (g.bond ii).a).x) := by
    simp only [insert_at_a, upd, if_true]; ring
  have hnewy : ((insert_at_a G ii da l11 g).atom g.n_atom).y
      = (g.atom (g.bond ii).a).y
        + da / l11 * ((g.atom (g.bond ii).b).y - (g.atom (g.bond ii).a).y) := by
    simp only [insert_at_a, upd, if_true]; ring
  have hbond : ∀ z, z ≠ g.n_bond → z ≠ ii → (insert_at_a G ii da l11 g).bond z = g.bond z := by
    intro z h1 h2; simp only [insert_at_a, upd, h1, h2, if_false]
  have hbii : (insert_at_a G ii da l11 g).bond ii = { g.bond ii with a := g.n_atom } := by
    simp only [insert_at_a, upd, hm, hm', if_false, if_true]
  have hbnew_a : ((insert_at_a G ii da l11 g).bond g.n_bond).a = (g.bond ii).a := by
    simp only [insert_at_a, upd, hm, hm', if_false, if_true]
  have hbnew_b : ((insert_at_a G ii da l11 g).bond g.n_bond).b = g.n_atom := by
    simp only [insert_at_a, upd, hm, hm', if_false, if_true]
  generalize insert_at_a G ii da l11 g = g1 at *
  -- positions of the endpoints of a protected bond are unchanged
  have hprot : ∀ x, prot x → g1.bond x = g.bond x ∧
      g1.atom (g.bond x).a = g.atom (g.bond x).a ∧
      g1.atom (g.bond x).b = g.atom (g.bond x).b := by
    intro x hx
    obtain ⟨p1, p2, p3, p4, p5⟩ := hc.prot_ends x hx
    have := hc.atoms_lo
    have := hc.bonds_lo
    refine ⟨hbond x (by omega) (fun e => hnp (e ▸ hx)), hatom _ (by omega), hatom _ (by omega)⟩
  refine ⟨?_, fun z hz hne => hbond z (by omega) hne, by rw [hbii]; exact hie, hn_bond,
    hn_atom⟩
  refine ⟨by have := hc.atoms_lo; omega, by have := hc.bonds_lo; have := bump_ge G g.n_bond; omega,
    fun k hk => by rw [hatom k (by have := hc.atoms_lo; omega)]; exact hc.atoms_eq k hk,
    fun x hx => ?_, fun z hz hnz hze => ?_⟩
  · obtain ⟨p1, p2, p3, p4, p5⟩ := hc.prot_ends x hx
    rw [(hprot x hx).1]
    exact ⟨p1, p2, p3, p4, p5⟩
  · rw [hn_atom]
    rw [hn_bond] at hz
    have hzm : z ≤ g.n_bond := by have := bump_le G g.n_bond; omega
    by_cases hz1 : z = ii
    · -- the shortened bond `ii`, from the new atom to its old `b` end
      subst hz1
      rw [hbii]
      refine ⟨by simp, by simp only; omega, fun x hx => ?_⟩
      obtain ⟨q1, q2, q3⟩ := hprot x hx
      obtain ⟨n1, n2⟩ := fnp x hx
      rw [near_parallel_eq_at] at n1 n2
      rw [near_parallel_eq_at, near_parallel_eq_at, hbii, q1]
      simp only [q2, q3, hatom _ hfb, hnewx, hnewy]
      exact ⟨hL.first n1 (da / l11) 1 rfl rfl (by ring) (by ring),
        hL.second n2 (da / l11) 1 rfl rfl (by ring) (by ring)⟩
    · by_cases hz2 : z = g.n_bond
      · -- the new bond, from the old `a` end of `ii` to the new atom
        subst hz2
        refine ⟨by rw [hbnew_a]; omega, by rw [hbnew_b]; omega, fun x hx => ?_⟩
        obtain ⟨q1, q2, q3⟩ := hprot x hx
        obtain ⟨n1, n2⟩ := fnp x hx
        rw [near_parallel_eq_at] at n1 n2
        rw [near_parallel_eq_at, near_parallel_eq_at, q1, hbnew_a, hbnew_b]
        simp only [q2, q3, hatom _ hfa, hnewx, hnewy]
        exact ⟨hL.first n1 0 (da / l11) (by ring) (by ring) rfl rfl,
          hL.second n2 0 (da / l11) (by ring) (by ring) rfl rfl⟩
      · -- any other bond is as before
        have hzb := hbond z hz2 hz1
        rw [hzb] at hze ⊢
        obtain ⟨f1, f2, f3⟩ := hc.free z (by omega) hnz hze
        refine ⟨by omega, by omega, fun x hx => ?_⟩
        obtain ⟨q1, q2, q3⟩ := hprot x hx
        rw [near_parallel_congr G g1.bond g.bond g1.atom g.atom z x
            (by rw [hzb]; exact hatom _ (by omega)) (by rw [hzb]; exact hatom _ (by omega))
            (by rw [q1]; exact q2) (by rw [q1]; exact q3),
          near_parallel_congr G g1.bond g.bond g1.atom g.atom x z
            (by rw [q1]; exact q2) (by rw [q1]; exact q3)
            (by rw [hzb]; exact hatom _ (by omega)) (by rw [hzb]; exact hatom _ (by omega))]
        exact f3 x hx

/-- The second insertion of the extended case on a bond `ii` outside the protected set,
below the atom capacity: the state stays calm, no other bond below `n_bond` changes, and
bond `ii` still exists. -/
theorem insert_at_b_calm (G : Geometry) (prot : Nat → Prop) (g0 g : graph_t) (ii : Nat)
    (db l11 : ℚ) (hL : LineInvariant G) (hc : Calm G prot g0 g) (hii : ii < g.n_bond)
    (hnp : ¬ prot ii) (hie : (g.bond ii).exists_ = true) (hcap : ¬ Capped G g) :
    Calm G prot g0 (insert_at_b G ii db l11 g) ∧
    (∀ z, z < g.n_bond → z ≠ ii → (insert_at_b G ii db l11 g).bond z = g.bond z) ∧
    ((insert_at_b G ii db l11 g).bond ii).exists_ = true ∧
    (insert_at_b G ii db l11 g).n_bond = bump G g.n_bond ∧
    (insert_at_b G ii db l11 g).n_atom = g.n_atom + 1 := by
  have hm : ii ≠ g.n_bond := by omega
  have hm' : g.n_bond ≠ ii := by omega
  obtain ⟨fa, fb, fnp⟩ := hc.free ii hii hnp hie
  have hfa : (g.bond ii).a ≠ g.n_atom := by omega
  have hfb : (g.bond ii).b ≠ g.n_atom := by omega
  have hn_atom : (insert_at_b G ii db l11 g).n_atom = g.n_atom + 1 := by
    simp only [insert_at_b]; exact bump_free G g hcap
  have hn_bond : (insert_at_b G ii db l11 g).n_bond = bump G g.n_bond := by
    simp only [insert_at_b]
  have hatom : ∀ k, k ≠ g.n_atom → (insert_at_b G ii db l11 g).atom k = g.atom k := by
    intro k hk; simp only [insert_at_b, upd, hk, if_false]
  have hnewx : ((insert_at_b G ii db l11 g).atom g.n_atom).x
      = (g.atom (g.bond ii).a).x
        + (1 - db / l11) * ((g.atom (g.bond ii).b).x - (g.atom (g.bond ii).a).x) := by
    simp only [insert_at_b, upd, if_true]; ring
  have hnewy : ((insert_at_b G ii db l11 g).atom g.n_atom).y
      = (g.atom (g.bond ii).a).y
        + (1 - db / l11) * ((g.atom (g.bond ii).b).y - (g.atom (g.bond ii).a).y) := by
    simp only [insert_at_b, upd, if_true]; ring
  have hbond : ∀ z, z ≠ g.n_bond → z ≠ ii → (insert_at_b G ii db l11 g).bond z = g.bond z := by
    intro z h1 h2; simp only [insert_at_b, upd, h1, h2, if_false]
  have hbii : (insert_at_b G ii db l11 g).bond ii = { g.bond ii with b := g.n_atom } := by
    simp only [insert_at_b, upd, hm, hm', if_false, if_true]
  have hbnew_a : ((insert_at_b G ii db l11 g).bond g.n_bond).a = (g.bond ii).b := by
    simp only [insert_at_b, upd, hm, hm', if_false, if_true]
  have hbnew_b : ((insert_at_b G ii db l11 g).bond g.n_bond).b = g.n_atom := by
    simp only [insert_at_b, upd, hm, hm', if_false, if_true]
  generalize insert_at_b G ii db l11 g = g1 at *
  have hprot : ∀ x, prot x → g1.bond x = g.bond x ∧
      g1.atom (g.bond x).a = g.atom (g.bond x).a ∧
      g1.atom (g.bond x).b = g.atom (g.bond x).b := by
    intro x hx
    obtain ⟨p1, p2, p3, p4, p5⟩ := hc.prot_ends x hx
    have := hc.atoms_lo
    have := hc.bonds_lo
    refine ⟨hbond x (by omega) (fun e => hnp (e ▸ hx)), hatom _ (by omega), hatom _ (by omega)⟩
  refine ⟨?_, fun z hz hne => hbond z (by omega) hne, by rw [hbii]; exact hie, hn_bond,
    hn_atom⟩
  refine ⟨by have := hc.atoms_lo; omega, by have := hc.bonds_lo; have := bump_ge G g.n_bond; omega,
    fun k hk => by rw [hatom k (by have := hc.atoms_lo; omega)]; exact hc.atoms_eq k hk,
    fun x hx => ?_, fun z hz hnz hze => ?_⟩
  · obtain ⟨p1, p2, p3, p4, p5⟩ := hc.prot_ends x hx
    rw [(hprot x hx).1]
    exact ⟨p1, p2, p3, p4, p5⟩
  · rw [hn_atom]
    rw [hn_bond] at hz
    have hzm : z ≤ g.n_bond := by have := bump_le G g.n_bond; omega
    by_cases hz1 : z = ii
    · -- the shortened bond `ii`, from its old `a` end to the new atom
      subst hz1
      rw [hbii]
      refine ⟨by simp only; omega, by simp, fun x hx => ?_⟩
      obtain ⟨q1, q2, q3⟩ := hprot x hx
      obtain ⟨n1, n2⟩ := fnp x hx
      rw [near_parallel_eq_at] at n1 n2
      rw [near_parallel_eq_at, near_parallel_eq_at, hbii, q1]
      simp only [q2, q3, hatom _ hfa, hnewx, hnewy]
      exact ⟨hL.first n1 0 (1 - db / l11) (by ring) (by ring) rfl rfl,
        hL.second n2 0 (1 - db / l11) (by ring) (by ring) rfl rfl⟩
    · by_cases hz2 : z = g.n_bond
      · -- the new bond, from the old `b` end of `ii` to the new atom
        subst hz2
        refine ⟨by rw [hbnew_a]; omega, by rw [hbnew_b]; omega, fun x hx => ?_⟩
        obtain ⟨q1, q2, q3⟩ := hprot x hx
        obtain ⟨n1, n2⟩ := fnp x hx
        rw [near_parallel_eq_at] at n1 n2
        rw [near_parallel_eq_at, near_parallel_eq_at, q1, hbnew_a, hbnew_b]
        simp only [q2, q3, hatom _ hfb, hnewx, hnewy]
        exact ⟨hL.first n1 1 (1 - db / l11) (by ring) (by ring) rfl rfl,
          hL.second n2 1 (1 - db / l11) (by ring) (by ring) rfl rfl⟩
      · have hzb := hbond z hz2 hz1
        rw [hzb] at hze ⊢
        obtain ⟨f1, f2, f3⟩ := hc.free z (by omega) hnz hze
        refine ⟨by omega, by omega, fun x hx => ?_⟩
        obtain ⟨q1, q2, q3⟩ := hprot x hx
        rw [near_parallel_congr G g1.bond g.bond g1.atom g.atom z x
            (by rw [hzb]; exact hatom _ (by omega)) (by rw [hzb]; exact hatom _ (by omega))
            (by rw [q1]; exact q2) (by rw [q1]; exact q3),
          near_parallel_congr G g1.bond g.bond g1.atom g.atom x z
            (by rw [q1]; exact q2) (by rw [q1]; exact q3)
            (by rw [hzb]; exact hatom _ (by omega)) (by rw [hzb]; exact hatom _ (by omega))]
        exact f3 x hx

/-! ### Growth of the counts -/

theorem Grows.refl_grows (G : Geometry) (g : graph_t) : Grows G g g :=
  ⟨Nat.le_refl _, Nat.le_refl _, Or.inl (Nat.le_refl _)⟩

theorem Grows.trans_grows {G : Geometry} {g r t : graph_t} (h1 : Grows G g r)
    (h2 : Grows G r t) : Grows G g t := by
  obtain ⟨a1, a2, a3⟩ := h1
  obtain ⟨b1, b2, b3⟩ := h2
  refine ⟨by omega, by omega, ?_⟩
  rcases b3 with b3 | b3
  · rcases a3 with a3 | a3
    · left; omega
    · right; omega
  · right; exact b3

theorem Grows.bonds_only (G : Geometry) (g : graph_t) (b : Bonds) :
    Grows G g { g with bond := b } :=
  ⟨Nat.le_refl _, Nat.le_refl _, Or.inl (Nat.le_refl _)⟩

theorem insert_at_a_grows (G : Geometry) (ii : Nat) (da l11 : ℚ) (g : graph_t) :
    Grows G g (insert_at_a G ii da l11 g) := by
  refine ⟨bump_ge G _, bump_ge G _, ?_⟩
  rcases bump_bound G g.n_bond with h | h
  · left; show bump G g.n_bond ≤ g.n_bond; omega
  · right; exact h

theorem insert_at_b_grows (G : Geometry) (ii : Nat) (db l11 : ℚ) (g : graph_t) :
    Grows G g (insert_at_b G ii db l11 g) := by
  refine ⟨bump_ge G _, bump_ge G _, ?_⟩
  rcases bump_bound G g.n_bond with h | h
  · left; show bump G g.n_bond ≤ g.n_bond; omega
  · right; exact h

theorem extended_merge_with_grows (G : Geometry) (ii jj : Nat) (l11 l22 da db : ℚ)
    (g : graph_t) : Grows G g (extended_merge_with G ii jj l11 l22 da db g) := by
  have h1 : Grows G g (if da > 1 / 2 * l22 then insert_at_a G ii da l11 g else g) := by
    split
    · exact insert_at_a_grows G ii da l11 g
    · exact Grows.refl_grows G g
  have h2 : ∀ g1 : graph_t,
      Grows G g1 (if db > 1 / 2 * l22 then insert_at_b G ii db l11 g1 else g1) := by
    intro g1
    split
    · exact insert_at_b_grows G ii db l11 g1
    · exact Grows.refl_grows G g1
  exact (h1.trans_grows (h2 _)).trans_grows (Grows.bonds_only G _ _)

theorem extended_merge_grows (G : Geometry) (ii jj : Nat) (l11 l22 : ℚ) (g : graph_t) :
    Grows G g (extended_merge G ii jj l11 l22 g) :=
  extended_merge_with_grows G ii jj l11 l22 _ _ g

theorem pair_body_grows (G : Geometry) (avg max_dist_double_bond : ℚ) (i j : Nat) (l1 : ℚ)
    (g : graph_t) : Grows G g (pair_body G avg max_dist_double_bond i l1 j g).1 := by
  unfold pair_body
  simp only
  split
  · split
    · split
      · exact Grows.bonds_only G _ _
      · split
        · exact (Grows.bonds_only G g _).trans_grows (extended_merge_grows G _ _ _ _ _)
        · split
          · exact (Grows.bonds_only G g _).trans_grows (extended_merge_grows G _ _ _ _ _)
          · split
            · exact (Grows.bonds_only G g _).trans_grows (Grows.bonds_only G _ _)
            · exact (Grows.bonds_only G g _).trans_grows (Grows.bonds_only G _ _)
    · exact Grows.refl_grows G g
  · exact Grows.refl_grows G g

theorem Capped.of_grows {G : Geometry} {g r : graph_t} (hc : Capped G g) (hg : Grows G g r) :
    Capped G r := by
  unfold Capped at hc ⊢
  have := hg.1
  omega

/-- The extended case on bonds `ii`, `jj` outside the protected set, entered below the atom
capacity: either the capacity is reached, or the state stays calm, no protected bond changes
and bond `ii` still exists. -/
theorem extended_merge_with_calm (G : Geometry) (prot : Nat → Prop) (g0 g : graph_t)
    (ii jj : Nat) (l11 l22 da db : ℚ) (hL : LineInvariant G) (hc : Calm G prot g0 g)
    (hii : ii < g.n_bond) (hnp : ¬ prot ii) (hnq : ¬ prot jj) (hne : ii ≠ jj)
    (hie : (g.bond ii).exists_ = true) (hcap : ¬ Capped G g) :
    Capped G (extended_merge_with G ii jj l11 l22 da db g) ∨
    (Calm G prot g0 (extended_merge_with G ii jj l11 l22 da db g) ∧
      (∀ x, prot x → (extended_merge_with G ii jj l11 l22 da db g).bond x = g.bond x) ∧
      ((extended_merge_with G ii jj l11 l22 da db g).bond ii).exists_ = true) := by
  have s1 : Calm G prot g0 (if da > 1 / 2 * l22 then insert_at_a G ii da l11 g else g) ∧
      (∀ x, prot x →
        (if da > 1 / 2 * l22 then insert_at_a G ii da l11 g else g).bond x = g.bond x) ∧
      ((if da > 1 / 2 * l22 then insert_at_a G ii da l11 g else g).bond ii).exists_ = true ∧
      g.n_bond ≤ (if da > 1 / 2 * l22 then insert_at_a G ii da l11 g else g).n_bond := by
    split
    · obtain ⟨c1, c2, c3, c4, _⟩ := insert_at_a_calm G prot g0 g ii da l11 hL hc hii hnp hie hcap
      refine ⟨c1, fun x hx => c2 x ?_ (fun e => hnp (e ▸ hx)), c3, by rw [c4]; exact bump_ge G _⟩
      have := (hc.prot_ends x hx).1
      have := hc.bonds_lo
      omega
    · exact ⟨hc, fun _ _ => rfl, hie, Nat.le_refl _⟩
  unfold extended_merge_with
  simp only
  generalize (if da > 1 / 2 * l22 then insert_at_a G ii da l11 g else g) = g1 at s1 ⊢
  obtain ⟨c1, p1, e1, n1⟩ := s1
  by_cases hcap1 : Capped G g1
  · left
    have h2 : Grows G g1 (if db > 1 / 2 * l22 then insert_at_b G ii db l11 g1 else g1) := by
      split
      · exact insert_at_b_grows G ii db l11 g1
      · exact Grows.refl_grows G g1
    exact Capped.of_grows hcap1 (h2.trans_grows (Grows.bonds_only G _ _))
  · right
    have s2 : Calm G prot g0 (if db > 1 / 2 * l22 then insert_at_b G ii db l11 g1 else g1) ∧
        (∀ x, prot x →
          (if db > 1 / 2 * l22 then insert_at_b G ii db l11 g1 else g1).bond x = g1.bond x) ∧
        ((if db > 1 / 2 * l22 then insert_at_b G ii db l11 g1 else g1).bond ii).exists_
          = true := by
      split
      · obtain ⟨c1', c2, c3, _, _⟩ := insert_at_b_calm G prot g0 g1 ii db l11 hL c1
          (by omega) hnp e1 hcap1
        refine ⟨c1', fun x hx => c2 x ?_ (fun e => hnp (e ▸ hx)), c3⟩
        have := (c1.prot_ends x hx).1
        have := c1.bonds_lo
        omega
      · exact ⟨c1, fun _ _ => rfl, e1⟩
    generalize (if db > 1 / 2 * l22 then insert_at_b G ii db l11 g1 else g1) = g2 at s2 ⊢
    obtain ⟨c2, p2, e2⟩ := s2
    obtain ⟨a1, _, a3, _, a5⟩ := absorb_spec g2.bond ii jj true hne
    refine ⟨c2.of_same_shape _ a1, fun x hx => ?_, ?_⟩
    · show absorb g2.bond ii jj true x = g.bond x
      rw [a5 x (fun e => hnp (e ▸ hx)) (fun e => hnq (e ▸ hx)), p2 x hx, p1 x hx]
    · show (absorb g2.bond ii jj true ii).exists_ = true
      rw [a3]; exact e2

theorem extended_merge_calm (G : Geometry) (prot : Nat → Prop) (g0 g : graph_t)
    (ii jj : Nat) (l11 l22 : ℚ) (hL : LineInvariant G) (hc : Calm G prot g0 g)
    (hii : ii < g.n_bond) (hnp : ¬ prot ii) (hnq : ¬ prot jj) (hne : ii ≠ jj)
    (hie : (g.bond ii).exists_ = true) (hcap : ¬ Capped G g) :
    Capped G (extended_merge G ii jj l11 l22 g) ∨
    (Calm G prot g0 (extended_merge G ii jj l11 l22 g) ∧
      (∀ x, prot x → (extended_merge G ii jj l11 l22 g).bond x = g.bond x) ∧
      ((extended_merge G ii jj l11 l22 g).bond ii).exists_ = true) :=
  extended_merge_with_calm G prot g0 g ii jj l11 l22 _ _ hL hc hii hnp hnq hne hie hcap

/-- The body of the `j` loop for a pair `i < j` that is not a pair of protected bonds with
`j` existing, entered in a calm state below the atom capacity: either the capacity is
reached, or the state stays calm, no protected bond changes, and bond `i` still exists
unless the body breaks out of the loop. -/
theorem pair_body_calm (G : Geometry) (avg max_dist_double_bond : ℚ) (prot : Nat → Prop)
    (g0 g : graph_t) (i j : Nat) (l1 : ℚ) (hL : LineInvariant G) (hc : Calm G prot g0 g)
    (hij : i < j) (hj : j < g.n_bond) (hi : (g.bond i).exists_ = true)
    (hpair : prot i → prot j → (g.bond j).exists_ = false) (hcap : ¬ Capped G g) :
    Capped G (pair_body G avg max_dist_double_bond i l1 j g).1 ∨
    (Calm G prot g0 (pair_body G avg max_dist_double_bond i l1 j g).1 ∧
      (∀ x, prot x → (pair_body G avg max_dist_double_bond i l1 j g).1.bond x = g.bond x) ∧
      ((pair_body G avg max_dist_double_bond i l1 j g).2 = false →
        ((pair_body G avg max_dist_double_bond i l1 j g).1.bond i).exists_ = true)) := by
  unfold pair_body
  by_cases h1 : ((g.bond j).exists_ && near_parallel G g.bond i j g.atom) = true
  swap
  · simp only [h1, Bool.false_eq_true, if_false]
    exact Or.inr ⟨hc, fun _ _ => trivial, fun _ => hi⟩
  simp only [h1, if_true]
  by_cases h2 : (decide (distance_between_bonds G g.bond i j g.atom ≤ max_dist_double_bond) &&
      bonds_within_each_other G g.bond i j g.atom) = true
  swap
  · simp only [h2, Bool.false_eq_true, if_false]
    exact Or.inr ⟨hc, fun _ _ => trivial, fun _ => hi⟩
  simp only [h2, if_true]
  simp only [Bool.and_eq_true] at h1
  obtain ⟨hje, hpar⟩ := h1
  have hi_lt : i < g.n_bond := by omega
  have hnpi : ¬ prot i := by
    intro hpi
    by_cases hpj : prot j
    · rw [hpair hpi hpj] at hje; cases hje
    · have := ((hc.free j hj hpj hje).2.2 i hpi).2
      rw [hpar] at this; cases this
  have hnpj : ¬ prot j := by
    intro hpj
    have := ((hc.free i hi_lt hnpi hi).2.2 j hpj).1
    rw [hpar] at this; cases this
  obtain ⟨t1, t2, _⟩ := triple_search_frame G avg max_dist_double_bond g.atom g.n_bond i j
    (bond_length G g.bond j g.atom) (distance_between_bonds G g.bond i j g.atom) g.bond
  generalize triple_search G avg max_dist_double_bond g.atom g.n_bond i j
    (bond_length G g.bond j g.atom) (distance_between_bonds G g.bond i j g.atom) g.bond = T
    at t1 t2
  have tprot : ∀ x, prot x → T x = g.bond x := by
    intro x hx
    apply t2 x (fun e => hnpj (e ▸ hx))
    rintro ⟨_, _, _, hxp⟩
    have := ((hc.free j hj hnpj hje).2.2 x hx).2
    rw [hxp] at this; cases this
  have tTi : T i = g.bond i := t2 i (by omega) (by rintro ⟨h, _⟩; omega)
  have hTi : (T i).exists_ = true := by rw [tTi]; exact hi
  have cT : Calm G prot g0 { g with bond := T } := hc.of_same_shape T t1
  have hne : i ≠ j := by omega
  by_cases h3 : (T j).exists_ = true
  swap
  · simp only [h3, Bool.not_false, if_true]
    exact Or.inr ⟨cT, tprot, fun _ => hTi⟩
  simp only [h3, Bool.not_true, Bool.false_eq_true, if_false]
  split
  · rcases extended_merge_calm G prot g0 { g with bond := T } i j l1
      (bond_length G g.bond j g.atom) hL cT hi_lt hnpi hnpj hne hTi hcap with h | ⟨c, p, e⟩
    · exact Or.inl h
    · exact Or.inr ⟨c, fun x hx => (p x hx).trans (tprot x hx), fun _ => e⟩
  · split
    · rcases extended_merge_calm G prot g0 { g with bond := T } j i
        (bond_length G g.bond j g.atom) l1 hL cT hj hnpj hnpi (Ne.symm hne) h3 hcap
        with h | ⟨c, p, _⟩
      · exact Or.inl h
      · exact Or.inr ⟨c, fun x hx => (p x hx).trans (tprot x hx), fun h => by cases h⟩
    · split
      · obtain ⟨a1, _, a3, _, a5⟩ := absorb_spec T i j
          (decide (bond_length G g.bond j g.atom > l1 / 2)) hne
        refine Or.inr ⟨cT.of_same_shape _ a1, fun x hx => ?_, fun _ => ?_⟩
        · show absorb T i j _ x = g.bond x
          rw [a5 x (fun e => hnpi (e ▸ hx)) (fun e => hnpj (e ▸ hx))]
          exact tprot x hx
        · show (absorb T i j _ i).exists_ = true
          rw [a3]; exact hTi
      · obtain ⟨a1, _, _, _, a5⟩ := absorb_spec T j i
          (decide (l1 > bond_length G g.bond j g.atom / 2)) (Ne.symm hne)
        refine Or.inr ⟨cT.of_same_shape _ a1, fun x hx => ?_, fun h => by cases h⟩
        show absorb T j i _ x = g.bond x
        rw [a5 x (fun e => hnpj (e ▸ hx)) (fun e => hnpi (e ▸ hx))]
        exact tprot x hx

/-- The `j` loop ends, whatever the graph: the counts do not shrink, and `n_bond` grows only
below `MAX_ATOMS`. -/
theorem pair_loop_j_grows (G : Geometry) (avg max_dist_double_bond : ℚ) (i : Nat)
    (g : graph_t) : Grows G g (pair_loop_j G avg max_dist_double_bond i g) := by
  unfold pair_loop_j
  have key := whileLoop_inv
    (fun (s : pair_state) => !s.brk && decide (s.j < s.g.n_bond))
    (fun s =>
      { g := (pair_body G avg max_dist_double_bond i (bond_length G g.bond i g.atom) s.j s.g).1,
        j := s.j + 1,
        brk := (pair_body G avg max_dist_double_bond i (bond_length G g.bond i g.atom)
          s.j s.g).2 })
    (fun s => Grows G g s.g)
    (fun s => if s.brk then 0 else (g.n_bond + G.MAX_ATOMS) - s.j)
    (by
      intro s hs ht
      simp only [Bool.and_eq_true, Bool.not_eq_true', decide_eq_true_eq] at ht
      refine ⟨hs.trans_grows (pair_body_grows G avg max_dist_double_bond i s.j _ s.g), ?_⟩
      obtain ⟨_, _, hb⟩ := hs
      dsimp only
      simp only [ht.1, Bool.false_eq_true, if_false]
      split <;> rcases hb with hb | hb <;> omega)
    (g.n_bond + G.MAX_ATOMS) { g := g, j := i + 1, brk := false }
    (Grows.refl_grows G g)
    (by simp only [Bool.false_eq_true, if_false]; omega)
  exact key.1

/-- A whole `j` loop for an existing bond `i`, entered in a calm state: either the atom
capacity is reached, or the state stays calm and no protected bond changes, provided no
protected bond above `i` exists when `i` itself is protected. -/
theorem pair_loop_j_calm (G : Geometry) (avg max_dist_double_bond : ℚ) (prot : Nat → Prop)
    (g0 g : graph_t) (i : Nat) (hL : LineInvariant G) (hc : Calm G prot g0 g)
    (hi : (g.bond i).exists_ = true)
    (hpair : ∀ j, i < j → prot i → prot j → (g.bond j).exists_ = false) :
    Capped G (pair_loop_j G avg max_dist_double_bond i g) ∨
    (Calm G prot g0 (pair_loop_j G avg max_dist_double_bond i g) ∧
      ∀ x, prot x → (pair_loop_j G avg max_dist_double_bond i g).bond x = g.bond x) := by
  unfold pair_loop_j
  have key := whileLoop_inv
    (fun (s : pair_state) => !s.brk && decide (s.j < s.g.n_bond))
    (fun s =>
      { g := (pair_body G avg max_dist_double_bond i (bond_length G g.bond i g.atom) s.j s.g).1,
        j := s.j + 1,
        brk := (pair_body G avg max_dist_double_bond i (bond_length G g.bond i g.atom)
          s.j s.g).2 })
    (fun s => Grows G g s.g ∧ i < s.j ∧
      (Capped G s.g ∨
        (Calm G prot g0 s.g ∧ (∀ x, prot x → s.g.bond x = g.bond x) ∧
          (s.brk = false → (s.g.bond i).exists_ = true))))
    (fun s => if s.brk then 0 else (g.n_bond + G.MAX_ATOMS) - s.j)
    (by
      intro s hs ht
      obtain ⟨sg, sij, sc⟩ := hs
      simp only [Bool.and_eq_true, Bool.not_eq_true', decide_eq_true_eq] at ht
      have hgr := pair_body_grows G avg max_dist_double_bond i s.j
        (bond_length G g.bond i g.atom) s.g
      refine ⟨⟨sg.trans_grows hgr, by dsimp only; omega, ?_⟩, ?_⟩
      · by_cases hcap : Capped G s.g
        · exact Or.inl (Capped.of_grows hcap hgr)
        · rcases sc with sc | ⟨c, p, e⟩
          · exact absurd sc hcap
          · rcases pair_body_calm G avg max_dist_double_bond prot g0 s.g i s.j
              (bond_length G g.bond i g.atom) hL c sij ht.2 (e ht.1)
              (fun hpi hpj => by rw [p _ hpj]; exact hpair s.j sij hpi hpj) hcap
              with h | ⟨c', p', e'⟩
            · exact Or.inl h
            · exact Or.inr ⟨c', fun x hx => (p' x hx).trans (p x hx), e'⟩
      · obtain ⟨_, _, hb⟩ := sg
        dsimp only
        simp only [ht.1, Bool.false_eq_true, if_false]
        split <;> rcases hb with hb | hb <;> omega)
    (g.n_bond + G.MAX_ATOMS) { g := g, j := i + 1, brk := false }
    ⟨Grows.refl_grows G g, Nat.lt_succ_self i, Or.inr ⟨hc, fun _ _ => rfl, fun _ => hi⟩⟩
    (by simp only [Bool.false_eq_true, if_false]; omega)
  rcases key.1.2.2 with h | ⟨c, p, _⟩
  · exact Or.inl h
  · exact Or.inr ⟨c, p⟩

/-- In a calm state the endpoints of a protected bond are where they were at the start. -/
theorem Calm.ends {G : Geometry} {prot : Nat → Prop} {g0 g : graph_t}
    (hc : Calm G prot g0 g) (x : Nat) (hx : prot x) :
    g.atom (g.bond x).a = g0.atom (g0.bond x).a ∧
    g.atom (g.bond x).b = g0.atom (g0.bond x).b := by
  obtain ⟨_, p2, p3, p4, p5⟩ := hc.prot_ends x hx
  rw [p2, p3]
  exact ⟨hc.atoms_eq _ p4, hc.atoms_eq _ p5⟩

theorem Calm.length_eq {G : Geometry} {prot : Nat → Prop} {g0 g : graph_t}
    (hc : Calm G prot g0 g) (x : Nat) (hx : prot x) :
    bond_length G g.bond x g.atom = bond_length G g0.bond x g0.atom := by
  simp only [bond_length, (hc.ends x hx).1, (hc.ends x hx).2]

theorem Calm.parallel_eq {G : Geometry} {prot : Nat → Prop} {g0 g : graph_t}
    (hc : Calm G prot g0 g) (x y : Nat) (hx : prot x) (hy : prot y) :
    near_parallel G g.bond x y g.atom = near_parallel G g0.bond x y g0.atom := by
  simp only [near_parallel, angle_between_bonds, (hc.ends x hx).1, (hc.ends x hx).2,
    (hc.ends y hy).1, (hc.ends y hy).2]

theorem Calm.distance_eq {G : Geometry} {prot : Nat → Prop} {g0 g : graph_t}
    (hc : Calm G prot g0 g) (x y : Nat) (hx : prot x) (hy : prot y) :
    distance_between_bonds G g.bond x y g.atom = distance_between_bonds G g0.bond x y g0.atom := by
  simp only [distance_between_bonds, (hc.ends x hx).1, (hc.ends x hx).2,
    (hc.ends y hy).1, (hc.ends y hy).2]

theorem Calm.within_eq {G : Geometry} {prot : Nat → Prop} {g0 g : graph_t}
    (hc : Calm G prot g0 g) (x y : Nat) (hx : prot x) (hy : prot y) :
    bonds_within_each_other G g.bond x y g.atom
      = bonds_within_each_other G g0.bond x y g0.atom := by
  simp only [bonds_within_each_other, within_ordered, bond_length, (hc.ends x hx).1,
    (hc.ends x hx).2, (hc.ends y hy).1, (hc.ends y hy).2]

/-- In a calm state no existing bond outside the protected set is near-parallel to a
protected bond. -/
theorem Calm.others {G : Geometry} {prot : Nat → Prop} {g0 g : graph_t}
    (hc : Calm G prot g0 g) : Others G g.bond g.atom g.n_bond prot :=
  fun z x hz _ hnz hx hze => (hc.free z hz hnz hze).2.2 x hx

theorem Calm.of_quiet {G : Geometry} {prot : Nat → Prop} {g0 g r : graph_t}
    (hc : Calm G prot g0 g) (hq : Quiet g r) : Calm G prot g0 r := by
  obtain ⟨q1, q2, q3, q4⟩ := hq
  have h := hc.of_same_shape r.bond q4
  have e : r = { g with bond := r.bond } := by
    cases r
    simp only at q1 q2 q3
    subst q1 q2 q3
    rfl
  rw [e]
  exact h

/-- The initial state is calm when every existing bond ends at atoms below `n_atom`, the
protected bonds exist, and no other existing bond is near-parallel to a protected one. -/
theorem Calm.init (G : Geometry) (prot : Nat → Prop) (g : graph_t)
    (hwf : ∀ z, z < g.n_bond → (g.bond z).exists_ = true →
      (g.bond z).a < g.n_atom ∧ (g.bond z).b < g.n_atom)
    (hprot : ∀ x, prot x → x < g.n_bond ∧ (g.bond x).exists_ = true)
    (hoth : Others G g.bond g.atom g.n_bond prot) : Calm G prot g g where
  atoms_lo := Nat.le_refl _
  bonds_lo := Nat.le_refl _
  atoms_eq := fun _ _ => rfl
  prot_ends := fun x hx =>
    ⟨(hprot x hx).1, rfl, rfl, (hwf x (hprot x hx).1 (hprot x hx).2).1,
      (hwf x (hprot x hx).1 (hprot x hx).2).2⟩
  free := fun z hz hnz hze =>
    ⟨(hwf z hz hze).1, (hwf z hz hze).2, fun x hx => hoth z x hz (hprot x hx).1 hnz hx hze⟩

/-- One round of the `i` loop for a bond that is not the first of the protected bonds still
to be merged: the counts do not shrink, and either the atom capacity is reached or the
state stays calm with the protected bonds unchanged. -/
theorem row_calm (G : Geometry) (avg max_dist_double_bond : ℚ) (prot : Nat → Prop)
    (g0 g : graph_t) (i : Nat) (hL : LineInvariant G) (hc : Calm G prot g0 g)
    (hpair : (g.bond i).exists_ = true →
      ∀ j, i < j → prot i → prot j → (g.bond j).exists_ = false) :
    Capped G (if (g.bond i).exists_ then pair_loop_j G avg max_dist_double_bond i g else g) ∨
    (Calm G prot g0
        (if (g.bond i).exists_ then pair_loop_j G avg max_dist_double_bond i g else g) ∧
      ∀ x, prot x →
        (if (g.bond i).exists_ then pair_loop_j G avg max_dist_double_bond i g else g).bond x
          = g.bond x) := by
  by_cases he : (g.bond i).exists_ = true
  · simp only [he, if_true]
    exact pair_loop_j_calm G avg max_dist_double_bond prot g0 g i hL hc he (hpair he)
  · simp only [he, Bool.false_eq_true, if_false]
    exact Or.inr ⟨hc, fun _ _ => trivial⟩

theorem row_grows (G : Geometry) (avg max_dist_double_bond : ℚ) (g : graph_t) (i : Nat) :
    Grows G g (if (g.bond i).exists_ then pair_loop_j G avg max_dist_double_bond i g else g) := by
  split
  · exact pair_loop_j_grows G avg max_dist_double_bond i g
  · exact Grows.refl_grows G g

/-! ### The geometry `euclid_sq` -/

theorem cos_sq_scale_left (k ux uy wx wy : ℚ) (hk : k ≠ 0) :
    cos_sq (k * ux) (k * uy) wx wy = cos_sq ux uy wx wy := by
  unfold cos_sq
  rw [show (k * ux * wx + k * uy * wy) * (k * ux * wx + k * uy * wy)
        = (k * k) * ((ux * wx + uy * wy) * (ux * wx + uy * wy)) by ring,
    show (k * ux * (k * ux) + k * uy * (k * uy)) * (wx * wx + wy * wy)
        = (k * k) * ((ux * ux + uy * uy) * (wx * wx + wy * wy)) by ring,
    mul_div_mul_left _ _ (mul_ne_zero hk hk)]

theorem cos_sq_symm (ux uy wx wy : ℚ) : cos_sq ux uy wx wy = cos_sq wx wy ux uy := by
  unfold cos_sq
  rw [show (ux * wx + uy * wy) = (wx * ux + wy * uy) by ring,
    mul_comm (ux * ux + uy * uy)]

theorem cos_sq_zero_left (wx wy : ℚ) : cos_sq 0 0 wx wy = 0 := by
  simp [cos_sq]

/-- The angle between a segment on the line of a bond and a second bond is the angle of
the bond itself, or zero when the segment is a point. -/
theorem square_angle_on_line (x1 y1 x2 y2 x3 y3 x4 y4 s t : ℚ) :
    square_angle (x1 + s * (x2 - x1)) (y1 + s * (y2 - y1)) (x1 + t * (x2 - x1))
        (y1 + t * (y2 - y1)) x3 y3 x4 y4
      = if t - s = 0 then 0 else square_angle x1 y1 x2 y2 x3 y3 x4 y4 := by
  unfold square_angle
  rw [show x1 + t * (x2 - x1) - (x1 + s * (x2 - x1)) = (t - s) * (x2 - x1) by ring,
    show y1 + t * (y2 - y1) - (y1 + s * (y2 - y1)) = (t - s) * (y2 - y1) by ring]
  by_cases hk : t - s = 0
  · rw [if_pos hk, hk, zero_mul, zero_mul, cos_sq_zero_left]
  · rw [if_neg hk, cos_sq_scale_left _ _ _ _ _ hk]

theorem euclid_sq_line_invariant : LineInvariant euclid_sq := by
  intro x1 y1 x2 y2 x3 y3 x4 y4 s t
  have key := square_angle_on_line x1 y1 x2 y2 x3 y3 x4 y4 s t
  have hsym : ∀ a b c d e f g h : ℚ, square_angle a b c d e f g h = square_angle e f g h a b c d :=
    fun a b c d e f g h => cos_sq_symm _ _ _ _
  constructor
  · intro h
    change |square_angle _ _ _ _ _ _ _ _| > (9025 / 10000 : ℚ) at h
    change |square_angle _ _ _ _ _ _ _ _| > (9025 / 10000 : ℚ)
    rw [key] at h
    by_cases hk : t - s = 0
    · rw [if_pos hk] at h
      norm_num at h
    · rw [if_neg hk] at h
      exact h
  · intro h
    change |square_angle _ _ _ _ _ _ _ _| > (9025 / 10000 : ℚ) at h
    change |square_angle _ _ _ _ _ _ _ _| > (9025 / 10000 : ℚ)
    rw [hsym, key] at h
    rw [hsym]
    by_cases hk : t - s = 0
    · rw [if_pos hk] at h
      norm_num at h
    · rw [if_neg hk] at h
      exact h

/-- In the example of C9 the two vertical bonds do go through the extended case: two atoms
and two bonds are inserted, the short bond is switched off and the long one gets order 2. -/
theorem double_example_extended_case :
    (double_triple_bonds euclid_sq double_atoms double_bonds 4 8 8 4).n_atom = 10 ∧
    (double_triple_bonds euclid_sq double_atoms double_bonds 4 8 8 4).n_bond = 6 ∧
    ((double_triple_bonds euclid_sq double_atoms double_bonds 4 8 8 4).bond 3).exists_ = false ∧
    ((double_triple_bonds euclid_sq double_atoms double_bonds 4 8 8 4).bond 2).type = 2 := by
  decide!

/-- In the example of C10 the two vertical bonds go through the extended case as well. -/
theorem triple_example_extended_case :
    (double_triple_bonds euclid_sq triple_atoms triple_bonds 5 8 10 5).n_atom = 12 ∧
    (double_triple_bonds euclid_sq triple_atoms triple_bonds 5 8 10 5).n_bond = 7 ∧
    ((double_triple_bonds euclid_sq triple_atoms triple_bonds 5 8 10 5).bond 4).exists_ = false ∧
    ((double_triple_bonds euclid_sq triple_atoms triple_bonds 5 8 10 5).bond 3).type = 2 := by
  decide!

/-- C9. Double-bond merge.  Let `P < Q` be two existing single bonds of equal positive
length that are near-parallel, lie within each other and are separated by at most
`max_dist_double_bond`, and let no other existing bond be near-parallel to either of them
(in either argument order of `angle_between_bonds`).  In a graph whose existing bonds end at
atoms below `n_atom`, with a near-parallel test that looks only at the lines of the two
bonds, and in a run that stays below the atom capacity `MAX_ATOMS`, `double_triple_bonds`
leaves exactly one of the two existing, namely `Q`, and its order is 2.  The other bonds may
merge among themselves in any way, the extended case with its inserted atoms and bonds
included. -/
theorem double_triple_bonds_double (G : Geometry) (atom : Atoms) (bond : Bonds) (n_bond : Nat)
    (avg : ℚ) (n_atom : Nat) (max_dist_double_bond : ℚ) (P Q : Nat)
    (hL : LineInvariant G)
    (hwf : ∀ z, z < n_bond → (bond z).exists_ = true →
      (bond z).a < n_atom ∧ (bond z).b < n_atom)
    (hcap : (double_triple_bonds G atom bond n_bond avg n_atom max_dist_double_bond).n_atom + 1
      < G.MAX_ATOMS)
    (hPQ : P < Q) (hQ : Q < n_bond)
    (hPe : (bond P).exists_ = true) (hQe : (bond Q).exists_ = true)
    (hPt : (bond P).type = 1) (hQt : (bond Q).type = 1)
    (hlen : bond_length G bond P atom = bond_length G bond Q atom)
    (hpos : 0 < bond_length G bond P atom)
    (hpar : near_parallel G bond P Q atom = true)
    (hwi : bonds_within_each_other G bond P Q atom = true)
    (hsep : distance_between_bonds G bond P Q atom ≤ max_dist_double_bond)
    (hoth : ∀ z, z < n_bond → z ≠ P → z ≠ Q → (bond z).exists_ = true →
      near_parallel G bond z P atom = false ∧ near_parallel G bond P z atom = false ∧
      near_parallel G bond z Q atom = false ∧ near_parallel G bond Q z atom = false) :
    ((double_triple_bonds G atom bond n_bond avg n_atom max_dist_double_bond).bond P).exists_
      = false ∧
    ((double_triple_bonds G atom bond n_bond avg n_atom max_dist_double_bond).bond Q).exists_
      = true ∧
    ((double_triple_bonds G atom bond n_bond avg n_atom max_dist_double_bond).bond Q).type
      = 2 := by
  have hoth' : Others G bond atom n_bond (fun y => y = P ∨ y = Q) := by
    intro z x hz _ hnz hx hze
    simp only [not_or] at hnz
    obtain ⟨o1, o2, o3, o4⟩ := hoth z hz hnz.1 hnz.2 hze
    rcases hx with rfl | rfl
    · exact ⟨o1, o2⟩
    · exact ⟨o3, o4⟩
  have hinit := Calm.init G (fun y => y = P ∨ y = Q)
    { atom := atom, bond := bond, n_atom := n_atom, n_bond := n_bond } hwf
    (by
      rintro x (rfl | rfl)
      · exact ⟨by dsimp only; omega, hPe⟩
      · exact ⟨hQ, hQe⟩)
    hoth'
  unfold double_triple_bonds at hcap ⊢
  have key := whileLoop_inv
    (fun (s : graph_t × Nat) => decide (s.2 < s.1.n_bond))
    (fun s =>
      (if (s.1.bond s.2).exists_ then pair_loop_j G avg max_dist_double_bond s.2 s.1 else s.1,
        s.2 + 1))
    (fun s =>
      Grows G { atom := atom, bond := bond, n_atom := n_atom, n_bond := n_bond } s.1 ∧
      (Capped G s.1 ∨
        (Calm G (fun y => y = P ∨ y = Q)
            { atom := atom, bond := bond, n_atom := n_atom, n_bond := n_bond } s.1 ∧
          (s.2 ≤ P → s.1.bond P = bond P ∧ s.1.bond Q = bond Q) ∧
          (P < s.2 → (s.1.bond P).exists_ = false ∧ (s.1.bond Q).exists_ = true ∧
            (s.1.bond Q).type = 2))))
    (fun s => (n_bond + G.MAX_ATOMS) - s.2)
    (by
      intro s hs ht
      obtain ⟨sg, sc⟩ := hs
      simp only [decide_eq_true_eq] at ht
      have hrow := row_grows G avg max_dist_double_bond s.1 s.2
      refine ⟨⟨sg.trans_grows hrow, ?_⟩, ?_⟩
      swap
      · obtain ⟨_, _, hb⟩ := sg
        dsimp only at hb ⊢
        rcases hb with hb | hb <;> omega
      by_cases hcapd : Capped G s.1
      · exact Or.inl (Capped.of_grows hcapd hrow)
      rcases sc with sc | ⟨c, sA, sB⟩
      · exact absurd sc hcapd
      by_cases hP : s.2 = P
      · -- the row of `P`
        obtain ⟨e1, e2⟩ := sA (by omega)
        have he : (s.1.bond s.2).exists_ = true := by rw [hP, e1]; exact hPe
        have lP := c.length_eq P (Or.inl rfl)
        have lQ := c.length_eq Q (Or.inr rfl)
        have pPQ := c.parallel_eq P Q (Or.inl rfl) (Or.inr rfl)
        have wPQ := c.within_eq P Q (Or.inl rfl) (Or.inr rfl)
        have dPQ := c.distance_eq P Q (Or.inl rfl) (Or.inr rfl)
        have hQ' : Q < s.1.n_bond := by have := c.bonds_lo; dsimp only at this; omega
        dsimp only at lP lQ pPQ wPQ dPQ
        obtain ⟨r1, r2, r3, r4⟩ := pair_loop_j_double G avg max_dist_double_bond s.1 s.1 P Q hPQ
          hQ' (Quiet.refl_quiet _) rfl rfl c.others (by rw [e2]; exact hQe)
          (by rw [e1]; exact hPt) (by rw [e2]; exact hQt) (by rw [lP, lQ]; exact hlen)
          (by rw [lP]; exact hpos) (by rw [pPQ]; exact hpar) (by rw [wPQ]; exact hwi)
          (by rw [dPQ]; exact hsep)
        simp only [he, if_true]
        rw [hP]
        exact Or.inr ⟨c.of_quiet r1, fun h => by omega, fun _ => ⟨r2, r3, r4⟩⟩
      · -- any other row
        rcases row_calm G avg max_dist_double_bond (fun y => y = P ∨ y = Q)
          { atom := atom, bond := bond, n_atom := n_atom, n_bond := n_bond } s.1 s.2 hL c (by
            intro _ j hj hpi hpj
            exfalso
            rcases hpi with e | e
            · exact hP e
            · rcases hpj with e2 | e2 <;> omega) with h | ⟨c', p'⟩
        · exact Or.inl h
        · refine Or.inr ⟨c', fun h => ?_, fun h => ?_⟩
          · dsimp only at h
            rw [p' P (Or.inl rfl), p' Q (Or.inr rfl)]; exact sA (by omega)
          · dsimp only at h
            rw [p' P (Or.inl rfl), p' Q (Or.inr rfl)]; exact sB (by omega))
    (n_bond + G.MAX_ATOMS)
    ({ atom := atom, bond := bond, n_atom := n_atom, n_bond := n_bond }, 0)
    ⟨Grows.refl_grows G _, Or.inr ⟨hinit, fun _ => ⟨rfl, rfl⟩,
      fun h => absurd h (Nat.not_lt_zero P)⟩⟩
    (by dsimp only; omega)
  obtain ⟨⟨kg, kc⟩, ktest⟩ := key
  simp only [decide_eq_false_iff_not, not_lt] at ktest
  rcases kc with kc | ⟨_, _, kB⟩
  · exact absurd hcap (Nat.not_lt.mpr kc)
  · exact kB (by have := kg.2.1; dsimp only at this ktest; omega)

/-- Witness for C9: two horizontal bonds of length 10 at distance 3, and a vertical bond of
length 30 with a short vertical bond beside it, which go through the extended case;
`avg = 8`, `max_dist_double_bond = 4`. -/
theorem double_triple_bonds_double_witness :
    ((double_triple_bonds euclid_sq double_atoms double_bonds 4 8 8 4).bond 0).exists_ = false ∧
    ((double_triple_bonds euclid_sq double_atoms double_bonds 4 8 8 4).bond 1).exists_ = true ∧
    ((double_triple_bonds euclid_sq double_atoms double_bonds 4 8 8 4).bond 1).type = 2 :=
  double_triple_bonds_double euclid_sq double_atoms double_bonds 4 8 8 4 0 1
    euclid_sq_line_invariant
    (by intro z hz; interval_cases z <;> decide)
    (by decide!)
    (by decide)
    (by decide) (by decide) (by decide) (by decide) (by decide) (by decide!) (by decide!)
    (by decide!) (by decide!) (by decide!)
    (by intro z hz h0 h1; interval_cases z <;> first | omega | decide!)

/-- A loop of which every round but round `t0` leaves good states alone runs as the single
round `t0`. -/
theorem forLoop_single {σ : Type} (body : Nat → σ → σ) (Good : σ → Prop) (n t0 : Nat) (s : σ)
    (hskip : ∀ t s', t < n → t ≠ t0 → Good s' → body t s' = s')
    (h0 : Good s) (h1 : Good (body t0 s)) (ht0 : t0 < n) :
    forLoop body n s = body t0 s := by
  have key : ∀ m, m ≤ n → forLoop body m s = if t0 < m then body t0 s else s := by
    intro m
    induction m with
    | zero => intro _; simp [forLoop]
    | succ m ih =>
      intro hm
      rw [forLoop_succ, ih (by omega)]
      by_cases h : t0 < m
      · rw [if_pos h, if_pos (by omega), hskip m _ (by omega) (by omega) h1]
      · rw [if_neg h]
        by_cases he : t0 = m
        · rw [if_pos (by omega), he]
        · rw [if_neg (by omega), hskip m _ (by omega) (fun e => he e.symm) h0]
  rw [key n (Nat.le_refl n), if_pos ht0]

/-- With a single existing bond `R > j` near-parallel to bond `j`, the triple-bond search is
the one round `k = R`. -/
theorem triple_search_single (G : Geometry) (avg max_dist_double_bond : ℚ) (atom : Atoms)
    (n_bond i j R : Nat) (l2 dij : ℚ) (bond : Bonds) (hjR : j < R) (hR : R < n_bond)
    (honly : ∀ z, j < z → z < n_bond → z ≠ R → (bond z).exists_ = true →
      near_parallel G bond z j atom = false) :
    triple_search G avg max_dist_double_bond atom n_bond i j l2 dij bond
      = (triple_step G avg max_dist_double_bond atom i j l2 dij R (bond, false)).1 := by
  unfold triple_search
  have hR' : j + 1 + (R - (j + 1)) = R := by omega
  have step_shape : ∀ k (s : Bonds × Bool), k ≠ j → SameShape bond s.1 →
      SameShape bond (triple_step G avg max_dist_double_bond atom i j l2 dij k s).1 := by
    intro k s hk hs
    unfold triple_step
    split
    · exact hs
    · split
      · split
        · split
          · exact hs.trans_shape (absorb_spec s.1 j k _ (Ne.symm hk)).1
          · exact hs.trans_shape (absorb_spec s.1 k j _ hk).1
        · exact hs
      · exact hs
  rw [forLoop_single (fun t s => triple_step G avg max_dist_double_bond atom i j l2 dij
      (j + 1 + t) s) (fun s => SameShape bond s.1) (n_bond - (j + 1)) (R - (j + 1)) (bond, false)
      ?_ (SameShape.refl_shape _) ?_ (by omega)]
  · simp only [hR']
  · intro t s ht hne hs
    unfold triple_step
    by_cases hb : s.2 = true
    · simp only [hb, if_true]
    · simp only [hb, Bool.false_eq_true, if_false]
      have hc : ((s.1 (j + 1 + t)).exists_ && near_parallel G s.1 (j + 1 + t) j atom)
          = false := by
        by_cases he : (s.1 (j + 1 + t)).exists_ = true
        · rw [hs.near_parallel_eq,
            honly (j + 1 + t) (by omega) (by omega) (by omega) ((hs _).2.2 he)]
          simp
        · simp [he]
      simp only [hc, Bool.false_eq_true, if_false]
  · simp only [hR']
    exact step_shape R (bond, false) (by omega) (SameShape.refl_shape _)

/-- The body of the `j` loop when the triple-bond search has switched bond `j` off: the
`continue` of line 447. -/
theorem pair_body_lost (G : Geometry) (avg max_dist_double_bond : ℚ) (i j : Nat) (l1 : ℚ)
    (g : graph_t) (T : Bonds)
    (hje : (g.bond j).exists_ = true) (hpar : near_parallel G g.bond i j g.atom = true)
    (hsep : distance_between_bonds G g.bond i j g.atom ≤ max_dist_double_bond)
    (hwi : bonds_within_each_other G g.bond i j g.atom = true)
    (hT : triple_search G avg max_dist_double_bond g.atom g.n_bond i j
      (bond_length G g.bond j g.atom) (distance_between_bonds G g.bond i j g.atom) g.bond = T)
    (hTj : (T j).exists_ = false) :
    pair_body G avg max_dist_double_bond i l1 j g = ({ g with bond := T }, false) := by
  unfold pair_body
  simp only [hje, hpar, Bool.and_self, if_true, hsep, decide_True, hwi, hT, hTj, Bool.not_false]

theorem adds_order_equal (avg l : ℚ) (hl : 0 < l) : adds_order avg l l = true := by
  have : l > l / 2 := by linarith
  simp [adds_order, this]

/-- The row `i = P` of `double_triple_bonds` in the setting of C10: the `j` loop skips every
bond up to `Q`; at `Q` the triple-bond search meets `R` and either folds `R` into `Q`, after
which `P` is folded into `Q` as well, or folds `Q` into `R`, after which the loop goes on to
`R` and folds `P` into it. -/
theorem pair_loop_j_triple (G : Geometry) (avg max_dist_double_bond : ℚ) (g0 g : graph_t)
    (P Q R : Nat) (hPQ : P < Q) (hQR : Q < R) (hR : R < g0.n_bond)
    (hq : Quiet g0 g) (hgP : g.bond P = g0.bond P) (hgQ : g.bond Q = g0.bond Q)
    (hgR : g.bond R = g0.bond R)
    (hoth : Others G g0.bond g0.atom g0.n_bond (fun y => y = P ∨ y = Q ∨ y = R))
    (hQe : (g0.bond Q).exists_ = true) (hRe : (g0.bond R).exists_ = true)
    (hPt : (g0.bond P).type = 1) (hQt : (g0.bond Q).type = 1) (hRt : (g0.bond R).type = 1)
    (hlenQ : bond_length G g0.bond Q g0.atom = bond_length G g0.bond P g0.atom)
    (hlenR : bond_length G g0.bond R g0.atom = bond_length G g0.bond P g0.atom)
    (hpos : 0 < bond_length G g0.bond P g0.atom)
    (hparPQ : near_parallel G g0.bond P Q g0.atom = true)
    (hparRQ : near_parallel G g0.bond R Q g0.atom = true)
    (hparPR : near_parallel G g0.bond P R g0.atom = true)
    (hwiPQ : bonds_within_each_other G g0.bond P Q g0.atom = true)
    (hwiRQ : bonds_within_each_other G g0.bond R Q g0.atom = true)
    (hwiPR : bonds_within_each_other G g0.bond P R g0.atom = true)
    (hsepPQ : distance_between_bonds G g0.bond P Q g0.atom ≤ max_dist_double_bond)
    (hsepRQ : distance_between_bonds G g0.bond R Q g0.atom ≤ max_dist_double_bond)
    (hsepPR : distance_between_bonds G g0.bond P R g0.atom ≤ max_dist_double_bond) :
    Quiet g0 (pair_loop_j G avg max_dist_double_bond P g) ∧
    triple_done (pair_loop_j G avg max_dist_double_bond P g).bond P Q R := by
  have hl1 : bond_length G g.bond P g.atom = bond_length G g0.bond P g0.atom := by
    rw [hq.2.2.2.bond_length_eq, hq.1]
  unfold pair_loop_j
  rw [hl1]
  have key := whileLoop_inv
    (fun (s : pair_state) => !s.brk && decide (s.j < s.g.n_bond))
    (fun s =>
      { g := (pair_body G avg max_dist_double_bond P (bond_length G g0.bond P g0.atom)
          s.j s.g).1,
        j := s.j + 1,
        brk := (pair_body G avg max_dist_double_bond P (bond_length G g0.bond P g0.atom)
          s.j s.g).2 })
    (fun s => Quiet g0 s.g ∧ P < s.j ∧
      ((s.brk = false ∧ s.j ≤ Q ∧ s.g.bond P = g0.bond P ∧ s.g.bond Q = g0.bond Q ∧
          s.g.bond R = g0.bond R) ∨
       (s.brk = false ∧ Q < s.j ∧ s.j ≤ R ∧ s.g.bond P = g0.bond P ∧
          (s.g.bond Q).exists_ = false ∧ (s.g.bond R).exists_ = true ∧
          (s.g.bond R).type = 2) ∨
       (s.brk = true ∧ triple_done s.g.bond P Q R)))
    (fun s => if s.brk then 0 else g0.n_bond - s.j)
    (by
      intro s hs ht
      obtain ⟨sq, sPj, sphase⟩ := hs
      simp only [Bool.and_eq_true, Bool.not_eq_true', decide_eq_true_eq] at ht
      rw [sq.2.2.1] at ht
      have gnp : ∀ a b, near_parallel G s.g.bond a b s.g.atom
          = near_parallel G g0.bond a b g0.atom :=
        fun a b => by rw [sq.2.2.2.near_parallel_eq, sq.1]
      have gsep : ∀ a b, distance_between_bonds G s.g.bond a b s.g.atom
          = distance_between_bonds G g0.bond a b g0.atom :=
        fun a b => by rw [sq.2.2.2.distance_between_bonds_eq, sq.1]
      have gwi : ∀ a b, bonds_within_each_other G s.g.bond a b s.g.atom
          = bonds_within_each_other G g0.bond a b g0.atom :=
        fun a b => by rw [sq.2.2.2.bonds_within_each_other_eq, sq.1]
      have glen : ∀ a, bond_length G s.g.bond a s.g.atom = bond_length G g0.bond a g0.atom :=
        fun a => by rw [sq.2.2.2.bond_length_eq, sq.1]
      -- a bond that is none of the three is skipped
      have skip : s.j ≠ Q → s.j ≠ R →
          pair_body G avg max_dist_double_bond P (bond_length G g0.bond P g0.atom) s.j s.g
            = (s.g, false) := by
        intro h1 h2
        apply pair_body_skip
        by_cases hje : (s.g.bond s.j).exists_ = true
        · right
          rw [gnp]
          exact (hoth s.j P ht.2 (by omega) (by simp only [not_or]; omega) (Or.inl rfl)
            ((sq.2.2.2 _).2.2 hje)).2
        · left; simpa using hje
      rcases sphase with ⟨_, sjQ, sP, sQ, sR⟩ | ⟨_, sQj, sjR, sP, sQ, sR, sRt⟩ | ⟨hb, _⟩
      · by_cases hjQ : s.j = Q
        · -- the pair (P, Q): the search meets R
          have hTs := triple_search_single G avg max_dist_double_bond s.g.atom s.g.n_bond P s.j
            R (bond_length G s.g.bond s.j s.g.atom)
            (distance_between_bonds G s.g.bond P s.j s.g.atom) s.g.bond (by omega)
            (by rw [sq.2.2.1]; exact hR) (by
              intro z hz hzn hzR hze
              rw [sq.2.2.1] at hzn
              rw [gnp, hjQ]
              exact (hoth z Q hzn (by omega) (by simp only [not_or]; omega) (Or.inr (Or.inl rfl))
                ((sq.2.2.2 z).2.2 hze)).1)
          have hjex : (s.g.bond s.j).exists_ = true := by rw [hjQ, sQ]; exact hQe
          have hnear : near_parallel G s.g.bond P s.j s.g.atom = true := by
            rw [gnp, hjQ]; exact hparPQ
          have hsep' : distance_between_bonds G s.g.bond P s.j s.g.atom
              ≤ max_dist_double_bond := by rw [gsep, hjQ]; exact hsepPQ
          have hwi' : bonds_within_each_other G s.g.bond P s.j s.g.atom = true := by
            rw [gwi, hjQ]; exact hwiPQ
          have hstep : (triple_step G avg max_dist_double_bond s.g.atom P s.j
              (bond_length G s.g.bond s.j s.g.atom)
              (distance_between_bonds G s.g.bond P s.j s.g.atom) R (s.g.bond, false)).1
              = if distance_between_bonds G s.g.bond R P s.g.atom
                    > distance_between_bonds G s.g.bond P s.j s.g.atom
                then absorb s.g.bond s.j R true else absorb s.g.bond R s.j true := by
            unfold triple_step
            have e1 : (s.g.bond R).exists_ = true := by rw [sR]; exact hRe
            have e2 : near_parallel G s.g.bond R s.j s.g.atom = true := by
              rw [gnp, hjQ]; exact hparRQ
            have e3 : distance_between_bonds G s.g.bond R s.j s.g.atom
                ≤ max_dist_double_bond := by rw [gsep, hjQ]; exact hsepRQ
            have e4 : bonds_within_each_other G s.g.bond R s.j s.g.atom = true := by
              rw [gwi, hjQ]; exact hwiRQ
            have e5 : bond_length G s.g.bond R s.g.atom = bond_length G s.g.bond s.j s.g.atom := by
              rw [glen, glen, hjQ, hlenR, hlenQ]
            have e6 : 0 < bond_length G s.g.bond s.j s.g.atom := by
              rw [glen, hjQ, hlenQ]; exact hpos
            simp only [Bool.false_eq_true, if_false, e1, e2, Bool.and_self, if_true, e3,
              decide_True, e4, e5, adds_order_equal _ _ e6]
            split <;> rfl
          rw [hstep] at hTs
          by_cases hd : distance_between_bonds G s.g.bond R P s.g.atom
              > distance_between_bonds G s.g.bond P s.j s.g.atom
          · -- R is folded into Q, then P is folded into Q
            rw [if_pos hd] at hTs
            obtain ⟨a1, a2, a3, a4, a5⟩ := absorb_spec s.g.bond s.j R true (by omega)
            obtain ⟨b1, b2, b3, b4, b5⟩ := absorb_spec (absorb s.g.bond s.j R true) s.j P true
              (by omega)
            have hm := pair_body_merge G avg max_dist_double_bond P s.j
              (bond_length G g0.bond P g0.atom) s.g _ hjex hnear hsep' hwi' hTs
              (by rw [a3]; exact hjex) (by rw [glen, hjQ]; exact hlenQ) hpos
            dsimp only
            rw [hm]
            refine ⟨⟨⟨sq.1, sq.2.1, sq.2.2.1, (sq.2.2.2.trans_shape a1).trans_shape b1⟩, by omega,
              Or.inr (Or.inr ⟨rfl, b2, Or.inl ⟨?_, ?_, ?_⟩⟩)⟩, ?_⟩
            · show (absorb (absorb s.g.bond s.j R true) s.j P true Q).exists_ = true
              rw [← hjQ, b3, a3]; exact hjex
            · show (absorb (absorb s.g.bond s.j R true) s.j P true Q).type = 3
              rw [← hjQ, b4, a4, a5 P (by omega) (by omega), sP, hPt, sR, hRt, hjQ, sQ, hQt]
              rfl
            · show (absorb (absorb s.g.bond s.j R true) s.j P true R).exists_ = false
              rw [b5 R (by omega) (by omega)]; exact a2
            · simp only [ht.1, Bool.false_eq_true, if_false, if_true]; omega
          · -- Q is folded into R; the loop goes on
            rw [if_neg hd] at hTs
            obtain ⟨a1, a2, a3, a4, a5⟩ := absorb_spec s.g.bond R s.j true (by omega)
            have hm := pair_body_lost G avg max_dist_double_bond P s.j
              (bond_length G g0.bond P g0.atom) s.g _ hjex hnear hsep' hwi' hTs a2
            dsimp only
            rw [hm]
            refine ⟨⟨⟨sq.1, sq.2.1, sq.2.2.1, sq.2.2.2.trans_shape a1⟩, by omega,
              Or.inr (Or.inl ⟨rfl, by omega, by omega, ?_, ?_, ?_, ?_⟩)⟩, ?_⟩
            · show absorb s.g.bond R s.j true P = g0.bond P
              rw [a5 P (by omega) (by omega)]; exact sP
            · show (absorb s.g.bond R s.j true Q).exists_ = false
              rw [← hjQ]; exact a2
            · show (absorb s.g.bond R s.j true R).exists_ = true
              rw [a3, sR]; exact hRe
            · show (absorb s.g.bond R s.j true R).type = 2
              rw [a4, sR, hRt, hjQ, sQ, hQt]; rfl
            · simp only [ht.1, Bool.false_eq_true, if_false]
              omega
        · dsimp only
          rw [skip hjQ (by omega)]
          refine ⟨⟨sq, by omega, Or.inl ⟨rfl, by omega, sP, sQ, sR⟩⟩, ?_⟩
          simp only [ht.1, Bool.false_eq_true, if_false]
          omega
      · by_cases hjR : s.j = R
        · -- the pair (P, R): P is folded into R
          have hT := (triple_search_frame G avg max_dist_double_bond s.g.atom s.g.n_bond P s.j
            (bond_length G s.g.bond s.j s.g.atom)
            (distance_between_bonds G s.g.bond P s.j s.g.atom) s.g.bond).2.2 (by
              intro z hz hzn hze
              rw [sq.2.2.1] at hzn
              rw [gnp, hjR]
              exact (hoth z R hzn hR (by simp only [not_or]; omega) (Or.inr (Or.inr rfl))
                ((sq.2.2.2 z).2.2 hze)).1)
          have hm := pair_body_merge G avg max_dist_double_bond P s.j
            (bond_length G g0.bond P g0.atom) s.g s.g.bond
            (by rw [hjR]; exact sR) (by rw [gnp, hjR]; exact hparPR)
            (by rw [gsep, hjR]; exact hsepPR) (by rw [gwi, hjR]; exact hwiPR)
            hT (by rw [hjR]; exact sR) (by rw [glen, hjR]; exact hlenR) hpos
          obtain ⟨a1, a2, a3, a4, a5⟩ := absorb_spec s.g.bond s.j P true (by omega)
          dsimp only
          rw [hm]
          refine ⟨⟨⟨sq.1, sq.2.1, sq.2.2.1, sq.2.2.2.trans_shape a1⟩, by omega,
            Or.inr (Or.inr ⟨rfl, a2, Or.inr ⟨?_, ?_, ?_⟩⟩)⟩, ?_⟩
          · show (absorb s.g.bond s.j P true Q).exists_ = false
            rw [a5 Q (by omega) (by omega)]; exact sQ
          · show (absorb s.g.bond s.j P true R).exists_ = true
            rw [← hjR, a3, hjR]; exact sR
          · show (absorb s.g.bond s.j P true R).type = 3
            rw [← hjR, a4, hjR, sRt, sP, hPt]; rfl
          · simp only [ht.1, Bool.false_eq_true, if_false, if_true]; omega
        · dsimp only
          rw [skip (by omega) hjR]
          refine ⟨⟨sq, by omega, Or.inr (Or.inl ⟨rfl, by omega, by omega, sP, sQ, sR, sRt⟩)⟩, ?_⟩
          simp only [ht.1, Bool.false_eq_true, if_false]
          omega
      · rw [hb] at ht; cases ht.1)
    (g.n_bond + G.MAX_ATOMS) { g := g, j := P + 1, brk := false }
    ⟨hq, Nat.lt_succ_self P, Or.inl ⟨rfl, Nat.succ_le_of_lt hPQ, hgP, hgQ, hgR⟩⟩
    (by simp only [Bool.false_eq_true, if_false]; rw [hq.2.2.1]; omega)
  obtain ⟨⟨kq, _, kphase⟩, ktest⟩ := key
  rcases kphase with ⟨hb, hj, _⟩ | ⟨hb, _, hj, _⟩ | ⟨_, hdone⟩
  · exfalso
    simp only [hb, Bool.not_false, Bool.true_and, decide_eq_false_iff_not, not_lt] at ktest
    rw [kq.2.2.1] at ktest
    omega
  · exfalso
    simp only [hb, Bool.not_false, Bool.true_and, decide_eq_false_iff_not, not_lt] at ktest
    rw [kq.2.2.1] at ktest
    omega
  · exact ⟨kq, hdone⟩

/-- C10. Triple-bond merge.  Let `P < Q < R` be three existing single bonds of the same
positive length that are pairwise near-parallel, pairwise within each other and pairwise
separated by at most `max_dist_double_bond` (each pair in the argument order in which the
code compares it), and let no other existing bond be near-parallel to any of them (in
either argument order).  Whatever the geometric arrangement of the three indices (the
separations are arbitrary, so every index order of the three lines is covered), in a graph
whose existing bonds end at atoms below `n_atom`, with a near-parallel test that looks only
at the lines of the two bonds, and in a run that stays below the atom capacity `MAX_ATOMS`,
`double_triple_bonds` leaves exactly one of the three existing, and its order is 3: `P` is
switched off, and either `Q` survives with order 3 and `R` is off, or `R` survives with
order 3 and `Q` is off. -/
theorem double_triple_bonds_triple (G : Geometry) (atom : Atoms) (bond : Bonds) (n_bond : Nat)
    (avg : ℚ) (n_atom : Nat) (max_dist_double_bond : ℚ) (P Q R : Nat)
    (hL : LineInvariant G)
    (hwf : ∀ z, z < n_bond → (bond z).exists_ = true →
      (bond z).a < n_atom ∧ (bond z).b < n_atom)
    (hcap : (double_triple_bonds G atom bond n_bond avg n_atom max_dist_double_bond).n_atom + 1
      < G.MAX_ATOMS)
    (hPQ : P < Q) (hQR : Q < R) (hR : R < n_bond)
    (hPe : (bond P).exists_ = true) (hQe : (bond Q).exists_ = true)
    (hRe : (bond R).exists_ = true)
    (hPt : (bond P).type = 1) (hQt : (bond Q).type = 1) (hRt : (bond R).type = 1)
    (hlenQ : bond_length G bond Q atom = bond_length G bond P atom)
    (hlenR : bond_length G bond R atom = bond_length G bond P atom)
    (hpos : 0 < bond_length G bond P atom)
    (hparPQ : near_parallel G bond P Q atom = true)
    (hparRQ : near_parallel G bond R Q atom = true)
    (hparPR : near_parallel G bond P R atom = true)
    (hwiPQ : bonds_within_each_other G bond P Q atom = true)
    (hwiRQ : bonds_within_each_other G bond R Q atom = true)
    (hwiPR : bonds_within_each_other G bond P R atom = true)
    (hsepPQ : distance_between_bonds G bond P Q atom ≤ max_dist_double_bond)
    (hsepRQ : distance_between_bonds G bond R Q atom ≤ max_dist_double_bond)
    (hsepPR : distance_between_bonds G bond P R atom ≤ max_dist_double_bond)
    (hoth : ∀ z x, z < n_bond → z ≠ P → z ≠ Q → z ≠ R → (x = P ∨ x = Q ∨ x = R) →
      (bond z).exists_ = true →
      near_parallel G bond z x atom = false ∧ near_parallel G bond x z atom = false) :
    triple_done (double_triple_bonds G atom bond n_bond avg n_atom max_dist_double_bond).bond
      P Q R := by
  have hoth' : Others G bond atom n_bond (fun y => y = P ∨ y = Q ∨ y = R) := by
    intro z x hz _ hnz hx hze
    simp only [not_or] at hnz
    exact hoth z x hz hnz.1 hnz.2.1 hnz.2.2 hx hze
  have hinit := Calm.init G (fun y => y = P ∨ y = Q ∨ y = R)
    { atom := atom, bond := bond, n_atom := n_atom, n_bond := n_bond } hwf
    (by
      rintro x (rfl | rfl | rfl)
      · exact ⟨by dsimp only; omega, hPe⟩
      · exact ⟨by dsimp only; omega, hQe⟩
      · exact ⟨hR, hRe⟩)
    hoth'
  have mP : (fun y => y = P ∨ y = Q ∨ y = R) P := Or.inl rfl
  have mQ : (fun y => y = P ∨ y = Q ∨ y = R) Q := Or.inr (Or.inl rfl)
  have mR : (fun y => y = P ∨ y = Q ∨ y = R) R := Or.inr (Or.inr rfl)
  unfold double_triple_bonds at hcap ⊢
  have key := whileLoop_inv
    (fun (s : graph_t × Nat) => decide (s.2 < s.1.n_bond))
    (fun s =>
      (if (s.1.bond s.2).exists_ then pair_loop_j G avg max_dist_double_bond s.2 s.1 else s.1,
        s.2 + 1))
    (fun s =>
      Grows G { atom := atom, bond := bond, n_atom := n_atom, n_bond := n_bond } s.1 ∧
      (Capped G s.1 ∨
        (Calm G (fun y => y = P ∨ y = Q ∨ y = R)
            { atom := atom, bond := bond, n_atom := n_atom, n_bond := n_bond } s.1 ∧
          (s.2 ≤ P → s.1.bond P = bond P ∧ s.1.bond Q = bond Q ∧ s.1.bond R = bond R) ∧
          (P < s.2 → triple_done s.1.bond P Q R))))
    (fun s => (n_bond + G.MAX_ATOMS) - s.2)
    (by
      intro s hs ht
      obtain ⟨sg, sc⟩ := hs
      simp only [decide_eq_true_eq] at ht
      have hrow := row_grows G avg max_dist_double_bond s.1 s.2
      refine ⟨⟨sg.trans_grows hrow, ?_⟩, ?_⟩
      swap
      · obtain ⟨_, _, hb⟩ := sg
        dsimp only at hb ⊢
        rcases hb with hb | hb <;> omega
      by_cases hcapd : Capped G s.1
      · exact Or.inl (Capped.of_grows hcapd hrow)
      rcases sc with sc | ⟨c, sA, sB⟩
      · exact absurd sc hcapd
      by_cases hP : s.2 = P
      · -- the row of `P`
        obtain ⟨e1, e2, e3⟩ := sA (by omega)
        have he : (s.1.bond s.2).exists_ = true := by rw [hP, e1]; exact hPe
        have lP := c.length_eq P mP
        have lQ := c.length_eq Q mQ
        have lR := c.length_eq R mR
        have pPQ := c.parallel_eq P Q mP mQ
        have pRQ := c.parallel_eq R Q mR mQ
        have pPR := c.parallel_eq P R mP mR
        have wPQ := c.within_eq P Q mP mQ
        have wRQ := c.within_eq R Q mR mQ
        have wPR := c.within_eq P R mP mR
        have dPQ := c.distance_eq P Q mP mQ
        have dRQ := c.distance_eq R Q mR mQ
        have dPR := c.distance_eq P R mP mR
        have hR' : R < s.1.n_bond := by have := c.bonds_lo; dsimp only at this; omega
        dsimp only at lP lQ lR pPQ pRQ pPR wPQ wRQ wPR dPQ dRQ dPR
        obtain ⟨r1, r2⟩ := pair_loop_j_triple G avg max_dist_double_bond s.1 s.1 P Q R hPQ hQR
          hR' (Quiet.refl_quiet _) rfl rfl rfl c.others (by rw [e2]; exact hQe)
          (by rw [e3]; exact hRe) (by rw [e1]; exact hPt) (by rw [e2]; exact hQt)
          (by rw [e3]; exact hRt) (by rw [lP, lQ]; exact hlenQ) (by rw [lP, lR]; exact hlenR)
          (by rw [lP]; exact hpos) (by rw [pPQ]; exact hparPQ) (by rw [pRQ]; exact hparRQ)
          (by rw [pPR]; exact hparPR) (by rw [wPQ]; exact hwiPQ) (by rw [wRQ]; exact hwiRQ)
          (by rw [wPR]; exact hwiPR) (by rw [dPQ]; exact hsepPQ) (by rw [dRQ]; exact hsepRQ)
          (by rw [dPR]; exact hsepPR)
        simp only [he, if_true]
        rw [hP]
        exact Or.inr ⟨c.of_quiet r1, fun h => by omega, fun _ => r2⟩
      · -- any other row
        rcases row_calm G avg max_dist_double_bond (fun y => y = P ∨ y = Q ∨ y = R)
          { atom := atom, bond := bond, n_atom := n_atom, n_bond := n_bond } s.1 s.2 hL c (by
            intro he j hj hpi hpj
            by_cases hlt : s.2 < P
            · exfalso
              rcases hpi with e | e | e <;> omega
            · -- past the row of `P`: at most one of the three still exists
              obtain ⟨d1, d2⟩ := sB (by omega)
              rcases hpi with e | e | e
              · exact absurd e hP
              · rcases hpj with e2 | e2 | e2
                · omega
                · omega
                · rw [e2]
                  rcases d2 with ⟨_, _, d⟩ | ⟨d, _, _⟩
                  · exact d
                  · rw [e, d] at he; cases he
              · rcases hpj with e2 | e2 | e2 <;> omega) with h | ⟨c', p'⟩
        · exact Or.inl h
        · refine Or.inr ⟨c', fun h => ?_, fun h => ?_⟩
          · dsimp only at h
            rw [p' P mP, p' Q mQ, p' R mR]; exact sA (by omega)
          · dsimp only at h
            unfold triple_done
            rw [p' P mP, p' Q mQ, p' R mR]; exact sB (by omega))
    (n_bond + G.MAX_ATOMS)
    ({ atom := atom, bond := bond, n_atom := n_atom, n_bond := n_bond }, 0)
    ⟨Grows.refl_grows G _, Or.inr ⟨hinit, fun _ => ⟨rfl, rfl, rfl⟩,
      fun h => absurd h (Nat.not_lt_zero P)⟩⟩
    (by dsimp only; omega)
  obtain ⟨⟨kg, kc⟩, ktest⟩ := key
  simp only [decide_eq_false_iff_not, not_lt] at ktest
  rcases kc with kc | ⟨_, _, kB⟩
  · exact absurd hcap (Nat.not_lt.mpr kc)
  · exact kB (by have := kg.2.1; dsimp only at this ktest; omega)

/-- Witness for C10: three horizontal bonds of length 10 at heights 2, 0 and 4 (the middle
line has the lowest index), and a vertical bond of length 30 with a short vertical bond
beside it, which go through the extended case; `avg = 8`, `max_dist_double_bond = 5`. -/
theorem double_triple_bonds_triple_witness :
    triple_done (double_triple_bonds euclid_sq triple_atoms triple_bonds 5 8 10 5).bond 0 1 2 :=
  double_triple_bonds_triple euclid_sq triple_atoms triple_bonds 5 8 10 5 0 1 2
    euclid_sq_line_invariant
    (by intro z hz; interval_cases z <;> decide)
    (by decide!)
    (by decide)
    (by decide) (by decide) (by decide) (by decide) (by decide) (by decide) (by decide)
    (by decide) (by decide!) (by decide!) (by decide!) (by decide!) (by decide!) (by decide!)
    (by decide!) (by decide!) (by decide!) (by decide!) (by decide!) (by decide!)
    (by intro z x hz h0 h1 h2 hx; interval_cases z <;> first | omega | (
      rcases hx with rfl | rfl | rfl <;> decide!))

/-! ## `collapse_doubleup_bonds` -/

theorem same_pair_self (p : bond_t) : same_pair p p = true := by
  simp [same_pair]

theorem same_pair_symm (p q : bond_t) : same_pair p q = same_pair q p := by
  rw [Bool.eq_iff_iff]
  simp only [same_pair, Bool.or_eq_true, Bool.and_eq_true, beq_iff_eq]
  constructor
  · rintro (⟨a, b⟩ | ⟨a, b⟩)
    · exact Or.inl ⟨a.symm, b.symm⟩
    · exact Or.inr ⟨b.symm, a.symm⟩
  · rintro (⟨a, b⟩ | ⟨a, b⟩)
    · exact Or.inl ⟨a.symm, b.symm⟩
    · exact Or.inr ⟨b.symm, a.symm⟩

theorem same_pair_trans {p q r : bond_t} (h1 : same_pair p q = true)
    (h2 : same_pair q r = true) : same_pair p r = true := by
  simp only [same_pair, Bool.or_eq_true, Bool.and_eq_true, beq_iff_eq] at h1 h2 ⊢
  rcases h1 with ⟨a, b⟩ | ⟨a, b⟩ <;> rcases h2 with ⟨c, d⟩ | ⟨c, d⟩
  · exact Or.inl ⟨a.trans c, b.trans d⟩
  · exact Or.inr ⟨a.trans c, b.trans d⟩
  · exact Or.inr ⟨a.trans d, b.trans c⟩
  · exact Or.inl ⟨a.trans d, b.trans c⟩

theorem filter_range_succ_length (p : Nat → Bool) (m : Nat) :
    ((List.range (m + 1)).filter p).length
      = ((List.range m).filter p).length + (if p m then 1 else 0) := by
  rw [List.range_succ, List.filter_append, List.length_append]
  by_cases h : p m = true <;> simp [h]

/-- The inner loop for bond `i`: every other existing bond below the loop bound that joins
the same atom pair is switched off, and bond `i` gains one order for each of them. -/
theorem collapse_doubleup_bonds_inner_spec (i : Nat) (bond : Bonds) (m : Nat) :
    (∀ t, t ≠ i →
      forLoop (fun j bond =>
        if (bond j).exists_ && j != i && same_pair (bond i) (bond j) then
          upd (kill bond j) i { kill bond j i with type := (kill bond j i).type + 1 }
        else bond) m bond t
        = if t < m ∧ (bond t).exists_ = true ∧ same_pair (bond i) (bond t) = true
          then { bond t with exists_ := false } else bond t) ∧
    forLoop (fun j bond =>
        if (bond j).exists_ && j != i && same_pair (bond i) (bond j) then
          upd (kill bond j) i { kill bond j i with type := (kill bond j i).type + 1 }
        else bond) m bond i
      = { bond i with type := (bond i).type + (others_in_group bond i m : Int) } := by
  induction m with
  | zero =>
    refine ⟨fun t _ => by simp [forLoop], ?_⟩
    simp [forLoop, others_in_group]
  | succ m ih =>
    obtain ⟨h1, h2⟩ := ih
    simp only [forLoop_succ]
    generalize forLoop (fun j bond =>
        if (bond j).exists_ && j != i && same_pair (bond i) (bond j) then
          upd (kill bond j) i { kill bond j i with type := (kill bond j i).type + 1 }
        else bond) m bond = r at h1 h2
    have hcnt : others_in_group bond i (m + 1) = others_in_group bond i m +
        (if ((bond m).exists_ && m != i && same_pair (bond i) (bond m)) = true then 1 else 0) := by
      unfold others_in_group
      rw [filter_range_succ_length]
    by_cases hmi : m = i
    · subst hmi
      have hc : ((r m).exists_ && m != m && same_pair (r m) (r m)) = false := by simp
      have hc0 : ((bond m).exists_ && m != m && same_pair (bond m) (bond m)) = false := by simp
      rw [hc0] at hcnt
      simp only [hc, Bool.false_eq_true, if_false]
      refine ⟨fun t ht => ?_, ?_⟩
      · rw [h1 t ht]
        have : t < m + 1 ↔ t < m := by omega
        simp only [this]
      · rw [h2, hcnt]; simp
    · have hrm : r m = bond m := by
        rw [h1 m hmi]; simp
      have hsp : same_pair (r i) (bond m) = same_pair (bond i) (bond m) := by
        rw [h2]; rfl
      by_cases hc : ((bond m).exists_ && m != i && same_pair (bond i) (bond m)) = true
      · simp only [hc, if_true] at hcnt
        simp only [hrm, hsp, hc, if_true]
        have hc' := hc
        simp only [Bool.and_eq_true, bne_iff_ne, ne_eq] at hc'
        refine ⟨fun t ht => ?_, ?_⟩
        · rw [upd_other _ _ _ _ ht]
          by_cases htm : t = m
          · subst htm
            simp [kill, upd, hrm, hc'.1.1, hc'.2]
          · rw [kill, upd_other _ _ _ _ htm, h1 t ht]
            have : t < m + 1 ↔ t < m := by omega
            simp only [this]
        · rw [upd_same, kill, upd_other _ _ _ _ (Ne.symm hmi), h2, hcnt]
          simp only [Nat.cast_add, Nat.cast_one]
          congr 1
          ring
      · simp only [hc, if_false, Bool.false_eq_true, Nat.add_zero] at hcnt
        simp only [hrm, hsp, hc, Bool.false_eq_true, if_false]
        refine ⟨fun t ht => ?_, ?_⟩
        · rw [h1 t ht]
          by_cases htm : t = m
          · subst htm
            have hx : ¬ ((bond t).exists_ = true ∧ same_pair (bond i) (bond t) = true) := by
              intro hx
              apply hc
              simp [hx.1, hx.2, hmi]
            simp [hx]
          · have : t < m + 1 ↔ t < m := by omega
            simp only [this]
        · rw [h2, hcnt]
theorem collapse_doubleup_bonds_inner_eq (n i : Nat) (bond : Bonds) :
    (∀ t, t ≠ i → collapse_doubleup_bonds_inner n i bond t
        = if t < n ∧ (bond t).exists_ = true ∧ same_pair (bond i) (bond t) = true
          then { bond t with exists_ := false } else bond t) ∧
    collapse_doubleup_bonds_inner n i bond i
      = { bond i with type := (bond i).type + (others_in_group bond i n : Int) } :=
  collapse_doubleup_bonds_inner_spec i bond n

theorem Consolidated.shape {bond : Bonds} {n m : Nat} {cur : Bonds}
    (h : Consolidated bond n m cur) (t : Nat) :
    (cur t).a = (bond t).a ∧ (cur t).b = (bond t).b ∧
      ((cur t).exists_ = true → (bond t).exists_ = true) := by
  by_cases h1 : n ≤ t ∨ (bond t).exists_ = false
  · rw [h.out t h1]; exact ⟨rfl, rfl, id⟩
  · simp only [not_or, not_le, Bool.not_eq_false] at h1
    refine ⟨?_, ?_, fun _ => h1.2⟩
    · by_cases h2 : seen_below bond t t
      · by_cases h3 : seen_below bond m t
        · rw [(h.later t h1.1 h1.2 h2).1 h3]
        · rw [(h.later t h1.1 h1.2 h2).2 h3]
      · by_cases h3 : t < m
        · rw [(h.first t h1.1 h1.2 h2).1 h3]
        · rw [(h.first t h1.1 h1.2 h2).2 (by omega)]
    · by_cases h2 : seen_below bond t t
      · by_cases h3 : seen_below bond m t
        · rw [(h.later t h1.1 h1.2 h2).1 h3]
        · rw [(h.later t h1.1 h1.2 h2).2 h3]
      · by_cases h3 : t < m
        · rw [(h.first t h1.1 h1.2 h2).1 h3]
        · rw [(h.first t h1.1 h1.2 h2).2 (by omega)]

theorem Consolidated.pair_eq {bond : Bonds} {n m : Nat} {cur : Bonds}
    (h : Consolidated bond n m cur) (s t : Nat) :
    same_pair (cur s) (cur t) = same_pair (bond s) (bond t) := by
  simp only [same_pair, (h.shape s).1, (h.shape s).2.1, (h.shape t).1, (h.shape t).2.1]

theorem Consolidated.start (bond : Bonds) (n : Nat) : Consolidated bond n 0 bond where
  out := fun _ _ => rfl
  later := fun _ _ _ _ => ⟨fun ⟨l, hl, _⟩ => absurd hl (Nat.not_lt_zero l), fun _ => rfl⟩
  first := fun t _ _ _ => ⟨fun h => absurd h (Nat.not_lt_zero t), fun _ => rfl⟩

theorem seen_below_succ (bond : Bonds) (m t : Nat) :
    seen_below bond (m + 1) t ↔
      seen_below bond m t ∨ ((bond m).exists_ = true ∧ same_pair (bond m) (bond t) = true) := by
  constructor
  · rintro ⟨l, hl, h1, h2⟩
    by_cases hlm : l = m
    · subst hlm; exact Or.inr ⟨h1, h2⟩
    · exact Or.inl ⟨l, by omega, h1, h2⟩
  · rintro (⟨l, hl, h1, h2⟩ | ⟨h1, h2⟩)
    · exact ⟨l, by omega, h1, h2⟩
    · exact ⟨m, by omega, h1, h2⟩

/-- One row of the outer loop keeps the description of the state. -/
theorem Consolidated.step {bond : Bonds} {n m : Nat} {cur : Bonds}
    (h : Consolidated bond n m cur) (hm : m < n) :
    Consolidated bond n (m + 1)
      (if (cur m).exists_ then collapse_doubleup_bonds_inner n m cur else cur) := by
  by_cases he : (cur m).exists_ = true
  · -- the row runs: bond `m` is the first of its group
    simp only [he, if_true]
    have hbe : (bond m).exists_ = true := (h.shape m).2.2 he
    have hmin : ¬ seen_below bond m m := by
      intro hs
      rw [(h.later m hm hbe hs).1 hs] at he
      cases he
    have hcm : cur m = bond m := (h.first m hm hbe hmin).2 (Nat.le_refl _)
    obtain ⟨r1, r2⟩ := collapse_doubleup_bonds_inner_eq n m cur
    generalize collapse_doubleup_bonds_inner n m cur = r at r1 r2
    simp only [h.pair_eq] at r1
    refine ⟨fun t ht => ?_, fun t htn hte hts => ?_, fun t htn hte hts => ?_⟩
    · have htm : t ≠ m := by
        rintro rfl
        rcases ht with ht | ht
        · omega
        · rw [hbe] at ht; cases ht
      rw [r1 t htm, h.out t ht]
      rcases ht with ht | ht
      · rw [if_neg (by omega)]
      · rw [if_neg (by rw [ht]; simp)]
    · have htm : t ≠ m := by
        rintro rfl
        exact hmin hts
      rw [r1 t htm, seen_below_succ]
      obtain ⟨l1, l2⟩ := h.later t htn hte hts
      refine ⟨fun hs => ?_, fun hs => ?_⟩
      · by_cases hsm : seen_below bond m t
        · rw [l1 hsm]; simp
        · rcases hs with hs | hs
          · exact absurd hs hsm
          · rw [l2 hsm, if_pos ⟨htn, hte, hs.2⟩]
      · simp only [not_or, not_and] at hs
        rw [l2 hs.1, if_neg]
        intro hc
        have := hs.2 hbe
        rw [hc.2.2] at this
        exact this rfl
    · obtain ⟨f1, f2⟩ := h.first t htn hte hts
      refine ⟨fun hlt => ?_, fun hge => ?_⟩
      · by_cases htm : t = m
        · subst htm
          rw [r2, hcm]
          have hcount : others_in_group cur t n = others_in_group bond t n := by
            unfold others_in_group
            congr 1
            apply List.filter_congr
            intro l hl
            rw [h.pair_eq]
            by_cases hsp : same_pair (bond t) (bond l) = true
            swap
            · simp [hsp]
            by_cases hlt' : l = t
            · simp [hlt']
            have hce : (cur l).exists_ = (bond l).exists_ := by
              by_cases hle : (bond l).exists_ = true
              swap
              · rw [h.out l (Or.inr (by simpa using hle))]
              have hln : l < n := List.mem_range.mp hl
              have hgt : t < l := by
                by_contra hnot
                exact hmin ⟨l, by omega, hle, by rw [same_pair_symm]; exact hsp⟩
              have hsl : seen_below bond l l := ⟨t, hgt, hbe, hsp⟩
              have hnl : ¬ seen_below bond t l := by
                rintro ⟨l', hl', e1, e2⟩
                exact hmin ⟨l', hl', e1,
                  same_pair_trans e2 (by rw [same_pair_symm]; exact hsp)⟩
              rw [(h.later l hln hle hsl).2 hnl]
            rw [hce]
          rw [hcount]
        · rw [r1 t htm, f1 (by omega), if_neg]
          rintro ⟨_, _, hsp⟩
          exact hmin ⟨t, by omega, hte, by rw [same_pair_symm]; exact hsp⟩
      · have htm : t ≠ m := by omega
        rw [r1 t htm, f2 (by omega), if_neg]
        rintro ⟨_, _, hsp⟩
        exact hts ⟨m, by omega, hbe, hsp⟩
  · -- the row is skipped: bond `m` does not exist any more
    simp only [he, Bool.false_eq_true, if_false]
    have hdead : (bond m).exists_ = true → seen_below bond m m := by
      intro hbe
      by_contra hs
      rw [(h.first m hm hbe hs).2 (Nat.le_refl _)] at he
      exact he hbe
    refine ⟨h.out, fun t htn hte hts => ?_, fun t htn hte hts => ?_⟩
    · obtain ⟨l1, l2⟩ := h.later t htn hte hts
      rw [seen_below_succ]
      refine ⟨fun hs => ?_, fun hs => l2 (fun hc => hs (Or.inl hc))⟩
      rcases hs with hs | hs
      · exact l1 hs
      · obtain ⟨l', hl', e1, e2⟩ := hdead hs.1
        exact l1 ⟨l', hl', e1, same_pair_trans e2 hs.2⟩
    · obtain ⟨f1, f2⟩ := h.first t htn hte hts
      refine ⟨fun hlt => ?_, fun hge => f2 (by omega)⟩
      by_cases htm : t = m
      · subst htm
        exact absurd (hdead hte) hts
      · exact f1 (by omega)

theorem collapse_doubleup_bonds_state (bond : Bonds) (n : Nat) :
    Consolidated bond n n (collapse_doubleup_bonds bond n) := by
  unfold collapse_doubleup_bonds
  have key : ∀ m, m ≤ n → Consolidated bond n m
      (forLoop (fun i bond =>
        if (bond i).exists_ then collapse_doubleup_bonds_inner n i bond else bond) m bond) := by
    intro m
    induction m with
    | zero => exact fun _ => Consolidated.start bond n
    | succ m ih =>
      intro hm
      rw [forLoop_succ]
      exact (ih (by omega)).step (by omega)
  exact key n (Nat.le_refl n)

theorem group_size_eq (bond : Bonds) (n i : Nat) (hi : i < n) (he : (bond i).exists_ = true) :
    group_size bond n i = others_in_group bond i n + 1 := by
  have key : ∀ m, ((List.range m).filter
      (fun l => (bond l).exists_ && same_pair (bond i) (bond l))).length
      = others_in_group bond i m + (if i < m then 1 else 0) := by
    intro m
    induction m with
    | zero => simp [others_in_group]
    | succ m ih =>
      unfold others_in_group at ih ⊢
      rw [filter_range_succ_length, filter_range_succ_length, ih]
      by_cases hmi : m = i
      · subst hmi
        simp [he, same_pair_self]
      · have h1 : (m != i) = true := by simpa using hmi
        by_cases hlt : i < m
        · simp only [h1, Bool.and_true, hlt, if_true, show i < m + 1 by omega]
          omega
        · simp only [h1, Bool.and_true, hlt, if_false, show ¬ i < m + 1 by omega]
          omega
  unfold group_size
  rw [key n, if_pos hi]
/-- C11. Duplicate-edge consolidation.  For every bond array, after
`collapse_doubleup_bonds` no two distinct existing bonds below `n_bond` join the same
unordered atom pair.  Of the existing bonds that joined the same pair on entry, the one with
the lowest index survives, with its order raised by the number of the others
(`group_size - 1`), and the others are switched off and otherwise unchanged.  A bond that is
alone in its group, a bond that did not exist, and every record from `n_bond` on are
unchanged. -/
theorem collapse_doubleup_bonds_consolidates (bond : Bonds) (n_bond : Nat) :
    (∀ i j, i < n_bond → j < n_bond → i ≠ j →
      (collapse_doubleup_bonds bond n_bond i).exists_ = true →
      (collapse_doubleup_bonds bond n_bond j).exists_ = true →
      same_pair (collapse_doubleup_bonds bond n_bond i) (collapse_doubleup_bonds bond n_bond j)
        = false) ∧
    (∀ i, i < n_bond → (bond i).exists_ = true →
      ((∀ l, l < i → (bond l).exists_ = true → same_pair (bond l) (bond i) = false) →
        collapse_doubleup_bonds bond n_bond i
          = { bond i with type := (bond i).type + ((group_size bond n_bond i : Int) - 1) }) ∧
      ((∃ l, l < i ∧ (bond l).exists_ = true ∧ same_pair (bond l) (bond i) = true) →
        collapse_doubleup_bonds bond n_bond i = { bond i with exists_ := false })) ∧
    (∀ i, i < n_bond → (bond i).exists_ = true → group_size bond n_bond i = 1 →
      collapse_doubleup_bonds bond n_bond i = bond i) ∧
    (∀ i, n_bond ≤ i ∨ (bond i).exists_ = false →
      collapse_doubleup_bonds bond n_bond i = bond i) := by
  have h := collapse_doubleup_bonds_state bond n_bond
  generalize collapse_doubleup_bonds bond n_bond = r at h
  have hfirst : ∀ i, i < n_bond → (bond i).exists_ = true → ¬ seen_below bond i i →
      r i = { bond i with type := (bond i).type + ((group_size bond n_bond i : Int) - 1) } := by
    intro i hi he hs
    have hc : ((others_in_group bond i n_bond + 1 : Nat) : Int) - 1
        = (others_in_group bond i n_bond : Int) := by
      push_cast
      ring
    rw [(h.first i hi he hs).1 hi, group_size_eq bond n_bond i hi he, hc]
  have hlater : ∀ i, i < n_bond → (bond i).exists_ = true → seen_below bond i i →
      r i = { bond i with exists_ := false } := by
    intro i hi he hs
    obtain ⟨l, hl, e1, e2⟩ := hs
    exact (h.later i hi he ⟨l, hl, e1, e2⟩).1 ⟨l, by omega, e1, e2⟩
  have hmin : ∀ i, i < n_bond → (r i).exists_ = true →
      (bond i).exists_ = true ∧ ¬ seen_below bond i i := by
    intro i hi he
    have hbe := (h.shape i).2.2 he
    refine ⟨hbe, fun hs => ?_⟩
    rw [hlater i hi hbe hs] at he
    cases he
  refine ⟨fun i j hi hj hij hei hej => ?_, fun i hi he => ⟨fun hno => ?_, fun hs => ?_⟩,
    fun i hi he hg => ?_, h.out⟩
  · rw [h.pair_eq]
    obtain ⟨bi, mi⟩ := hmin i hi hei
    obtain ⟨bj, mj⟩ := hmin j hj hej
    by_contra hsp
    simp only [Bool.not_eq_false] at hsp
    rcases Nat.lt_or_gt_of_ne hij with hlt | hgt
    · exact mj ⟨i, hlt, bi, hsp⟩
    · exact mi ⟨j, hgt, bj, by rw [same_pair_symm]; exact hsp⟩
  · apply hfirst i hi he
    rintro ⟨l, hl, e1, e2⟩
    rw [hno l hl e1] at e2
    cases e2
  · exact hlater i hi he hs
  · by_cases hs : seen_below bond i i
    · exfalso
      obtain ⟨l, hl, e1, e2⟩ := hs
      have h2 := group_size_eq bond n_bond i hi he
      rw [hg] at h2
      have h0 : others_in_group bond i n_bond = 0 := by omega
      unfold others_in_group at h0
      rw [List.length_eq_zero, List.filter_eq_nil_iff] at h0
      have := h0 l (List.mem_range.mpr (by omega))
      apply this
      have hne : (l != i) = true := by simpa using (show l ≠ i by omega)
      rw [e1, hne, same_pair_symm, e2]
      rfl
    · rw [hfirst i hi he hs, hg]
      simp

/-- An example for C11: of the three bonds between atoms 0 and 1 the first survives with
order 1 + 2, the other two are switched off with their records otherwise intact, and the
bond between atoms 1 and 2 is unchanged. -/
theorem collapse_doubleup_bonds_example :
    collapse_doubleup_bonds doubleup_bonds 4 0 = { single 0 1 with type := 3 } ∧
    collapse_doubleup_bonds doubleup_bonds 4 1 = single 1 2 ∧
    collapse_doubleup_bonds doubleup_bonds 4 2 = { single 1 0 with exists_ := false } ∧
    collapse_doubleup_bonds doubleup_bonds 4 3
      = { single 0 1 with type := 2, exists_ := false } := by
  decide

/-! ## `find_bonds` -/

theorem whileLoop_done {σ : Type} (test : σ → Bool) (body : σ → σ) (fuel : Nat) (s : σ)
    (h : test s = false) : whileLoop test body fuel s = s := by
  cases fuel with
  | zero => rfl
  | succ f => simp [whileLoop, h]

theorem whileLoop_step {σ : Type} (test : σ → Bool) (body : σ → σ) (fuel : Nat) (s : σ)
    (h : test s = true) : whileLoop test body (fuel + 1) s = whileLoop test body fuel (body s) := by
  simp [whileLoop, h]

/-- The search for the next existing atom going upwards: from `j0` it stops at the first
existing atom `e`, when `e` lies below `n_atom`. -/
theorem next_existing_scan_up (atom : Atoms) (b n : Nat) :
    ∀ d j0 e fuel, e = j0 + d → e < n →
      (∀ t, j0 ≤ t → t < e → (atom t).exists_ = false) → (atom e).exists_ = true → d ≤ fuel →
      whileLoop (fun j => !(atom j).exists_) (fun j => next_atom j b n) fuel j0 = e := by
  intro d
  induction d with
  | zero =>
    intro j0 e fuel he _ _ hex _
    have : e = j0 := by omega
    subst this
    exact whileLoop_done _ _ _ _ (by simp [hex])
  | succ d ih =>
    intro j0 e fuel he hen hno hex hf
    obtain ⟨f, rfl⟩ : ∃ f, fuel = f + 1 := ⟨fuel - 1, by omega⟩
    rw [whileLoop_step _ _ _ _ (by simp [hno j0 (Nat.le_refl _) (by omega)])]
    have hn : next_atom j0 b n = j0 + 1 := by
      unfold next_atom
      rw [if_neg (by omega)]
    simp only [hn]
    exact ih (j0 + 1) e f (by omega) hen (fun t h1 h2 => hno t (by omega) h2) hex (by omega)

/-- The search for the next existing atom when none exists from `j0` up to the end of the
curve: it wraps to `b_atom` and stops at the first existing atom `e` of the curve. -/
theorem next_existing_scan_wrap (atom : Atoms) (b n : Nat) :
    ∀ d j0 e fuel, n - j0 = d + 1 → b ≤ e → e < n →
      (∀ t, j0 ≤ t → t < n → (atom t).exists_ = false) →
      (∀ t, b ≤ t → t < e → (atom t).exists_ = false) → (atom e).exists_ = true →
      (n - j0) + (e - b) ≤ fuel →
      whileLoop (fun j => !(atom j).exists_) (fun j => next_atom j b n) fuel j0 = e := by
  intro d
  induction d with
  | zero =>
    intro j0 e fuel hd hbe hen hno hlow hex hf
    obtain ⟨f, rfl⟩ : ∃ f, fuel = f + 1 := ⟨fuel - 1, by omega⟩
    rw [whileLoop_step _ _ _ _ (by simp [hno j0 (Nat.le_refl _) (by omega)])]
    have hn : next_atom j0 b n = b := by
      unfold next_atom
      rw [if_pos (by omega)]
    simp only [hn]
    exact next_existing_scan_up atom b n (e - b) b e f (by omega) hen hlow hex (by omega)
  | succ d ih =>
    intro j0 e fuel hd hbe hen hno hlow hex hf
    obtain ⟨f, rfl⟩ : ∃ f, fuel = f + 1 := ⟨fuel - 1, by omega⟩
    rw [whileLoop_step _ _ _ _ (by simp [hno j0 (Nat.le_refl _) (by omega)])]
    have hn : next_atom j0 b n = j0 + 1 := by
      unfold next_atom
      rw [if_neg (by omega)]
    simp only [hn]
    exact ih (j0 + 1) e f (by omega) hbe hen (fun t h1 h2 => hno t (by omega) h2) hlow hex
      (by omega)

theorem mem_existing_atoms (atom : Atoms) (b n x : Nat) :
    x ∈ existing_atoms atom b n ↔ b ≤ x ∧ x < n ∧ (atom x).exists_ = true := by
  unfold existing_atoms
  rw [List.mem_filter, List.mem_range'_1]
  constructor
  · rintro ⟨⟨h1, h2⟩, h3⟩; exact ⟨h1, by omega, h3⟩
  · rintro ⟨h1, h2, h3⟩; exact ⟨⟨h1, by omega⟩, h3⟩

theorem existing_atoms_lt (atom : Atoms) (b n i j : Nat)
    (hi : i < (existing_atoms atom b n).length) (hj : j < (existing_atoms atom b n).length)
    (hij : i < j) : (existing_atoms atom b n)[i] < (existing_atoms atom b n)[j] := by
  have h : List.Pairwise (fun x1 x2 => x1 < x2) (existing_atoms atom b n) :=
    List.Pairwise.filter _ (List.pairwise_lt_range' b (n - b))
  exact List.pairwise_iff_getElem.mp h i j hi hj hij

theorem existing_atoms_le (atom : Atoms) (b n i j : Nat)
    (hi : i < (existing_atoms atom b n).length) (hj : j < (existing_atoms atom b n).length)
    (hij : i ≤ j) : (existing_atoms atom b n)[i] ≤ (existing_atoms atom b n)[j] := by
  rcases Nat.lt_or_eq_of_le hij with h | h
  · exact Nat.le_of_lt (existing_atoms_lt atom b n i j hi hj h)
  · subst h; exact Nat.le_refl _

/-- The search started at the `m`-th existing atom of the curve ends at the next one in
cyclic order. -/
theorem next_existing_cyclic (atom : Atoms) (b n m : Nat)
    (hm : m < (existing_atoms atom b n).length) :
    next_existing atom b n ((existing_atoms atom b n).getD m 0)
      = (existing_atoms atom b n).getD ((m + 1) % (existing_atoms atom b n).length) 0 := by
  have hmem := mem_existing_atoms atom b n
  have hlt := existing_atoms_lt atom b n
  have hle := existing_atoms_le atom b n
  generalize existing_atoms atom b n = E at hm hmem hlt hle
  rw [List.getD_eq_getElem E 0 hm]
  obtain ⟨hb, hn, hex⟩ := (hmem E[m]).mp (List.getElem_mem hm)
  -- positions of existing atoms of the curve
  have hpos : ∀ t, b ≤ t → t < n → (atom t).exists_ = true →
      ∃ q, ∃ (hq : q < E.length), E[q] = t := fun t h1 h2 h3 =>
    List.mem_iff_getElem.mp ((hmem t).mpr ⟨h1, h2, h3⟩)
  unfold next_existing
  by_cases hlast : m + 1 < E.length
  · rw [Nat.mod_eq_of_lt hlast, List.getD_eq_getElem E 0 hlast]
    obtain ⟨_, hn', hex'⟩ := (hmem E[m + 1]).mp (List.getElem_mem hlast)
    have hstep := hlt m (m + 1) hm hlast (Nat.lt_succ_self m)
    have hn1 : next_atom E[m] b n = E[m] + 1 := by
      unfold next_atom
      rw [if_neg (by omega)]
    rw [hn1]
    apply next_existing_scan_up atom b n (E[m + 1] - (E[m] + 1)) (E[m] + 1) E[m + 1] (n - b)
      (by omega) hn' _ hex' (by omega)
    intro t h1 h2
    by_contra hc
    simp only [Bool.not_eq_false] at hc
    obtain ⟨q, hq, rfl⟩ := hpos t (by omega) (by omega) hc
    by_cases hqm : q ≤ m
    · have := hle q m hq hm hqm
      omega
    · have := hle (m + 1) q hlast hq (by omega)
      omega
  · have hk : m + 1 = E.length := by omega
    have h0 : 0 < E.length := by omega
    rw [← hk, Nat.mod_self, List.getD_eq_getElem E 0 h0]
    obtain ⟨hb0, hn0, hex0⟩ := (hmem E[0]).mp (List.getElem_mem h0)
    have hup : ∀ t, E[m] + 1 ≤ t → t < n → (atom t).exists_ = false := by
      intro t h1 h2
      by_contra hc
      simp only [Bool.not_eq_false] at hc
      obtain ⟨q, hq, rfl⟩ := hpos t (by omega) h2 hc
      have := hle q m hq hm (by omega)
      omega
    have hlow : ∀ t, b ≤ t → t < E[0] → (atom t).exists_ = false := by
      intro t h1 h2
      by_contra hc
      simp only [Bool.not_eq_false] at hc
      obtain ⟨q, hq, rfl⟩ := hpos t h1 (by omega) hc
      have := hle 0 q h0 hq (Nat.zero_le q)
      omega
    have h0m := hle 0 m h0 hm (Nat.zero_le m)
    by_cases hend : E[m] + 1 > n - 1
    · have hn1 : next_atom E[m] b n = b := by
        unfold next_atom
        rw [if_pos hend]
      rw [hn1]
      exact next_existing_scan_up atom b n (E[0] - b) b E[0] (n - b) (by omega) hn0 hlow hex0
        (by omega)
    · have hn1 : next_atom E[m] b n = E[m] + 1 := by
        unfold next_atom
        rw [if_neg hend]
      rw [hn1]
      exact next_existing_scan_wrap atom b n (n - (E[m] + 1) - 1) (E[m] + 1) E[0] (n - b)
        (by omega) hb0 hn0 hup hlow hex0 (by omega)

theorem existing_prefix_succ (atom : Atoms) (b t : Nat) :
    (List.range' b (t + 1)).filter (fun i => (atom i).exists_)
      = (List.range' b t).filter (fun i => (atom i).exists_)
        ++ (if (atom (b + t)).exists_ then [b + t] else []) := by
  rw [List.range'_concat, List.filter_append, Nat.one_mul]
  by_cases h : (atom (b + t)).exists_ = true <;> simp [h]

/-- The bond that `find_bonds` appends for the existing atom `i`. -/
theorem find_bonds_join_prefix (G : Geometry) (atom : Atoms) (bond : Bonds)
    (b n n_bond p : Nat) :
    ∀ t, n_bond + ((List.range' b t).filter (fun i => (atom i).exists_)).length < G.MAX_ATOMS →
      (forLoop (fun t s => find_bonds_join_step G atom b n p (b + t) s) t (bond, n_bond)).2
        = n_bond + ((List.range' b t).filter (fun i => (atom i).exists_)).length ∧
      (∀ z, z < n_bond ∨
          n_bond + ((List.range' b t).filter (fun i => (atom i).exists_)).length ≤ z →
        (forLoop (fun t s => find_bonds_join_step G atom b n p (b + t) s) t (bond, n_bond)).1 z
          = bond z) ∧
      (∀ m, m < ((List.range' b t).filter (fun i => (atom i).exists_)).length →
        (forLoop (fun t s => find_bonds_join_step G atom b n p (b + t) s) t (bond, n_bond)).1
            (n_bond + m)
          = { a := ((List.range' b t).filter (fun i => (atom i).exists_)).getD m 0,
              b := next_existing atom b n
                (((List.range' b t).filter (fun i => (atom i).exists_)).getD m 0),
              type := 1, curve := p, exists_ := true, hash := false, wedge := false,
              up := false, down := false, Small := false, arom := false,
              conjoined := false }) := by
  intro t
  induction t with
  | zero =>
    intro _
    simp [forLoop]
  | succ t ih =>
    intro hcap
    rw [existing_prefix_succ] at hcap ⊢
    rw [List.length_append] at hcap ⊢
    obtain ⟨h1, h2, h3⟩ := ih (by omega)
    rw [forLoop_succ]
    generalize forLoop (fun t s => find_bonds_join_step G atom b n p (b + t) s) t
      (bond, n_bond) = s at h1 h2 h3
    generalize (List.range' b t).filter (fun i => (atom i).exists_) = E at hcap h1 h2 h3 ⊢
    unfold find_bonds_join_step
    by_cases he : (atom (b + t)).exists_ = true
    · simp only [he, if_true, List.length_singleton] at hcap ⊢
      have hbump : bump G s.2 = s.2 + 1 := by
        unfold bump
        rw [if_neg (by omega)]
      refine ⟨by rw [hbump, h1]; omega, fun z hz => ?_, fun m hm => ?_⟩
      · rw [upd_other _ _ _ _ (by omega)]
        exact h2 z (by omega)
      · by_cases hmE : m < E.length
        · rw [upd_other _ _ _ _ (by omega), h3 m hmE, List.getD_append _ _ _ _ hmE]
        · have hmE' : m = E.length := by omega
          subst hmE'
          rw [← h1, upd_same]
          simp
    · simp only [he, Bool.false_eq_true, if_false, List.length_nil, Nat.add_zero,
        List.append_nil] at hcap ⊢
      exact ⟨h1, h2, h3⟩

/-- The first loop of `find_bonds` changes nothing but exists flags of atoms strictly
between `b_atom` and `n_atom`, which it switches on. -/
theorem find_bonds_mark_frame (G : Geometry) (V_DISPLACEMENT DIR_CHANGE : ℚ) (atom : Atoms)
    (b n : Nat) (i : Nat) :
    find_bonds_mark G V_DISPLACEMENT DIR_CHANGE atom b n i = atom i ∨
    (b < i ∧ i < n ∧
      find_bonds_mark G V_DISPLACEMENT DIR_CHANGE atom b n i
        = { atom i with exists_ := true }) := by
  unfold find_bonds_mark
  have key : ∀ t, t ≤ n - (b + 1) →
      (forLoop (fun t s =>
          find_bonds_mark_step G V_DISPLACEMENT DIR_CHANGE b n (b + 1 + t) s) t (atom, b)).1 i
        = atom i ∨
      (b < i ∧ i < n ∧
        (forLoop (fun t s =>
          find_bonds_mark_step G V_DISPLACEMENT DIR_CHANGE b n (b + 1 + t) s) t (atom, b)).1 i
          = { atom i with exists_ := true }) := by
    intro t
    induction t with
    | zero => exact fun _ => Or.inl rfl
    | succ t ih =>
      intro ht
      have h := ih (by omega)
      rw [forLoop_succ]
      generalize forLoop (fun t s =>
          find_bonds_mark_step G V_DISPLACEMENT DIR_CHANGE b n (b + 1 + t) s) t (atom, b) = s
        at h
      have hset : (upd s.1 (b + 1 + t) { s.1 (b + 1 + t) with exists_ := true }) i = atom i ∨
          (b < i ∧ i < n ∧ (upd s.1 (b + 1 + t) { s.1 (b + 1 + t) with exists_ := true }) i
            = { atom i with exists_ := true }) := by
        by_cases hi : i = b + 1 + t
        · subst hi
          right
          refine ⟨by omega, by omega, ?_⟩
          rw [upd_same]
          rcases h with h | ⟨_, _, h⟩ <;> rw [h]
        · rw [upd_other _ _ _ _ hi]
          exact h
      unfold find_bonds_mark_step
      split
      · exact hset
      · split
        · exact hset
        · split
          · exact hset
          · exact h
  exact key _ (Nat.le_refl _)

/-- C12. Path closing.  Let `s_1 < ... < s_k` be the atoms of the curve `[b_atom, n_atom)`
that exist after the first loop of `find_bonds` (on a curve whose atoms did not exist on
entry these are the atoms that the loop has marked: it only switches exists flags on).  If
the capacity is not reached (`n_bond + k < MAX_ATOMS`), `find_bonds` returns `n_bond + k`
and appends exactly `k` bonds at the indices `n_bond, ..., n_bond + k - 1`: the `m`-th is
an existing bond of order 1 with every flag false that joins `s_m` to its cyclic successor
(`s_k` to `s_1`; for `k = 1` the atom to itself; for `k = 0` nothing is appended), and no
other bond record changes.  (Indices count from 0 in the statement.) -/
theorem find_bonds_closes_path (G : Geometry) (V_DISPLACEMENT DIR_CHANGE : ℚ) (atom : Atoms)
    (bond : Bonds) (b_atom n_atom n_bond p : Nat)
    (hcap : n_bond + (existing_atoms
      (find_bonds_mark G V_DISPLACEMENT DIR_CHANGE atom b_atom n_atom) b_atom n_atom).length
        < G.MAX_ATOMS) :
    (find_bonds G V_DISPLACEMENT DIR_CHANGE atom bond b_atom n_atom n_bond p).2.2
      = n_bond + (existing_atoms
          (find_bonds_mark G V_DISPLACEMENT DIR_CHANGE atom b_atom n_atom) b_atom n_atom).length ∧
    (∀ m, m < (existing_atoms
        (find_bonds_mark G V_DISPLACEMENT DIR_CHANGE atom b_atom n_atom) b_atom n_atom).length →
      (find_bonds G V_DISPLACEMENT DIR_CHANGE atom bond b_atom n_atom n_bond p).2.1 (n_bond + m)
        = { a := (existing_atoms
              (find_bonds_mark G V_DISPLACEMENT DIR_CHANGE atom b_atom n_atom) b_atom n_atom).getD
                m 0,
            b := (existing_atoms
              (find_bonds_mark G V_DISPLACEMENT DIR_CHANGE atom b_atom n_atom) b_atom n_atom).getD
                ((m + 1) % (existing_atoms
                  (find_bonds_mark G V_DISPLACEMENT DIR_CHANGE atom b_atom n_atom)
                    b_atom n_atom).length) 0,
            type := 1, curve := p, exists_ := true, hash := false, wedge := false,
            up := false, down := false, Small := false, arom := false, conjoined := false }) ∧
    (∀ z, z < n_bond ∨ n_bond + (existing_atoms
        (find_bonds_mark G V_DISPLACEMENT DIR_CHANGE atom b_atom n_atom) b_atom n_atom).length ≤ z →
      (find_bonds G V_DISPLACEMENT DIR_CHANGE atom bond b_atom n_atom n_bond p).2.1 z = bond z) ∧
    (find_bonds G V_DISPLACEMENT DIR_CHANGE atom bond b_atom n_atom n_bond p).1
      = find_bonds_mark G V_DISPLACEMENT DIR_CHANGE atom b_atom n_atom ∧
    (∀ i, find_bonds_mark G V_DISPLACEMENT DIR_CHANGE atom b_atom n_atom i = atom i ∨
      (b_atom < i ∧ i < n_atom ∧
        find_bonds_mark G V_DISPLACEMENT DIR_CHANGE atom b_atom n_atom i
          = { atom i with exists_ := true })) := by
  have hframe := find_bonds_mark_frame G V_DISPLACEMENT DIR_CHANGE atom b_atom n_atom
  have hcyc := next_existing_cyclic
    (find_bonds_mark G V_DISPLACEMENT DIR_CHANGE atom b_atom n_atom) b_atom n_atom
  unfold find_bonds
  simp only
  generalize find_bonds_mark G V_DISPLACEMENT DIR_CHANGE atom b_atom n_atom = atom1
    at hcap hframe hcyc ⊢
  unfold existing_atoms at hcap hcyc ⊢
  obtain ⟨h1, h2, h3⟩ := find_bonds_join_prefix G atom1 bond b_atom n_atom n_bond p
    (n_atom - b_atom) hcap
  refine ⟨h1, fun m hm => ?_, h2, trivial, hframe⟩
  have := h3 m hm
  rw [hcyc m hm] at this
  exact this

/-- The loop of `dir_change` ends because its test fails: `total - begin` rounds are enough
for an atom `n` of the curve. -/
theorem dir_change_scan_ends (G : Geometry) (V_DISPLACEMENT : ℚ) (n b total : Nat)
    (atom : Atoms) (hb : b ≤ n) (hn : n < total) :
    (fun m => decide (G.distance (atom m).x (atom m).y (atom n).x (atom n).y < V_DISPLACEMENT)
        && m != n)
      (whileLoop
        (fun m => decide (G.distance (atom m).x (atom m).y (atom n).x (atom n).y < V_DISPLACEMENT)
          && m != n)
        (fun m => next_atom m b total) (total - b) (next_atom n b total)) = false := by
  have key := whileLoop_inv
    (fun m => decide (G.distance (atom m).x (atom m).y (atom n).x (atom n).y < V_DISPLACEMENT)
      && m != n)
    (fun m => next_atom m b total)
    (fun m => b ≤ m ∧ m < total)
    (fun m => if m ≤ n then n - m else (total - m) + (n - b))
    (by
      intro m hm ht
      simp only [Bool.and_eq_true, bne_iff_ne, ne_eq] at ht
      have hne := ht.2
      unfold next_atom
      dsimp only
      by_cases h1 : m + 1 > total - 1
      · rw [if_pos h1]
        refine ⟨⟨Nat.le_refl _, by omega⟩, ?_⟩
        rw [if_pos hb, if_neg (by omega)]
        omega
      · rw [if_neg h1]
        refine ⟨⟨by omega, by omega⟩, ?_⟩
        by_cases h2 : m ≤ n
        · rw [if_pos h2, if_pos (by omega)]
          omega
        · rw [if_neg h2, if_neg (by omega)]
          omega)
    (total - b) (next_atom n b total)
    (by
      unfold next_atom
      split <;> constructor <;> omega)
    (by
      unfold next_atom
      dsimp only
      by_cases h1 : n + 1 > total - 1
      · rw [if_pos h1, if_pos hb]; omega
      · rw [if_neg h1, if_neg (by omega)]; omega)
  exact key.2

theorem bump_lt (G : Geometry) (n : Nat) (h : n < G.MAX_ATOMS) : bump G n < G.MAX_ATOMS := by
  unfold bump; split <;> omega

theorem find_atoms_segment_count (G : Geometry) (width height : Int) (p n i : Nat)
    (sg : segment_t) (s : Atoms × Nat) :
    s.2 ≤ (find_atoms_segment G width height p n i sg s).2 ∧
    (s.2 < G.MAX_ATOMS → (find_atoms_segment G width height p n i sg s).2 < G.MAX_ATOMS) := by
  unfold find_atoms_segment push_atom
  dsimp only
  have b1 := bump_ge G
  have b2 := bump_lt G
  split <;> split
  all_goals first
    | exact ⟨Nat.le_trans (b1 _) (b1 _), fun h => b2 _ (b2 _ h)⟩
    | exact ⟨b1 _, fun h => b2 _ h⟩
    | exact ⟨Nat.le_refl _, fun h => h⟩
    | (split
       all_goals first
        | exact ⟨Nat.le_trans (b1 _) (Nat.le_trans (b1 _) (b1 _)), fun h => b2 _ (b2 _ (b2 _ h))⟩
        | exact ⟨Nat.le_trans (b1 _) (b1 _), fun h => b2 _ (b2 _ h)⟩
        | exact ⟨b1 _, fun h => b2 _ h⟩
        | exact ⟨Nat.le_refl _, fun h => h⟩)

theorem find_atoms_segments_count (G : Geometry) (width height : Int) (p n : Nat)
    (curve : List segment_t) (s : Atoms × Nat) (m : Nat) :
    s.2 ≤ (forLoop (fun i s =>
        find_atoms_segment G width height p n i (curve.getD i segment0) s) m s).2 ∧
    (s.2 < G.MAX_ATOMS → (forLoop (fun i s =>
        find_atoms_segment G width height p n i (curve.getD i segment0) s) m s).2
          < G.MAX_ATOMS) := by
  induction m with
  | zero => exact ⟨Nat.le_refl _, fun h => h⟩
  | succ m ih =>
    rw [forLoop_succ]
    obtain ⟨h1, h2⟩ := ih
    obtain ⟨g1, g2⟩ := find_atoms_segment_count G width height p n m (curve.getD m segment0)
      (forLoop (fun i s =>
        find_atoms_segment G width height p n i (curve.getD i segment0) s) m s)
    exact ⟨Nat.le_trans h1 g1, fun h => g2 (h2 h)⟩

theorem find_bonds_join_count (G : Geometry) (atom : Atoms) (bond : Bonds)
    (b n n_bond p : Nat) :
    n_bond ≤ (find_bonds_join G atom bond b n n_bond p).2 ∧
    (n_bond < G.MAX_ATOMS → (find_bonds_join G atom bond b n n_bond p).2 < G.MAX_ATOMS) := by
  unfold find_bonds_join
  generalize n - b = m
  induction m with
  | zero => exact ⟨Nat.le_refl _, fun h => h⟩
  | succ m ih =>
    rw [forLoop_succ]
    obtain ⟨h1, h2⟩ := ih
    generalize forLoop (fun t s => find_bonds_join_step G atom b n p (b + t) s) m
      (bond, n_bond) = s at h1 h2
    unfold find_bonds_join_step
    split
    · exact ⟨Nat.le_trans h1 (bump_ge G _), fun h => bump_lt G _ (h2 h)⟩
    · exact ⟨h1, h2⟩

/-- One path of `find_atoms`: neither count shrinks, and a count below `MAX_ATOMS` stays
below it. -/
theorem find_atoms_path_count (G : Geometry) (V_DISPLACEMENT DIR_CHANGE : ℚ)
    (width height : Int) (g : graph_t) (p : potrace_path_t) :
    (g.n_atom ≤ (find_atoms_path G V_DISPLACEMENT DIR_CHANGE width height g p).n_atom ∧
      (g.n_atom < G.MAX_ATOMS →
        (find_atoms_path G V_DISPLACEMENT DIR_CHANGE width height g p).n_atom < G.MAX_ATOMS)) ∧
    (g.n_bond ≤ (find_atoms_path G V_DISPLACEMENT DIR_CHANGE width height g p).n_bond ∧
      (g.n_bond < G.MAX_ATOMS →
        (find_atoms_path G V_DISPLACEMENT DIR_CHANGE width height g p).n_bond < G.MAX_ATOMS)) := by
  unfold find_atoms_path find_bonds
  dsimp only
  refine ⟨?_, find_bonds_join_count G _ _ _ _ _ _⟩
  obtain ⟨h1, h2⟩ := find_atoms_segments_count G width height p.id p.curve.length p.curve
    (push_atom G (path_atom (p.curve.getD (p.curve.length - 1) segment0).c2 width height p.id
      false) (g.atom, g.n_atom)) p.curve.length
  have e : (push_atom G (path_atom (p.curve.getD (p.curve.length - 1) segment0).c2 width height
      p.id false) (g.atom, g.n_atom)).2 = bump G g.n_atom := rfl
  rw [e] at h1 h2
  exact ⟨Nat.le_trans (bump_ge G _) h1, fun h => h2 (bump_lt G _ h)⟩

theorem find_atoms_fold_count (G : Geometry) (V_DISPLACEMENT DIR_CHANGE : ℚ)
    (width height : Int) (ps : List potrace_path_t) :
    ∀ g : graph_t,
      (g.n_atom ≤ (ps.foldl (find_atoms_path G V_DISPLACEMENT DIR_CHANGE width height) g).n_atom ∧
        (g.n_atom < G.MAX_ATOMS →
          (ps.foldl (find_atoms_path G V_DISPLACEMENT DIR_CHANGE width height) g).n_atom
            < G.MAX_ATOMS)) ∧
      (g.n_bond ≤ (ps.foldl (find_atoms_path G V_DISPLACEMENT DIR_CHANGE width height) g).n_bond ∧
        (g.n_bond < G.MAX_ATOMS →
          (ps.foldl (find_atoms_path G V_DISPLACEMENT DIR_CHANGE width height) g).n_bond
            < G.MAX_ATOMS)) := by
  induction ps with
  | nil => exact fun g => ⟨⟨Nat.le_refl _, fun h => h⟩, ⟨Nat.le_refl _, fun h => h⟩⟩
  | cons p ps ih =>
    intro g
    rw [List.foldl_cons]
    obtain ⟨⟨a1, a2⟩, ⟨b1, b2⟩⟩ := find_atoms_path_count G V_DISPLACEMENT DIR_CHANGE width height
      g p
    obtain ⟨⟨c1, c2⟩, ⟨d1, d2⟩⟩ := ih
      (find_atoms_path G V_DISPLACEMENT DIR_CHANGE width height g p)
    exact ⟨⟨Nat.le_trans a1 c1, fun h => c2 (a2 h)⟩, ⟨Nat.le_trans b1 d1, fun h => d2 (b2 h)⟩⟩

/-- C16. Capacity cap.  For every chain of paths, the atom count that `find_atoms` returns
is below `MAX_ATOMS`, and so is the bond count it leaves when the bond count on entry was;
the counts never decrease along the chain (the counts after a longer chain are at least the
counts after any initial part of it); and an insertion at a count `n` with
`n + 1 >= MAX_ATOMS` leaves the count at `n`.  `MAX_ATOMS` is taken to be positive. -/
theorem find_atoms_capacity (G : Geometry) (V_DISPLACEMENT DIR_CHANGE : ℚ)
    (ps : List potrace_path_t) (atom : Atoms) (bond : Bonds) (n_bond : Nat) (width height : Int)
    (hmax : 0 < G.MAX_ATOMS) :
    (find_atoms G V_DISPLACEMENT DIR_CHANGE ps atom bond n_bond width height).n_atom
      < G.MAX_ATOMS ∧
    (n_bond < G.MAX_ATOMS →
      (find_atoms G V_DISPLACEMENT DIR_CHANGE ps atom bond n_bond width height).n_bond
        < G.MAX_ATOMS) ∧
    n_bond ≤ (find_atoms G V_DISPLACEMENT DIR_CHANGE ps atom bond n_bond width height).n_bond ∧
    (∀ qs : List potrace_path_t,
      (find_atoms G V_DISPLACEMENT DIR_CHANGE ps atom bond n_bond width height).n_atom
        ≤ (find_atoms G V_DISPLACEMENT DIR_CHANGE (ps ++ qs) atom bond n_bond width height).n_atom ∧
      (find_atoms G V_DISPLACEMENT DIR_CHANGE ps atom bond n_bond width height).n_bond
        ≤ (find_atoms G V_DISPLACEMENT DIR_CHANGE (ps ++ qs) atom bond n_bond width height).n_bond) ∧
    (∀ (a : atom_t) (s : Atoms × Nat),
      s.2 ≤ (push_atom G a s).2 ∧ (G.MAX_ATOMS ≤ s.2 + 1 → (push_atom G a s).2 = s.2)) ∧
    (∀ (at1 : Atoms) (b_atom n_atom p i : Nat) (s : Bonds × Nat),
      s.2 ≤ (find_bonds_join_step G at1 b_atom n_atom p i s).2 ∧
      (G.MAX_ATOMS ≤ s.2 + 1 → (find_bonds_join_step G at1 b_atom n_atom p i s).2 = s.2)) := by
  have hcap : ∀ n, G.MAX_ATOMS ≤ n + 1 → bump G n = n := by
    intro n h
    unfold bump
    rw [if_pos h]
  unfold find_atoms
  obtain ⟨⟨_, a2⟩, ⟨b1, b2⟩⟩ := find_atoms_fold_count G V_DISPLACEMENT DIR_CHANGE width height ps
    { atom := atom, bond := bond, n_atom := 0, n_bond := n_bond }
  refine ⟨a2 hmax, b2, b1, fun qs => ?_, fun a s => ⟨bump_ge G _, hcap _⟩, fun at1 b_atom n_atom
    p i s => ?_⟩
  · rw [List.foldl_append]
    obtain ⟨⟨c1, _⟩, ⟨d1, _⟩⟩ := find_atoms_fold_count G V_DISPLACEMENT DIR_CHANGE width height
      qs (ps.foldl (find_atoms_path G V_DISPLACEMENT DIR_CHANGE width height)
        { atom := atom, bond := bond, n_atom := 0, n_bond := n_bond })
    exact ⟨c1, d1⟩
  · unfold find_bonds_join_step
    split
    · exact ⟨bump_ge G _, hcap _⟩
    · exact ⟨Nat.le_refl _, fun _ => rfl⟩

theorem clamp_bounds (v : ℚ) (hi : Int) (h : 0 ≤ hi) : 0 ≤ clamp v hi ∧ clamp v hi ≤ hi := by
  have h' : (0 : ℚ) ≤ (hi : ℚ) := by exact_mod_cast h
  unfold clamp
  dsimp only
  split_ifs <;> constructor <;> linarith

theorem path_atom_in_image (c : potrace_dpoint_t) (width height : Int) (p : Nat)
    (corner : Bool) (hw : 0 ≤ width) (hh : 0 ≤ height) :
    InImage width height (path_atom c width height p corner) :=
  ⟨(clamp_bounds c.x width hw).1, (clamp_bounds c.x width hw).2,
    (clamp_bounds c.y height hh).1, (clamp_bounds c.y height hh).2⟩

theorem push_atom_in_image (G : Geometry) (width height : Int) (a : atom_t) (s : Atoms × Nat)
    (hs : ∀ k, k < s.2 → InImage width height (s.1 k)) (ha : InImage width height a) :
    ∀ k, k < (push_atom G a s).2 → InImage width height ((push_atom G a s).1 k) := by
  intro k hk
  unfold push_atom at hk ⊢
  dsimp only at hk ⊢
  have := bump_le G s.2
  by_cases h : k = s.2
  · subst h; rw [upd_same]; exact ha
  · rw [upd_other _ _ _ _ h]; exact hs k (by omega)

theorem find_atoms_segment_in_image (G : Geometry) (width height : Int) (p n i : Nat)
    (sg : segment_t) (s : Atoms × Nat) (hw : 0 ≤ width) (hh : 0 ≤ height)
    (hs : ∀ k, k < s.2 → InImage width height (s.1 k)) :
    ∀ k, k < (find_atoms_segment G width height p n i sg s).2 →
      InImage width height ((find_atoms_segment G width height p n i sg s).1 k) := by
  have hp := fun c corner => path_atom_in_image c width height p corner hw hh
  have hpush := push_atom_in_image G width height
  unfold find_atoms_segment
  dsimp only
  split <;> split
  all_goals first
    | exact hpush _ _ (hpush _ _ hs (hp _ _)) (hp _ _)
    | exact hpush _ _ hs (hp _ _)
    | exact hs
    | (split
       all_goals first
        | exact hpush _ _ (hpush _ _ (hpush _ _ hs (hp _ _)) (hp _ _)) (hp _ _)
        | exact hpush _ _ (hpush _ _ hs (hp _ _)) (hp _ _)
        | exact hpush _ _ hs (hp _ _)
        | exact hs)

theorem find_atoms_path_in_image (G : Geometry) (V_DISPLACEMENT DIR_CHANGE : ℚ)
    (width height : Int) (g : graph_t) (p : potrace_path_t) (hw : 0 ≤ width) (hh : 0 ≤ height)
    (hg : ∀ k, k < g.n_atom → InImage width height (g.atom k)) :
    ∀ k, k < (find_atoms_path G V_DISPLACEMENT DIR_CHANGE width height g p).n_atom →
      InImage width height
        ((find_atoms_path G V_DISPLACEMENT DIR_CHANGE width height g p).atom k) := by
  have hsegs : ∀ m (s : Atoms × Nat), (∀ k, k < s.2 → InImage width height (s.1 k)) →
      ∀ k, k < (forLoop (fun i s => find_atoms_segment G width height p.id p.curve.length i
          (p.curve.getD i segment0) s) m s).2 →
        InImage width height ((forLoop (fun i s => find_atoms_segment G width height p.id
          p.curve.length i (p.curve.getD i segment0) s) m s).1 k) := by
    intro m s hs
    induction m with
    | zero => exact hs
    | succ m ih =>
      rw [forLoop_succ]
      exact find_atoms_segment_in_image G width height p.id p.curve.length m _ _ hw hh ih
  unfold find_atoms_path find_bonds
  dsimp only
  intro k hk
  have h := hsegs p.curve.length _
    (push_atom_in_image G width height
      (path_atom (p.curve.getD (p.curve.length - 1) segment0).c2 width height p.id false)
      (g.atom, g.n_atom) hg (path_atom_in_image _ width height p.id false hw hh)) k hk
  rcases find_bonds_mark_frame G V_DISPLACEMENT DIR_CHANGE _ g.n_atom _ k with e | ⟨_, _, e⟩
  · rw [e]; exact h
  · rw [e]; exact h

/-- C17. Coordinate clamping.  For every chain of paths and every image size
`width, height >= 0`, every atom below the count that `find_atoms` returns lies within the
image, `0 <= x <= width` and `0 <= y <= height`, whatever the control points are. -/
theorem find_atoms_clamps (G : Geometry) (V_DISPLACEMENT DIR_CHANGE : ℚ)
    (ps : List potrace_path_t) (atom : Atoms) (bond : Bonds) (n_bond : Nat) (width height : Int)
    (hw : 0 ≤ width) (hh : 0 ≤ height) :
    ∀ k, k < (find_atoms G V_DISPLACEMENT DIR_CHANGE ps atom bond n_bond width height).n_atom →
      0 ≤ ((find_atoms G V_DISPLACEMENT DIR_CHANGE ps atom bond n_bond width height).atom k).x ∧
      ((find_atoms G V_DISPLACEMENT DIR_CHANGE ps atom bond n_bond width height).atom k).x
        ≤ width ∧
      0 ≤ ((find_atoms G V_DISPLACEMENT DIR_CHANGE ps atom bond n_bond width height).atom k).y ∧
      ((find_atoms G V_DISPLACEMENT DIR_CHANGE ps atom bond n_bond width height).atom k).y
        ≤ height := by
  have key : ∀ (qs : List potrace_path_t) (g : graph_t),
      (∀ k, k < g.n_atom → InImage width height (g.atom k)) →
      ∀ k, k < (qs.foldl (find_atoms_path G V_DISPLACEMENT DIR_CHANGE width height) g).n_atom →
        InImage width height
          ((qs.foldl (find_atoms_path G V_DISPLACEMENT DIR_CHANGE width height) g).atom k) := by
    intro qs
    induction qs with
    | nil => exact fun g hg => hg
    | cons p qs ih =>
      intro g hg
      rw [List.foldl_cons]
      exact ih _ (find_atoms_path_in_image G V_DISPLACEMENT DIR_CHANGE width height g p hw hh hg)
  exact key ps { atom := atom, bond := bond, n_atom := 0, n_bond := n_bond }
    (fun k hk => absurd hk (Nat.not_lt_zero k))

/-- Witness for C12: a curve of five atoms with corners at 1 and 3. -/
theorem find_bonds_closes_path_witness :
    0 + (existing_atoms (find_bonds_mark euclid 2 2 closing_atoms 0 5) 0 5).length
      < euclid.MAX_ATOMS ∧
    (find_bonds euclid 2 2 closing_atoms (fun _ => bond0) 0 5 0 7).2.2
      = 0 + (existing_atoms (find_bonds_mark euclid 2 2 closing_atoms 0 5) 0 5).length :=
  ⟨by decide!, (find_bonds_closes_path euclid 2 2 closing_atoms (fun _ => bond0) 0 5 0 7
    (by decide!)).1⟩

/-- The example of C12 evaluated: the atoms 1, 2, 3 and 4 are marked (atom `b_atom = 0` is
never examined), and four bonds close the cycle 1 - 2 - 3 - 4 - 1. -/
theorem find_bonds_example :
    (existing_atoms (find_bonds_mark euclid 2 2 closing_atoms 0 5) 0 5).length = 4 ∧
    (existing_atoms (find_bonds_mark euclid 2 2 closing_atoms 0 5) 0 5).getD 0 0 = 1 ∧
    (existing_atoms (find_bonds_mark euclid 2 2 closing_atoms 0 5) 0 5).getD 3 0 = 4 ∧
    (find_bonds euclid 2 2 closing_atoms (fun _ => bond0) 0 5 0 7).2.2 = 4 ∧
    (find_bonds euclid 2 2 closing_atoms (fun _ => bond0) 0 5 0 7).2.1 0
      = { single 1 2 with curve := 7 } ∧
    (find_bonds euclid 2 2 closing_atoms (fun _ => bond0) 0 5 0 7).2.1 1
      = { single 2 3 with curve := 7 } ∧
    (find_bonds euclid 2 2 closing_atoms (fun _ => bond0) 0 5 0 7).2.1 2
      = { single 3 4 with curve := 7 } ∧
    (find_bonds euclid 2 2 closing_atoms (fun _ => bond0) 0 5 0 7).2.1 3
      = { single 4 1 with curve := 7 } := by
  decide!

/-- Witness for C16: one path, `MAX_ATOMS = 10000`. -/
theorem find_atoms_capacity_witness :
    0 < euclid.MAX_ATOMS ∧
    (find_atoms euclid 2 2 [stray_path] (fun _ => atom0) (fun _ => bond0) 0 20 10).n_atom
      < euclid.MAX_ATOMS :=
  ⟨by decide, (find_atoms_capacity euclid 2 2 [stray_path] (fun _ => atom0) (fun _ => bond0) 0
    20 10 (by decide)).1⟩

/-- Witness for C17: a path with control points outside a 20 x 10 image. -/
theorem find_atoms_clamps_witness :
    (0 : Int) ≤ 20 ∧ (0 : Int) ≤ 10 ∧
    ∀ k, k < (find_atoms euclid 2 2 [stray_path] (fun _ => atom0) (fun _ => bond0) 0 20 10).n_atom →
      0 ≤ ((find_atoms euclid 2 2 [stray_path] (fun _ => atom0) (fun _ => bond0) 0 20 10).atom k).x ∧
      ((find_atoms euclid 2 2 [stray_path] (fun _ => atom0) (fun _ => bond0) 0 20 10).atom k).x
        ≤ ((20 : Int) : ℚ) ∧
      0 ≤ ((find_atoms euclid 2 2 [stray_path] (fun _ => atom0) (fun _ => bond0) 0 20 10).atom k).y ∧
      ((find_atoms euclid 2 2 [stray_path] (fun _ => atom0) (fun _ => bond0) 0 20 10).atom k).y
        ≤ ((10 : Int) : ℚ) :=
  ⟨by decide, by decide, find_atoms_clamps euclid 2 2 [stray_path] (fun _ => atom0)
    (fun _ => bond0) 0 20 10 (by decide) (by decide)⟩

/-- The example of C16 and C17 evaluated: five atoms, the stray control points clamped to the
border of the image. -/
theorem find_atoms_example :
    (find_atoms euclid 2 2 [stray_path] (fun _ => atom0) (fun _ => bond0) 0 20 10).n_atom = 5 ∧
    ((find_atoms euclid 2 2 [stray_path] (fun _ => atom0) (fun _ => bond0) 0 20 10).atom 1).x = 0 ∧
    ((find_atoms euclid 2 2 [stray_path] (fun _ => atom0) (fun _ => bond0) 0 20 10).atom 1).y = 10 ∧
    ((find_atoms euclid 2 2 [stray_path] (fun _ => atom0) (fun _ => bond0) 0 20 10).atom 3).x = 20 ∧
    ((find_atoms euclid 2 2 [stray_path] (fun _ => atom0) (fun _ => bond0) 0 20 10).atom 4).y
      = 0 := by
  decide!

/-! ## `assign_charge`: the stripping loop in general -/

theorem find_first_of_mem (l : List Char) (c : Char) (h : c ∈ l) :
    find_first_of ⟨l⟩ c = some (l.indexOf c) := by
  simp [find_first_of, List.indexOf_lt_length.mpr h]

theorem find_first_of_not_mem (l : List Char) (c : Char) (h : c ∉ l) :
    find_first_of ⟨l⟩ c = none := by
  have : ¬ l.indexOf c < l.length := fun hc => h (List.indexOf_lt_length.mp hc)
  simp [find_first_of, this]

theorem erase_first (l : List Char) (c : Char) :
    erase ⟨l⟩ (l.indexOf c) = ⟨l.erase c⟩ := by
  simp [erase, List.eraseIdx_indexOf_eq_erase]

theorem starts_alpha_erase (l : List Char) (c : Char) (hc : c.isAlpha = false)
    (h : starts_alpha ⟨l⟩ = true) : starts_alpha ⟨l.erase c⟩ = true := by
  cases l with
  | nil => simp [starts_alpha] at h
  | cons a t =>
    simp only [starts_alpha] at h
    have hne : (a == c) = false := by
      rw [beq_eq_false_iff_ne]
      rintro rfl
      rw [hc] at h
      cases h
    rw [List.erase_cons, hne]
    simpa [starts_alpha] using h

theorem filter_erase_of_false (p : Char → Bool) (c : Char) (hp : p c = false) (l : List Char) :
    (l.erase c).filter p = l.filter p := by
  induction l with
  | nil => rfl
  | cons a t ih =>
    by_cases h : a = c
    · subst h
      simp [hp]
    · have hne : (a == c) = false := by simpa using h
      rw [List.erase_cons, hne]
      simp only [Bool.false_eq_true, if_false, cond_false, List.filter_cons, ih]

theorem filter_of_not_mem (l : List Char) (h1 : '-' ∉ l) (h2 : '+' ∉ l) :
    l.filter (fun c => c != '-' && c != '+') = l := by
  rw [List.filter_eq_self]
  intro a ha
  have e1 : a ≠ '-' := fun e => h1 (e ▸ ha)
  have e2 : a ≠ '+' := fun e => h2 (e ▸ ha)
  simp [e1, e2]

/-- The stripping loop on a label that begins with a letter: with more rounds than the label
has sign characters it ends with the label stripped of them, and the charge changed by the
number of `+` minus the number of `-`. -/
theorem charge_loop_spec : ∀ (fuel : Nat) (l : List Char) (c : Int),
    starts_alpha ⟨l⟩ = true → l.count '-' + l.count '+' < fuel →
    charge_loop fuel (⟨l⟩, c)
      = (⟨l.filter (fun c => c != '-' && c != '+')⟩,
          c + (l.count '+' : Int) - (l.count '-' : Int)) := by
  intro fuel
  induction fuel with
  | zero => intro l c _ h; omega
  | succ fuel ih =>
    intro l c ha hf
    by_cases hm : '-' ∈ l
    · have hcnt : 0 < l.count '-' := List.count_pos_iff.mpr hm
      simp only [charge_loop, find_first_of_mem l '-' hm, erase_first,
        starts_alpha_erase l '-' (by decide) ha, if_true]
      rw [ih (l.erase '-') (c - 1) (starts_alpha_erase l '-' (by decide) ha)
        (by rw [List.count_erase_self, List.count_erase_of_ne (by decide)]; omega),
        filter_erase_of_false _ _ (by decide), List.count_erase_self,
        List.count_erase_of_ne (by decide)]
      congr 1
      have : ((l.count '-' - 1 : Nat) : Int) = (l.count '-' : Int) - 1 := by omega
      rw [this]
      ring
    · have h0 : l.count '-' = 0 := List.count_eq_zero_of_not_mem hm
      by_cases hp : '+' ∈ l
      · have hcnt : 0 < l.count '+' := List.count_pos_iff.mpr hp
        simp only [charge_loop, find_first_of_not_mem l '-' hm, find_first_of_mem l '+' hp,
          erase_first, starts_alpha_erase l '+' (by decide) ha, if_true]
        rw [ih (l.erase '+') (c + 1) (starts_alpha_erase l '+' (by decide) ha)
          (by rw [List.count_erase_self, List.count_erase_of_ne (by decide)]; omega),
          filter_erase_of_false _ _ (by decide), List.count_erase_self,
          List.count_erase_of_ne (by decide)]
        congr 1
        have : ((l.count '+' - 1 : Nat) : Int) = (l.count '+' : Int) - 1 := by omega
        rw [this]
        ring
      · have h1 : l.count '+' = 0 := List.count_eq_zero_of_not_mem hp
        simp only [charge_loop, find_first_of_not_mem l '-' hm, find_first_of_not_mem l '+' hp,
          filter_of_not_mem l hm hp, h0, h1]
        simp

/-- The stripping loop ends for every label: one round more than the label has characters
reaches `cont = false`, neither sign character is left, and further rounds change
nothing. -/
theorem charge_loop_ends : ∀ (fuel : Nat) (l : List Char) (c : Int), l.length < fuel →
    '-' ∉ (charge_loop fuel (⟨l⟩, c)).1.data ∧ '+' ∉ (charge_loop fuel (⟨l⟩, c)).1.data ∧
    charge_loop (fuel + 1) (⟨l⟩, c) = charge_loop fuel (⟨l⟩, c) := by
  intro fuel
  induction fuel with
  | zero => intro l c h; omega
  | succ fuel ih =>
    intro l c hf
    by_cases hm : '-' ∈ l
    · have hlen : (l.erase '-').length < fuel := by
        rw [List.length_erase_of_mem hm]
        have := List.length_pos_of_mem hm
        omega
      simp only [charge_loop, find_first_of_mem l '-' hm, erase_first]
      exact ih (l.erase '-') _ hlen
    · by_cases hp : '+' ∈ l
      · have hlen : (l.erase '+').length < fuel := by
          rw [List.length_erase_of_mem hp]
          have := List.length_pos_of_mem hp
          omega
        simp only [charge_loop, find_first_of_not_mem l '-' hm, find_first_of_mem l '+' hp,
          erase_first]
        exact ih (l.erase '+') _ hlen
      · simp only [charge_loop, find_first_of_not_mem l '-' hm, find_first_of_not_mem l '+' hp]
        exact ⟨hm, hp, trivial⟩

theorem count_signs_le (l : List Char) : l.count '-' + l.count '+' ≤ l.length := by
  induction l with
  | nil => simp
  | cons a t ih =>
    rw [List.count_cons, List.count_cons, List.length_cons]
    by_cases h1 : a = '-'
    · subst h1
      simp only [beq_self_eq_true, if_true]
      have : ('-' == '+') = false := by decide
      simp only [this, Bool.false_eq_true, if_false]
      omega
    · have e1 : (a == '-') = false := by simpa using h1
      simp only [e1, Bool.false_eq_true, if_false]
      split <;> omega

theorem charge_loop_enough (l : List Char) (c : Int) :
    ∀ k, charge_loop (l.length + 1 + k) (⟨l⟩, c) = charge_loop (l.length + 1) (⟨l⟩, c) := by
  intro k
  induction k with
  | zero => rfl
  | succ k ih =>
    rw [← ih]
    exact (charge_loop_ends (l.length + 1 + k) l c (by omega)).2.2

/-- C18. Charge from symbols.  For an existing atom below `n_atom` whose label begins with a
letter and which is not the `b` endpoint of an existing hashed bond, `assign_charge` hands
to the normalization lookup the label with every `+` and every `-` removed (it contains
neither character) and sets the charge to the number of `+` minus the number of `-` of the
original label.  The stripping loop ends for every label: `length + 1` rounds reach
`cont = false` with no sign character left, and more rounds give the same result. -/
theorem assign_charge_from_symbols (fix_atom_name : String → Int → String) (atom : Atoms)
    (bond : Bonds) (n_atom n_bond i : Nat) (hi : i < n_atom)
    (hex : (atom i).exists_ = true) (hal : starts_alpha (atom i).label = true)
    (hh : ∀ j, j < n_bond → (bond j).exists_ = true → (bond j).hash = true → (bond j).b ≠ i) :
    ((assign_charge fix_atom_name atom bond n_atom n_bond).1 i).charge
      = sign_charge (atom i).label ∧
    ((assign_charge fix_atom_name atom bond n_atom n_bond).1 i).label
      = fix_atom_name (strip_signs (atom i).label)
          (bond_order_sums (assign_charge_bonds atom n_bond bond) n_bond i).1 ∧
    '-' ∉ (strip_signs (atom i).label).data ∧ '+' ∉ (strip_signs (atom i).label).data ∧
    (∀ (label : String) (c : Int) (fuel : Nat), label.length + 1 ≤ fuel →
      charge_loop fuel (label, c) = charge_loop (label.length + 1) (label, c) ∧
      '-' ∉ (charge_loop fuel (label, c)).1.data ∧
      '+' ∉ (charge_loop fuel (label, c)).1.data) := by
  have hh2 : ∀ j, j < n_bond → (assign_charge_bonds atom n_bond bond j).exists_ = true →
      (assign_charge_bonds atom n_bond bond j).hash = true →
      (assign_charge_bonds atom n_bond bond j).b ≠ i := by
    intro j hj
    rw [assign_charge_bonds_apply]
    split
    · intro h; simp at h
    · exact hh j hj
  have hloop : charge_loop ((atom i).label.length + 1) ((atom i).label, 0)
      = (strip_signs (atom i).label, sign_charge (atom i).label) := by
    have := charge_loop_spec ((atom i).label.data.length + 1) (atom i).label.data 0 hal
      (Nat.lt_succ_of_le (count_signs_le _))
    rw [zero_add] at this
    exact this
  refine ⟨?_, ?_, ?_, ?_, fun label c fuel hf => ?_⟩
  · simp only [assign_charge, assign_charge_atoms_apply, hi, if_true]
    unfold assign_charge_atom
    simp only [hex, if_true, upd_same, hloop, hash_reset_none _ _ _ _ hh2]
  · simp only [assign_charge, assign_charge_atoms_apply, hi, if_true]
    unfold assign_charge_atom
    simp only [hex, if_true, upd_same, hloop]
  · simp [strip_signs, List.mem_filter]
  · simp [strip_signs, List.mem_filter]
  · obtain ⟨k, rfl⟩ : ∃ k, fuel = label.length + 1 + k := ⟨fuel - (label.length + 1), by omega⟩
    have h1 := charge_loop_enough label.data c k
    have h2 := charge_loop_ends (label.data.length + 1 + k) label.data c (by omega)
    exact ⟨h1, h2.1, h2.2.1⟩

/-- Witness for C18: the atom `"N+-+"` with one plain bond gets charge `2 - 1`, and the
label handed to the lookup is `"N"`. -/
theorem assign_charge_from_symbols_witness :
    ((assign_charge (fun s _ => s) signs_atoms charge_bonds_plain 2 1).1 0).charge
      = sign_charge (signs_atoms 0).label ∧
    sign_charge (signs_atoms 0).label = 1 ∧
    strip_signs (signs_atoms 0).label = "N" :=
  ⟨(assign_charge_from_symbols (fun s _ => s) signs_atoms charge_bonds_plain 2 1 0 (by decide)
      (by decide) (by decide) (by decide)).1, by decide, by decide⟩

/-! ## `dist_double_bonds` -/

/-- C14 fails in the code.  In `up_down_bonds` the single bond 1 shares atom 1 with the
double bond 0, and its far atom lies 8 away from the line of that double bond, more than the
thickness 1.  After `find_up_down_bonds` the single bond is neither up nor down: the round
of the second double bond 2, which the single bond does not touch, has cleared both flags.
Without the second double bond (`n_bond = 2`) the same bond is classified (down). -/
theorem find_up_down_bonds_forgets_earlier_double :
    ((up_down_bonds 0).exists_ = true ∧ (up_down_bonds 0).type = 2) ∧
    ((up_down_bonds 1).exists_ = true ∧ (up_down_bonds 1).type = 1 ∧
      (up_down_bonds 1).wedge = false ∧ (up_down_bonds 1).hash = false) ∧
    (up_down_bonds 1).a = (up_down_bonds 0).b ∧
    |height_over euclid up_down_atoms up_down_bonds 0 (up_down_bonds 1).b| > 1 ∧
    (find_up_down_bonds euclid up_down_bonds 3 up_down_atoms 1 1).up = false ∧
    (find_up_down_bonds euclid up_down_bonds 3 up_down_atoms 1 1).down = false ∧
    (find_up_down_bonds euclid up_down_bonds 2 up_down_atoms 1 1).up = false ∧
    (find_up_down_bonds euclid up_down_bonds 2 up_down_atoms 1 1).down = true := by
  decide!

/-! ## `find_old_aromatic_bonds` -/

theorem AromOnly.refl_arom (b : Bonds) : AromOnly b b := fun _ => ⟨rfl, id, id⟩

theorem AromOnly.trans_arom {b r t : Bonds} (h1 : AromOnly b r) (h2 : AromOnly r t) :
    AromOnly b t := fun k =>
  ⟨(h2 k).1.trans (h1 k).1, fun h => (h1 k).2.1 ((h2 k).2.1 h), fun h => (h2 k).2.2 ((h1 k).2.2 h)⟩

theorem AromOnly.of_kills {b r : Bonds} (h : OnlyKills b r) : AromOnly b r := by
  intro k
  rcases h k with e | e
  · rw [e]; exact ⟨rfl, id, id⟩
  · rw [e]; exact ⟨rfl, fun h => by simp at h, id⟩

theorem AromOnly.set_arom (b : Bonds) (i : Nat) :
    AromOnly b (upd b i { b i with arom := true }) := by
  intro k
  by_cases h : k = i
  · subst h; rw [upd_same]; exact ⟨rfl, id, fun _ => rfl⟩
  · rw [upd_other _ _ _ _ h]; exact ⟨rfl, id, id⟩

theorem mark_curve_arom_apply (bond : Bonds) (n_bond p : Nat) (k : Nat) :
    mark_curve_arom bond n_bond p k
      = if k < n_bond ∧ (bond k).exists_ = true ∧ (bond k).curve = p
        then { bond k with arom := true } else bond k := by
  have h : mark_curve_arom bond n_bond p
      = forLoop (fun i (w : Bonds) => upd w i
          (if (w i).exists_ && (w i).curve == p then { w i with arom := true } else w i))
          n_bond bond := by
    unfold mark_curve_arom
    congr 1
    funext i w
    split
    · rfl
    · rw [upd_self]
  rw [h, forLoop_pointwise (fun _ (r : bond_t) =>
    if r.exists_ && r.curve == p then { r with arom := true } else r)]
  by_cases h1 : k < n_bond
  · by_cases h2 : (bond k).exists_ = true <;> by_cases h3 : (bond k).curve = p <;>
      simp [h1, h2, h3]
  · simp [h1]

theorem mark_curve_arom_only (bond : Bonds) (n_bond p : Nat) :
    AromOnly bond (mark_curve_arom bond n_bond p) := by
  intro k
  rw [mark_curve_arom_apply]
  split
  · exact ⟨rfl, id, fun _ => rfl⟩
  · exact ⟨rfl, id, id⟩

theorem mark_ring_arom_only (G : Geometry) (M : RingMath) (atom : Atoms) (n_bond : Nat)
    (avg diameter cx cy : ℚ) (bond : Bonds) :
    AromOnly bond (mark_ring_arom G M atom n_bond avg diameter cx cy bond) := by
  unfold mark_ring_arom
  apply forLoop_inv _ (fun _ t => AromOnly bond t) n_bond bond (AromOnly.refl_arom bond)
  intro i t _ ht
  dsimp only
  split
  · split
    · exact ht.trans_arom (AromOnly.set_arom t i)
    · exact ht
  · exact ht

/-- The nested-curve step changes bonds only by switching exists flags off and arom flags
on, when the deletion helper only switches exists flags off. -/
theorem nested_curve_step_only (ops : CurveOps) (n_atom n_bond : Nat) (s : Atoms × Bonds)
    (p : potrace_path_t)
    (hdel : ∀ atom bond n m q, OnlyKills bond (ops.delete_curve_with_children atom bond n m q).2) :
    AromOnly s.2 (nested_curve_step ops n_atom n_bond s p).2 := by
  unfold nested_curve_step
  split
  · split
    · split
      · split
        · split
          · exact (mark_curve_arom_only s.2 n_bond p.id).trans_arom
              (AromOnly.of_kills (hdel _ _ _ _ _))
          · exact AromOnly.refl_arom _
        · exact AromOnly.refl_arom _
      · exact AromOnly.refl_arom _
    · exact AromOnly.refl_arom _
  · exact AromOnly.refl_arom _

theorem ring_step_only (G : Geometry) (M : RingMath) (ops : CurveOps) (n_atom n_bond : Nat)
    (avg : ℚ) (s : Atoms × Bonds) (p1 : potrace_path_t)
    (hdel : ∀ atom bond n m q, OnlyKills bond (ops.delete_curve_with_children atom bond n m q).2) :
    AromOnly s.2 (ring_step G M ops n_atom n_bond avg s p1).2 := by
  unfold ring_step
  split
  · split
    · split
      · dsimp only
        split
        · split
          · exact (AromOnly.of_kills (hdel _ _ _ _ _)).trans_arom
              (mark_ring_arom_only G M _ n_bond avg _ _ _ _)
          · exact AromOnly.refl_arom _
        · exact AromOnly.refl_arom _
      · exact AromOnly.refl_arom _
    · exact AromOnly.refl_arom _
  · exact AromOnly.refl_arom _

theorem foldl_arom_only (f : Atoms × Bonds → potrace_path_t → Atoms × Bonds)
    (hf : ∀ s p, AromOnly s.2 (f s p).2) (ps : List potrace_path_t) :
    ∀ s, AromOnly s.2 (ps.foldl f s).2 := by
  induction ps with
  | nil => exact fun s => AromOnly.refl_arom _
  | cons p ps ih =>
    intro s
    rw [List.foldl_cons]
    exact (hf s p).trans_arom (ih (f s p))

/-- For the solid curve `solid_outer` (sign `'+'`) whose first child is a hole (sign `'-'`)
with a solid child (sign `'+'`), and which carries the existing bond 0,
`find_old_aromatic_bonds` leaves bond 0 existing and not aromatic, whatever the absent
helpers do: the nested-curve loop looks for the signs `'-'`, `'+'`, `'-'`, and the ring
loop needs more than four atoms on the curve. -/
theorem find_old_aromatic_bonds_solid_outer_any (G : Geometry) (M : RingMath)
    (ops : CurveOps) (avg : ℚ) :
    (solid_outer.sign = PLUS ∧
      (∃ child gchild, solid_outer.childlist = some child ∧ child.sign = MINUS ∧
        child.childlist = some gchild ∧ gchild.sign = PLUS)) ∧
    ((ring_bonds 0).exists_ = true ∧ (ring_bonds 0).curve = solid_outer.id) ∧
    ((find_old_aromatic_bonds G M ops [solid_outer] ring_bonds 2 ring_atoms 3 avg).2 0).exists_
      = true ∧
    ((find_old_aromatic_bonds G M ops [solid_outer] ring_bonds 2 ring_atoms 3 avg).2 0).curve
      = solid_outer.id ∧
    ((find_old_aromatic_bonds G M ops [solid_outer] ring_bonds 2 ring_atoms 3 avg).2 0).arom
      = false := by
  have h1 : ∀ s, nested_curve_step ops 3 2 s solid_outer = s := by
    intro s
    unfold nested_curve_step
    rw [if_neg]
    intro h
    exact absurd h.1 (by decide)
  have hv : ((List.range 3).filter
      (fun i => (ring_atoms i).exists_ && (ring_atoms i).curve == solid_outer.id)).length = 2 := by
    decide
  have h2 : ring_step G M ops 3 2 avg (ring_atoms, clear_arom ring_bonds 2) solid_outer
      = (ring_atoms, clear_arom ring_bonds 2) := by
    unfold ring_step
    split
    · split
      · split
        · dsimp only
          rw [hv, if_neg (by decide)]
        · rfl
      · rfl
    · rfl
  refine ⟨⟨by decide, _, _, rfl, by decide, rfl, by decide⟩, ⟨by decide, by decide⟩, ?_⟩
  unfold find_old_aromatic_bonds
  simp only [List.foldl_cons, List.foldl_nil, h1, h2]
  decide

/-- The claim of C20 fails for the nesting it names.  The solid curve `solid_outer` (sign
`'+'`) has as its first child a hole (sign `'-'`) with a solid child (sign `'+'`), and it
carries the existing bond 0; with the stand-in helpers `find_old_aromatic_bonds` leaves
bond 0 existing and not aromatic. -/
theorem find_old_aromatic_bonds_solid_outer_unmarked :
    (solid_outer.sign = PLUS ∧
      (∃ child gchild, solid_outer.childlist = some child ∧ child.sign = MINUS ∧
        child.childlist = some gchild ∧ gchild.sign = PLUS)) ∧
    ((ring_bonds 0).exists_ = true ∧ (ring_bonds 0).curve = solid_outer.id) ∧
    ((find_old_aromatic_bonds euclid ring_math curve_ops [solid_outer] ring_bonds 2 ring_atoms
      3 10).2 0).exists_ = true ∧
    ((find_old_aromatic_bonds euclid ring_math curve_ops [solid_outer] ring_bonds 2 ring_atoms
      3 10).2 0).curve = solid_outer.id ∧
    ((find_old_aromatic_bonds euclid ring_math curve_ops [solid_outer] ring_bonds 2 ring_atoms
      3 10).2 0).arom = false :=
  find_old_aromatic_bonds_solid_outer_any euclid ring_math curve_ops 10

/-- C20, amended.  Suppose the deletion helper only switches exists flags off and
`detect_curve` holds for a curve that carries an existing bond.  For every path `p` of the
chain that is a hole curve (sign `'-'`) whose first child is a solid curve (sign `'+'`) that
has a hole child (sign `'-'`), every bond of the curve `p` that exists when
`find_old_aromatic_bonds` returns is aromatic. -/
theorem find_old_aromatic_bonds_hole_outer (G : Geometry) (M : RingMath) (ops : CurveOps)
    (ps : List potrace_path_t) (bond : Bonds) (n_bond : Nat) (atom : Atoms) (n_atom : Nat)
    (avg : ℚ) (p child gchild : potrace_path_t)
    (hdel : ∀ atom bond n m q, OnlyKills bond (ops.delete_curve_with_children atom bond n m q).2)
    (hdet : ∀ (bond : Bonds) (n : Nat) (q : potrace_path_t),
      (∃ i, i < n ∧ (bond i).exists_ = true ∧ (bond i).curve = q.id) →
      ops.detect_curve bond n q = true)
    (hp : p ∈ ps) (hsign : p.sign = MINUS)
    (hchild : p.childlist = some child) (hcs : child.sign = PLUS)
    (hgchild : child.childlist = some gchild) (hgs : gchild.sign = MINUS) :
    ∀ i, i < n_bond →
      ((find_old_aromatic_bonds G M ops ps bond n_bond atom n_atom avg).2 i).exists_ = true →
      ((find_old_aromatic_bonds G M ops ps bond n_bond atom n_atom avg).2 i).curve = p.id →
      ((find_old_aromatic_bonds G M ops ps bond n_bond atom n_atom avg).2 i).arom = true := by
  intro i hi hex hcurve
  obtain ⟨pre, post, hps⟩ := List.append_of_mem hp
  unfold find_old_aromatic_bonds at hex hcurve ⊢
  have hsplit : ps.foldl (nested_curve_step ops n_atom n_bond) (atom, clear_arom bond n_bond)
      = post.foldl (nested_curve_step ops n_atom n_bond)
          (nested_curve_step ops n_atom n_bond
            (pre.foldl (nested_curve_step ops n_atom n_bond) (atom, clear_arom bond n_bond)) p) := by
    rw [hps, List.foldl_append, List.foldl_cons]
  rw [hsplit] at hex hcurve ⊢
  generalize pre.foldl (nested_curve_step ops n_atom n_bond) (atom, clear_arom bond n_bond) = s1
    at hex hcurve ⊢
  have hstep := nested_curve_step_only ops n_atom n_bond s1 p hdel
  have hrest : AromOnly (nested_curve_step ops n_atom n_bond s1 p).2
      (ps.foldl (ring_step G M ops n_atom n_bond avg)
        (post.foldl (nested_curve_step ops n_atom n_bond)
          (nested_curve_step ops n_atom n_bond s1 p))).2 :=
    (foldl_arom_only _ (fun s q => nested_curve_step_only ops n_atom n_bond s q hdel) post
      _).trans_arom
    (foldl_arom_only _ (fun s q => ring_step_only G M ops n_atom n_bond avg s q hdel) ps _)
  generalize (ps.foldl (ring_step G M ops n_atom n_bond avg)
    (post.foldl (nested_curve_step ops n_atom n_bond)
      (nested_curve_step ops n_atom n_bond s1 p))).2 = r at hex hcurve hrest ⊢
  -- bond `i` was on the curve and existed when `p` was examined
  have hc1 : (s1.2 i).curve = p.id := by
    rw [← (hstep i).1, ← (hrest i).1]; exact hcurve
  have he1 : (s1.2 i).exists_ = true := (hstep i).2.1 ((hrest i).2.1 hex)
  have hd : ops.detect_curve s1.2 n_bond p = true := hdet s1.2 n_bond p ⟨i, hi, he1, hc1⟩
  have hval : (nested_curve_step ops n_atom n_bond s1 p)
      = ops.delete_curve_with_children s1.1 (mark_curve_arom s1.2 n_bond p.id) n_atom n_bond
          child := by
    unfold nested_curve_step
    simp only [hsign, hd, and_self, if_true, hchild, hcs, hgchild, hgs]
  have hmark : (mark_curve_arom s1.2 n_bond p.id i).arom = true := by
    rw [mark_curve_arom_apply, if_pos ⟨hi, he1, hc1⟩]
  apply (hrest i).2.2
  rw [hval]
  rcases hdel s1.1 (mark_curve_arom s1.2 n_bond p.id) n_atom n_bond child i with e | e
  · rw [e]; exact hmark
  · rw [e]; exact hmark

theorem delete_on_curve_kills (atom : Atoms) (bond : Bonds) (p : Nat) :
    OnlyKills bond (delete_on_curve atom bond p).2 := by
  intro k
  unfold delete_on_curve
  dsimp only
  split
  · exact Or.inr rfl
  · exact Or.inl rfl

theorem detect_on_curve_complete (bond : Bonds) (n : Nat) (q : potrace_path_t)
    (h : ∃ i, i < n ∧ (bond i).exists_ = true ∧ (bond i).curve = q.id) :
    detect_on_curve bond n q = true := by
  obtain ⟨i, hi, he, hc⟩ := h
  unfold detect_on_curve
  rw [List.any_eq_true]
  exact ⟨i, List.mem_range.mpr hi, by simp [he, hc]⟩

/-- Witness for C20 (amended): the hole curve `hole_outer` with the stand-in helpers. -/
theorem find_old_aromatic_bonds_hole_outer_witness :
    ((find_old_aromatic_bonds euclid ring_math curve_ops [hole_outer] ring_bonds 2 ring_atoms
      3 10).2 0).arom = true :=
  find_old_aromatic_bonds_hole_outer euclid ring_math curve_ops [hole_outer] ring_bonds 2
    ring_atoms 3 10 hole_outer (.mk 2 PLUS 50 [] (some (.mk 3 MINUS 20 [] none)))
    (.mk 3 MINUS 20 [] none)
    (fun atom bond _ _ q => delete_on_curve_kills atom bond q.id)
    detect_on_curve_complete (by simp) (by decide) rfl (by decide) rfl (by decide)
    0 (by decide) (by decide!) (by decide!)

/-- The example of C20 evaluated: bond 0 on the hole curve is aromatic on return, and the
bond on the inner solid curve has been deleted. -/
theorem find_old_aromatic_bonds_example :
    ((find_old_aromatic_bonds euclid ring_math curve_ops [hole_outer] ring_bonds 2 ring_atoms
      3 10).2 0).exists_ = true ∧
    ((find_old_aromatic_bonds euclid ring_math curve_ops [hole_outer] ring_bonds 2 ring_atoms
      3 10).2 0).arom = true ∧
    ((find_old_aromatic_bonds euclid ring_math curve_ops [hole_outer] ring_bonds 2 ring_atoms
      3 10).2 1).exists_ = false := by
  decide!

/-! ## `find_dashed_bonds` and `extend_dashed_bond` -/

theorem free_dots_le (dot : Dashes) (n : Nat) : free_dots dot n ≤ n := by
  unfold free_dots
  exact (List.length_filter_le _ _).trans (by simp)

theorem free_dots_frame (dot : Dashes) (k : Nat) (d : dash_t) :
    ∀ n, n ≤ k → free_dots (upd dot k d) n = free_dots dot n := by
  intro n
  induction n with
  | zero => intro _; rfl
  | succ m ih =>
    intro h
    have := ih (by omega)
    unfold free_dots at this ⊢
    rw [filter_range_succ_length, filter_range_succ_length, this, upd_other _ _ _ _ (by omega)]

/-- Taking a free dot lowers the number of free dots by one. -/
theorem free_dots_take (dot : Dashes) (k : Nat) (hf : (dot k).free = true) :
    ∀ n, k < n → free_dots (upd dot k { dot k with free := false }) n + 1 = free_dots dot n := by
  intro n
  induction n with
  | zero => intro h; omega
  | succ m ih =>
    intro h
    by_cases hk : k = m
    · subst hk
      have := free_dots_frame dot k { dot k with free := false } k (le_refl k)
      unfold free_dots at this ⊢
      rw [filter_range_succ_length, filter_range_succ_length, this, upd_same]
      simp [hf]
    · have := ih (by omega)
      unfold free_dots at this ⊢
      rw [filter_range_succ_length, filter_range_succ_length, upd_other _ _ _ _ (Ne.symm hk)]
      omega

/-- A successful search of a round of the `while` loop ends on a free dot below `n_dot`. -/
theorem nearest_to_middle_found (G : Geometry) (V_DISPLACEMENT dist : ℚ) (n_dot next_dot : Nat)
    (g : dash_group)
    (h : (nearest_to_middle G V_DISPLACEMENT dist n_dot next_dot g).2.2.1 = true) :
    (nearest_to_middle G V_DISPLACEMENT dist n_dot next_dot g).2.2.2 < n_dot ∧
    (g.dot (nearest_to_middle G V_DISPLACEMENT dist n_dot next_dot g).2.2.2).free = true := by
  revert h
  unfold nearest_to_middle
  refine forLoop_inv _
    (fun _ (s : dash_t × ℚ × Bool × Nat) =>
      s.2.2.1 = true → s.2.2.2 < n_dot ∧ (g.dot s.2.2.2).free = true) _ _ ?_ ?_
  · intro h; simp at h
  · intro t s ht hs
    dsimp only
    split
    · rename_i hc
      simp only [Bool.and_eq_true] at hc
      intro _
      exact ⟨by dsimp only; omega, hc.1.1.1⟩
    · exact hs

/-- A round of the `while` loop that runs lowers the number of free dots, or clears
`found`. -/
theorem grow_group_measure (G : Geometry) (V_DISPLACEMENT dist : ℚ) (n_dot next_dot : Nat)
    (g : dash_group) (hc : (decide (g.n > 1) && g.found) = true) :
    free_dots (grow_group G V_DISPLACEMENT dist n_dot next_dot g).dot n_dot
        + (if (grow_group G V_DISPLACEMENT dist n_dot next_dot g).found then 1 else 0)
      < free_dots g.dot n_dot + (if g.found then 1 else 0) := by
  simp only [Bool.and_eq_true] at hc
  rw [hc.2]
  unfold grow_group
  split
  · rename_i hf
    obtain ⟨h1, h2⟩ := nearest_to_middle_found G V_DISPLACEMENT dist n_dot next_dot g hf
    have h3 := free_dots_take g.dot _ h2 n_dot h1
    simp only [take_dash, if_true]
    rw [← h3]
    exact Nat.lt_succ_self _
  · simp

/-- The `while` loop of the grouping ends by its test within the rounds that the model gives
it: the group it leaves has `n ≤ 1` or `found` false. -/
theorem gather_dashes_ends (G : Geometry) (V_DISPLACEMENT dist : ℚ) (dot : Dashes)
    (n_dot i : Nat) :
    (decide ((gather_dashes G V_DISPLACEMENT dist dot n_dot i).n > 1) &&
      (gather_dashes G V_DISPLACEMENT dist dot n_dot i).found) = false := by
  unfold gather_dashes
  refine (whileLoop_inv (fun (g : dash_group) => decide (g.n > 1) && g.found) _
    (fun _ => True)
    (fun g => free_dots g.dot n_dot + (if g.found then 1 else 0))
    (fun g _ hc => ⟨trivial, grow_group_measure G V_DISPLACEMENT dist n_dot _ g hc⟩)
    (n_dot + 1) _ trivial ?_).2
  have h : ∀ g : dash_group,
      free_dots g.dot n_dot + (if g.found then 1 else 0) ≤ n_dot + 1 := by
    intro g
    have := free_dots_le g.dot n_dot
    split <;> omega
  exact h _

/-- A dot that is not free, and a group of fewer than three dashes, leave the graph as it
is. -/
theorem find_dashed_bonds_dot_small (G : Geometry) (ops : CurveOps) (V_DISPLACEMENT dist : ℚ)
    (n_dot i : Nat) (s : Dashes × graph_t)
    (h : (s.1 i).free = false ∨ (gather_dashes G V_DISPLACEMENT dist s.1 n_dot i).n ≤ 2) :
    (find_dashed_bonds_dot G ops V_DISPLACEMENT dist n_dot i s).2 = s.2 := by
  unfold find_dashed_bonds_dot
  rcases h with h | h
  · simp [h]
  · split
    · unfold group_bond
      rw [if_neg (by omega)]
    · rfl

/-! ## `thickness_hor`, `thickness_ver` and `find_wedge_bonds` -/

/-- The forward scan of `thickness_hor` and `thickness_ver` ends by its test within the
rounds that the model gives it. -/
theorem scan_forward_ends (pix : Int → Int) (hi x s : Int) :
    (fun (st : Int × Int) => decide (x + st.1 < hi) && st.2 == 1)
      (whileLoop (fun (st : Int × Int) => decide (x + st.1 < hi) && st.2 == 1)
        (fun st => (st.1 + 1, pix (x + st.1))) (hi - x).toNat (0, s)) = false := by
  refine (whileLoop_inv (fun (st : Int × Int) => decide (x + st.1 < hi) && st.2 == 1)
    (fun st => (st.1 + 1, pix (x + st.1))) (fun st => 0 ≤ st.1)
    (fun st => (hi - x - st.1).toNat) ?_ (hi - x).toNat (0, s) (le_refl _) (by simp)).2
  intro st h0 ht
  simp only [Bool.and_eq_true, decide_eq_true_eq] at ht
  dsimp only at h0 ⊢
  omega

/-- The backward scan of `thickness_hor` and `thickness_ver` ends by its test within the
rounds that the model gives it. -/
theorem scan_backward_ends (pix : Int → Int) (x : Int) :
    (fun (st : Int × Int) => decide (x - st.1 ≥ 0) && st.2 == 1)
      (whileLoop (fun (st : Int × Int) => decide (x - st.1 ≥ 0) && st.2 == 1)
        (fun st => (st.1 + 1, pix (x - st.1))) x.toNat (1, 1)) = false := by
  refine (whileLoop_inv (fun (st : Int × Int) => decide (x - st.1 ≥ 0) && st.2 == 1)
    (fun st => (st.1 + 1, pix (x - st.1))) (fun st => 1 ≤ st.1)
    (fun st => (x - st.1 + 1).toNat) ?_ x.toNat (1, 1) (le_refl _) (by simp)).2
  intro st h0 ht
  simp only [Bool.and_eq_true, decide_eq_true_eq] at ht
  dsimp only at h0 ⊢
  omega

/-- The loop that hands bond ends over to the `b` end of bond `i` keeps the wedge flag and
the `b` end of bond `i`; its `a` end stays or becomes the `b` end. -/
theorem redirect_ends_keeps (i j a0 b0 : Nat) (n_bond : Nat) (bond : Bonds)
    (h : (bond i).wedge = true ∧ (bond i).b = b0 ∧ ((bond i).a = a0 ∨ (bond i).a = b0)) :
    ((redirect_ends n_bond i j bond) i).wedge = true ∧
    ((redirect_ends n_bond i j bond) i).b = b0 ∧
    (((redirect_ends n_bond i j bond) i).a = a0 ∨ ((redirect_ends n_bond i j bond) i).a = b0) := by
  unfold redirect_ends
  refine forLoop_inv _
    (fun _ (bond : Bonds) =>
      (bond i).wedge = true ∧ (bond i).b = b0 ∧ ((bond i).a = a0 ∨ (bond i).a = b0)) _ _ h ?_
  intro k bond _ hk
  obtain ⟨h1, h2, h3⟩ := hk
  dsimp only
  by_cases hki : k = i
  · subst hki
    split
    · split
      · rw [upd_same]; exact ⟨h1, h2, Or.inr h2⟩
      · split
        · rw [upd_same]; exact ⟨h1, h2, h3⟩
        · exact ⟨h1, h2, h3⟩
    · exact ⟨h1, h2, h3⟩
  · split
    · split
      · rw [upd_other _ _ _ _ (Ne.symm hki)]; exact ⟨h1, h2, h3⟩
      · split
        · rw [upd_other _ _ _ _ (Ne.symm hki)]; exact ⟨h1, h2, h3⟩
        · exact ⟨h1, h2, h3⟩
    · exact ⟨h1, h2, h3⟩

/-- The merge at the wide end keeps the wedge flag and the `b` end of bond `i`; its `a` end
stays or becomes the `b` end. -/
theorem merge_wide_end_keeps (G : Geometry) (n_atom n_bond i : Nat) (w : Int) (a0 b0 : Nat)
    (s : Atoms × Bonds)
    (h : (s.2 i).wedge = true ∧ (s.2 i).b = b0 ∧ ((s.2 i).a = a0 ∨ (s.2 i).a = b0)) :
    ((merge_wide_end G n_atom n_bond i w s).2 i).wedge = true ∧
    ((merge_wide_end G n_atom n_bond i w s).2 i).b = b0 ∧
    (((merge_wide_end G n_atom n_bond i w s).2 i).a = a0 ∨
      ((merge_wide_end G n_atom n_bond i w s).2 i).a = b0) := by
  unfold merge_wide_end
  refine forLoop_inv _
    (fun _ (s : Atoms × Bonds) =>
      (s.2 i).wedge = true ∧ (s.2 i).b = b0 ∧ ((s.2 i).a = a0 ∨ (s.2 i).a = b0)) _ _ h ?_
  intro j s _ hs
  dsimp only
  split
  · exact redirect_ends_keeps i j a0 b0 n_bond s.2 hs
  · exact hs

/-- The merge at the wide end changes nothing when no other existing atom lies within `w` of
the `b` end of bond `i`. -/
theorem merge_wide_end_idle (G : Geometry) (n_atom n_bond i : Nat) (w : Int)
    (s : Atoms × Bonds)
    (h : ∀ j, j < n_atom → (s.1 j).exists_ = true → j ≠ (s.2 i).b →
      ¬ G.distance (s.1 (s.2 i).b).x (s.1 (s.2 i).b).y (s.1 j).x (s.1 j).y ≤ (w : ℚ)) :
    merge_wide_end G n_atom n_bond i w s = s := by
  unfold merge_wide_end
  refine forLoop_inv _ (fun _ (t : Atoms × Bonds) => t = s) _ _ rfl ?_
  intro j t hj ht
  subst ht
  dsimp only
  rw [if_neg]
  intro hc
  simp only [Bool.and_eq_true, decide_eq_true_eq, bne_iff_ne, ne_eq] at hc
  exact h j hj hc.1.1 hc.1.2 hc.2

/-- Conversions of equal numbers are equal: a span between the conversions of the larger
and the smaller end, cut by `dist ≥ 0` on both sides, is positive only when the ends
differ. -/
theorem span_pos_ne (p q : ℚ) (dist : Int) (hd : 0 ≤ dist)
    (h : 0 < (to_int (max p q) - dist) - (to_int (min p q) + dist)) : p ≠ q := by
  intro hpq
  subst hpq
  simp only [max_self, min_self] at h
  omega

/-- The variable `sign` is `-1` exactly when the `b` end lies before the `a` end on the
sampling axis. -/
theorem fit_thickness_sign (image : Image) (MAX_BOND_THICKNESS : Int) (avg : ℚ) (dist : Int)
    (a b : atom_t) :
    (fit_thickness image MAX_BOND_THICKNESS avg dist a b).sign
      = if along (fit_thickness image MAX_BOND_THICKNESS avg dist a b) b
          < along (fit_thickness image MAX_BOND_THICKNESS avg dist a b) a then -1 else 1 := by
  unfold fit_thickness along
  dsimp only
  split <;> simp

/-- The sampled span lies between the conversions of the two ends, cut by `dist` on both
sides. -/
theorem fit_thickness_span (image : Image) (MAX_BOND_THICKNESS : Int) (avg : ℚ) (dist : Int)
    (a b : atom_t) :
    (fit_thickness image MAX_BOND_THICKNESS avg dist a b).max_c
        - (fit_thickness image MAX_BOND_THICKNESS avg dist a b).min_c
      = (to_int (max (along (fit_thickness image MAX_BOND_THICKNESS avg dist a b) a)
            (along (fit_thickness image MAX_BOND_THICKNESS avg dist a b) b)) - dist)
        - (to_int (min (along (fit_thickness image MAX_BOND_THICKNESS avg dist a b) a)
            (along (fit_thickness image MAX_BOND_THICKNESS avg dist a b) b)) + dist) := by
  unfold fit_thickness along
  dsimp only
  split <;> simp

/-- The orientation rule on numbers: with `sign = -1` exactly when `cb < ca`, and the two
ends exchanged exactly when `beta * sign < 0`, the slope times the step from the `a` end to
the `b` end is not negative. -/
theorem orient_nonneg (beta ca cb : ℚ) (sign : Int)
    (hs : sign = if cb < ca then -1 else 1) :
    0 ≤ beta * ((if beta * (sign : ℚ) < 0 then ca else cb)
      - (if beta * (sign : ℚ) < 0 then cb else ca)) := by
  by_cases h : cb < ca
  · rw [if_pos h] at hs
    subst hs
    by_cases hb : beta * ((-1 : Int) : ℚ) < 0
    · rw [if_pos hb, if_pos hb]
      push_cast at hb
      exact mul_nonneg (by linarith) (by linarith)
    · rw [if_neg hb, if_neg hb]
      push_cast at hb
      exact mul_nonneg_of_nonpos_of_nonpos (by linarith) (by linarith)
  · rw [if_neg h] at hs
    subst hs
    by_cases hb : beta * ((1 : Int) : ℚ) < 0
    · rw [if_pos hb, if_pos hb]
      push_cast at hb
      exact mul_nonneg_of_nonpos_of_nonpos (by linarith) (by linarith)
    · rw [if_neg hb, if_neg hb]
      push_cast at hb
      exact mul_nonneg (by linarith) (by linarith)

/-- Claim C15, amended: for a bond `i` that the loop of `find_wedge_bonds` samples and
classifies as a wedge (`|beta|` times the sampled span exceeds `limit`), the classification
sets the wedge flag and exchanges the ends of the bond exactly when `beta * sign < 0`;
right after it, on the atoms as they are at that moment, the `b` end is the end towards
which the fitted thickness grows along the sampling axis (strictly so for `limit ≥ 0` and
`dist ≥ 0`).  The merge of the atoms near the wide end, which follows, keeps the wedge flag
and the `b` end of the bond, but its `a` end either stays or is handed over to the `b` end;
when no other existing atom lies within `w` of the wide end, the merge changes nothing. -/
theorem find_wedge_bonds_bond_orients (image : Image) (G : Geometry) (MAX_BOND_THICKNESS : Int)
    (n_atom n_bond : Nat) (max_dist_double_bond avg : ℚ) (limit dist : Int) (i : Nat)
    (st : wedge_state) (f : wedge_fit) (cl : Bonds)
    (hf : f = fit_thickness image MAX_BOND_THICKNESS avg dist (st.atom (st.bond i).a)
      (st.atom (st.bond i).b))
    (hcl : cl = classify_wedge limit f st.bond i)
    (hq : ((st.bond i).exists_ && !(st.bond i).hash && decide ((st.bond i).type = 1) &&
      decide (bond_length G st.bond i st.atom > max_dist_double_bond)) = true)
    (hw : ¬ (thickness_ver image
          (to_int (((st.atom (st.bond i).a).x + (st.atom (st.bond i).b).x) / 2))
          (to_int (((st.atom (st.bond i).a).y + (st.atom (st.bond i).b).y) / 2)) = 0 ∧
        thickness_hor image
          (to_int (((st.atom (st.bond i).a).x + (st.atom (st.bond i).b).x) / 2))
          (to_int (((st.atom (st.bond i).a).y + (st.atom (st.bond i).b).y) / 2)) = 0))
    (hc : |f.beta| * ((f.max_c - f.min_c : Int) : ℚ) > (limit : ℚ)) :
    cl i = (if f.beta * (f.sign : ℚ) < 0
      then { st.bond i with wedge := true, a := (st.bond i).b, b := (st.bond i).a }
      else { st.bond i with wedge := true }) ∧
    (∀ k, k ≠ i → cl k = st.bond k) ∧
    0 ≤ f.beta * (along f (st.atom (cl i).b) - along f (st.atom (cl i).a)) ∧
    (0 ≤ limit → 0 ≤ dist →
      0 < f.beta * (along f (st.atom (cl i).b) - along f (st.atom (cl i).a))) ∧
    ((find_wedge_bonds_bond image G MAX_BOND_THICKNESS n_atom n_bond max_dist_double_bond avg
      limit dist i st).bond i).wedge = true ∧
    ((find_wedge_bonds_bond image G MAX_BOND_THICKNESS n_atom n_bond max_dist_double_bond avg
      limit dist i st).bond i).b = (cl i).b ∧
    (((find_wedge_bonds_bond image G MAX_BOND_THICKNESS n_atom n_bond max_dist_double_bond avg
        limit dist i st).bond i).a = (cl i).a ∨
      ((find_wedge_bonds_bond image G MAX_BOND_THICKNESS n_atom n_bond max_dist_double_bond avg
        limit dist i st).bond i).a = (cl i).b) ∧
    ((∀ j, j < n_atom → (st.atom j).exists_ = true → j ≠ (cl i).b →
        ¬ G.distance (st.atom (cl i).b).x (st.atom (cl i).b).y (st.atom j).x (st.atom j).y
          ≤ (f.w : ℚ)) →
      (find_wedge_bonds_bond image G MAX_BOND_THICKNESS n_atom n_bond max_dist_double_bond avg
        limit dist i st).atom = st.atom ∧
      (find_wedge_bonds_bond image G MAX_BOND_THICKNESS n_atom n_bond max_dist_double_bond avg
        limit dist i st).bond = cl) := by
  have hsign := fit_thickness_sign image MAX_BOND_THICKNESS avg dist (st.atom (st.bond i).a)
    (st.atom (st.bond i).b)
  have hspan := fit_thickness_span image MAX_BOND_THICKNESS avg dist (st.atom (st.bond i).a)
    (st.atom (st.bond i).b)
  rw [← hf] at hsign hspan
  have hcli : cl i = (if f.beta * (f.sign : ℚ) < 0
      then { st.bond i with wedge := true, a := (st.bond i).b, b := (st.bond i).a }
      else { st.bond i with wedge := true }) := by
    rw [hcl]
    unfold classify_wedge
    rw [if_pos hc]
    split
    · unfold bond_end_swap; rw [upd_same, upd_same]
    · rw [upd_same]
  have hclk : ∀ k, k ≠ i → cl k = st.bond k := by
    intro k hk
    rw [hcl]
    unfold classify_wedge
    rw [if_pos hc]
    split
    · unfold bond_end_swap; rw [upd_other _ _ _ _ hk, upd_other _ _ _ _ hk]
    · rw [upd_other _ _ _ _ hk]
  have hwedge : (cl i).wedge = true := by
    rw [hcli]; split <;> rfl
  have hba : (cl i).b = (if f.beta * (f.sign : ℚ) < 0 then (st.bond i).a else (st.bond i).b) ∧
      (cl i).a = (if f.beta * (f.sign : ℚ) < 0 then (st.bond i).b else (st.bond i).a) := by
    rw [hcli]; split <;> exact ⟨rfl, rfl⟩
  have hnn : 0 ≤ f.beta * (along f (st.atom (cl i).b) - along f (st.atom (cl i).a)) := by
    have := orient_nonneg f.beta (along f (st.atom (st.bond i).a))
      (along f (st.atom (st.bond i).b)) f.sign hsign
    rw [hba.1, hba.2]
    by_cases hb : f.beta * (f.sign : ℚ) < 0
    · simp only [if_pos hb] at this ⊢; exact this
    · simp only [if_neg hb] at this ⊢; exact this
  have hout : find_wedge_bonds_bond image G MAX_BOND_THICKNESS n_atom n_bond
      max_dist_double_bond avg limit dist i st
      = { st with
          atom := (merge_wide_end G n_atom n_bond i f.w (st.atom, cl)).1
          bond := (merge_wide_end G n_atom n_bond i f.w (st.atom, cl)).2 } := by
    have hk := merge_wide_end_keeps G n_atom n_bond i f.w (cl i).a (cl i).b (st.atom, cl)
      ⟨hwedge, rfl, Or.inl rfl⟩
    unfold find_wedge_bonds_bond
    rw [if_pos hq, if_neg hw]
    simp only [← hf, ← hcl, hwedge, if_true]
    rw [if_neg (by simp [hk.1])]
  have hk := merge_wide_end_keeps G n_atom n_bond i f.w (cl i).a (cl i).b (st.atom, cl)
    ⟨hwedge, rfl, Or.inl rfl⟩
  refine ⟨hcli, hclk, hnn, ?_, ?_, ?_, ?_, ?_⟩
  · intro hl hd
    have hlq : (0 : ℚ) ≤ (limit : ℚ) := by exact_mod_cast hl
    have hpos : 0 < |f.beta| * ((f.max_c - f.min_c : Int) : ℚ) := lt_of_le_of_lt hlq hc
    have hb0 : f.beta ≠ 0 := by
      intro h0
      rw [h0] at hpos
      simp at hpos
    have hsp : (0 : ℚ) < ((f.max_c - f.min_c : Int) : ℚ) := by
      rcases lt_or_ge (0 : ℚ) ((f.max_c - f.min_c : Int) : ℚ) with h | h
      · exact h
      · exact absurd hpos (not_lt.mpr (mul_nonpos_of_nonneg_of_nonpos (abs_nonneg _) h))
    have hsp2 : 0 < f.max_c - f.min_c := by exact_mod_cast hsp
    rw [hspan] at hsp2
    have hne := span_pos_ne _ _ dist hd hsp2
    have hne2 : along f (st.atom (cl i).b) - along f (st.atom (cl i).a) ≠ 0 := by
      rw [hba.1, hba.2]
      by_cases hb : f.beta * (f.sign : ℚ) < 0
      · simp only [if_pos hb]; exact sub_ne_zero.mpr hne
      · simp only [if_neg hb]; exact sub_ne_zero.mpr (Ne.symm hne)
    exact lt_of_le_of_ne hnn (Ne.symm (mul_ne_zero hb0 hne2))
  · rw [hout]; exact hk.1
  · rw [hout]; exact hk.2.1
  · rw [hout]; exact hk.2.2
  · intro hno
    rw [hout]
    rw [merge_wide_end_idle G n_atom n_bond i f.w (st.atom, cl) hno]
    exact ⟨rfl, rfl⟩

/-- Claim C15 as stated fails: the short wedge is a bond from atom 0 at `(0, 5)` to atom 1 at
`(4, 5)` whose thickness grows with `x`; it is sampled along `x` with slope `1` over the
span `4 > limit = 3` and `sign = 1`, so it is classified as a wedge and its ends are not
swapped.  The largest thickness is `w = 6`, atom 0 lies within `w` of the wide end, and the
merge switches atom 0 off and hands the `a` end over: on return both ends of the wedge are
atom 1, so its `a` end is not the narrow end. -/
theorem find_wedge_bonds_short_wedge_self_joined :
    (fit_thickness short_wedge 10 30 0 (short_wedge_atoms 0) (short_wedge_atoms 1)).along_x
      = true ∧
    (fit_thickness short_wedge 10 30 0 (short_wedge_atoms 0) (short_wedge_atoms 1)).beta = 1 ∧
    (fit_thickness short_wedge 10 30 0 (short_wedge_atoms 0) (short_wedge_atoms 1)).sign = 1 ∧
    (fit_thickness short_wedge 10 30 0 (short_wedge_atoms 0) (short_wedge_atoms 1)).max_c
      - (fit_thickness short_wedge 10 30 0 (short_wedge_atoms 0) (short_wedge_atoms 1)).min_c
      = 4 ∧
    (fit_thickness short_wedge 10 30 0 (short_wedge_atoms 0) (short_wedge_atoms 1)).w = 6 ∧
    ((find_wedge_bonds short_wedge euclid 10 short_wedge_atoms 2 short_wedge_bonds 1 3 30 3
      0).2.2 0).wedge = true ∧
    ((find_wedge_bonds short_wedge euclid 10 short_wedge_atoms 2 short_wedge_bonds 1 3 30 3
      0).2.2 0).a = 1 ∧
    ((find_wedge_bonds short_wedge euclid 10 short_wedge_atoms 2 short_wedge_bonds 1 3 30 3
      0).2.2 0).b = 1 ∧
    ((find_wedge_bonds short_wedge euclid 10 short_wedge_atoms 2 short_wedge_bonds 1 3 30 3
      0).2.1 0).exists_ = false := by
  decide!

/-- Witness for C15 (amended): the bond of the long wedge, which runs from the wide end to
the narrow end on entry. -/
theorem find_wedge_bonds_bond_orients_witness :
    ((find_wedge_bonds_bond long_wedge euclid 10 2 1 3 30 2 1 0 long_wedge_state).bond 0).wedge
      = true ∧
    ((find_wedge_bonds_bond long_wedge euclid 10 2 1 3 30 2 1 0 long_wedge_state).bond 0).b
      = (classify_wedge 2 long_wedge_fit long_wedge_state.bond 0 0).b :=
  ⟨(find_wedge_bonds_bond_orients long_wedge euclid 10 2 1 3 30 2 1 0 long_wedge_state
      long_wedge_fit (classify_wedge 2 long_wedge_fit long_wedge_state.bond 0) rfl rfl
      (by decide!) (by decide!) (by decide!)).2.2.2.2.1,
    (find_wedge_bonds_bond_orients long_wedge euclid 10 2 1 3 30 2 1 0 long_wedge_state
      long_wedge_fit (classify_wedge 2 long_wedge_fit long_wedge_state.bond 0) rfl rfl
      (by decide!) (by decide!) (by decide!)).2.2.2.2.2.1⟩

/-- The long wedge evaluated: the slope is positive and `sign = -1`, the ends are swapped,
and on return the bond runs from atom 1 at the narrow end to atom 0 at the wide end. -/
theorem find_wedge_bonds_example :
    long_wedge_fit.beta = 18 / 55 ∧ long_wedge_fit.sign = -1 ∧
    ((find_wedge_bonds long_wedge euclid 10 long_wedge_atoms 2 long_wedge_bonds 1 3 30 2
      1).2.2 0).wedge = true ∧
    ((find_wedge_bonds long_wedge euclid 10 long_wedge_atoms 2 long_wedge_bonds 1 3 30 2
      1).2.2 0).a = 1 ∧
    ((find_wedge_bonds long_wedge euclid 10 long_wedge_atoms 2 long_wedge_bonds 1 3 30 2
      1).2.2 0).b = 0 ∧
    ((find_wedge_bonds long_wedge euclid 10 long_wedge_atoms 2 long_wedge_bonds 1 3 30 2
      1).2.1 0).x = 12 ∧
    ((find_wedge_bonds long_wedge euclid 10 long_wedge_atoms 2 long_wedge_bonds 1 3 30 2
      1).2.1 1).x = 0 ∧
    ((find_wedge_bonds long_wedge euclid 10 long_wedge_atoms 2 long_wedge_bonds 1 3 30 2
      1).2.1 1).exists_ = true := by
  decide!

/-! ## `collapse_atoms`: termination -/

/-- The merge of atom `j` into atom `i` switches no atom on. -/
theorem merge_atoms_exists (i j : Nat) (atom : Atoms) (k : Nat)
    (h : (merge_atoms i j atom k).exists_ = true) : (atom k).exists_ = true := by
  unfold merge_atoms at h
  dsimp only at h
  by_cases hki : k = i <;> by_cases hkj : k = j <;>
    (split at h <;> simp [upd, hki, hkj] at h <;> first | exact h | simp_all [upd])

/-- A pass of `collapse_atoms` switches no atom on. -/
theorem collapse_atoms_pass_exists (G : Geometry) (n_atom n_bond : Nat) (dist : ℚ)
    (s : Atoms × Bonds) (k : Nat)
    (h : ((collapse_atoms_pass G n_atom n_bond dist s).1.1 k).exists_ = true) :
    (s.1 k).exists_ = true := by
  revert h
  unfold collapse_atoms_pass
  refine forLoop_inv (collapse_atoms_row G n_atom n_bond dist)
    (fun _ (t : (Atoms × Bonds) × Bool) => (t.1.1 k).exists_ = true → (s.1 k).exists_ = true)
    n_atom (s, false) id ?_
  intro i t _ ht
  unfold collapse_atoms_row
  split
  · refine forLoop_inv (collapse_atoms_step G n_bond dist i)
      (fun _ (u : (Atoms × Bonds) × Bool) => (u.1.1 k).exists_ = true → (s.1 k).exists_ = true)
      n_atom t ht ?_
    intro j u _ hu
    unfold collapse_atoms_step
    split
    · intro h
      exact hu (merge_atoms_exists i j u.1.1 k h)
    · exact hu
  · exact ht

/-- With more passes allowed than there are existing atoms, one more pass allowed changes
nothing: the loop has ended by its test. -/
theorem collapse_atoms_loop_fuel (G : Geometry) (n_atom n_bond : Nat) (dist : ℚ) :
    ∀ (fuel extra : Nat) (s : Atoms × Bonds), count_atoms s.1 n_atom < fuel →
      collapse_atoms_loop G n_atom n_bond dist (fuel + extra) s
        = collapse_atoms_loop G n_atom n_bond dist fuel s := by
  intro fuel
  induction fuel with
  | zero => intro _ s h; omega
  | succ m ih =>
    intro extra s h
    rw [show m + 1 + extra = (m + extra) + 1 from by omega]
    unfold collapse_atoms_loop
    by_cases hp : (collapse_atoms_pass G n_atom n_bond dist s).2 = true
    · rw [if_pos hp, if_pos hp]
      have := collapse_atoms_pass_count G n_atom n_bond dist s hp
      exact ih extra _ (by omega)
    · rw [if_neg hp, if_neg hp]

/-- C24. `collapse_atoms` terminates.  A pass of the loop `while (found)` that sets `found`
leaves strictly fewer existing atoms below `n_atom`, and no pass switches an atom on; so the
loop runs at most `n_atom + 1` passes: the result of `collapse_atoms` is the result of the
loop for every larger bound on the number of passes, and the pass after the last one finds
nothing.  This holds for every graph, every `dist` and every `distance` helper. -/
theorem collapse_atoms_terminates (G : Geometry) (atom : Atoms) (bond : Bonds)
    (n_atom n_bond : Nat) (dist : ℚ) :
    (∀ fuel, n_atom + 1 ≤ fuel →
      collapse_atoms_loop G n_atom n_bond dist fuel (atom, bond)
        = collapse_atoms G atom bond n_atom n_bond dist) ∧
    (collapse_atoms_pass G n_atom n_bond dist
      (collapse_atoms G atom bond n_atom n_bond dist)).2 = false ∧
    (∀ s : Atoms × Bonds, (collapse_atoms_pass G n_atom n_bond dist s).2 = true →
      count_atoms (collapse_atoms_pass G n_atom n_bond dist s).1.1 n_atom
        < count_atoms s.1 n_atom) ∧
    (∀ (s : Atoms × Bonds) (k : Nat),
      ((collapse_atoms_pass G n_atom n_bond dist s).1.1 k).exists_ = true →
      (s.1 k).exists_ = true) := by
  have hc : count_atoms atom n_atom < n_atom + 1 := Nat.lt_succ_of_le (count_atoms_le atom n_atom)
  refine ⟨?_, ?_, fun s h => collapse_atoms_pass_count G n_atom n_bond dist s h,
    fun s k h => collapse_atoms_pass_exists G n_atom n_bond dist s k h⟩
  · intro fuel hf
    obtain ⟨e, rfl⟩ := Nat.exists_eq_add_of_le hf
    exact collapse_atoms_loop_fuel G n_atom n_bond dist (n_atom + 1) e (atom, bond) hc
  · exact collapse_atoms_loop_stable G n_atom n_bond dist (n_atom + 1) (atom, bond) hc

/-! ## `find_up_down_bonds`: the order of the ends of double bonds -/

theorem KeepsDouble.refl_double (b : Bonds) : KeepsDouble b b :=
  fun _ => ⟨rfl, rfl, fun _ => rfl⟩

theorem KeepsDouble.trans_double {b r t : Bonds} (h1 : KeepsDouble b r) (h2 : KeepsDouble r t) :
    KeepsDouble b t := fun k =>
  ⟨(h2 k).1.trans (h1 k).1, (h2 k).2.1.trans (h1 k).2.1, fun h =>
    ((h2 k).2.2 (by rw [(h1 k).1]; exact h)).trans ((h1 k).2.2 h)⟩

/-- A change of a single bond other than in its order and exists flag keeps the double
bonds. -/
theorem KeepsDouble.of_upd (b : Bonds) (j : Nat) (x : bond_t) (h1 : (b j).type = 1)
    (hx : x.type = (b j).type) (he : x.exists_ = (b j).exists_) : KeepsDouble b (upd b j x) := by
  intro k
  by_cases hk : k = j
  · subst hk
    rw [upd_same]
    exact ⟨hx, he, fun h => absurd h1 h⟩
  · rw [upd_other _ _ _ _ hk]
    exact ⟨rfl, rfl, fun _ => rfl⟩

/-- A round of the inner loop of `find_up_down_bonds` changes single bonds only, and
neither their order nor their exists flag. -/
theorem find_up_down_bonds_step_keeps (G : Geometry) (atom : Atoms) (thickness : ℚ)
    (i j : Nat) (bond : Bonds) :
    KeepsDouble bond (find_up_down_bonds_step G atom thickness i j bond) := by
  unfold find_up_down_bonds_step
  split
  · rename_i hc
    simp only [Bool.and_eq_true, beq_iff_eq] at hc
    have h1 : (bond j).type = 1 := hc.1.1.2
    have k1 : KeepsDouble bond (upd bond j { bond j with down := false, up := false }) :=
      KeepsDouble.of_upd bond j _ h1 rfl rfl
    have hmark : ∀ (b : Bonds) (h : ℚ), (b j).type = 1 →
        KeepsDouble b (mark_down_up b j h thickness) ∧
        KeepsDouble b (mark_up_down b j h thickness) := by
      intro b h hb
      unfold mark_down_up mark_up_down
      refine ⟨?_, ?_⟩ <;> split
      · exact KeepsDouble.of_upd b j _ hb rfl rfl
      · split
        · exact KeepsDouble.of_upd b j _ hb rfl rfl
        · exact KeepsDouble.refl_double b
      · exact KeepsDouble.of_upd b j _ hb rfl rfl
      · split
        · exact KeepsDouble.of_upd b j _ hb rfl rfl
        · exact KeepsDouble.refl_double b
    have hswap : ∀ (b : Bonds), (b j).type = 1 → KeepsDouble b (bond_end_swap b j) := by
      intro b hb
      unfold bond_end_swap
      exact KeepsDouble.of_upd b j _ hb rfl rfl
    have ht1 : (upd bond j { bond j with down := false, up := false } j).type = 1 := by
      rw [upd_same]; exact h1
    dsimp only
    split
    · exact k1.trans_double (hmark _ _ ht1).1
    · split
      · have ht2 : (bond_end_swap (upd bond j { bond j with down := false, up := false }) j
            j).type = 1 := by
          unfold bond_end_swap; rw [upd_same]; exact ht1
        exact k1.trans_double ((hswap _ ht1).trans_double (hmark _ _ ht2).1)
      · split
        · exact k1.trans_double (hmark _ _ ht1).2
        · split
          · have ht2 : (bond_end_swap (upd bond j { bond j with down := false, up := false }) j
                j).type = 1 := by
              unfold bond_end_swap; rw [upd_same]; exact ht1
            exact k1.trans_double ((hswap _ ht1).trans_double (hmark _ _ ht2).2)
          · exact k1
  · exact KeepsDouble.refl_double bond

/-- The two conditional swaps at the head of a round bring the ends of bond `i` into the
canonical order and change no other bond; a bond already in canonical order is left as it
is. -/
theorem canonical_swaps (atom : Atoms) (bond : Bonds) (i : Nat) :
    let b1 := if (atom (bond i).a).x > (atom (bond i).b).x then bond_end_swap bond i else bond
    let b2 := if (atom (b1 i).a).x = (atom (b1 i).b).x ∧ (atom (b1 i).a).y > (atom (b1 i).b).y
      then bond_end_swap b1 i else b1
    Canonical atom (b2 i) ∧ (∀ k, k ≠ i → b2 k = bond k) ∧
      (b2 i).type = (bond i).type ∧ (b2 i).exists_ = (bond i).exists_ ∧
      (Canonical atom (bond i) → b2 = bond) := by
  intro b1 b2
  have hb1 : b1 i = (if (atom (bond i).a).x > (atom (bond i).b).x
      then { bond i with a := (bond i).b, b := (bond i).a } else bond i) := by
    show (if (atom (bond i).a).x > (atom (bond i).b).x then bond_end_swap bond i else bond) i = _
    split
    · unfold bond_end_swap; rw [upd_same]
    · rfl
  have hb1k : ∀ k, k ≠ i → b1 k = bond k := by
    intro k hk
    show (if (atom (bond i).a).x > (atom (bond i).b).x then bond_end_swap bond i else bond) k = _
    split
    · unfold bond_end_swap; rw [upd_other _ _ _ _ hk]
    · rfl
  have hb2 : b2 i = (if (atom (b1 i).a).x = (atom (b1 i).b).x ∧
      (atom (b1 i).a).y > (atom (b1 i).b).y
      then { b1 i with a := (b1 i).b, b := (b1 i).a } else b1 i) := by
    show (if (atom (b1 i).a).x = (atom (b1 i).b).x ∧ (atom (b1 i).a).y > (atom (b1 i).b).y
      then bond_end_swap b1 i else b1) i = _
    split
    · unfold bond_end_swap; rw [upd_same]
    · rfl
  have hb2k : ∀ k, k ≠ i → b2 k = b1 k := by
    intro k hk
    show (if (atom (b1 i).a).x = (atom (b1 i).b).x ∧ (atom (b1 i).a).y > (atom (b1 i).b).y
      then bond_end_swap b1 i else b1) k = _
    split
    · unfold bond_end_swap; rw [upd_other _ _ _ _ hk]
    · rfl
  refine ⟨?_, fun k hk => (hb2k k hk).trans (hb1k k hk), ?_, ?_, ?_⟩
  · rw [hb2]
    unfold Canonical
    by_cases hx : (atom (bond i).a).x > (atom (bond i).b).x
    · rw [hb1, if_pos hx]
      dsimp only
      rw [if_neg (fun h => absurd h.1 (ne_of_lt hx))]
      exact Or.inl hx
    · rw [hb1, if_neg hx]
      by_cases hy : (atom (bond i).a).x = (atom (bond i).b).x ∧
          (atom (bond i).a).y > (atom (bond i).b).y
      · rw [if_pos hy]
        exact Or.inr ⟨hy.1.symm, le_of_lt hy.2⟩
      · rw [if_neg hy]
        rcases lt_or_eq_of_le (not_lt.mp hx) with h | h
        · exact Or.inl h
        · exact Or.inr ⟨h, not_lt.mp (fun hgt => hy ⟨h, hgt⟩)⟩
  · rw [hb2, hb1]; split <;> split <;> rfl
  · rw [hb2, hb1]; split <;> split <;> rfl
  · intro hc
    unfold Canonical at hc
    have hx : ¬ (atom (bond i).a).x > (atom (bond i).b).x := by
      rcases hc with h | h
      · exact not_lt.mpr (le_of_lt h)
      · exact not_lt.mpr (le_of_eq h.1)
    have e1 : b1 = bond := if_neg hx
    have hy : ¬ ((atom (bond i).a).x = (atom (bond i).b).x ∧
        (atom (bond i).a).y > (atom (bond i).b).y) := by
      rintro ⟨h1, h2⟩
      rcases hc with h | h
      · exact absurd h1 (ne_of_lt h)
      · exact absurd h2 (not_lt.mpr h.2)
    show (if (atom (b1 i).a).x = (atom (b1 i).b).x ∧ (atom (b1 i).a).y > (atom (b1 i).b).y
      then bond_end_swap b1 i else b1) = bond
    rw [e1, if_neg hy]

/-- A round of the outer loop of `find_up_down_bonds` keeps orders and exists flags; it
leaves an existing double bond `i` in canonical order; it changes no other double bond, and
no double bond that is in canonical order already. -/
theorem find_up_down_bonds_row_spec (G : Geometry) (n_bond : Nat) (atom : Atoms)
    (thickness : ℚ) (i : Nat) (bond : Bonds) :
    (∀ k, ((find_up_down_bonds_row G n_bond atom thickness i bond) k).type = (bond k).type ∧
      ((find_up_down_bonds_row G n_bond atom thickness i bond) k).exists_ = (bond k).exists_) ∧
    ((bond i).exists_ = true → (bond i).type = 2 →
      Canonical atom ((find_up_down_bonds_row G n_bond atom thickness i bond) i)) ∧
    (∀ k, (bond k).type = 2 → (k ≠ i ∨ Canonical atom (bond k)) →
      (find_up_down_bonds_row G n_bond atom thickness i bond) k = bond k) := by
  unfold find_up_down_bonds_row
  split
  · rename_i hc
    simp only [Bool.and_eq_true, beq_iff_eq] at hc
    obtain ⟨hcan, hoth, hty, hex, hsame⟩ := canonical_swaps atom bond i
    dsimp only at hcan hoth hty hex hsame ⊢
    generalize (if (atom ((if (atom (bond i).a).x > (atom (bond i).b).x
        then bond_end_swap bond i else bond) i).a).x
        = (atom ((if (atom (bond i).a).x > (atom (bond i).b).x
        then bond_end_swap bond i else bond) i).b).x ∧
        (atom ((if (atom (bond i).a).x > (atom (bond i).b).x
        then bond_end_swap bond i else bond) i).a).y
        > (atom ((if (atom (bond i).a).x > (atom (bond i).b).x
        then bond_end_swap bond i else bond) i).b).y
      then bond_end_swap (if (atom (bond i).a).x > (atom (bond i).b).x
        then bond_end_swap bond i else bond) i
      else (if (atom (bond i).a).x > (atom (bond i).b).x
        then bond_end_swap bond i else bond)) = b2 at hcan hoth hty hex hsame ⊢
    have hkeep : KeepsDouble b2 (forLoop (find_up_down_bonds_step G atom thickness i) n_bond b2) :=
      forLoop_inv _ (fun _ r => KeepsDouble b2 r) n_bond b2 (KeepsDouble.refl_double b2)
        (fun j r _ hr => hr.trans_double (find_up_down_bonds_step_keeps G atom thickness i j r))
    have hb2 : ∀ k, (b2 k).type = (bond k).type ∧ (b2 k).exists_ = (bond k).exists_ := by
      intro k
      by_cases hk : k = i
      · subst hk; exact ⟨hty, hex⟩
      · rw [hoth k hk]; exact ⟨rfl, rfl⟩
    refine ⟨fun k => ⟨(hkeep k).1.trans (hb2 k).1, (hkeep k).2.1.trans (hb2 k).2⟩, ?_, ?_⟩
    · intro _ _
      rw [(hkeep i).2.2 (by rw [hty, hc.2]; decide)]
      exact hcan
    · intro k hk2 hk
      rw [(hkeep k).2.2 (by rw [(hb2 k).1, hk2]; decide)]
      by_cases hki : k = i
      · subst hki
        rcases hk with h | h
        · exact absurd rfl h
        · rw [hsame h]
      · exact hoth k hki
  · rename_i hc
    refine ⟨fun k => ⟨rfl, rfl⟩, ?_, fun _ _ _ => rfl⟩
    intro h1 h2
    exact absurd (by simp [h1, h2]) hc

/-- C27. Double-bond canonical order.  After `find_up_down_bonds` every existing bond of
order 2 below `n_bond` has its `a` end leftmost, then topmost: `atom[a].x < atom[b].x`, or
`atom[a].x = atom[b].x` and `atom[a].y <= atom[b].y`.  The rounds of later double bonds never
undo it: after its own round `k` the record of a double bond `k` is the same after every
later round.  Orders and exists flags are never changed. -/
theorem find_up_down_bonds_canonical (G : Geometry) (bond : Bonds) (n_bond : Nat)
    (atom : Atoms) (thickness : ℚ) :
    (∀ k, k < n_bond → ((find_up_down_bonds G bond n_bond atom thickness) k).exists_ = true →
      ((find_up_down_bonds G bond n_bond atom thickness) k).type = 2 →
      Canonical atom ((find_up_down_bonds G bond n_bond atom thickness) k)) ∧
    (∀ k m, k < m → (bond k).exists_ = true → (bond k).type = 2 →
      Canonical atom (forLoop (find_up_down_bonds_row G n_bond atom thickness) m bond k) ∧
      forLoop (find_up_down_bonds_row G n_bond atom thickness) m bond k
        = forLoop (find_up_down_bonds_row G n_bond atom thickness) (k + 1) bond k) ∧
    (∀ k, ((find_up_down_bonds G bond n_bond atom thickness) k).type = (bond k).type ∧
      ((find_up_down_bonds G bond n_bond atom thickness) k).exists_ = (bond k).exists_) := by
  have hte : ∀ m k,
      (forLoop (find_up_down_bonds_row G n_bond atom thickness) m bond k).type = (bond k).type ∧
      (forLoop (find_up_down_bonds_row G n_bond atom thickness) m bond k).exists_
        = (bond k).exists_ := by
    intro m
    induction m with
    | zero => intro k; exact ⟨rfl, rfl⟩
    | succ m ih =>
      intro k
      rw [forLoop_succ]
      have := (find_up_down_bonds_row_spec G n_bond atom thickness m
        (forLoop (find_up_down_bonds_row G n_bond atom thickness) m bond)).1 k
      exact ⟨this.1.trans (ih k).1, this.2.trans (ih k).2⟩
  have hlate : ∀ k m, k < m → (bond k).exists_ = true → (bond k).type = 2 →
      Canonical atom (forLoop (find_up_down_bonds_row G n_bond atom thickness) m bond k) ∧
      forLoop (find_up_down_bonds_row G n_bond atom thickness) m bond k
        = forLoop (find_up_down_bonds_row G n_bond atom thickness) (k + 1) bond k := by
    intro k m hkm he ht
    obtain ⟨d, rfl⟩ : ∃ d, m = k + 1 + d := ⟨m - (k + 1), by omega⟩
    clear hkm
    induction d with
    | zero =>
      refine ⟨?_, rfl⟩
      rw [Nat.add_zero, forLoop_succ]
      exact (find_up_down_bonds_row_spec G n_bond atom thickness k
        (forLoop (find_up_down_bonds_row G n_bond atom thickness) k bond)).2.1
        (by rw [(hte k k).2]; exact he) (by rw [(hte k k).1]; exact ht)
    | succ d ih =>
      rw [show k + 1 + (d + 1) = (k + 1 + d) + 1 from by omega, forLoop_succ]
      have hsame := (find_up_down_bonds_row_spec G n_bond atom thickness (k + 1 + d)
        (forLoop (find_up_down_bonds_row G n_bond atom thickness) (k + 1 + d) bond)).2.2 k
        (by rw [(hte (k + 1 + d) k).1]; exact ht) (Or.inr ih.1)
      rw [hsame]
      exact ih
  refine ⟨?_, hlate, hte n_bond⟩
  intro k hk he ht
  exact (hlate k n_bond hk (by rw [← (hte n_bond k).2]; exact he)
    (by rw [← (hte n_bond k).1]; exact ht)).1

/-- The example of C27 evaluated: the double bond given from right to left is turned, the
other double bond stays. -/
theorem find_up_down_bonds_canonical_example :
    ((find_up_down_bonds euclid reversed_bonds 3 up_down_atoms 1) 0).a = 0 ∧
    ((find_up_down_bonds euclid reversed_bonds 3 up_down_atoms 1) 0).b = 1 ∧
    ((find_up_down_bonds euclid reversed_bonds 3 up_down_atoms 1) 2).a = 3 ∧
    ((find_up_down_bonds euclid reversed_bonds 3 up_down_atoms 1) 2).b = 4 := by
  decide!

/-! ## `find_dashed_bonds`: the atoms of a dashed bond and the image -/

/-- When the two atoms are at non-zero distance and `n` is not 1, no division of
`extend_dashed_bond` has a zero divisor, and the checked function agrees with the
function. -/
theorem extend_dashed_bond_checked_some (G : Geometry) (a b n : Nat) (atom : Atoms)
    (hl : G.distance (atom a).x (atom a).y (atom b).x (atom b).y ≠ 0) (hn : n ≠ 1) :
    extend_dashed_bond_checked G a b n atom = some (extend_dashed_bond G a b n atom) := by
  have hn1 : ((n : ℚ) - 1) ≠ 0 := by
    intro h
    have : (n : ℚ) = 1 := by linarith
    exact hn (by exact_mod_cast this)
  unfold extend_dashed_bond_checked extend_dashed_bond checked_div
  simp only [hl, hn1, if_false, Option.bind_some, Option.some_bind]

/-- When the two atoms are at distance zero the first division of `extend_dashed_bond`
has a zero divisor. -/
theorem extend_dashed_bond_checked_none (G : Geometry) (a b n : Nat) (atom : Atoms)
    (hl : G.distance (atom a).x (atom a).y (atom b).x (atom b).y = 0) :
    extend_dashed_bond_checked G a b n atom = none := by
  unfold extend_dashed_bond_checked checked_div
  simp only [hl, if_true, Option.bind_none, Option.none_bind]

/-- C29 fails in the code.  For two atoms at the same position `(3, 4)` and `n = 3` the
length `l` of the bond is `0`, and `extend_dashed_bond` divides by it (`kx = (x1 - x0) / l`):
the checked function reports the division by zero.  For two atoms 10 apart the same call
divides by non-zero numbers only and moves the atoms to `x = -5` and `x = 15`. -/
theorem extend_dashed_bond_divides_by_zero :
    euclid.distance (coincident_atoms 0).x (coincident_atoms 0).y (coincident_atoms 1).x
      (coincident_atoms 1).y = 0 ∧
    checked_div ((coincident_atoms 1).x - (coincident_atoms 0).x)
      (euclid.distance (coincident_atoms 0).x (coincident_atoms 0).y (coincident_atoms 1).x
        (coincident_atoms 1).y) = none ∧
    extend_dashed_bond_checked euclid 0 1 3 coincident_atoms = none ∧
    (extend_dashed_bond_checked euclid 0 1 3 apart_atoms).isSome = true ∧
    ((extend_dashed_bond euclid 0 1 3 apart_atoms) 0).x = -5 ∧
    ((extend_dashed_bond euclid 0 1 3 apart_atoms) 1).x = 15 := by
  refine ⟨by decide!, by decide!, ?_, ?_, by decide!, by decide!⟩
  · exact extend_dashed_bond_checked_none euclid 0 1 3 coincident_atoms (by decide!)
  · rw [extend_dashed_bond_checked_some euclid 0 1 3 apart_atoms (by decide!) (by decide)]
    rfl

/-! ## `flatten_bonds` -/

/-- C22 fails in the code.  In `nitrile_bonds` every bond exists and joins two distinct
existing atoms: the single bonds `B - C` (bond 0) and `A - B` (bond 1) lie on one line, and
the triple bond `B - D` (bond 2) ends at the blank atom `B`.  The loop that counts the
neighbours of bond 0 at `B` skips the triple bond, finds the one neighbour `A - B`, and the
merge switches bond 1 and atom `B` off and moves the `a` end of bond 0 to `A`.  On return
(the loop has ended with `found` false) the triple bond still exists and still ends at
atom `B`, which does not exist. -/
theorem flatten_bonds_leaves_dangling_triple :
    (∀ k, k < 3 → (nitrile_bonds k).exists_ = true ∧ (nitrile_bonds k).a ≠ (nitrile_bonds k).b ∧
      (nitrile_atoms (nitrile_bonds k).a).exists_ = true ∧
      (nitrile_atoms (nitrile_bonds k).b).exists_ = true) ∧
    (flatten_bonds euclid nitrile_bonds 3 nitrile_atoms 2).2 = false ∧
    ((flatten_bonds euclid nitrile_bonds 3 nitrile_atoms 2).1.2 2).exists_ = true ∧
    ((flatten_bonds euclid nitrile_bonds 3 nitrile_atoms 2).1.2 2).type = 3 ∧
    ((flatten_bonds euclid nitrile_bonds 3 nitrile_atoms 2).1.2 2).a = 1 ∧
    ((flatten_bonds euclid nitrile_bonds 3 nitrile_atoms 2).1.1 1).exists_ = false ∧
    ((flatten_bonds euclid nitrile_bonds 3 nitrile_atoms 2).1.2 0).exists_ = true ∧
    ((flatten_bonds euclid nitrile_bonds 3 nitrile_atoms 2).1.2 0).a = 0 ∧
    ((flatten_bonds euclid nitrile_bonds 3 nitrile_atoms 2).1.2 0).b = 2 ∧
    ((flatten_bonds euclid nitrile_bonds 3 nitrile_atoms 2).1.2 1).exists_ = false := by
  refine ⟨by decide, ?_, ?_, ?_, ?_, ?_, ?_, ?_, ?_, ?_⟩ <;> decide!

/-! ## `double_triple_bonds`: the extended case -/

/-- The dispatch to the extended case: when bond `j` is existing, near-parallel to bond `i`,
close enough and overlapping, `T` is what the triple-bond search leaves with bond `j` still
existing, and `l1 > avg`, `l1 > 1.5 * l2`, `l2 > 0.5 * avg` for the length `l2` of bond `j`,
the body of the `j` loop runs the extended case with `ii = i` and `jj = j`. -/
theorem pair_body_extended (G : Geometry) (avg max_dist_double_bond : ℚ) (i j : Nat) (l1 : ℚ)
    (g : graph_t) (T : Bonds)
    (hje : (g.bond j).exists_ = true) (hpar : near_parallel G g.bond i j g.atom = true)
    (hsep : distance_between_bonds G g.bond i j g.atom ≤ max_dist_double_bond)
    (hwi : bonds_within_each_other G g.bond i j g.atom = true)
    (hT : triple_search G avg max_dist_double_bond g.atom g.n_bond i j
      (bond_length G g.bond j g.atom) (distance_between_bonds G g.bond i j g.atom) g.bond = T)
    (hTj : (T j).exists_ = true)
    (h1 : l1 > avg) (h2 : l1 > 3 / 2 * bond_length G g.bond j g.atom)
    (h3 : bond_length G g.bond j g.atom > 1 / 2 * avg) :
    pair_body G avg max_dist_double_bond i l1 j g
      = (extended_merge G i j l1 (bond_length G g.bond j g.atom) { g with bond := T }, false) := by
  unfold pair_body
  simp only [hje, hpar, Bool.and_self, if_true, hsep, decide_True, hwi, hT, hTj, Bool.not_true,
    Bool.false_eq_true, if_false, h1, h2, h3, gt_iff_lt]

/-- The example of C26 evaluated: the long bond 2 from `(20, 0)` to `(20, 30)` of length 30
and the short bond 3 of length 5 beside its middle.  Two atoms are inserted at `(20, 15)`
and `(20, 25)`, bond 2 runs between them with order 2, the inserted bonds 4 and 5 join the
old ends 4 and 5 to them, and bond 3 is switched off. -/
theorem extended_merge_example :
    bond_length euclid_sq double_graph.bond 2 double_graph.atom = 30 ∧
    bond_length euclid_sq double_graph.bond 3 double_graph.atom = 5 ∧
    (extended_merge euclid_sq 2 3 30 5 double_graph).n_atom = 10 ∧
    (extended_merge euclid_sq 2 3 30 5 double_graph).n_bond = 6 ∧
    ((extended_merge euclid_sq 2 3 30 5 double_graph).bond 2).a = 8 ∧
    ((extended_merge euclid_sq 2 3 30 5 double_graph).bond 2).b = 9 ∧
    ((extended_merge euclid_sq 2 3 30 5 double_graph).bond 2).type = 2 ∧
    ((extended_merge euclid_sq 2 3 30 5 double_graph).bond 4).a = 4 ∧
    ((extended_merge euclid_sq 2 3 30 5 double_graph).bond 4).b = 8 ∧
    ((extended_merge euclid_sq 2 3 30 5 double_graph).bond 5).a = 5 ∧
    ((extended_merge euclid_sq 2 3 30 5 double_graph).bond 5).b = 9 ∧
    ((extended_merge euclid_sq 2 3 30 5 double_graph).atom 8).y = 15 ∧
    ((extended_merge euclid_sq 2 3 30 5 double_graph).atom 9).y = 25 := by
  decide!

/-- A counting loop `for (j = 0; j < n; j++)` whose body may raise `n`, and only to values
below `M`, ends by its test within `n + M` rounds; `n` does not shrink, and it grows only
below `M`. -/
theorem grow_loop_ends (M : Nat) (f : Nat → Bonds × Nat → Bonds × Nat)
    (hf : ∀ j s, s.2 ≤ (f j s).2 ∧ ((f j s).2 = s.2 ∨ (f j s).2 < M))
    (s : Bonds × Nat) (fuel : Nat) (hfuel : s.2 + M ≤ fuel) :
    decide ((whileLoop (fun (t : (Bonds × Nat) × Nat) => decide (t.2 < t.1.2))
        (fun t => (f t.2 t.1, t.2 + 1)) fuel (s, 0)).2
      < (whileLoop (fun (t : (Bonds × Nat) × Nat) => decide (t.2 < t.1.2))
        (fun t => (f t.2 t.1, t.2 + 1)) fuel (s, 0)).1.2) = false ∧
    s.2 ≤ (whileLoop (fun (t : (Bonds × Nat) × Nat) => decide (t.2 < t.1.2))
        (fun t => (f t.2 t.1, t.2 + 1)) fuel (s, 0)).1.2 ∧
    ((whileLoop (fun (t : (Bonds × Nat) × Nat) => decide (t.2 < t.1.2))
        (fun t => (f t.2 t.1, t.2 + 1)) fuel (s, 0)).1.2 = s.2 ∨
      (whileLoop (fun (t : (Bonds × Nat) × Nat) => decide (t.2 < t.1.2))
        (fun t => (f t.2 t.1, t.2 + 1)) fuel (s, 0)).1.2 < M) := by
  have key := whileLoop_inv (fun (t : (Bonds × Nat) × Nat) => decide (t.2 < t.1.2))
    (fun t => (f t.2 t.1, t.2 + 1))
    (fun t => s.2 ≤ t.1.2 ∧ (t.1.2 = s.2 ∨ t.1.2 < M))
    (fun t => max s.2 M - t.2)
    (by
      intro t hI ht
      simp only [decide_eq_true_eq] at ht
      dsimp only
      have hn : t.1.2 ≤ max s.2 M := by
        rcases hI.2 with e | e
        · rw [e]; exact le_max_left _ _
        · exact le_trans (le_of_lt e) (le_max_right _ _)
      obtain ⟨h1, h2⟩ := hf t.2 t.1
      refine ⟨⟨le_trans hI.1 h1, ?_⟩, by omega⟩
      rcases h2 with e | e
      · rw [e]; exact hI.2
      · exact Or.inr e)
    fuel (s, 0) ⟨le_refl _, Or.inl rfl⟩
    (by
      dsimp only
      have : max s.2 M ≤ s.2 + M := max_le (by omega) (by omega)
      omega)
  exact ⟨key.2, key.1.1, key.1.2⟩

theorem one_sided_pair_count (G : Geometry) (thickness avg l : ℚ) (atom : Atoms) (i j : Nat)
    (s : Bonds × Nat) :
    s.2 ≤ (one_sided_pair G thickness avg l atom i j s).2 ∧
    ((one_sided_pair G thickness avg l atom i j s).2 = s.2 ∨
      (one_sided_pair G thickness avg l atom i j s).2 < G.MAX_ATOMS) := by
  have hb : s.2 ≤ bump G s.2 ∧ (bump G s.2 = s.2 ∨ bump G s.2 < G.MAX_ATOMS) :=
    ⟨bump_ge G s.2, bump_bound G s.2⟩
  unfold one_sided_pair
  split_ifs <;> first
    | exact ⟨le_refl _, Or.inl rfl⟩
    | exact hb

/-- The inner loop of `fix_one_sided_bonds` ends by its test within the rounds that the
model gives it, and the bond count does not shrink and grows only below `MAX_ATOMS`. -/
theorem one_sided_row_ends (G : Geometry) (thickness avg l : ℚ) (atom : Atoms) (i : Nat)
    (s : Bonds × Nat) :
    decide ((whileLoop (fun (t : (Bonds × Nat) × Nat) => decide (t.2 < t.1.2))
        (fun t => (one_sided_pair G thickness avg l atom i t.2 t.1, t.2 + 1))
        (s.2 + G.MAX_ATOMS) (s, 0)).2
      < (one_sided_row G thickness avg l atom i s).2) = false ∧
    s.2 ≤ (one_sided_row G thickness avg l atom i s).2 ∧
    ((one_sided_row G thickness avg l atom i s).2 = s.2 ∨
      (one_sided_row G thickness avg l atom i s).2 < G.MAX_ATOMS) :=
  grow_loop_ends G.MAX_ATOMS (one_sided_pair G thickness avg l atom i)
    (one_sided_pair_count G thickness avg l atom i) s (s.2 + G.MAX_ATOMS) (le_refl _)

/-- The outer loop of `fix_one_sided_bonds` ends by its test within the rounds that the model
gives it; the count that the function returns is at least `n_bond`, and it is below
`MAX_ATOMS` unless it is `n_bond`. -/
theorem fix_one_sided_bonds_ends (G : Geometry) (bond : Bonds) (n_bond : Nat) (atom : Atoms)
    (thickness avg : ℚ) :
    decide ((whileLoop (fun (t : (Bonds × Nat) × Nat) => decide (t.2 < t.1.2))
        (fun t =>
          (if (t.1.1 t.2).exists_ && decide ((t.1.1 t.2).type < 3) &&
              decide (bond_length G t.1.1 t.2 atom > avg / 3)
            then one_sided_row G thickness avg (bond_length G t.1.1 t.2 atom) atom t.2 t.1
            else t.1, t.2 + 1))
        (n_bond + G.MAX_ATOMS) ((bond, n_bond), 0)).2
      < (fix_one_sided_bonds G bond n_bond atom thickness avg).2) = false ∧
    n_bond ≤ (fix_one_sided_bonds G bond n_bond atom thickness avg).2 ∧
    ((fix_one_sided_bonds G bond n_bond atom thickness avg).2 = n_bond ∨
      (fix_one_sided_bonds G bond n_bond atom thickness avg).2 < G.MAX_ATOMS) :=
  grow_loop_ends G.MAX_ATOMS
    (fun i s =>
      if (s.1 i).exists_ && decide ((s.1 i).type < 3) &&
          decide (bond_length G s.1 i atom > avg / 3)
        then one_sided_row G thickness avg (bond_length G s.1 i atom) atom i s
        else s)
    (fun i s => by
      dsimp only
      split
      · exact (one_sided_row_ends G thickness avg _ atom i s).2
      · exact ⟨le_refl _, Or.inl rfl⟩)
    (bond, n_bond) (n_bond + G.MAX_ATOMS) (le_refl _)

/-- The body of the inner loop at a pair that qualifies.  Let `j` pass the test of the inner
loop for bond `i`, share no end
with bond `i`, both below `n_bond`, with room for one more bond.  If the `a` end `p` of `j`
is nearer than `thickness` to the line of `i` and its distance along `i` lies strictly
between `0` and the length `l` that the code holds for `i`, the body splits bond `i` at `p`;
if the `a` end is not that near but the `b` end `p` of `j` is, with its distance along `i`
strictly between `0` and `l`, the body splits bond `i` at that `p`.  The split appends at
`n_bond` one existing bond from `p` to the former `b` end of `i` with the order, the curve
and the flags `hash`, `wedge`, `arom`, `conjoined` of `i` (and `up`, `down`, `Small` false),
sets the `b` end of `i` to `p` and clears the wedge flag of `i`, changes no other bond, and
raises the bond count by one; the atoms are not part of the state. -/
theorem one_sided_pair_splits (G : Geometry) (thickness avg l : ℚ) (atom : Atoms) (i j : Nat)
    (s : Bonds × Nat) (hi : i < s.2) (hj : j < s.2) (hcap : s.2 + 1 < G.MAX_ATOMS)
    (hq : one_sided_candidate G avg atom i j s.1 = true)
    (hshare : (s.1 j).a ≠ (s.1 i).a ∧ (s.1 j).a ≠ (s.1 i).b ∧
      (s.1 j).b ≠ (s.1 i).a ∧ (s.1 j).b ≠ (s.1 i).b) :
    (beside_line G atom s.1 i (s.1 j).a < thickness →
      0 < along_line G atom s.1 i (s.1 j).a → along_line G atom s.1 i (s.1 j).a < l →
      one_sided_pair G thickness avg l atom i j s = split_bond G i j true s) ∧
    (¬ beside_line G atom s.1 i (s.1 j).a < thickness →
      beside_line G atom s.1 i (s.1 j).b < thickness →
      0 < along_line G atom s.1 i (s.1 j).b → along_line G atom s.1 i (s.1 j).b < l →
      one_sided_pair G thickness avg l atom i j s = split_bond G i j false s) ∧
    (∀ at_a : Bool,
      (split_bond G i j at_a s).2 = s.2 + 1 ∧
      (split_bond G i j at_a s).1 s.2
        = { a := if at_a then (s.1 j).a else (s.1 j).b
            b := (s.1 i).b, type := (s.1 i).type, curve := (s.1 i).curve, exists_ := true
            hash := (s.1 i).hash, wedge := (s.1 i).wedge, up := false, down := false
            Small := false, arom := (s.1 i).arom, conjoined := (s.1 i).conjoined } ∧
      (split_bond G i j at_a s).1 i
        = { s.1 i with b := if at_a then (s.1 j).a else (s.1 j).b, wedge := false } ∧
      (∀ k, k ≠ i → k ≠ s.2 → (split_bond G i j at_a s).1 k = s.1 k)) := by
  have hin : i ≠ s.2 := by omega
  have hjn : j ≠ s.2 := by omega
  refine ⟨?_, ?_, ?_⟩
  · intro h1 h2 h3
    unfold one_sided_pair
    rw [if_pos hq, if_pos ⟨h1, fun h => h.elim hshare.2.1 hshare.1⟩, if_pos ⟨h2, h3⟩,
      if_neg (fun h => h.elim hshare.2.2.2 hshare.2.2.1)]
  · intro h0 h1 h2 h3
    unfold one_sided_pair
    rw [if_pos hq, if_neg (fun h => h0 h.1), if_pos ⟨h1, fun h => h.elim hshare.2.2.2 hshare.2.2.1⟩,
      if_pos ⟨h2, h3⟩, if_neg (fun h => h.elim hshare.2.1 hshare.1)]
  · intro at_a
    have hb : bump G s.2 = s.2 + 1 := by unfold bump; rw [if_neg (by omega)]
    unfold split_bond
    refine ⟨hb, ?_, ?_, ?_⟩
    · simp only [upd, hin, Ne.symm hin, if_false, if_true]
      cases h1 : (s.1 i).hash <;> cases h2 : (s.1 i).wedge <;> cases h3 : (s.1 i).arom <;> simp
    · cases at_a <;> simp [upd, hin, Ne.symm hin, hjn]
    · intro k h1 h2
      simp [upd, h1, h2]

/-- The body of the inner loop on `tee_bonds`: the long bond 0 is split at atom 2, the `a`
end of bond 1. -/
theorem one_sided_pair_splits_witness :
    one_sided_pair euclid_sq 2 24 30 tee_atoms 0 1 (tee_bonds, 2)
      = split_bond euclid_sq 0 1 true (tee_bonds, 2) :=
  (one_sided_pair_splits euclid_sq 2 24 30 tee_atoms 0 1 (tee_bonds, 2) (by decide) (by decide)
    (by decide) (by decide!) (by decide)).1 (by decide!) (by decide!) (by decide!)

/-- The function on `tee_bonds` evaluated: `fix_one_sided_bonds` returns 3 bonds; bond 0, a wedge of
order 2 from atom 0 to atom 1, now ends at atom 2 and is no wedge, and the new bond 2 from
atom 2 to atom 1 has order 2 and is a wedge and aromatic. -/
theorem fix_one_sided_bonds_example :
    (fix_one_sided_bonds euclid_sq tee_bonds 2 tee_atoms 2 24).2 = 3 ∧
    ((fix_one_sided_bonds euclid_sq tee_bonds 2 tee_atoms 2 24).1 0).a = 0 ∧
    ((fix_one_sided_bonds euclid_sq tee_bonds 2 tee_atoms 2 24).1 0).b = 2 ∧
    ((fix_one_sided_bonds euclid_sq tee_bonds 2 tee_atoms 2 24).1 0).wedge = false ∧
    ((fix_one_sided_bonds euclid_sq tee_bonds 2 tee_atoms 2 24).1 2).a = 2 ∧
    ((fix_one_sided_bonds euclid_sq tee_bonds 2 tee_atoms 2 24).1 2).b = 1 ∧
    ((fix_one_sided_bonds euclid_sq tee_bonds 2 tee_atoms 2 24).1 2).type = 2 ∧
    ((fix_one_sided_bonds euclid_sq tee_bonds 2 tee_atoms 2 24).1 2).wedge = true ∧
    ((fix_one_sided_bonds euclid_sq tee_bonds 2 tee_atoms 2 24).1 2).arom = true ∧
    ((fix_one_sided_bonds euclid_sq tee_bonds 2 tee_atoms 2 24).1 2).exists_ = true := by
  decide!

/-! ## `extend_terminal_bond_to_bonds`: termination -/

/-- The end at atom `a` of bond `b` is terminal exactly when no other existing bond below
`n_bond` touches atom `a`. -/
theorem terminal_bond_iff (a b : Nat) (bond : Bonds) (n_bond : Nat) :
    terminal_bond a b bond n_bond = true ↔
      ∀ l, l < n_bond → l ≠ b → (bond l).exists_ = true → (bond l).a ≠ a ∧ (bond l).b ≠ a := by
  unfold terminal_bond
  induction n_bond with
  | zero => simp [forLoop]
  | succ n ih =>
    rw [forLoop_succ]
    constructor
    · intro h l hl hlb hle
      by_cases hc : (n != b && (bond n).exists_ && ((bond n).a == a || (bond n).b == a)) = true
      · rw [if_pos hc] at h; exact absurd h (by decide)
      · rw [if_neg hc] at h
        by_cases hln : l = n
        · subst hln
          simp only [Bool.and_eq_true, bne_iff_ne, ne_eq, Bool.or_eq_true, beq_iff_eq, not_and,
            not_or] at hc
          exact hc ⟨hlb, hle⟩
        · exact ih.mp h l (by omega) hlb hle
    · intro h
      have hn := h n (Nat.lt_succ_self n)
      rw [if_neg]
      · exact ih.mpr (fun l hl => h l (Nat.lt_succ_of_lt hl))
      · simp only [Bool.and_eq_true, bne_iff_ne, ne_eq, Bool.or_eq_true, beq_iff_eq, not_and,
          not_or]
        exact fun h2 => hn h2.1 h2.2

/-- Whether an end of bond `j` is terminal does not depend on the record of bond `j`. -/
theorem terminal_bond_congr (a j : Nat) (bond bond2 : Bonds) (n_bond : Nat)
    (h : ∀ k, k ≠ j → bond2 k = bond k) :
    terminal_bond a j bond2 n_bond = terminal_bond a j bond n_bond := by
  rw [Bool.eq_iff_iff, terminal_bond_iff, terminal_bond_iff]
  constructor
  · intro h1 l hl hlj he
    have := h1 l hl hlj (by rw [h l hlj]; exact he)
    rw [h l hlj] at this
    exact this
  · intro h1 l hl hlj he
    rw [h l hlj] at he ⊢
    exact h1 l hl hlj he

theorem terminal_ends_of_le (bond : Bonds) (n_bond k : Nat) :
    terminal_ends_of bond n_bond k ≤ 2 := by
  unfold terminal_ends_of
  split
  · split <;> split <;> omega
  · omega

theorem terminal_ends_le (bond : Bonds) (n_bond : Nat) :
    terminal_ends bond n_bond ≤ 2 * n_bond := by
  unfold terminal_ends
  have : ∀ (l : List Nat), (l.map (terminal_ends_of bond n_bond)).sum ≤ 2 * l.length := by
    intro l
    induction l with
    | nil => simp
    | cons x xs ih =>
      simp only [List.map_cons, List.sum_cons, List.length_cons]
      have := terminal_ends_of_le bond n_bond x
      omega
  have h := this (List.range n_bond)
  rwa [List.length_range] at h

/-- A sum over the indices below `n` goes down by at least one when no term goes up and the
term of `j < n` goes down. -/
theorem sum_range_drop (f g : Nat → Nat) (n j : Nat) (hj : j < n)
    (hle : ∀ k, k < n → f k ≤ g k) (hlt : f j < g j) :
    ((List.range n).map f).sum + 1 ≤ ((List.range n).map g).sum := by
  induction n with
  | zero => omega
  | succ m ih =>
    rw [List.range_succ, List.map_append, List.map_append, List.sum_append, List.sum_append]
    simp only [List.map_cons, List.map_nil, List.sum_cons, List.sum_nil, Nat.add_zero]
    by_cases hjm : j = m
    · subst hjm
      have hall : ((List.range j).map f).sum ≤ ((List.range j).map g).sum := by
        clear ih hj hlt
        have : ∀ i, i ≤ j → ((List.range i).map f).sum ≤ ((List.range i).map g).sum := by
          intro i
          induction i with
          | zero => intro _; simp
          | succ i ihi =>
            intro hi
            rw [List.range_succ, List.map_append, List.map_append, List.sum_append,
              List.sum_append]
            simp only [List.map_cons, List.map_nil, List.sum_cons, List.sum_nil, Nat.add_zero]
            have := ihi (by omega)
            have := hle i (by omega)
            omega
        exact this j (le_refl j)
      omega
    · have := ih (by omega) (fun k hk => hle k (by omega))
      have := hle m (by omega)
      omega

/-- Moving a terminal end of the existing bond `j` to an atom `l` that another existing bond
touches lowers the number of terminal ends: `bond2` is `bond` with that end of `j` at `l`
(`e` reads the moved end of a record, `o` the other end). -/
theorem snap_drop (bond bond2 : Bonds) (n j l : Nat) (e o : bond_t → Nat)
    (heo : ∀ (b : bond_t) (p : Nat), (b.a = p ∨ b.b = p) ↔ (e b = p ∨ o b = p))
    (hcount : ∀ (bd : Bonds) (k : Nat), terminal_ends_of bd n k
      = if (bd k).exists_ then
          (if terminal_bond (e (bd k)) k bd n then 1 else 0)
            + (if terminal_bond (o (bd k)) k bd n then 1 else 0)
        else 0)
    (hj : j < n) (hex : (bond j).exists_ = true)
    (hterm : terminal_bond (e (bond j)) j bond n = true)
    (hi : ∃ i, i < n ∧ i ≠ j ∧ (bond i).exists_ = true ∧ ((bond i).a = l ∨ (bond i).b = l))
    (hoth : ∀ k, k ≠ j → bond2 k = bond k) (h2x : (bond2 j).exists_ = true)
    (h2e : e (bond2 j) = l) (h2o : o (bond2 j) = o (bond j)) :
    terminal_ends bond2 n + 1 ≤ terminal_ends bond n := by
  have hT := (terminal_bond_iff _ _ _ _).mp hterm
  have hkeep : ∀ k p, k < n → k ≠ j → (bond k).exists_ = true →
      (e (bond k) = p ∨ o (bond k) = p) →
      terminal_bond p k bond2 n = true → terminal_bond p k bond n = true := by
    intro k p hk hkj hke hp h
    rw [terminal_bond_iff] at h ⊢
    intro m hm hmk hme
    by_cases hmj : m = j
    · subst hmj
      have h1 := h m hm hmk h2x
      have h2 := hT k hk hkj hke
      have hpe : p ≠ e (bond m) := by
        rcases (heo (bond k) p).mpr hp with q | q
        · rw [← q]; exact h2.1
        · rw [← q]; exact h2.2
      have hpo : p ≠ o (bond m) := by
        intro q
        have : e (bond2 m) = p ∨ o (bond2 m) = p := Or.inr (by rw [h2o]; exact q.symm)
        rcases (heo (bond2 m) p).mpr this with r | r
        · exact h1.1 r
        · exact h1.2 r
      constructor
      · intro q
        rcases (heo (bond m) p).mp (Or.inl q) with r | r
        · exact hpe r.symm
        · exact hpo r.symm
      · intro q
        rcases (heo (bond m) p).mp (Or.inr q) with r | r
        · exact hpe r.symm
        · exact hpo r.symm
    · have h1 := h m hm hmk (by rw [hoth m hmj]; exact hme)
      rw [hoth m hmj] at h1
      exact h1
  have hoj : terminal_bond (o (bond j)) j bond2 n = terminal_bond (o (bond j)) j bond n :=
    terminal_bond_congr _ _ _ _ _ hoth
  have hlj : ¬ terminal_bond l j bond2 n = true := by
    rw [terminal_bond_iff]
    intro h
    obtain ⟨i, hin, hij, hie, hil⟩ := hi
    have := h i hin hij (by rw [hoth i hij]; exact hie)
    rw [hoth i hij] at this
    rcases hil with q | q
    · exact this.1 q
    · exact this.2 q
  unfold terminal_ends
  have hjlt : terminal_ends_of bond2 n j < terminal_ends_of bond n j := by
    rw [hcount bond2 j, hcount bond j, if_pos h2x, if_pos hex, h2e, h2o, hoj, if_neg hlj,
      if_pos hterm]
    omega
  refine sum_range_drop _ _ n j hj ?_ hjlt
  intro k hk
  by_cases hkj : k = j
  · subst hkj
    exact le_of_lt hjlt
  · rw [hcount bond2 k, hcount bond k, hoth k hkj]
    split
    · rename_i hke
      have ha := hkeep k (e (bond k)) hk hkj hke (Or.inl rfl)
      have hb := hkeep k (o (bond k)) hk hkj hke (Or.inr rfl)
      by_cases h1 : terminal_bond (e (bond k)) k bond2 n = true
      · by_cases h2 : terminal_bond (o (bond k)) k bond2 n = true
        · rw [if_pos h1, if_pos h2, if_pos (ha h1), if_pos (hb h2)]
        · rw [if_pos h1, if_neg h2, if_pos (ha h1)]
          omega
      · by_cases h2 : terminal_bond (o (bond k)) k bond2 n = true
        · rw [if_neg h1, if_pos h2, if_pos (hb h2)]
          omega
        · rw [if_neg h1, if_neg h2]
          omega
    · exact le_refl _

/-- The snap of the terminal `a` end of bond `j` lowers the number of terminal ends. -/
theorem snap_a_drop (bond : Bonds) (n j l : Nat) (hj : j < n) (hex : (bond j).exists_ = true)
    (hterm : terminal_bond (bond j).a j bond n = true)
    (hi : ∃ i, i < n ∧ i ≠ j ∧ (bond i).exists_ = true ∧ ((bond i).a = l ∨ (bond i).b = l)) :
    terminal_ends (upd bond j { bond j with a := l }) n + 1 ≤ terminal_ends bond n :=
  snap_drop bond _ n j l (fun b => b.a) (fun b => b.b) (fun _ _ => Iff.rfl)
    (fun _ _ => rfl) hj hex hterm hi (fun k hk => upd_other _ _ _ _ hk)
    (by rw [upd_same]; exact hex) (by rw [upd_same]) (by rw [upd_same])

/-- The snap of the terminal `b` end of bond `j` lowers the number of terminal ends. -/
theorem snap_b_drop (bond : Bonds) (n j l : Nat) (hj : j < n) (hex : (bond j).exists_ = true)
    (hterm : terminal_bond (bond j).b j bond n = true)
    (hi : ∃ i, i < n ∧ i ≠ j ∧ (bond i).exists_ = true ∧ ((bond i).a = l ∨ (bond i).b = l)) :
    terminal_ends (upd bond j { bond j with b := l }) n + 1 ≤ terminal_ends bond n :=
  snap_drop bond _ n j l (fun b => b.b) (fun b => b.a) (fun _ _ => Or.comm)
    (fun bd k => by unfold terminal_ends_of; split <;> simp [Nat.add_comm]) hj hex hterm hi
    (fun k hk => upd_other _ _ _ _ hk)
    (by rw [upd_same]; exact hex) (by rw [upd_same]) (by rw [upd_same])

/-- A candidate test of the search for the `a` end keeps the outcome or selects the
candidate. -/
theorem try_atom_a_cases (G : Geometry) (avg bl y_dist y_dist1 h1 xa ya xb yb : ℚ)
    (atom : Atoms) (bond : Bonds) (j p : Nat) (s : snap_t) :
    try_atom_a G avg bl y_dist y_dist1 h1 xa ya xb yb atom bond j p s = s ∨
    ((try_atom_a G avg bl y_dist y_dist1 h1 xa ya xb yb atom bond j p s).found = true ∧
      (try_atom_a G avg bl y_dist y_dist1 h1 xa ya xb yb atom bond j p s).l = p) := by
  unfold try_atom_a
  split
  · split
    · exact Or.inr ⟨rfl, rfl⟩
    · exact Or.inl rfl
  · exact Or.inl rfl

/-- A candidate test of the search for the `b` end keeps the outcome or selects the
candidate. -/
theorem try_atom_b_cases (G : Geometry) (avg bl y_dist y_dist1 h1 xa ya xb yb : ℚ)
    (atom : Atoms) (bond : Bonds) (j p : Nat) (s : snap_t) :
    try_atom_b G avg bl y_dist y_dist1 h1 xa ya xb yb atom bond j p s = s ∨
    ((try_atom_b G avg bl y_dist y_dist1 h1 xa ya xb yb atom bond j p s).found = true ∧
      (try_atom_b G avg bl y_dist y_dist1 h1 xa ya xb yb atom bond j p s).l = p) := by
  unfold try_atom_b
  split
  · split
    · exact Or.inr ⟨rfl, rfl⟩
    · exact Or.inl rfl
  · exact Or.inl rfl

/-- A successful search for the `a` end ran with `not_corner_a` up and ends on an end of an
existing bond other than `j`. -/
theorem snap_search_a_found (G : Geometry) (avg maxh max_dist_double_bond : ℚ) (n_bond j : Nat)
    (xa ya xb yb bl : ℚ) (not_corner_a : Bool) (atom : Atoms) (bond : Bonds)
    (h : (snap_search_a G avg maxh max_dist_double_bond n_bond j xa ya xb yb bl not_corner_a
      atom bond).found = true) :
    not_corner_a = true ∧ ∃ i, i < n_bond ∧ i ≠ j ∧ (bond i).exists_ = true ∧
      ((bond i).a = (snap_search_a G avg maxh max_dist_double_bond n_bond j xa ya xb yb bl
          not_corner_a atom bond).l ∨
        (bond i).b = (snap_search_a G avg maxh max_dist_double_bond n_bond j xa ya xb yb bl
          not_corner_a atom bond).l) := by
  revert h
  unfold snap_search_a
  refine forLoop_inv _
    (fun m (s : snap_t) => s.found = true → not_corner_a = true ∧
      ∃ i, i < n_bond ∧ i ≠ j ∧ (bond i).exists_ = true ∧ ((bond i).a = s.l ∨ (bond i).b = s.l))
    n_bond _ (fun h => absurd h (by decide)) ?_
  intro i s hi hs
  dsimp only
  split
  · rename_i hc
    simp only [Bool.and_eq_true, bne_iff_ne, ne_eq] at hc
    split
    · rename_i hn
      intro hf
      rcases try_atom_a_cases G avg bl (snap_limit maxh max_dist_double_bond (bond j))
        (snap_limit maxh max_dist_double_bond (bond i))
        |G.distance_from_bond_y (atom (bond i).a).x (atom (bond i).a).y (atom (bond i).b).x
          (atom (bond i).b).y xa ya| xa ya xb yb atom bond j (bond i).b
        (try_atom_a G avg bl (snap_limit maxh max_dist_double_bond (bond j))
          (snap_limit maxh max_dist_double_bond (bond i))
          |G.distance_from_bond_y (atom (bond i).a).x (atom (bond i).a).y (atom (bond i).b).x
            (atom (bond i).b).y xa ya| xa ya xb yb atom bond j (bond i).a s) with e | e
      · rw [e] at hf ⊢
        rcases try_atom_a_cases G avg bl (snap_limit maxh max_dist_double_bond (bond j))
          (snap_limit maxh max_dist_double_bond (bond i))
          |G.distance_from_bond_y (atom (bond i).a).x (atom (bond i).a).y (atom (bond i).b).x
            (atom (bond i).b).y xa ya| xa ya xb yb atom bond j (bond i).a s with e2 | e2
        · rw [e2] at hf ⊢
          exact hs hf
        · exact ⟨hn, i, hi, hc.2, hc.1, Or.inl e2.2.symm⟩
      · exact ⟨hn, i, hi, hc.2, hc.1, Or.inr e.2.symm⟩
    · exact hs
  · exact hs

/-- A successful search for the `b` end ran with `not_corner_b` up and ends on an end of an
existing bond other than `j`. -/
theorem snap_search_b_found (G : Geometry) (avg maxh max_dist_double_bond : ℚ) (n_bond j : Nat)
    (xa ya xb yb bl : ℚ) (not_corner_b : Bool) (atom : Atoms) (bond : Bonds)
    (h : (snap_search_b G avg maxh max_dist_double_bond n_bond j xa ya xb yb bl not_corner_b
      atom bond).found = true) :
    not_corner_b = true ∧ ∃ i, i < n_bond ∧ i ≠ j ∧ (bond i).exists_ = true ∧
      ((bond i).a = (snap_search_b G avg maxh max_dist_double_bond n_bond j xa ya xb yb bl
          not_corner_b atom bond).l ∨
        (bond i).b = (snap_search_b G avg maxh max_dist_double_bond n_bond j xa ya xb yb bl
          not_corner_b atom bond).l) := by
  revert h
  unfold snap_search_b
  refine forLoop_inv _
    (fun m (s : snap_t) => s.found = true → not_corner_b = true ∧
      ∃ i, i < n_bond ∧ i ≠ j ∧ (bond i).exists_ = true ∧ ((bond i).a = s.l ∨ (bond i).b = s.l))
    n_bond _ (fun h => absurd h (by decide)) ?_
  intro i s hi hs
  dsimp only
  split
  · rename_i hc
    simp only [Bool.and_eq_true, bne_iff_ne, ne_eq] at hc
    split
    · rename_i hn
      intro hf
      rcases try_atom_b_cases G avg bl (snap_limit maxh max_dist_double_bond (bond j))
        (snap_limit maxh max_dist_double_bond (bond i))
        |G.distance_from_bond_y (atom (bond i).a).x (atom (bond i).a).y (atom (bond i).b).x
          (atom (bond i).b).y xb yb| xa ya xb yb atom bond j (bond i).b
        (try_atom_b G avg bl (snap_limit maxh max_dist_double_bond (bond j))
          (snap_limit maxh max_dist_double_bond (bond i))
          |G.distance_from_bond_y (atom (bond i).a).x (atom (bond i).a).y (atom (bond i).b).x
            (atom (bond i).b).y xb yb| xa ya xb yb atom bond j (bond i).a s) with e | e
      · rw [e] at hf ⊢
        rcases try_atom_b_cases G avg bl (snap_limit maxh max_dist_double_bond (bond j))
          (snap_limit maxh max_dist_double_bond (bond i))
          |G.distance_from_bond_y (atom (bond i).a).x (atom (bond i).a).y (atom (bond i).b).x
            (atom (bond i).b).y xb yb| xa ya xb yb atom bond j (bond i).a s with e2 | e2
        · rw [e2] at hf ⊢
          exact hs hf
        · exact ⟨hn, i, hi, hc.2, hc.1, Or.inl e2.2.symm⟩
      · exact ⟨hn, i, hi, hc.2, hc.1, Or.inr e.2.symm⟩
    · exact hs
  · exact hs

/-- The first half of a round: either nothing changes, or the terminal `a` end of bond `j`
is snapped, the flag goes up and a terminal end is lost. -/
theorem snap_a_measure (G : Geometry) (avg maxh max_dist_double_bond : ℚ) (n_bond j : Nat)
    (xa ya xb yb bl : ℚ) (s : snap_state) (hj : j < n_bond) (hex : (s.bond j).exists_ = true) :
    snap_a G avg maxh max_dist_double_bond n_bond j xa ya xb yb bl
        (terminal_bond (s.bond j).a j s.bond n_bond) s = s ∨
    ((snap_a G avg maxh max_dist_double_bond n_bond j xa ya xb yb bl
        (terminal_bond (s.bond j).a j s.bond n_bond) s).found_intersection = true ∧
      terminal_ends (snap_a G avg maxh max_dist_double_bond n_bond j xa ya xb yb bl
        (terminal_bond (s.bond j).a j s.bond n_bond) s).bond n_bond + 1
        ≤ terminal_ends s.bond n_bond ∧
      (∀ k, k ≠ j → (snap_a G avg maxh max_dist_double_bond n_bond j xa ya xb yb bl
        (terminal_bond (s.bond j).a j s.bond n_bond) s).bond k = s.bond k) ∧
      ((snap_a G avg maxh max_dist_double_bond n_bond j xa ya xb yb bl
        (terminal_bond (s.bond j).a j s.bond n_bond) s).bond j).exists_ = true ∧
      ((snap_a G avg maxh max_dist_double_bond n_bond j xa ya xb yb bl
        (terminal_bond (s.bond j).a j s.bond n_bond) s).bond j).b = (s.bond j).b) := by
  unfold snap_a
  split
  · rename_i hf
    obtain ⟨hn, hi⟩ := snap_search_a_found G avg maxh max_dist_double_bond n_bond j xa ya xb yb
      bl _ s.atom s.bond hf
    refine Or.inr ⟨rfl, snap_a_drop s.bond n_bond j _ hj hex hn hi,
      fun k hk => upd_other _ _ _ _ hk, ?_, ?_⟩
    · show (upd s.bond j _ j).exists_ = true
      rw [upd_same]; exact hex
    · show (upd s.bond j _ j).b = _
      rw [upd_same]
  · exact Or.inl rfl

/-- The second half of a round, with the test `not_corner_b` taken on bonds that differ
from the present ones in the record of bond `j` only, and not in its `b` end. -/
theorem snap_b_measure (G : Geometry) (avg maxh max_dist_double_bond : ℚ) (n_bond j : Nat)
    (xa ya xb yb bl : ℚ) (not_corner_b : Bool) (s : snap_state) (hj : j < n_bond)
    (hex : (s.bond j).exists_ = true)
    (hnc : not_corner_b = terminal_bond (s.bond j).b j s.bond n_bond) :
    snap_b G avg maxh max_dist_double_bond n_bond j xa ya xb yb bl not_corner_b s = s ∨
    ((snap_b G avg maxh max_dist_double_bond n_bond j xa ya xb yb bl not_corner_b
        s).found_intersection = true ∧
      terminal_ends (snap_b G avg maxh max_dist_double_bond n_bond j xa ya xb yb bl not_corner_b
        s).bond n_bond + 1 ≤ terminal_ends s.bond n_bond) := by
  unfold snap_b
  split
  · rename_i hf
    obtain ⟨hn, hi⟩ := snap_search_b_found G avg maxh max_dist_double_bond n_bond j xa ya xb yb
      bl _ s.atom s.bond hf
    exact Or.inr ⟨rfl, snap_b_drop s.bond n_bond j _ hj hex (by rw [← hnc]; exact hn) hi⟩
  · exact Or.inl rfl

/-- The potential of a pass: the terminal ends, plus one once `found_intersection` is up.
No round raises it. -/
theorem extend_terminal_bond_measure (G : Geometry) (avg maxh max_dist_double_bond : ℚ)
    (n_bond j : Nat) (hj : j < n_bond) (s : snap_state) :
    terminal_ends (extend_terminal_bond G avg maxh max_dist_double_bond n_bond j s).bond n_bond
        + (if (extend_terminal_bond G avg maxh max_dist_double_bond n_bond j
            s).found_intersection then 1 else 0)
      ≤ terminal_ends s.bond n_bond + (if s.found_intersection then 1 else 0) := by
  unfold extend_terminal_bond
  split
  · rename_i hex
    rcases snap_a_measure G avg maxh max_dist_double_bond n_bond j (s.atom (s.bond j).a).x
      (s.atom (s.bond j).a).y (s.atom (s.bond j).b).x (s.atom (s.bond j).b).y
      (bond_length G s.bond j s.atom) s hj hex with e | ⟨e1, e2, e3, e4, e5⟩
    · rw [e]
      rcases snap_b_measure G avg maxh max_dist_double_bond n_bond j (s.atom (s.bond j).a).x
        (s.atom (s.bond j).a).y (s.atom (s.bond j).b).x (s.atom (s.bond j).b).y
        (bond_length G s.bond j s.atom) _ s hj hex rfl with f | ⟨f1, f2⟩
      · rw [f]
      · rw [f1]
        simp only [if_true]
        split <;> omega
    · generalize snap_a G avg maxh max_dist_double_bond n_bond j (s.atom (s.bond j).a).x
        (s.atom (s.bond j).a).y (s.atom (s.bond j).b).x (s.atom (s.bond j).b).y
        (bond_length G s.bond j s.atom) (terminal_bond (s.bond j).a j s.bond n_bond) s = s1
        at e1 e2 e3 e4 e5 ⊢
      have hnc : terminal_bond (s.bond j).b j s.bond n_bond
          = terminal_bond (s1.bond j).b j s1.bond n_bond := by
        rw [e5]
        exact (terminal_bond_congr _ _ _ _ _ e3).symm
      rcases snap_b_measure G avg maxh max_dist_double_bond n_bond j (s.atom (s.bond j).a).x
        (s.atom (s.bond j).a).y (s.atom (s.bond j).b).x (s.atom (s.bond j).b).y
        (bond_length G s.bond j s.atom) _ s1 hj e4 hnc with f | ⟨f1, f2⟩
      · rw [f, e1]
        simp only [if_true]
        split <;> omega
      · rw [f1]
        simp only [if_true]
        split <;> omega
  · exact le_refl _

/-- A pass that sets `found_intersection` leaves strictly fewer terminal ends. -/
theorem extend_terminal_pass_measure (G : Geometry) (avg maxh max_dist_double_bond : ℚ)
    (n_bond : Nat) (s : snap_state) :
    terminal_ends (extend_terminal_pass G avg maxh max_dist_double_bond n_bond s).bond n_bond
        + (if (extend_terminal_pass G avg maxh max_dist_double_bond n_bond
            s).found_intersection then 1 else 0)
      ≤ terminal_ends s.bond n_bond := by
  unfold extend_terminal_pass
  exact forLoop_inv (extend_terminal_bond G avg maxh max_dist_double_bond n_bond)
    (fun _ (t : snap_state) =>
      terminal_ends t.bond n_bond + (if t.found_intersection then 1 else 0)
        ≤ terminal_ends s.bond n_bond)
    n_bond { s with found_intersection := false } (by simp)
    (fun j t hj ht =>
      le_trans (extend_terminal_bond_measure G avg maxh max_dist_double_bond n_bond j hj t) ht)

/-- C23. Terminal extension reaches a fixed point.  With `terminal_bond(a, j)` taken to mean
that no existing bond other than `j` touches atom `a`, every snap of
`extend_terminal_bond_to_bonds` lowers the number of terminal ends of the existing bonds, so
a pass that sets `found_intersection` leaves strictly fewer of them; there are at most
`2 * n_bond`, so the loop `while (found_intersection)` ends by its test within
`2 * n_bond + 1` passes: the flag is down on return, and the result is the same for every
larger bound on the number of passes.  This holds for every graph, every `avg`, `maxh` and
`max_dist_double_bond`, and every geometry helper. -/
theorem extend_terminal_bond_to_bonds_terminates (G : Geometry) (atom : Atoms) (bond : Bonds)
    (n_bond : Nat) (avg maxh max_dist_double_bond : ℚ) :
    (extend_terminal_bond_to_bonds G atom bond n_bond avg maxh
      max_dist_double_bond).found_intersection = false ∧
    (∀ fuel, 2 * n_bond + 1 ≤ fuel →
      whileLoop (fun (s : snap_state) => s.found_intersection)
        (extend_terminal_pass G avg maxh max_dist_double_bond n_bond) fuel
        { atom := atom, bond := bond, found_intersection := true }
      = extend_terminal_bond_to_bonds G atom bond n_bond avg maxh max_dist_double_bond) ∧
    (∀ s : snap_state,
      (extend_terminal_pass G avg maxh max_dist_double_bond n_bond s).found_intersection = true →
      terminal_ends (extend_terminal_pass G avg maxh max_dist_double_bond n_bond s).bond n_bond
        < terminal_ends s.bond n_bond) ∧
    (∀ (b : Bonds) (j l : Nat), j < n_bond → (b j).exists_ = true →
      (∃ i, i < n_bond ∧ i ≠ j ∧ (b i).exists_ = true ∧ ((b i).a = l ∨ (b i).b = l)) →
      (terminal_bond (b j).a j b n_bond = true →
        terminal_ends (upd b j { b j with a := l }) n_bond < terminal_ends b n_bond) ∧
      (terminal_bond (b j).b j b n_bond = true →
        terminal_ends (upd b j { b j with b := l }) n_bond < terminal_ends b n_bond)) := by
  have hstep : ∀ s : snap_state, s.found_intersection = true →
      terminal_ends (extend_terminal_pass G avg maxh max_dist_double_bond n_bond s).bond n_bond
          + (if (extend_terminal_pass G avg maxh max_dist_double_bond n_bond
              s).found_intersection then 1 else 0)
        < terminal_ends s.bond n_bond + (if s.found_intersection then 1 else 0) := by
    intro s hs
    have := extend_terminal_pass_measure G avg maxh max_dist_double_bond n_bond s
    rw [hs]
    simp only [if_true]
    omega
  have hfuel : ∀ (fuel : Nat) (s : snap_state),
      terminal_ends s.bond n_bond + (if s.found_intersection then 1 else 0) ≤ fuel →
      (whileLoop (fun (s : snap_state) => s.found_intersection)
        (extend_terminal_pass G avg maxh max_dist_double_bond n_bond) fuel
        s).found_intersection = false ∧
      ∀ extra, whileLoop (fun (s : snap_state) => s.found_intersection)
          (extend_terminal_pass G avg maxh max_dist_double_bond n_bond) (fuel + extra) s
        = whileLoop (fun (s : snap_state) => s.found_intersection)
          (extend_terminal_pass G avg maxh max_dist_double_bond n_bond) fuel s := by
    intro fuel
    induction fuel with
    | zero =>
      intro s h
      have hf : s.found_intersection = false := by
        by_contra hc
        rw [Bool.not_eq_false] at hc
        rw [hc] at h
        simp at h
      refine ⟨hf, fun extra => ?_⟩
      rw [whileLoop_done _ _ _ _ hf, whileLoop_done _ _ _ _ hf]
    | succ m ih =>
      intro s h
      by_cases hf : s.found_intersection = true
      · have hlt := hstep s hf
        obtain ⟨i1, i2⟩ := ih (extend_terminal_pass G avg maxh max_dist_double_bond n_bond s)
          (by omega)
        refine ⟨?_, fun extra => ?_⟩
        · rw [whileLoop_step _ _ _ _ hf]; exact i1
        · rw [show m + 1 + extra = (m + extra) + 1 from by omega, whileLoop_step _ _ _ _ hf,
            whileLoop_step _ _ _ _ hf]
          exact i2 extra
      · have hf2 : s.found_intersection = false := by simpa using hf
        refine ⟨?_, fun extra => ?_⟩
        · rw [whileLoop_done _ _ _ _ hf2]; exact hf2
        · rw [whileLoop_done _ _ _ _ hf2, whileLoop_done _ _ _ _ hf2]
  have h0 : terminal_ends bond n_bond + (if true then 1 else 0) ≤ 2 * n_bond + 1 := by
    have := terminal_ends_le bond n_bond
    simp only [if_true]
    omega
  obtain ⟨r1, r2⟩ := hfuel (2 * n_bond + 1)
    { atom := atom, bond := bond, found_intersection := true } h0
  refine ⟨r1, ?_, ?_, ?_⟩
  · intro fuel hf
    obtain ⟨e, rfl⟩ := Nat.exists_eq_add_of_le hf
    exact r2 e
  · intro s hs
    have := extend_terminal_pass_measure G avg maxh max_dist_double_bond n_bond s
    rw [hs] at this
    simp only [if_true] at this
    omega
  · intro b j l hj hex hi
    exact ⟨fun ht => snap_a_drop b n_bond j l hj hex ht hi,
      fun ht => snap_b_drop b n_bond j l hj hex ht hi⟩

/-- The example of C23 evaluated: the `b` end of bond 0 is snapped to atom 2, which moves to
`(11, 0)`; the terminal ends go from 4 to 2, and the loop ends with the flag down. -/
theorem extend_terminal_bond_to_bonds_example :
    terminal_ends gap_bonds 2 = 4 ∧
    (extend_terminal_bond_to_bonds euclid gap_atoms gap_bonds 2 10 3 2).found_intersection
      = false ∧
    ((extend_terminal_bond_to_bonds euclid gap_atoms gap_bonds 2 10 3 2).bond 0).a = 0 ∧
    ((extend_terminal_bond_to_bonds euclid gap_atoms gap_bonds 2 10 3 2).bond 0).b = 2 ∧
    ((extend_terminal_bond_to_bonds euclid gap_atoms gap_bonds 2 10 3 2).atom 2).x = 11 ∧
    terminal_ends (extend_terminal_bond_to_bonds euclid gap_atoms gap_bonds 2 10 3 2).bond 2
      = 2 := by
  decide!

/-! ## `count_area` -/

theorem wrap_int_small (v : Int) (h0 : 0 ≤ v) (h1 : v < 2147483648) : wrap_int v = v := by
  unfold wrap_int
  omega

theorem nine_fold (w h : Nat) (x y : Int) (s1 : fill_t) :
    forLoop (fun di t => forLoop (fun dj t => fill_visit w h (x - 1 + di) (y - 1 + dj) t) 3 t) 3 s1
      = (nine x y).foldl (fun t c => fill_visit w h c.1 c.2 t) s1 := by
  simp only [forLoop, nine, List.foldl]

theorem fill_round_eq (w h : Nat) (s : fill_t) :
    fill_round w h s
      = (nine (s.cx.headD 0) (s.cy.headD 0)).foldl (fun t c => fill_visit w h c.1 c.2 t)
          ({ box := set_cell s.box (s.cx.headD 0) (s.cy.headD 0) 0, cx := s.cx.tail,
             cy := s.cy.tail, a := wrap_int (s.a + 1), xm := wrap_int (s.xm + s.cx.headD 0),
             ym := wrap_int (s.ym + s.cy.headD 0) } : fill_t) := by
  unfold fill_round
  exact nine_fold w h _ _ _

theorem mem_nine (x y : Int) (q : Int × Int) :
    q ∈ nine x y ↔ (q.1 = x - 1 ∨ q.1 = x ∨ q.1 = x + 1) ∧ (q.2 = y - 1 ∨ q.2 = y ∨ q.2 = y + 1) := by
  obtain ⟨q1, q2⟩ := q
  have e2 : ∀ a : Int, a - 1 + 2 = a + 1 := fun a => by ring
  unfold nine
  simp only [List.mem_cons, Prod.mk.injEq, List.mem_singleton, Nat.cast_zero, Nat.cast_one,
    Nat.cast_ofNat, List.not_mem_nil, or_false, add_zero, sub_add_cancel, e2]
  tauto

theorem adjacent_mem_nine (p q : Int × Int) (h : Adjacent p q) : q ∈ nine p.1 p.2 :=
  (mem_nine p.1 p.2 q).2 h

theorem mem_nine_adjacent (p q : Int × Int) (h : q ∈ nine p.1 p.2) : Adjacent p q :=
  (mem_nine p.1 p.2 q).1 h

/-- A list of distinct cells of the grid has at most `w * h` members. -/
theorem grid_cells_length (w h : Nat) (l : List (Int × Int)) (hn : l.Nodup)
    (hg : ∀ p, p ∈ l → 0 ≤ p.1 ∧ p.1 < w ∧ 0 ≤ p.2 ∧ p.2 < h) : l.length ≤ w * h := by
  have hinj : ∀ p, p ∈ l → ∀ q, q ∈ l → (p.1.toNat, p.2.toNat) = (q.1.toNat, q.2.toNat) → p = q := by
    intro p hp q hq he
    have h1 := hg p hp
    have h2 := hg q hq
    simp only [Prod.mk.injEq] at he
    ext
    · omega
    · omega
  have hmap : (l.map (fun p => (p.1.toNat, p.2.toNat))).Nodup :=
    List.Nodup.map_on hinj hn
  have hsub : (l.map (fun p => (p.1.toNat, p.2.toNat))).toFinset
      ⊆ Finset.range w ×ˢ Finset.range h := by
    intro c hc
    rw [List.mem_toFinset, List.mem_map] at hc
    obtain ⟨p, hp, rfl⟩ := hc
    have h1 := hg p hp
    rw [Finset.mem_product, Finset.mem_range, Finset.mem_range]
    constructor <;> dsimp only <;> omega
  have hcard := Finset.card_le_card hsub
  rw [List.toFinset_card_of_nodup hmap, List.length_map, Finset.card_product, Finset.card_range,
    Finset.card_range] at hcard
  exact hcard

/-- The sums of the coordinates of cells of the grid. -/
theorem grid_cells_sum (w h : Nat) (l : List (Int × Int))
    (hg : ∀ p, p ∈ l → 0 ≤ p.1 ∧ p.1 < w ∧ 0 ≤ p.2 ∧ p.2 < h) :
    0 ≤ (l.map Prod.fst).sum ∧ (l.map Prod.fst).sum ≤ (l.length : Int) * w ∧
    0 ≤ (l.map Prod.snd).sum ∧ (l.map Prod.snd).sum ≤ (l.length : Int) * h := by
  induction l with
  | nil => simp
  | cons p l ih =>
    have h1 := hg p (List.mem_cons_self _ _)
    have h2 := ih (fun q hq => hg q (List.mem_cons_of_mem _ hq))
    simp only [List.map_cons, List.sum_cons, List.length_cons, Nat.cast_add, Nat.cast_one]
    refine ⟨by omega, ?_, by omega, ?_⟩
    · nlinarith [h1.2.1, h2.2.1]
    · nlinarith [h1.2.2.2, h2.2.2.2]

theorem wrap_int_add (a b : Int) : wrap_int (wrap_int a + b) = wrap_int (a + b) := by
  unfold wrap_int
  omega

theorem set_cell_self (box : Int → Int → Int) (q : Int × Int) (v : Int) :
    set_cell box q.1 q.2 v q.1 q.2 = v := by
  simp [set_cell]

theorem set_cell_other (box : Int → Int → Int) (p q : Int × Int) (v : Int) (h : p ≠ q) :
    set_cell box q.1 q.2 v p.1 p.2 = box p.1 p.2 := by
  unfold set_cell
  rw [if_neg]
  intro hh
  exact h (Prod.ext hh.1 hh.2)

theorem whileLoop_stable {σ : Type} (test : σ → Bool) (body : σ → σ) :
    ∀ (n : Nat) (s : σ), test (whileLoop test body n s) = false →
      ∀ m, n ≤ m → whileLoop test body m s = whileLoop test body n s := by
  intro n
  induction n with
  | zero =>
    intro s hs m _
    exact whileLoop_done test body m s hs
  | succ n ih =>
    intro s hs m hm
    by_cases ht : test s = true
    · obtain ⟨k, rfl⟩ : ∃ k, m = k + 1 := ⟨m - 1, by omega⟩
      rw [whileLoop_step test body n s ht] at hs ⊢
      rw [whileLoop_step test body k s ht]
      exact ih (body s) hs k (by omega)
    · have hf : test s = false := by simpa using ht
      rw [whileLoop_done test body m s hf, whileLoop_done test body (n + 1) s hf]

/-- The counted and the waiting cells are distinct cells of the grid. -/
theorem filling_grid (B : Int → Int → Int) (w h : Nat) (s0 : Int × Int) (P : List (Int × Int))
    (cur : Int × Int) (seen : List (Int × Int)) (s : fill_t)
    (hf : Filling B w h s0 P cur seen s) : P.length + (s.cx.zip s.cy).length ≤ w * h := by
  have := grid_cells_length w h (P ++ s.cx.zip s.cy) hf.nodup (fun p hp => by
    have := (hf.comp p hp).1
    exact ⟨this.1, this.2.1, this.2.2.1, this.2.2.2.1⟩)
  rwa [List.length_append] at this

/-- One visit of a neighbour keeps the invariant. -/
theorem filling_visit (B : Int → Int → Int) (w h : Nat) (s0 : Int × Int) (P : List (Int × Int))
    (cur : Int × Int) (seen : List (Int × Int)) (s : fill_t) (q : Int × Int)
    (hf : Filling B w h s0 P cur seen s) (hcur : cur ∈ P) (hq : Adjacent cur q) :
    Filling B w h s0 P cur (q :: seen) (fill_visit w h q.1 q.2 s) := by
  unfold fill_visit
  by_cases hc : (q.1 < w ∧ q.2 < h ∧ q.1 ≥ 0 ∧ q.2 ≥ 0 ∧ s.box q.1 q.2 = 1)
  · rw [if_pos hc]
    have hnot : q ∉ P ++ s.cx.zip s.cy := by
      intro hm
      rcases List.mem_append.1 hm with hm | hm
      · have := hf.box_done q hm
        omega
      · have := hf.box_wait q hm
        omega
    have hB : B q.1 q.2 = 1 := by
      rw [← hf.box_rest q hnot]
      exact hc.2.2.2.2
    have hone : OneCell B w h q := ⟨hc.2.2.1, hc.1, hc.2.2.2.1, hc.2.1, hB⟩
    have hzip : (s.cx ++ [q.1]).zip (s.cy ++ [q.2]) = s.cx.zip s.cy ++ [q] := by
      rw [List.zip_append hf.len]
      rfl
    have hmem : ∀ p, p ∈ P ++ (s.cx.zip s.cy ++ [q]) ↔ p ∈ P ++ s.cx.zip s.cy ∨ p = q := by
      intro p
      simp only [List.mem_append, List.mem_singleton, or_assoc]
    refine ⟨?_, ?_, ?_, ?_, ?_, ?_, ?_, ?_, ?_⟩
    · simp only [List.length_append, List.length_singleton, hf.len]
    · show (P ++ (s.cx ++ [q.1]).zip (s.cy ++ [q.2])).Nodup
      rw [hzip, ← List.append_assoc]
      refine List.Nodup.append hf.nodup (List.nodup_singleton q) ?_
      intro p hp hp2
      rw [List.mem_singleton] at hp2
      exact hnot (hp2 ▸ hp)
    · intro p hp
      change p ∈ P ++ (s.cx ++ [q.1]).zip (s.cy ++ [q.2]) at hp
      rw [hzip, hmem] at hp
      rcases hp with hp | rfl
      · exact hf.comp p hp
      · exact ⟨hone, Relation.ReflTransGen.tail (hf.comp cur (List.mem_append_left _ hcur)).2
          ⟨hq, hone⟩⟩
    · intro p hp
      show set_cell s.box q.1 q.2 2 p.1 p.2 = 0
      rw [set_cell_other s.box p q 2 (fun he => hnot (he ▸ List.mem_append_left _ hp))]
      exact hf.box_done p hp
    · intro p hp
      change p ∈ (s.cx ++ [q.1]).zip (s.cy ++ [q.2]) at hp
      show set_cell s.box q.1 q.2 2 p.1 p.2 = 2
      rw [hzip, List.mem_append, List.mem_singleton] at hp
      rcases hp with hp | rfl
      · rw [set_cell_other s.box p q 2 (fun he => hnot (he ▸ List.mem_append_right _ hp))]
        exact hf.box_wait p hp
      · exact set_cell_self s.box p 2
    · intro p hp
      change p ∉ P ++ (s.cx ++ [q.1]).zip (s.cy ++ [q.2]) at hp
      show set_cell s.box q.1 q.2 2 p.1 p.2 = B p.1 p.2
      rw [hzip, hmem] at hp
      rw [set_cell_other s.box p q 2 (fun he => hp (Or.inr he))]
      exact hf.box_rest p (fun hm => hp (Or.inl hm))
    · exact hf.count
    · intro p q2 hp hor hadj h1
      show q2 ∈ P ++ (s.cx ++ [q.1]).zip (s.cy ++ [q.2])
      rw [hzip, hmem]
      by_cases he : q2 = q
      · exact Or.inr he
      · refine Or.inl (hf.closed p q2 hp ?_ hadj h1)
        rcases hor with hor | hor
        · exact Or.inl hor
        · rcases List.mem_cons.1 hor with hor | hor
          · exact absurd hor he
          · exact Or.inr hor
    · show s0 ∈ P ++ (s.cx ++ [q.1]).zip (s.cy ++ [q.2])
      rw [hzip, hmem]
      exact Or.inl hf.start_in
  · rw [if_neg hc]
    refine ⟨hf.len, hf.nodup, hf.comp, hf.box_done, hf.box_wait, hf.box_rest, hf.count, ?_,
      hf.start_in⟩
    intro p q2 hp hor hadj h1
    by_cases he : q2 = q
    · subst he
      by_contra hnot
      have := hf.box_rest q2 hnot
      exact hc ⟨h1.2.1, h1.2.2.2.1, h1.1, h1.2.2.1, by rw [this]; exact h1.2.2.2.2⟩
    · refine hf.closed p q2 hp ?_ hadj h1
      rcases hor with hor | hor
      · exact Or.inl hor
      · rcases List.mem_cons.1 hor with hor | hor
        · exact absurd hor he
        · exact Or.inr hor

/-- Taking the front cell off the lists, setting it to 0 and counting it keeps the
invariant: the cell joins the counted cells. -/
theorem filling_pop (B : Int → Int → Int) (w h : Nat) (s0 : Int × Int) (P : List (Int × Int))
    (cur : Int × Int) (seen : List (Int × Int)) (s : fill_t) (x y : Int) (xs ys : List Int)
    (hf : Filling B w h s0 P cur seen s) (hfull : ∀ q, Adjacent cur q → q ∈ seen)
    (hx : s.cx = x :: xs) (hy : s.cy = y :: ys) :
    Filling B w h s0 (P ++ [(x, y)]) (x, y) []
      { box := set_cell s.box x y 0, cx := xs, cy := ys, a := wrap_int (s.a + 1),
        xm := wrap_int (s.xm + x), ym := wrap_int (s.ym + y) } := by
  have hzip : s.cx.zip s.cy = (x, y) :: xs.zip ys := by
    rw [hx, hy]
    rfl
  have hnd : (P ++ (x, y) :: xs.zip ys).Nodup := hzip ▸ hf.nodup
  have hmem : ∀ p, p ∈ (P ++ [(x, y)]) ++ xs.zip ys ↔ p ∈ P ++ s.cx.zip s.cy := by
    intro p
    rw [hzip]
    simp only [List.mem_append, List.mem_singleton, List.mem_cons, or_assoc, List.not_mem_nil,
      false_or]
  have hcP : (x, y) ∉ P := by
    intro hm
    exact (List.disjoint_of_nodup_append hnd) hm (List.mem_cons_self _ _)
  have hcQ : (x, y) ∉ xs.zip ys := (List.nodup_cons.1 (List.Nodup.of_append_right hnd)).1
  have hcl : ∀ p q, p ∈ P → Adjacent p q → OneCell B w h q → q ∈ P ++ s.cx.zip s.cy := by
    intro p q hp hadj h1
    by_cases he : p = cur
    · exact hf.closed p q hp (Or.inr (hfull q (he ▸ hadj))) hadj h1
    · exact hf.closed p q hp (Or.inl he) hadj h1
  refine ⟨?_, ?_, ?_, ?_, ?_, ?_, ?_, ?_, ?_⟩
  · have := hf.len
    rw [hx, hy] at this
    simpa using this
  · show ((P ++ [(x, y)]) ++ xs.zip ys).Nodup
    rw [List.append_assoc, List.singleton_append]
    exact hnd
  · intro p hp
    exact hf.comp p ((hmem p).1 hp)
  · intro p hp
    show set_cell s.box x y 0 p.1 p.2 = 0
    rcases List.mem_append.1 hp with hp | hp
    · rw [set_cell_other s.box p (x, y) 0 (fun he => hcP (he ▸ hp))]
      exact hf.box_done p hp
    · rw [List.mem_singleton] at hp
      subst hp
      exact set_cell_self s.box (x, y) 0
  · intro p hp
    change p ∈ xs.zip ys at hp
    show set_cell s.box x y 0 p.1 p.2 = 2
    rw [set_cell_other s.box p (x, y) 0 (fun he => hcQ (he ▸ hp))]
    exact hf.box_wait p (hzip ▸ List.mem_cons_of_mem _ hp)
  · intro p hp
    change p ∉ (P ++ [(x, y)]) ++ xs.zip ys at hp
    show set_cell s.box x y 0 p.1 p.2 = B p.1 p.2
    rw [hmem] at hp
    rw [set_cell_other s.box p (x, y) 0
      (fun he => hp (he ▸ hzip ▸ List.mem_append_right _ (List.mem_cons_self _ _)))]
    exact hf.box_rest p hp
  · obtain ⟨h1, h2, h3⟩ := hf.count
    refine ⟨?_, ?_, ?_⟩
    · show wrap_int (s.a + 1) = _
      rw [h1, wrap_int_add]
      simp only [List.length_append, List.length_singleton, Nat.cast_add, Nat.cast_one]
    · show wrap_int (s.xm + x) = _
      rw [h2, wrap_int_add]
      simp only [List.map_append, List.sum_append, List.map_cons, List.map_nil, List.sum_cons,
        List.sum_nil, add_zero]
    · show wrap_int (s.ym + y) = _
      rw [h3, wrap_int_add]
      simp only [List.map_append, List.sum_append, List.map_cons, List.map_nil, List.sum_cons,
        List.sum_nil, add_zero]
  · intro p q hp hor hadj h1
    show q ∈ (P ++ [(x, y)]) ++ xs.zip ys
    rw [hmem]
    rcases hor with hor | hor
    · rcases List.mem_append.1 hp with hp | hp
      · exact hcl p q hp hadj h1
      · exact absurd (List.mem_singleton.1 hp) hor
    · exact absurd hor (List.not_mem_nil q)
  · show s0 ∈ (P ++ [(x, y)]) ++ xs.zip ys
    rw [hmem]
    exact hf.start_in

/-- The visits of a list of neighbours keep the invariant. -/
theorem filling_visits (B : Int → Int → Int) (w h : Nat) (s0 : Int × Int)
    (P : List (Int × Int)) (cur : Int × Int) (hcur : cur ∈ P) (l : List (Int × Int)) :
    (∀ q, q ∈ l → Adjacent cur q) → ∀ (seen : List (Int × Int)) (s : fill_t),
      Filling B w h s0 P cur seen s →
      ∃ seen2, (∀ q, q ∈ l ∨ q ∈ seen → q ∈ seen2) ∧
        Filling B w h s0 P cur seen2 (l.foldl (fun t c => fill_visit w h c.1 c.2 t) s) := by
  induction l with
  | nil =>
    intro _ seen s hf
    exact ⟨seen, fun q hq => hq.elim (fun h => absurd h (List.not_mem_nil q)) id, hf⟩
  | cons c l ih =>
    intro hl seen s hf
    obtain ⟨seen2, h1, h2⟩ := ih (fun q hq => hl q (List.mem_cons_of_mem _ hq)) (c :: seen)
      (fill_visit w h c.1 c.2 s)
      (filling_visit B w h s0 P cur seen s c hf hcur (hl c (List.mem_cons_self _ _)))
    refine ⟨seen2, ?_, h2⟩
    intro q hq
    rcases hq with hq | hq
    · rcases List.mem_cons.1 hq with hq | hq
      · exact h1 q (Or.inr (hq ▸ List.mem_cons_self _ _))
      · exact h1 q (Or.inl hq)
    · exact h1 q (Or.inr (List.mem_cons_of_mem _ hq))

/-- One round of the loop keeps the invariant and counts one more cell. -/
theorem filling_round (B : Int → Int → Int) (w h : Nat) (s0 : Int × Int) (P : List (Int × Int))
    (cur : Int × Int) (seen : List (Int × Int)) (s : fill_t)
    (hf : Filling B w h s0 P cur seen s) (hfull : ∀ q, Adjacent cur q → q ∈ seen)
    (hne : s.cx ≠ []) :
    ∃ c seen2, Filling B w h s0 (P ++ [c]) c seen2 (fill_round w h s) ∧
      (∀ q, Adjacent c q → q ∈ seen2) := by
  obtain ⟨x, xs, hx⟩ := List.exists_cons_of_ne_nil hne
  obtain ⟨y, ys, hy⟩ : ∃ y ys, s.cy = y :: ys := by
    have := hf.len
    rw [hx] at this
    cases hcy : s.cy with
    | nil => rw [hcy] at this; simp at this
    | cons y ys => exact ⟨y, ys, rfl⟩
  have hpop := filling_pop B w h s0 P cur seen s x y xs ys hf hfull hx hy
  obtain ⟨seen2, h1, h2⟩ := filling_visits B w h s0 (P ++ [(x, y)]) (x, y)
    (List.mem_append_right _ (List.mem_singleton_self _)) (nine x y)
    (fun q hq => mem_nine_adjacent (x, y) q hq) [] _ hpop
  refine ⟨(x, y), seen2, ?_, fun q hq => h1 q (Or.inl (adjacent_mem_nine (x, y) q hq))⟩
  rw [fill_round_eq, hx, hy]
  exact h2

/-- The loop of `count_area` ends with empty lists within `w * h + 1` rounds less the number
of cells counted so far, and keeps the invariant. -/
theorem filling_loop (B : Int → Int → Int) (w h : Nat) (s0 : Int × Int) :
    ∀ (fuel : Nat) (s : fill_t) (P : List (Int × Int)) (cur : Int × Int)
      (seen : List (Int × Int)), Filling B w h s0 P cur seen s →
      (∀ q, Adjacent cur q → q ∈ seen) → w * h + 1 ≤ fuel + P.length →
      ∃ P2 cur2 seen2,
        Filling B w h s0 P2 cur2 seen2
          (whileLoop (fun (s : fill_t) => !s.cx.isEmpty) (fill_round w h) fuel s) ∧
        (∀ q, Adjacent cur2 q → q ∈ seen2) ∧
        (whileLoop (fun (s : fill_t) => !s.cx.isEmpty) (fill_round w h) fuel s).cx = [] := by
  intro fuel
  induction fuel with
  | zero =>
    intro s P cur seen hf _ hle
    have := filling_grid B w h s0 P cur seen s hf
    omega
  | succ n ih =>
    intro s P cur seen hf hfull hle
    by_cases hne : s.cx = []
    · rw [whileLoop_done _ _ _ _ (by simp [hne])]
      exact ⟨P, cur, seen, hf, hfull, hne⟩
    · rw [whileLoop_step _ _ _ _ (by simpa using hne)]
      obtain ⟨c, seen2, h1, h2⟩ := filling_round B w h s0 P cur seen s hf hfull hne
      exact ih (fill_round w h s) (P ++ [c]) c seen2 h1 h2
        (by rw [List.length_append, List.length_singleton]; omega)

/-- When the lists are empty the counted cells are the component of the start cell. -/
theorem filling_component (B : Int → Int → Int) (w h : Nat) (s0 : Int × Int)
    (P : List (Int × Int)) (cur : Int × Int) (seen : List (Int × Int)) (s : fill_t)
    (hf : Filling B w h s0 P cur seen s) (hfull : ∀ q, Adjacent cur q → q ∈ seen)
    (he : s.cx = []) : ∀ p, p ∈ P ↔ Component B w h s0 p := by
  have hzip : s.cx.zip s.cy = [] := by rw [he]; rfl
  intro p
  constructor
  · intro hp
    exact (hf.comp p (List.mem_append_left _ hp)).2
  · intro hc
    induction hc with
    | refl =>
      have := hf.start_in
      rwa [hzip, List.append_nil] at this
    | @tail u v _ hstep ih =>
      have : v ∈ P ++ s.cx.zip s.cy := by
        by_cases hu : u = cur
        · exact hf.closed u v ih (Or.inr (hfull v (hu ▸ hstep.1))) hstep.1 hstep.2
        · exact hf.closed u v ih (Or.inl hu) hstep.1 hstep.2
      rwa [hzip, List.append_nil] at this

/-- The invariant holds when the loop of `count_area` starts from a cell that holds 1. -/
theorem filling_start (B : Int → Int → Int) (w h : Nat) (x y : Int)
    (h1 : OneCell B w h (x, y)) :
    Filling B w h (x, y) [] (x, y) (nine x y) (fill_start B x y) := by
  refine ⟨rfl, ?_, ?_, ?_, ?_, ?_, ⟨rfl, rfl, rfl⟩, ?_, ?_⟩
  · exact List.nodup_singleton _
  · intro p hp
    have : p = (x, y) := by simpa [fill_start] using hp
    subst this
    exact ⟨h1, Relation.ReflTransGen.refl⟩
  · intro p hp
    exact absurd hp (List.not_mem_nil p)
  · intro p hp
    have : p = (x, y) := by simpa [fill_start] using hp
    subst this
    exact set_cell_self B (x, y) 2
  · intro p hp
    have : p ≠ (x, y) := by
      intro he
      exact hp (by simp [fill_start, he])
    exact set_cell_other B p (x, y) 2 this
  · intro p q hp
    exact absurd hp (List.not_mem_nil p)
  · simp [fill_start]

/-- The loop of `count_area` started from a cell of the grid that holds 1: it ends with empty
lists within `w * h + 1` rounds, and then the counted cells are the component of the start
cell, each counted once and set to 0, every other cell is as before, and the counters hold
the number of the cells and the sums of their coordinates as `int` values. -/
theorem count_area_loop_spec (B : Int → Int → Int) (w h : Nat) (x y : Int)
    (h1 : OneCell B w h (x, y)) :
    ∃ cells : List (Int × Int), cells.Nodup ∧
      (∀ p, p ∈ cells ↔ Component B w h (x, y) p) ∧
      cells.length ≤ w * h ∧
      (∀ p, p ∈ cells → 0 ≤ p.1 ∧ p.1 < w ∧ 0 ≤ p.2 ∧ p.2 < h) ∧
      (count_area_loop B w h x y (w * h + 1)).cx = [] ∧
      (∀ fuel, w * h + 1 ≤ fuel →
        count_area_loop B w h x y fuel = count_area_loop B w h x y (w * h + 1)) ∧
      (count_area_loop B w h x y (w * h + 1)).a = wrap_int cells.length ∧
      (count_area_loop B w h x y (w * h + 1)).xm = wrap_int (cells.map Prod.fst).sum ∧
      (count_area_loop B w h x y (w * h + 1)).ym = wrap_int (cells.map Prod.snd).sum ∧
      (∀ i j, (count_area_loop B w h x y (w * h + 1)).box i j
        = if (i, j) ∈ cells then 0 else B i j) := by
  obtain ⟨P, cur, seen, hf, hfull, he⟩ := filling_loop B w h (x, y) (w * h + 1)
    (fill_start B x y) [] (x, y) (nine x y) (filling_start B w h x y h1)
    (fun q hq => adjacent_mem_nine (x, y) q hq) (by simp)
  have hzip : (whileLoop (fun (s : fill_t) => !s.cx.isEmpty) (fill_round w h) (w * h + 1)
      (fill_start B x y)).cx.zip (whileLoop (fun (s : fill_t) => !s.cx.isEmpty)
      (fill_round w h) (w * h + 1) (fill_start B x y)).cy = [] := by
    rw [he]
    rfl
  have hgrid : ∀ p, p ∈ P → 0 ≤ p.1 ∧ p.1 < w ∧ 0 ≤ p.2 ∧ p.2 < h := by
    intro p hp
    have := (hf.comp p (List.mem_append_left _ hp)).1
    exact ⟨this.1, this.2.1, this.2.2.1, this.2.2.2.1⟩
  refine ⟨P, ?_, filling_component B w h (x, y) P cur seen _ hf hfull he, ?_, hgrid, he, ?_,
    hf.count.1, hf.count.2.1, hf.count.2.2, ?_⟩
  · have := hf.nodup
    rwa [hzip, List.append_nil] at this
  · have := filling_grid B w h (x, y) P cur seen _ hf
    omega
  · intro fuel hfuel
    exact whileLoop_stable _ _ (w * h + 1) (fill_start B x y) (by
      show (!(whileLoop (fun (s : fill_t) => !s.cx.isEmpty) (fill_round w h) (w * h + 1)
        (fill_start B x y)).cx.isEmpty) = false
      rw [he]
      rfl) fuel hfuel
  · intro i j
    show (whileLoop (fun (s : fill_t) => !s.cx.isEmpty) (fill_round w h) (w * h + 1)
      (fill_start B x y)).box i j = _
    by_cases hm : (i, j) ∈ P
    · rw [if_pos hm]
      exact hf.box_done (i, j) hm
    · rw [if_neg hm]
      exact hf.box_rest (i, j) (by rw [hzip, List.append_nil]; exact hm)

/-- Connected-component fill on the grids on which the `int` counters cannot overflow.  For
every grid `box` of `w` columns of `h` cells, every start cell `(int(x0), int(y0))` of the
grid, and `w * h * w` and `w * h * h` below `2^31`: if the start cell is not 1,
`count_area` returns 0 and leaves `box`, `x0` and `y0` as they are; if it is 1, the loop ends
with empty lists within `w * h + 1` rounds (more rounds allowed change nothing), and there is
a list `cells` without repetition of exactly the cells of the 8-connected component of
1-cells of the start cell such that `count_area` returns their number, leaves 0 in exactly
those cells and every other cell as it was, and leaves in `x0` and `y0` the sums of their
coordinates divided by their number. -/
theorem count_area_fills (box : Int → Int → Int) (w h : Nat) (x0 y0 : ℚ)
    (hx : 0 ≤ to_int x0 ∧ to_int x0 < w) (hy : 0 ≤ to_int y0 ∧ to_int y0 < h)
    (hsize : w * h * w < 2147483648 ∧ w * h * h < 2147483648) :
    (box (to_int x0) (to_int y0) ≠ 1 → count_area box w h x0 y0 = (0, box, x0, y0)) ∧
    (box (to_int x0) (to_int y0) = 1 →
      (count_area_loop box w h (to_int x0) (to_int y0) (w * h + 1)).cx = [] ∧
      (∀ fuel, w * h + 1 ≤ fuel →
        count_area_loop box w h (to_int x0) (to_int y0) fuel
          = count_area_loop box w h (to_int x0) (to_int y0) (w * h + 1)) ∧
      ∃ cells : List (Int × Int), cells.Nodup ∧
        (∀ p, p ∈ cells ↔ Component box w h (to_int x0, to_int y0) p) ∧
        (count_area box w h x0 y0).1 = cells.length ∧
        (∀ i j, (count_area box w h x0 y0).2.1 i j = if (i, j) ∈ cells then 0 else box i j) ∧
        (count_area box w h x0 y0).2.2.1
          = (((cells.map Prod.fst).sum : Int) : ℚ) / (cells.length : ℚ) ∧
        (count_area box w h x0 y0).2.2.2
          = (((cells.map Prod.snd).sum : Int) : ℚ) / (cells.length : ℚ)) := by
  constructor
  · intro hb
    unfold count_area
    rw [if_neg hb]
  · intro hb
    obtain ⟨cells, hnd, hcomp, hlen, hgrid, he, hfuel, ha, hxm, hym, hbox⟩ :=
      count_area_loop_spec box w h (to_int x0) (to_int y0) ⟨hx.1, hx.2, hy.1, hy.2, hb⟩
    obtain ⟨s1, s2, s3, s4⟩ := grid_cells_sum w h cells hgrid
    have hw : 0 < w := by omega
    have hh : 0 < h := by omega
    have hlenZ : (cells.length : Int) ≤ (w : Int) * h := by exact_mod_cast hlen
    have hsz1 : (w : Int) * h * w < 2147483648 := by exact_mod_cast hsize.1
    have hsz2 : (w : Int) * h * h < 2147483648 := by exact_mod_cast hsize.2
    have hwZ : (1 : Int) ≤ w := by exact_mod_cast hw
    have hhZ : (1 : Int) ≤ h := by exact_mod_cast hh
    have hb1 : (cells.length : Int) * w ≤ (w : Int) * h * w :=
      mul_le_mul_of_nonneg_right hlenZ (by omega)
    have hb2 : (cells.length : Int) * h ≤ (w : Int) * h * h :=
      mul_le_mul_of_nonneg_right hlenZ (by omega)
    have hb3 : (cells.length : Int) ≤ (cells.length : Int) * w := by
      nlinarith [Int.natCast_nonneg cells.length]
    have ha2 : (count_area_loop box w h (to_int x0) (to_int y0) (w * h + 1)).a = cells.length := by
      rw [ha]
      exact wrap_int_small _ (Int.natCast_nonneg _) (by omega)
    have hxm2 : (count_area_loop box w h (to_int x0) (to_int y0) (w * h + 1)).xm
        = (cells.map Prod.fst).sum := by
      rw [hxm]
      exact wrap_int_small _ s1 (by omega)
    have hym2 : (count_area_loop box w h (to_int x0) (to_int y0) (w * h + 1)).ym
        = (cells.map Prod.snd).sum := by
      rw [hym]
      exact wrap_int_small _ s3 (by omega)
    refine ⟨he, hfuel, cells, hnd, hcomp, ?_, ?_, ?_, ?_⟩
    · unfold count_area
      rw [if_pos hb]
      exact ha2
    · intro i j
      unfold count_area
      rw [if_pos hb]
      exact hbox i j
    · unfold count_area
      rw [if_pos hb]
      show 1 * _ / _ = _
      rw [ha2, hxm2, one_mul, Int.cast_natCast]
    · unfold count_area
      rw [if_pos hb]
      show 1 * _ / _ = _
      rw [ha2, hym2, one_mul, Int.cast_natCast]

/-- The fill at a concrete input: `count_area` on `tiny_box` from `x0 = 3/2`, `y0 = 1`, that is from the
cell (1,1). -/
theorem count_area_fills_witness :
    (0 ≤ to_int (3 / 2) ∧ to_int (3 / 2) < (4 : Nat)) ∧
    (0 ≤ to_int 1 ∧ to_int 1 < (4 : Nat)) ∧
    ∃ cells : List (Int × Int), cells.Nodup ∧
      (∀ p, p ∈ cells ↔ Component tiny_box 4 4 (to_int (3 / 2), to_int 1) p) ∧
      (count_area tiny_box 4 4 (3 / 2) 1).1 = cells.length ∧
      (∀ i j, (count_area tiny_box 4 4 (3 / 2) 1).2.1 i j
        = if (i, j) ∈ cells then 0 else tiny_box i j) ∧
      (count_area tiny_box 4 4 (3 / 2) 1).2.2.1
        = (((cells.map Prod.fst).sum : Int) : ℚ) / (cells.length : ℚ) ∧
      (count_area tiny_box 4 4 (3 / 2) 1).2.2.2
        = (((cells.map Prod.snd).sum : Int) : ℚ) / (cells.length : ℚ) :=
  ⟨by decide!, by decide!,
    ((count_area_fills tiny_box 4 4 (3 / 2) 1 (by decide!) (by decide!) (by decide)).2
      (by decide!)).2.2⟩

/-- The fill evaluated: from the cell (1,1) of `tiny_box`, `count_area` returns 3,
leaves `x0 = 5/3` and `y0 = 4/3`, sets the cells (1,1), (2,1), (2,2) to 0 and leaves the 1 in
the cell (0,3), which touches none of them. -/
theorem count_area_example :
    (count_area tiny_box 4 4 (3 / 2) 1).1 = 3 ∧
    (count_area tiny_box 4 4 (3 / 2) 1).2.2.1 = 5 / 3 ∧
    (count_area tiny_box 4 4 (3 / 2) 1).2.2.2 = 4 / 3 ∧
    (count_area tiny_box 4 4 (3 / 2) 1).2.1 1 1 = 0 ∧
    (count_area tiny_box 4 4 (3 / 2) 1).2.1 2 1 = 0 ∧
    (count_area tiny_box 4 4 (3 / 2) 1).2.1 2 2 = 0 ∧
    (count_area tiny_box 4 4 (3 / 2) 1).2.1 0 3 = 1 ∧
    (count_area tiny_box 4 4 (3 / 2) 1).2.1 3 3 = 0 := by
  decide!

/-- The sum of the first `n` natural numbers, as integers. -/
theorem sum_range_cast (n : Nat) :
    (((List.range n).map (fun i : Nat => ((i : Int), (0 : Int)))).map Prod.fst).sum * 2
      = (n : Int) * ((n : Int) - 1) := by
  induction n with
  | zero => simp
  | succ k ih =>
    rw [List.range_succ]
    simp only [List.map_append, List.sum_append, List.map_cons, List.map_nil, List.sum_cons,
      List.sum_nil, add_zero] at ih ⊢
    push_cast
    nlinarith [ih]

/-- Every cell of `long_row` belongs to the component of its first cell. -/
theorem long_row_component (n : Nat) (hn : n < 65537) :
    Component long_row 65537 1 (0, 0) ((n : Int), 0) := by
  induction n with
  | zero => exact Relation.ReflTransGen.refl
  | succ k ih =>
    refine Relation.ReflTransGen.tail (ih (by omega)) ⟨?_, ?_⟩
    · refine ⟨Or.inr (Or.inr ?_), Or.inr (Or.inl rfl)⟩
      show ((k + 1 : Nat) : Int) = (k : Int) + 1
      push_cast
      rfl
    · have h1 : (0 : Int) ≤ ((k + 1 : Nat) : Int) := Int.natCast_nonneg _
      have h2 : ((k + 1 : Nat) : Int) < ((65537 : Nat) : Int) := by exact_mod_cast hn
      have h3 : (0 : Int) < ((1 : Nat) : Int) := by decide
      refine ⟨h1, h2, le_refl _, h3, ?_⟩
      show long_row ((k + 1 : Nat) : Int) 0 = 1
      unfold long_row
      rw [if_pos ⟨h1, by exact_mod_cast hn, rfl⟩]
/-- The results of `count_area` from a start cell that holds 1, in terms of the state in
which its loop ends. -/
theorem count_area_of_one (box : Int → Int → Int) (w h : Nat) (x0 y0 : ℚ)
    (hb : box (to_int x0) (to_int y0) = 1) :
    (count_area box w h x0 y0).1
        = (count_area_loop box w h (to_int x0) (to_int y0) (w * h + 1)).a ∧
    (count_area box w h x0 y0).2.2.1
        = 1 * ((count_area_loop box w h (to_int x0) (to_int y0) (w * h + 1)).xm : ℚ)
          / ((count_area_loop box w h (to_int x0) (to_int y0) (w * h + 1)).a : ℚ) := by
  unfold count_area
  rw [if_pos hb]
  exact ⟨rfl, rfl⟩

/-- C28. On the grid `long_row` of 65537 columns of one cell, all holding 1, started from the
cell (0,0): the component of the start cell has 65537 cells and the mean of their `x`
coordinates is 32768, and `count_area` returns 65537, but the `int` sum `xm` of the `x`
coordinates passes `2^31 - 1` and wraps around, so that the function leaves
`x0 = -2147450880 / 65537`, a negative number, instead of the mean. -/
theorem count_area_overflows_on_long_row :
    OneCell long_row 65537 1 (to_int 0, to_int 0) ∧
    ∃ cells : List (Int × Int), cells.Nodup ∧
      (∀ p, p ∈ cells ↔ Component long_row 65537 1 (to_int 0, to_int 0) p) ∧
      (count_area long_row 65537 1 0 0).1 = cells.length ∧
      cells.length = 65537 ∧
      (((cells.map Prod.fst).sum : Int) : ℚ) / (cells.length : ℚ) = 32768 ∧
      (count_area long_row 65537 1 0 0).2.2.1 = -2147450880 / 65537 ∧
      (count_area long_row 65537 1 0 0).2.2.1 < 0 ∧
      (count_area long_row 65537 1 0 0).2.2.1
        ≠ (((cells.map Prod.fst).sum : Int) : ℚ) / (cells.length : ℚ) := by
  have h0 : to_int (0 : ℚ) = 0 := by decide!
  have hone : OneCell long_row 65537 1 (0, 0) := by
    refine ⟨le_refl _, by decide, le_refl _, by decide, ?_⟩
    decide
  rw [h0]
  refine ⟨hone, ?_⟩
  obtain ⟨cells, hnd, hcomp, -, hgrid, -, -, ha, hxm, -, -⟩ :=
    count_area_loop_spec long_row 65537 1 0 0 hone
  have hinj : Function.Injective (fun i : Nat => ((i : Int), (0 : Int))) := by
    intro a b hab
    have h : (a : Int) = (b : Int) := congrArg Prod.fst hab
    exact_mod_cast h
  have hrn : ((List.range 65537).map (fun i : Nat => ((i : Int), (0 : Int)))).Nodup :=
    (List.nodup_range 65537).map hinj
  have hmem : ∀ p, p ∈ cells ↔ p ∈ (List.range 65537).map (fun i : Nat => ((i : Int), (0 : Int))) := by
    intro p
    constructor
    · intro hp
      obtain ⟨g1, g2, g3, g4⟩ := hgrid p hp
      rw [List.mem_map]
      refine ⟨p.1.toNat, ?_, ?_⟩
      · rw [List.mem_range]
        have : ((65537 : Nat) : Int) = 65537 := rfl
        omega
      · have e1 : ((p.1.toNat : Nat) : Int) = p.1 := Int.toNat_of_nonneg g1
        have e2 : p.2 = 0 := by
          have : ((1 : Nat) : Int) = 1 := rfl
          omega
        show ((p.1.toNat : Int), (0 : Int)) = p
        rw [e1, ← e2]
    · intro hp
      rw [List.mem_map] at hp
      obtain ⟨n, hn, rfl⟩ := hp
      rw [List.mem_range] at hn
      exact (hcomp _).2 (long_row_component n hn)
  have hperm : cells.Perm ((List.range 65537).map (fun i : Nat => ((i : Int), (0 : Int)))) :=
    (List.perm_ext_iff_of_nodup hnd hrn).2 hmem
  have hlen : cells.length = 65537 := by
    rw [hperm.length_eq, List.length_map, List.length_range]
  have hsum : (cells.map Prod.fst).sum = 2147516416 := by
    have h1 : (cells.map Prod.fst).sum
        = (((List.range 65537).map (fun i : Nat => ((i : Int), (0 : Int)))).map Prod.fst).sum :=
      (hperm.map Prod.fst).sum_eq
    have h2 := sum_range_cast 65537
    rw [h1]
    have : ((65537 : Nat) : Int) = 65537 := rfl
    rw [this] at h2
    omega
  have hw : wrap_int 2147516416 = -2147450880 := by decide
  have hw2 : wrap_int 65537 = 65537 := by decide
  have hb : long_row (to_int 0) (to_int 0) = 1 := by
    rw [h0]
    exact hone.2.2.2.2
  obtain ⟨r1, r2⟩ := count_area_of_one long_row 65537 1 0 0 hb
  rw [h0] at r1 r2
  have hx0 : (count_area long_row 65537 1 0 0).2.2.1 = -2147450880 / 65537 := by
    rw [r2, hxm, ha, hsum, hlen]
    have : ((65537 : Nat) : Int) = 65537 := rfl
    rw [this, hw, hw2]
    norm_num
  refine ⟨cells, hnd, hcomp, ?_, hlen, ?_, hx0, ?_, ?_⟩
  · rw [r1, ha, hlen]
    exact hw2
  · rw [hsum, hlen]
    norm_num
  · rw [hx0]
    norm_num
  · rw [hx0, hsum, hlen]
    norm_num

/-! ## `find_dashed_bonds`: the indices of the buffers `dot` and `dash` -/

theorem gather_dashes_eq_rounds (G : Geometry) (V_DISPLACEMENT dist : ℚ) (dot : Dashes)
    (n_dot i : Nat) :
    gather_dashes G V_DISPLACEMENT dist dot n_dot i
      = gather_rounds G V_DISPLACEMENT dist dot n_dot i (n_dot + 1) :=
  rfl

/-- An invariant of the body stays true through the rounds of `whileLoop`. -/
theorem whileLoop_keeps {σ : Type} (test : σ → Bool) (body : σ → σ) (Inv : σ → Prop)
    (hstep : ∀ s, Inv s → test s = true → Inv (body s)) :
    ∀ fuel s, Inv s → Inv (whileLoop test body fuel s) := by
  intro fuel
  induction fuel with
  | zero => intro s hs; exact hs
  | succ n ih =>
    intro s hs
    by_cases ht : test s = true
    · rw [whileLoop_step test body n s ht]
      exact ih (body s) (hstep s hs ht)
    · rw [whileLoop_done test body (n + 1) s (by simpa using ht)]
      exact hs

/-- One path leaves `n_dot` at most 99 when it was at most 99, and writes no entry of `dot`
but `dot[n_dot]`. -/
theorem collect_dot_bound (G : Geometry) (img : Image) (max : Int) (avg : ℚ) (thick : Bool)
    (s : dots_t) (p : potrace_path_t) (h : s.n_dot ≤ 99) :
    (collect_dot G img max avg thick s p).n_dot ≤ 99 ∧
    (collect_dot G img max avg thick s p).n_dot ≤ s.n_dot + 1 ∧
    s.n_dot ≤ (collect_dot G img max avg thick s p).n_dot ∧
    ∀ k, k ≠ s.n_dot → (collect_dot G img max avg thick s p).dot k = s.dot k := by
  unfold collect_dot
  split
  · dsimp only
    refine ⟨?_, ?_, ?_, fun k hk => upd_other _ _ _ _ hk⟩
    · split <;> split <;> omega
    · split <;> split <;> omega
    · split <;> split <;> omega
  · exact ⟨h, by omega, le_refl _, fun _ _ => rfl⟩

/-- The number of dash candidates is at most 99 after every chain of paths. -/
theorem collect_dots_bound (G : Geometry) (img : Image) (max : Int) (avg : ℚ) (thick : Bool)
    (ps : List potrace_path_t) : (collect_dots G img max avg thick ps).n_dot ≤ 99 := by
  unfold collect_dots
  have key : ∀ (ps : List potrace_path_t) (s : dots_t), s.n_dot ≤ 99 →
      (ps.foldl (collect_dot G img max avg thick) s).n_dot ≤ 99 := by
    intro ps
    induction ps with
    | nil => intro s hs; exact hs
    | cons p ps ih =>
      intro s hs
      exact ih _ (collect_dot_bound G img max avg thick s p hs).1
  exact key ps _ (Nat.zero_le _)

/-- A dot that is not free is not counted among the free dots. -/
theorem free_dots_lt (dot : Dashes) (k : Nat) (hf : (dot k).free = false) :
    ∀ n, k < n → free_dots dot n < n := by
  intro n
  induction n with
  | zero => intro h; omega
  | succ m ih =>
    intro h
    unfold free_dots
    rw [filter_range_succ_length]
    by_cases hk : k = m
    · subst hk
      have := free_dots_le dot k
      unfold free_dots at this
      simp only [hf]
      simp
      omega
    · have := ih (by omega)
      unfold free_dots at this
      split <;> omega

/-- A free dot below `n` is counted among the free dots. -/
theorem free_dots_pos (dot : Dashes) (k n : Nat) (hk : k < n) (hf : (dot k).free = true) :
    0 < free_dots dot n := by
  have := free_dots_take dot k hf n hk
  omega

/-- The search for the dot nearest to `dash[0]` ends on `i` or on a free dot between `i` and
`n_dot`. -/
theorem nearest_to_first_found (G : Geometry) (dist : ℚ) (dot : Dashes) (n_dot i : Nat)
    (d0 : dash_t) :
    (nearest_to_first G dist dot n_dot i d0).2.2 = i ∨
    (i < (nearest_to_first G dist dot n_dot i d0).2.2 ∧
      (nearest_to_first G dist dot n_dot i d0).2.2 < n_dot ∧
      (dot (nearest_to_first G dist dot n_dot i d0).2.2).free = true) := by
  unfold nearest_to_first
  refine forLoop_inv _
    (fun _ (s : dash_t × ℚ × Nat) =>
      s.2.2 = i ∨ (i < s.2.2 ∧ s.2.2 < n_dot ∧ (dot s.2.2).free = true)) _ _ ?_ ?_
  · exact Or.inl rfl
  · intro t s ht hs
    dsimp only
    split
    · rename_i hc
      simp only [Bool.and_eq_true] at hc
      exact Or.inr ⟨by dsimp only; omega, by dsimp only; omega, hc.1.1⟩
    · exact hs

/-- The group at the start of the loop: `n` is 1 or 2, and `n` and the number of free dots
together do not exceed `n_dot`. -/
theorem gather_start_bound (G : Geometry) (dist : ℚ) (dot : Dashes) (n_dot i : Nat)
    (hi : i < n_dot) :
    1 ≤ (gather_start G dist dot n_dot i).1.n ∧
    (gather_start G dist dot n_dot i).1.n
      + free_dots (gather_start G dist dot n_dot i).1.dot n_dot ≤ n_dot ∧
    (gather_start G dist dot n_dot i).2 < n_dot ∧
    ((gather_start G dist dot n_dot i).2 ≠ i → 1 < n_dot) := by
  have hfree : (upd dot i { dot i with free := false } i).free = false := by
    rw [upd_same]
  have h1 := free_dots_lt (upd dot i { dot i with free := false }) i hfree n_dot hi
  have h2 := nearest_to_first_found G dist (upd dot i { dot i with free := false }) n_dot i
    (dot i)
  unfold gather_start
  dsimp only
  refine ⟨?_, ?_, ?_, ?_⟩
  · split
    · simp [take_dash]
    · simp
  · split
    · rename_i hne
      have hne2 : (nearest_to_first G dist (upd dot i { dot i with free := false }) n_dot i
          (dot i)).2.2 ≠ i := by simpa using hne
      rcases h2 with h2 | h2
      · exact absurd h2 hne2
      · have h3 := free_dots_take (upd dot i { dot i with free := false }) _ h2.2.2 n_dot h2.2.1
        simp only [take_dash]
        dsimp only at h1 h3 ⊢
        omega
    · show 1 + _ ≤ n_dot
      dsimp only at h1 ⊢
      omega
  · rcases h2 with h2 | h2
    · rw [h2]; exact hi
    · exact h2.2.1
  · intro hne
    rcases h2 with h2 | h2
    · exact absurd h2 hne
    · omega

/-- A round of the loop writes no entry of `dash` but `dash[n]`, and keeps the bound on `n`
and the number of free dots. -/
theorem grow_group_bound (G : Geometry) (V_DISPLACEMENT dist : ℚ) (n_dot next_dot : Nat)
    (g : dash_group) (h : 1 ≤ g.n ∧ g.n + free_dots g.dot n_dot ≤ n_dot) :
    (1 ≤ (grow_group G V_DISPLACEMENT dist n_dot next_dot g).n ∧
      (grow_group G V_DISPLACEMENT dist n_dot next_dot g).n
        + free_dots (grow_group G V_DISPLACEMENT dist n_dot next_dot g).dot n_dot ≤ n_dot) ∧
    (∀ k, k ≠ g.n → (grow_group G V_DISPLACEMENT dist n_dot next_dot g).dash k = g.dash k) ∧
    ((nearest_to_middle G V_DISPLACEMENT dist n_dot next_dot g).2.2.1 = false →
      (grow_group G V_DISPLACEMENT dist n_dot next_dot g).dash = g.dash) ∧
    ((nearest_to_middle G V_DISPLACEMENT dist n_dot next_dot g).2.2.1 = true →
      g.n < n_dot ∧ (nearest_to_middle G V_DISPLACEMENT dist n_dot next_dot g).2.2.2 < n_dot) := by
  unfold grow_group
  split
  · rename_i hf
    obtain ⟨h1, h2⟩ := nearest_to_middle_found G V_DISPLACEMENT dist n_dot next_dot g hf
    have h3 := free_dots_take g.dot _ h2 n_dot h1
    have h4 := free_dots_pos g.dot _ n_dot h1 h2
    simp only [take_dash]
    dsimp only at h3 h4 ⊢
    refine ⟨⟨by omega, by omega⟩, fun k hk => upd_other _ _ _ _ hk,
      fun hn => absurd hf (by rw [hn]; decide), fun _ => ⟨by omega, h1⟩⟩
  · rename_i hf
    exact ⟨h, fun _ _ => rfl, fun _ => rfl, fun ht => absurd ht hf⟩

/-- The bound on `n` and the number of free dots holds at the head of every round. -/
theorem gather_rounds_bound (G : Geometry) (V_DISPLACEMENT dist : ℚ) (dot : Dashes)
    (n_dot i : Nat) (hi : i < n_dot) (k : Nat) :
    1 ≤ (gather_rounds G V_DISPLACEMENT dist dot n_dot i k).n ∧
    (gather_rounds G V_DISPLACEMENT dist dot n_dot i k).n
      + free_dots (gather_rounds G V_DISPLACEMENT dist dot n_dot i k).dot n_dot ≤ n_dot := by
  unfold gather_rounds
  exact whileLoop_keeps (fun (g : dash_group) => decide (g.n > 1) && g.found)
    (grow_group G V_DISPLACEMENT dist n_dot (gather_start G dist dot n_dot i).2)
    (fun g => 1 ≤ g.n ∧ g.n + free_dots g.dot n_dot ≤ n_dot)
    (fun g hg _ => (grow_group_bound G V_DISPLACEMENT dist n_dot _ g hg).1) k _
    ⟨(gather_start_bound G dist dot n_dot i hi).1, (gather_start_bound G dist dot n_dot i hi).2.1⟩

/-- C30. Scratch-buffer bounds in `find_dashed_bonds`, for every chain of paths `ps`, every
image and all parameters.  After every number `k` of paths the number `n_dot` of dash
candidates is at most 99, and a path writes no entry of `dot` but `dot[n_dot]`.  In the loop
over the dots, with `N` the final `n_dot` and whatever the array `dot` holds, for every
`i < N`: `next_dot` is below `N`, and `dash[1]` is written only when `next_dot` differs from
`i`, which needs `1 < N`; at the head of every round of the loop `while (n > 1 && found)`
the size `n` of the group satisfies `1 ≤ n ≤ N`; a round writes no entry of `dash` but
`dash[n]`, writes nothing when its search finds no dot, and when it finds one then `n < N`
and the dot found, `minj`, is below `N`.  So every index of a write to `dash` is below the
number of candidates, and no index of `dot` or `dash` reaches 100. -/
theorem find_dashed_bonds_buffer_bounds (G : Geometry) (img : Image) (max : Int) (avg : ℚ)
    (thick : Bool) (V_DISPLACEMENT dist : ℚ) (ps : List potrace_path_t) :
    (∀ k, (collect_dots G img max avg thick (ps.take k)).n_dot ≤ 99) ∧
    (collect_dots G img max avg thick ps).n_dot ≤ 99 ∧
    (∀ (s : dots_t) (p : potrace_path_t) (k : Nat), k ≠ s.n_dot →
      (collect_dot G img max avg thick s p).dot k = s.dot k) ∧
    (∀ (dot : Dashes) (i : Nat), i < (collect_dots G img max avg thick ps).n_dot →
      (gather_start G dist dot (collect_dots G img max avg thick ps).n_dot i).2
        < (collect_dots G img max avg thick ps).n_dot ∧
      ((gather_start G dist dot (collect_dots G img max avg thick ps).n_dot i).2 ≠ i →
        1 < (collect_dots G img max avg thick ps).n_dot) ∧
      gather_dashes G V_DISPLACEMENT dist dot (collect_dots G img max avg thick ps).n_dot i
        = gather_rounds G V_DISPLACEMENT dist dot (collect_dots G img max avg thick ps).n_dot i
            ((collect_dots G img max avg thick ps).n_dot + 1) ∧
      ∀ k,
        1 ≤ (gather_rounds G V_DISPLACEMENT dist dot
          (collect_dots G img max avg thick ps).n_dot i k).n ∧
        (gather_rounds G V_DISPLACEMENT dist dot
          (collect_dots G img max avg thick ps).n_dot i k).n
            ≤ (collect_dots G img max avg thick ps).n_dot ∧
        (∀ j, j ≠ (gather_rounds G V_DISPLACEMENT dist dot
            (collect_dots G img max avg thick ps).n_dot i k).n →
          (grow_group G V_DISPLACEMENT dist (collect_dots G img max avg thick ps).n_dot
            (gather_start G dist dot (collect_dots G img max avg thick ps).n_dot i).2
            (gather_rounds G V_DISPLACEMENT dist dot
              (collect_dots G img max avg thick ps).n_dot i k)).dash j
          = (gather_rounds G V_DISPLACEMENT dist dot
              (collect_dots G img max avg thick ps).n_dot i k).dash j) ∧
        ((nearest_to_middle G V_DISPLACEMENT dist (collect_dots G img max avg thick ps).n_dot
            (gather_start G dist dot (collect_dots G img max avg thick ps).n_dot i).2
            (gather_rounds G V_DISPLACEMENT dist dot
              (collect_dots G img max avg thick ps).n_dot i k)).2.2.1 = false →
          (grow_group G V_DISPLACEMENT dist (collect_dots G img max avg thick ps).n_dot
            (gather_start G dist dot (collect_dots G img max avg thick ps).n_dot i).2
            (gather_rounds G V_DISPLACEMENT dist dot
              (collect_dots G img max avg thick ps).n_dot i k)).dash
          = (gather_rounds G V_DISPLACEMENT dist dot
              (collect_dots G img max avg thick ps).n_dot i k).dash) ∧
        ((nearest_to_middle G V_DISPLACEMENT dist (collect_dots G img max avg thick ps).n_dot
            (gather_start G dist dot (collect_dots G img max avg thick ps).n_dot i).2
            (gather_rounds G V_DISPLACEMENT dist dot
              (collect_dots G img max avg thick ps).n_dot i k)).2.2.1 = true →
          (gather_rounds G V_DISPLACEMENT dist dot
            (collect_dots G img max avg thick ps).n_dot i k).n
              < (collect_dots G img max avg thick ps).n_dot ∧
          (nearest_to_middle G V_DISPLACEMENT dist (collect_dots G img max avg thick ps).n_dot
            (gather_start G dist dot (collect_dots G img max avg thick ps).n_dot i).2
            (gather_rounds G V_DISPLACEMENT dist dot
              (collect_dots G img max avg thick ps).n_dot i k)).2.2.2
              < (collect_dots G img max avg thick ps).n_dot)) := by
  refine ⟨fun k => collect_dots_bound G img max avg thick (ps.take k),
    collect_dots_bound G img max avg thick ps, ?_, ?_⟩
  · intro s p k hk
    unfold collect_dot
    split
    · exact upd_other _ _ _ _ hk
    · rfl
  · generalize (collect_dots G img max avg thick ps).n_dot = N
    intro dot i hi
    have hs := gather_start_bound G dist dot N i hi
    refine ⟨hs.2.2.1, hs.2.2.2, rfl, ?_⟩
    intro k
    have hk := gather_rounds_bound G V_DISPLACEMENT dist dot N i hi k
    have hg := grow_group_bound G V_DISPLACEMENT dist N (gather_start G dist dot N i).2
      (gather_rounds G V_DISPLACEMENT dist dot N i k) hk
    exact ⟨hk.1, by omega, hg.2.1, hg.2.2.1, hg.2.2.2⟩

/-- The example of C30 evaluated: the three curves of `dash_paths` give three dash
candidates at (5,5), (12,5), (19,5); the group of the dot 0 starts with `n = 2` and
`next_dot = 1`, the search of the first round finds the dot 2 and writes `dash[2]`, and the
group ends with `n = 3`. -/
theorem find_dashed_bonds_buffer_example :
    (collect_dots euclid dash_image 100 30 false dash_paths).n_dot = 3 ∧
    ((collect_dots euclid dash_image 100 30 false dash_paths).dot 0).x = 5 ∧
    ((collect_dots euclid dash_image 100 30 false dash_paths).dot 1).x = 12 ∧
    ((collect_dots euclid dash_image 100 30 false dash_paths).dot 2).x = 19 ∧
    (gather_start euclid 11 (collect_dots euclid dash_image 100 30 false dash_paths).dot 3 0).2
      = 1 ∧
    (gather_rounds euclid 2 11 (collect_dots euclid dash_image 100 30 false dash_paths).dot 3 0
      0).n = 2 ∧
    (nearest_to_middle euclid 2 11 3 1
      (gather_rounds euclid 2 11 (collect_dots euclid dash_image 100 30 false dash_paths).dot 3
        0 0)).2.2 = (true, 2) ∧
    (gather_dashes euclid 2 11 (collect_dots euclid dash_image 100 30 false dash_paths).dot 3
      0).n = 3 := by
  decide!

/-! ## `remove_disconnected_atoms` -/

/-- The inner loop changes nothing but the exists flag of atom `i`, which it raises when one
of the first `m` bonds exists and ends at `i`. -/
theorem reconnect_atom_spec (bond : Bonds) (i : Nat) (atom : Atoms) :
    ∀ m, (∀ k, k ≠ i → reconnect_atom bond m i atom k = atom k) ∧
      (∃ e : Bool, reconnect_atom bond m i atom i = { atom i with exists_ := e } ∧
        (e = true ↔ (atom i).exists_ = true ∨ Bonded bond m i)) := by
  intro m
  induction m with
  | zero =>
    refine ⟨fun _ _ => rfl, (atom i).exists_, rfl, ?_⟩
    constructor
    · exact Or.inl
    · rintro (h | ⟨j, hj, _⟩)
      · exact h
      · omega
  | succ m ih =>
    obtain ⟨h1, e, h2, h3⟩ := ih
    have hstep : reconnect_atom bond (m + 1) i atom
        = if (bond m).exists_ && (decide (i = (bond m).a) || decide (i = (bond m).b)) then
            upd (reconnect_atom bond m i atom) i
              { reconnect_atom bond m i atom i with exists_ := true }
          else reconnect_atom bond m i atom := rfl
    have hmono : Bonded bond m i → Bonded bond (m + 1) i := by
      rintro ⟨j, hj, hb⟩
      exact ⟨j, by omega, hb⟩
    by_cases hc : ((bond m).exists_ && (decide (i = (bond m).a) || decide (i = (bond m).b)))
        = true
    · rw [hstep, if_pos hc]
      refine ⟨fun k hk => by rw [upd_other _ _ _ _ hk]; exact h1 k hk, true, ?_, ?_⟩
      · rw [upd_same, h2]
      · simp only [Bool.and_eq_true, Bool.or_eq_true, decide_eq_true_eq] at hc
        refine ⟨fun _ => Or.inr ⟨m, Nat.lt_succ_self m, hc.1, ?_⟩, fun _ => rfl⟩
        rcases hc.2 with h | h
        · exact Or.inl h.symm
        · exact Or.inr h.symm
    · rw [hstep, if_neg hc]
      refine ⟨h1, e, h2, ?_⟩
      rw [h3]
      constructor
      · rintro (h | h)
        · exact Or.inl h
        · exact Or.inr (hmono h)
      · rintro (h | ⟨j, hj, hb⟩)
        · exact Or.inl h
        · by_cases hjm : j = m
          · subst hjm
            exfalso
            apply hc
            simp only [Bool.and_eq_true, Bool.or_eq_true, decide_eq_true_eq]
            exact ⟨hb.1, hb.2.elim (fun h => Or.inl h.symm) (fun h => Or.inr h.symm)⟩
          · exact Or.inr ⟨j, by omega, hb⟩

/-- The atoms that `remove_disconnected_atoms` leaves, one by one. -/
theorem remove_disconnected_atoms_apply (atom : Atoms) (bond : Bonds) (n_atom n_bond : Nat) :
    ∀ k, ∃ e : Bool,
      remove_disconnected_atoms atom bond n_atom n_bond k = { atom k with exists_ := e } ∧
      (e = true ↔ (atom k).exists_ = true ∧ (k < n_atom → Bonded bond n_bond k)) := by
  unfold remove_disconnected_atoms
  induction n_atom with
  | zero =>
    intro k
    exact ⟨(atom k).exists_, rfl, ⟨fun h => ⟨h, fun hk => absurd hk (Nat.not_lt_zero k)⟩,
      fun h => h.1⟩⟩
  | succ m ih =>
    intro k
    rw [forLoop_succ]
    obtain ⟨e, h1, h2⟩ := ih k
    by_cases hk : k = m
    · subst hk
      have he : e = (atom k).exists_ := by
        cases hx : (atom k).exists_
        · cases e
          · rfl
          · exact absurd (h2.1 rfl).1 (by simp [hx])
        · exact h2.2 ⟨hx, fun h => absurd h (Nat.lt_irrefl k)⟩
      have h1b : forLoop (fun i (atom : Atoms) =>
          if (atom i).exists_ = true then
            reconnect_atom bond n_bond i (upd atom i { atom i with exists_ := false })
          else atom) k atom k = atom k := by
        rw [h1, he]
      by_cases hx : (atom k).exists_ = true
      · dsimp only
        rw [if_pos (by rw [h1b]; exact hx)]
        obtain ⟨_, e2, h3, h4⟩ := reconnect_atom_spec bond k
          (upd (forLoop (fun i (atom : Atoms) =>
            if (atom i).exists_ = true then
              reconnect_atom bond n_bond i (upd atom i { atom i with exists_ := false })
            else atom) k atom) k
            { forLoop (fun i (atom : Atoms) =>
                if (atom i).exists_ = true then
                  reconnect_atom bond n_bond i (upd atom i { atom i with exists_ := false })
                else atom) k atom k with exists_ := false }) n_bond
        refine ⟨e2, ?_, ?_⟩
        · rw [h3, upd_same, h1b]
        · rw [h4, upd_same]
          simp only [Bool.false_eq_true, false_or]
          exact ⟨fun h => ⟨hx, fun _ => h⟩, fun h => h.2 (Nat.lt_succ_self k)⟩
      · dsimp only
        rw [if_neg (by rw [h1b]; exact hx)]
        refine ⟨false, ?_, ?_⟩
        · rw [h1b]
          have : (atom k).exists_ = false := by simpa using hx
          rw [← this]
        · simp only [Bool.false_eq_true, false_iff, not_and]
          intro h
          exact absurd h hx
    · dsimp only
      split
      · obtain ⟨h3, _⟩ := reconnect_atom_spec bond m
          (upd (forLoop (fun i (atom : Atoms) =>
            if (atom i).exists_ = true then
              reconnect_atom bond n_bond i (upd atom i { atom i with exists_ := false })
            else atom) m atom) m
            { forLoop (fun i (atom : Atoms) =>
                if (atom i).exists_ = true then
                  reconnect_atom bond n_bond i (upd atom i { atom i with exists_ := false })
                else atom) m atom m with exists_ := false }) n_bond
        refine ⟨e, ?_, ?_⟩
        · rw [h3 k hk, upd_other _ _ _ _ hk, h1]
        · rw [h2]
          constructor
          · intro h
            exact ⟨h.1, fun hlt => h.2 (by omega)⟩
          · intro h
            exact ⟨h.1, fun hlt => h.2 (by omega)⟩
      · refine ⟨e, h1, ?_⟩
        rw [h2]
        constructor
        · intro h
          exact ⟨h.1, fun hlt => h.2 (by omega)⟩
        · intro h
          exact ⟨h.1, fun hlt => h.2 (by omega)⟩

/-- C33. `remove_disconnected_atoms`: for every graph, after the call an atom below `n_atom`
exists if and only if it existed before and some existing bond below `n_bond` has it as end
`a` or `b`; every atom keeps all its other fields, the atoms from `n_atom` on are unchanged
(the bonds are only read: they are not part of the result), and applying the function twice
gives what applying it once gives. -/
theorem remove_disconnected_atoms_spec (atom : Atoms) (bond : Bonds) (n_atom n_bond : Nat) :
    (∀ i, i < n_atom →
      ((remove_disconnected_atoms atom bond n_atom n_bond i).exists_ = true ↔
        (atom i).exists_ = true ∧ Bonded bond n_bond i)) ∧
    (∀ i, remove_disconnected_atoms atom bond n_atom n_bond i
      = { atom i with
          exists_ := (remove_disconnected_atoms atom bond n_atom n_bond i).exists_ }) ∧
    (∀ i, n_atom ≤ i → remove_disconnected_atoms atom bond n_atom n_bond i = atom i) ∧
    remove_disconnected_atoms (remove_disconnected_atoms atom bond n_atom n_bond) bond n_atom
        n_bond
      = remove_disconnected_atoms atom bond n_atom n_bond := by
  refine ⟨?_, ?_, ?_, ?_⟩
  · intro i hi
    obtain ⟨e, h1, h2⟩ := remove_disconnected_atoms_apply atom bond n_atom n_bond i
    rw [h1]
    show e = true ↔ _
    rw [h2]
    exact ⟨fun h => ⟨h.1, h.2 hi⟩, fun h => ⟨h.1, fun _ => h.2⟩⟩
  · intro i
    obtain ⟨e, h1, _⟩ := remove_disconnected_atoms_apply atom bond n_atom n_bond i
    rw [h1]
  · intro i hi
    obtain ⟨e, h1, h2⟩ := remove_disconnected_atoms_apply atom bond n_atom n_bond i
    have he : e = (atom i).exists_ := by
      rw [Bool.eq_iff_iff, h2]
      exact ⟨fun h => h.1, fun h => ⟨h, fun hlt => absurd hlt (by omega)⟩⟩
    rw [h1, he]
  · funext k
    obtain ⟨e, h1, h2⟩ := remove_disconnected_atoms_apply atom bond n_atom n_bond k
    obtain ⟨e2, h3, h4⟩ := remove_disconnected_atoms_apply
      (remove_disconnected_atoms atom bond n_atom n_bond) bond n_atom n_bond k
    have he : e2 = e := by
      rw [Bool.eq_iff_iff, h4, h1]
      show e = true ∧ _ ↔ _
      rw [h2]
      exact ⟨fun h => h.1, fun h => ⟨h, h.2⟩⟩
    rw [h3, h1, he]

/-- The example of C33 evaluated: of the three existing atoms of `lone_atoms` the two ends of
the bond stay, and the atom 2, which no bond touches, is switched off and keeps its label
and position. -/
theorem remove_disconnected_atoms_example :
    (remove_disconnected_atoms lone_atoms lone_bonds 3 1 0).exists_ = true ∧
    (remove_disconnected_atoms lone_atoms lone_bonds 3 1 1).exists_ = true ∧
    (remove_disconnected_atoms lone_atoms lone_bonds 3 1 2).exists_ = false ∧
    (remove_disconnected_atoms lone_atoms lone_bonds 3 1 2).label = "N" ∧
    (remove_disconnected_atoms lone_atoms lone_bonds 3 1 2).x = 20 := by
  decide!

/-! ## `thickness_hor` and `thickness_ver` -/

/-- C40. Axis symmetry of the thickness sampling: for every image `I` (binary or not) and
every pixel `(x, y)` (in range or not), `thickness_ver(I, x, y)` equals
`thickness_hor(T(I), y, x)` for the transposed image `T(I)`, and `thickness_hor(I, x, y)`
equals `thickness_ver(T(I), y, x)`; transposing twice gives the image back. -/
theorem thickness_ver_eq_hor_transpose (image : Image) (x y : Int) :
    thickness_ver image x y = thickness_hor (transpose image) y x ∧
    thickness_hor image x y = thickness_ver (transpose image) y x ∧
    transpose (transpose image) = image :=
  ⟨rfl, rfl, rfl⟩

/-- The example of C40 evaluated on `short_wedge`: the column 2 has a run of three black
pixels from row 5 to row 7, and both functions return 4 at its top pixel. -/
theorem thickness_transpose_example :
    thickness_ver short_wedge 2 5 = 4 ∧
    thickness_hor (transpose short_wedge) 5 2 = 4 := by
  decide

/-! ## `getAnum` and `superatom` -/

/-- The function `getAnum` is the chain of the tests of `anum_table` with the default 6. -/
theorem getAnum_eq_chain (s : String) : getAnum s = test_chain 6 s anum_table :=
  rfl

/-- A chain of tests returns the value of a row whose label is the argument, or the
default when the argument is none of the labels. -/
theorem test_chain_cases (d : Int) (s : String) (rows : List (String × Int)) :
    (∃ row, row ∈ rows ∧ row.1 = s ∧ test_chain d s rows = row.2) ∨
    ((∀ row, row ∈ rows → row.1 ≠ s) ∧ test_chain d s rows = d) := by
  induction rows with
  | nil => exact Or.inr ⟨fun _ h => absurd h (List.not_mem_nil _), rfl⟩
  | cons r rows ih =>
    by_cases h : s = r.1
    · exact Or.inl ⟨r, List.mem_cons_self _ _, h.symm, by simp [test_chain, h]⟩
    · rcases ih with ⟨row, h1, h2, h3⟩ | ⟨h1, h2⟩
      · exact Or.inl ⟨row, List.mem_cons_of_mem _ h1, h2, by simp [test_chain, h, h3]⟩
      · refine Or.inr ⟨?_, by simp [test_chain, h, h2]⟩
        intro row hrow
        rcases List.mem_cons.1 hrow with rfl | hrow
        · exact fun e => h e.symm
        · exact h1 row hrow

/-- C38. Element lookup default: `getAnum` returns a value for every label; it returns 0
exactly for the label `"X"`; it returns 6 for the blank label `" "`, for the empty label,
and for every label that is not one of the 35 labels it tests. -/
theorem getAnum_default :
    (∀ s, getAnum s = 0 ↔ s = "X") ∧
    getAnum " " = 6 ∧
    getAnum "" = 6 ∧
    (∀ s, s ∉ anum_labels → getAnum s = 6) ∧
    (∀ s, ∃ v, getAnum s = v ∧ 0 ≤ v ∧ v ≤ 53) := by
  have hzero : ∀ row, row ∈ anum_table → row.2 = 0 → row.1 = "X" := by decide
  have hrange : ∀ row, row ∈ anum_table → 0 ≤ row.2 ∧ row.2 ≤ 53 := by decide
  refine ⟨?_, by decide, by decide, ?_, ?_⟩
  · intro s
    constructor
    · intro h
      rw [getAnum_eq_chain] at h
      rcases test_chain_cases 6 s anum_table with ⟨row, h1, h2, h3⟩ | ⟨_, h2⟩
      · rw [← h2]
        exact hzero row h1 (by rw [← h3]; exact h)
      · rw [h2] at h
        exact absurd h (by decide)
    · rintro rfl
      decide
  · intro s hs
    rw [getAnum_eq_chain]
    rcases test_chain_cases 6 s anum_table with ⟨row, h1, h2, _⟩ | ⟨_, h2⟩
    · exact absurd (List.mem_map.2 ⟨row, h1, h2⟩) hs
    · exact h2
  · intro s
    refine ⟨getAnum s, rfl, ?_⟩
    rw [getAnum_eq_chain]
    rcases test_chain_cases 6 s anum_table with ⟨row, h1, _, h3⟩ | ⟨_, h2⟩
    · rw [h3]
      exact hrange row h1
    · rw [h2]
      decide

/-- The effect of `addiPr`: two atoms with the atomic number 6 are appended, a single bond
joins the two, and a single bond joins the second of them to the atom `aid`. -/
theorem addiPr_spec (mol : RWMol) (aid : Nat) :
    addiPr mol aid
      = { atoms := mol.atoms ++ [6, 6]
          bonds := mol.bonds ++
            [{ first := mol.atoms.length, second := mol.atoms.length + 1, order := .SINGLE },
             { first := mol.atoms.length + 1, second := aid, order := .SINGLE }] } := by
  simp [addiPr, RWMol.addAtom, RWMol.addBond]

/-- For the label `"iPr"` the function `superatom` does what `addiPr` does. -/
theorem superatom_iPr (mol : RWMol) (n : Nat) : superatom "iPr" mol n = addiPr mol n := by
  unfold superatom
  simp only [show ¬ ("iPr" = "MeO") by decide, show ¬ ("iPr" = "CF") by decide,
    show ¬ ("iPr" = "CF3") by decide, show ¬ ("iPr" = "F3CN") by decide,
    show ¬ ("iPr" = "CN") by decide, show ¬ ("iPr" = "nBu") by decide,
    show ¬ ("iPr" = "EtO") by decide, show ¬ ("iPr" = "OiBu") by decide,
    show ¬ ("iPr" = "tBu") by decide, show ¬ ("iPr" = "COOH") by decide,
    show ¬ ("iPr" = "Ac") by decide, show ¬ ("iPr" = "AcO") by decide,
    show ¬ ("iPr" = "NO2") by decide, show ¬ ("iPr" = "NO") by decide,
    show ¬ ("iPr" = "Ph") by decide, show ¬ ("iPr" = "MeS") by decide,
    show ¬ ("iPr" = "MeN") by decide, show ¬ ("iPr" = "SO3H") by decide,
    show ¬ ("iPr" = "OR") by decide, show ¬ ("iPr" = "BzO") by decide,
    show ¬ ("iPr" = "N(OH)CH3") by decide, show ¬ ("iPr" = "THPO") by decide, if_false,
    if_true]

/-- In every molecule the first atom that `superatom` adds for `"iPr"` at an atom `n` of the
molecule is joined to the second added atom only: no bond that the call appends joins it to
the atom `n`. -/
theorem superatom_iPr_chain (mol : RWMol) (n : Nat) (hn : n < mol.atoms.length) :
    (superatom "iPr" mol n).atoms = mol.atoms ++ [6, 6] ∧
    Joined (superatom "iPr" mol n) (mol.atoms.length + 1) n ∧
    Joined (superatom "iPr" mol n) mol.atoms.length (mol.atoms.length + 1) ∧
    (¬ Joined mol mol.atoms.length n → ¬ Joined (superatom "iPr" mol n) mol.atoms.length n) := by
  rw [superatom_iPr, addiPr_spec]
  refine ⟨rfl, ?_, ?_, ?_⟩
  · exact ⟨_, List.mem_append_right _ (List.mem_cons_of_mem _ (List.mem_singleton_self _)),
      Or.inl ⟨rfl, rfl⟩⟩
  · exact ⟨_, List.mem_append_right _ (List.mem_cons_self _ _), Or.inl ⟨rfl, rfl⟩⟩
  · intro hno ⟨b, hb, hj⟩
    simp only [List.mem_append, List.mem_cons, List.mem_singleton, List.not_mem_nil,
      or_false] at hb
    rcases hb with hb | hb | hb
    · exact hno ⟨b, hb, hj⟩
    · subst hb
      simp only at hj
      omega
    · subst hb
      simp only at hj
      omega

/-- C39 fails in the code.  For the label `"iPr"` the atom put into the empty molecule is a
carbon (atom 0, `getAnum` gives 6), and `superatom` adds the two carbons 1 and 2; but the two
bonds it adds join atom 1 to atom 2 and atom 2 to atom 0: the added carbon 1 is not joined
to the attachment atom 0, so the three carbons form a chain that is attached by its end, not
a group attached by its middle carbon.  For `"tBu"` each added carbon is joined to the
attachment atom. -/
theorem superatom_iPr_is_a_chain :
    getAnum "iPr" = 6 ∧
    (add_labelled_atom "iPr" empty_mol).atoms = [6, 6, 6] ∧
    (add_labelled_atom "iPr" empty_mol).bonds
      = [{ first := 1, second := 2, order := .SINGLE },
         { first := 2, second := 0, order := .SINGLE }] ∧
    ¬ Joined (add_labelled_atom "iPr" empty_mol) 1 0 ∧
    Joined (add_labelled_atom "iPr" empty_mol) 1 2 ∧
    Joined (add_labelled_atom "iPr" empty_mol) 2 0 ∧
    (add_labelled_atom "tBu" empty_mol).bonds
      = [{ first := 1, second := 0, order := .SINGLE },
         { first := 2, second := 0, order := .SINGLE },
         { first := 3, second := 0, order := .SINGLE }] := by
  have hb : (add_labelled_atom "iPr" empty_mol).bonds
      = [{ first := 1, second := 2, order := .SINGLE },
         { first := 2, second := 0, order := .SINGLE }] := by decide
  refine ⟨by decide, by decide, hb, ?_, ?_, ?_, by decide⟩
  · rintro ⟨b, hm, hj⟩
    rw [hb] at hm
    simp only [List.mem_cons, List.mem_singleton, List.not_mem_nil, or_false] at hm
    rcases hm with rfl | rfl <;> simp at hj
  · exact ⟨{ first := 1, second := 2, order := .SINGLE }, by rw [hb]; simp, Or.inl ⟨rfl, rfl⟩⟩
  · exact ⟨{ first := 2, second := 0, order := .SINGLE }, by rw [hb]; simp, Or.inl ⟨rfl, rfl⟩⟩

/-! ## `double` arithmetic -/

theorem halvings_spec : ∀ (fuel n : Nat), 1 ≤ n → n ≤ fuel →
    2 ^ halvings fuel n ≤ n ∧ n < 2 ^ (halvings fuel n + 1) := by
  intro fuel
  induction fuel with
  | zero => intro n h1 h2; omega
  | succ f ih =>
    intro n h1 h2
    unfold halvings
    by_cases h : n < 2
    · rw [if_pos h]
      simp only [pow_zero, zero_add, pow_one]
      omega
    · rw [if_neg h]
      obtain ⟨a, b⟩ := ih (n / 2) (by omega) (by omega)
      rw [pow_succ, pow_succ]
      constructor <;> omega

/-- The exponent `floor_log2 n` of a natural number `n` other than 0. -/
theorem floor_log2_spec (n : Nat) (h : 1 ≤ n) :
    2 ^ floor_log2 n ≤ n ∧ n < 2 ^ (floor_log2 n + 1) :=
  halvings_spec n n h (le_refl n)

/-- The exponent `binade q` of a positive rational `q`. -/
theorem binade_spec (q : ℚ) (hq : 0 < q) :
    (2 : ℚ) ^ binade q ≤ q ∧ q < (2 : ℚ) ^ (binade q + 1) := by
  have hnum : 0 < q.num := Rat.num_pos.2 hq
  have hn1 : 1 ≤ q.num.natAbs := by omega
  have hd1 : 1 ≤ q.den := q.den_pos
  obtain ⟨a1, a2⟩ := floor_log2_spec q.num.natAbs hn1
  obtain ⟨b1, b2⟩ := floor_log2_spec q.den hd1
  have hqe : q = (q.num.natAbs : ℚ) / (q.den : ℚ) := by
    have h1 : ((q.num.natAbs : Nat) : ℚ) = (q.num : ℚ) := by
      rw [← Int.cast_natCast, Int.natAbs_of_nonneg (le_of_lt hnum)]
    rw [h1]
    exact (Rat.num_div_den q).symm
  have hdpos : (0 : ℚ) < (q.den : ℚ) := by exact_mod_cast q.den_pos
  have A1 : ((2 : ℚ) ^ floor_log2 q.num.natAbs) ≤ (q.num.natAbs : ℚ) := by exact_mod_cast a1
  have A2 : (q.num.natAbs : ℚ) < (2 : ℚ) ^ (floor_log2 q.num.natAbs + 1) := by exact_mod_cast a2
  have B1 : ((2 : ℚ) ^ floor_log2 q.den) ≤ (q.den : ℚ) := by exact_mod_cast b1
  have B2 : (q.den : ℚ) < (2 : ℚ) ^ (floor_log2 q.den + 1) := by exact_mod_cast b2
  have h2 : (2 : ℚ) ≠ 0 := by norm_num
  have lower : (2 : ℚ) ^ ((floor_log2 q.num.natAbs : Int) - (floor_log2 q.den : Int) - 1) ≤ q := by
    have e : (2 : ℚ) ^ ((floor_log2 q.num.natAbs : Int) - (floor_log2 q.den : Int) - 1)
        = (2 : ℚ) ^ floor_log2 q.num.natAbs / (2 : ℚ) ^ (floor_log2 q.den + 1) := by
      rw [show ((floor_log2 q.num.natAbs : Int) - (floor_log2 q.den : Int) - 1)
        = (floor_log2 q.num.natAbs : Int) - ((floor_log2 q.den + 1 : Nat) : Int) by push_cast; ring,
        zpow_sub₀ h2, zpow_natCast, zpow_natCast]
    rw [e]
    refine le_trans ?_ (le_of_eq hqe.symm)
    rw [div_le_div_iff₀ (by positivity) hdpos]
    have := mul_le_mul A1 (le_of_lt B2) (le_of_lt hdpos) (by positivity)
    linarith
  have upper : q < (2 : ℚ) ^ ((floor_log2 q.num.natAbs : Int) - (floor_log2 q.den : Int) + 1) := by
    have e : (2 : ℚ) ^ ((floor_log2 q.num.natAbs : Int) - (floor_log2 q.den : Int) + 1)
        = (2 : ℚ) ^ (floor_log2 q.num.natAbs + 1) / (2 : ℚ) ^ floor_log2 q.den := by
      rw [show ((floor_log2 q.num.natAbs : Int) - (floor_log2 q.den : Int) + 1)
        = ((floor_log2 q.num.natAbs + 1 : Nat) : Int) - (floor_log2 q.den : Int) by push_cast; ring,
        zpow_sub₀ h2, zpow_natCast, zpow_natCast]
    rw [e]
    refine lt_of_eq_of_lt hqe ?_
    rw [div_lt_div_iff₀ hdpos (by positivity)]
    have hp : (0 : ℚ) < (2 : ℚ) ^ floor_log2 q.den := by positivity
    have hn0 : (0 : ℚ) < (q.num.natAbs : ℚ) := by exact_mod_cast hn1
    calc (q.num.natAbs : ℚ) * (2 : ℚ) ^ floor_log2 q.den
        ≤ (q.num.natAbs : ℚ) * (q.den : ℚ) := mul_le_mul_of_nonneg_left B1 (le_of_lt hn0)
      _ < (2 : ℚ) ^ (floor_log2 q.num.natAbs + 1) * (q.den : ℚ) :=
          mul_lt_mul_of_pos_right A2 hdpos
  unfold binade
  split
  · rename_i hle
    exact ⟨hle, upper⟩
  · rename_i hle
    refine ⟨lower, ?_⟩
    rw [sub_add_cancel]
    exact not_le.1 hle

/-- The nearest integer is at most one half away. -/
theorem round_half_even_near (x : ℚ) : |(round_half_even x : ℚ) - x| ≤ 1 / 2 := by
  have h1 := Int.floor_le x
  have h2 := Int.lt_floor_add_one x
  unfold round_half_even
  rw [abs_le]
  split_ifs <;> push_cast <;> constructor <;> linarith

/-- The relative error of a rounding to `double`: at most `2^(-53)`. -/
theorem round_double_near (q : ℚ) : |round_double q - q| ≤ |q| / 2 ^ 53 := by
  unfold round_double
  by_cases h0 : q = 0
  · rw [if_pos h0, h0]
    simp
  · rw [if_neg h0]
    have hpos : 0 < |q| := abs_pos.2 h0
    obtain ⟨b1, -⟩ := binade_spec |q| hpos
    have hs : (0 : ℚ) < 2 ^ (52 - binade |q|) := zpow_pos (by norm_num) _
    have hr := round_half_even_near (|q| * 2 ^ (52 - binade |q|))
    have hsplit : (2 : ℚ) ^ (52 - binade |q|) * 2 ^ binade |q| = 2 ^ (52 : Int) := by
      rw [← zpow_add₀ (by norm_num : (2 : ℚ) ≠ 0)]
      congr 1
      ring
    have h52 : (2 : ℚ) ^ (52 : Int) = 2 ^ 52 := by norm_cast
    have hbig : (2 : ℚ) ^ 52 ≤ |q| * 2 ^ (52 - binade |q|) := by
      rw [← h52, ← hsplit, mul_comm |q|]
      exact mul_le_mul_of_nonneg_left b1 (le_of_lt hs)
    generalize round_half_even (|q| * 2 ^ (52 - binade |q|)) = m at hr
    generalize (2 : ℚ) ^ (52 - binade |q|) = s at hs hr hbig
    have key : |(m : ℚ) / s - abs q| ≤ |q| / 2 ^ 53 := by
      have e : (m : ℚ) / s - |q| = ((m : ℚ) - |q| * s) / s := by
        field_simp
        ring
      rw [e, abs_div, abs_of_pos hs, div_le_div_iff₀ hs (by positivity)]
      calc |(m : ℚ) - |q| * s| * 2 ^ 53 ≤ 1 / 2 * 2 ^ 53 :=
            mul_le_mul_of_nonneg_right hr (by positivity)
        _ = 2 ^ 52 := by norm_num
        _ ≤ |q| * s := hbig
    by_cases hneg : q < 0
    · rw [if_pos hneg]
      have e : -1 * (m : ℚ) / s - q = -((m : ℚ) / s - abs q) := by
        rw [abs_of_neg hneg]
        ring
      rw [e, abs_neg]
      exact key
    · rw [if_neg hneg]
      have e : 1 * (m : ℚ) / s - q = (m : ℚ) / s - abs q := by
        rw [abs_of_nonneg (not_lt.1 hneg)]
        ring
      rw [e]
      exact key

/-- The decrement `x--` of a `double` below `2^53` in size gives a smaller number. -/
theorem double_sub_one_lt (x : ℚ) (h : |x - 1| < 2 ^ 53) : double_sub x 1 < x := by
  have h1 := round_double_near (x - 1)
  have h2 : |x - 1| / 2 ^ 53 < 1 := by
    rw [div_lt_one (by positivity)]
    exact h
  have h3 := (abs_le.1 h1).2
  unfold double_sub
  linarith

/-- The increment `x++` of a `double` below `2^53` in size gives a larger number. -/
theorem lt_double_add_one (x : ℚ) (h : |x + 1| < 2 ^ 53) : x < double_add x 1 := by
  have h1 := round_double_near (x + 1)
  have h2 : |x + 1| / 2 ^ 53 < 1 := by
    rw [div_lt_one (by positivity)]
    exact h
  have h3 := (abs_le.1 h1).1
  unfold double_add
  linarith

/-- A `double` difference of at least 5 is the rounding of an exact difference that is at
least 5 up to the relative error `2^(-53)`. -/
theorem double_sub_far (a b : ℚ) (h : 5 ≤ double_sub a b) :
    5 ≤ (a - b) * (1 + 1 / 2 ^ 53) := by
  have h1 := round_double_near (a - b)
  unfold double_sub at h
  have h3 := (abs_le.1 h1).2
  by_cases hx : a - b ≤ 0
  · rw [abs_of_nonpos hx] at h3
    have : (a - b) * (1 - 1 / 2 ^ 53) ≤ 0 :=
      mul_nonpos_of_nonpos_of_nonneg hx (by norm_num)
    linarith
  · rw [abs_of_pos (not_le.1 hx)] at h3
    have e : (a - b) * (1 + 1 / 2 ^ 53) = (a - b) + (a - b) / 2 ^ 53 := by ring
    linarith

/-! ## `extend_dashed_bond`: the exact positions -/

/-- The dash extension over the exact rationals.  Let the atoms `a` and `b` be at the
distinct positions `P` and `Q`, with the length `l` that the code computes between them not zero, and `n ≥ 2`.
Then `extend_dashed_bond` moves `a` to `P - (Q - P) / (n - 1)` and `b` to
`Q + (Q - P) / (n - 1)` and changes nothing else; so the midpoint of the bond stays, the
bond vector is multiplied by `(n + 1) / (n - 1)`, which keeps its direction, and the square
of its length is multiplied by the square of `(n + 1) / (n - 1)`. -/
theorem extend_dashed_bond_exact (G : Geometry) (a b n : Nat) (atom : Atoms)
    (hpos : (atom a).x ≠ (atom b).x ∨ (atom a).y ≠ (atom b).y)
    (hl : G.distance (atom a).x (atom a).y (atom b).x (atom b).y ≠ 0) (hn : 2 ≤ n) :
    extend_dashed_bond G a b n atom a
      = { atom a with
          x := (atom a).x - ((atom b).x - (atom a).x) / ((n : ℚ) - 1)
          y := (atom a).y - ((atom b).y - (atom a).y) / ((n : ℚ) - 1) } ∧
    extend_dashed_bond G a b n atom b
      = { atom b with
          x := (atom b).x + ((atom b).x - (atom a).x) / ((n : ℚ) - 1)
          y := (atom b).y + ((atom b).y - (atom a).y) / ((n : ℚ) - 1) } ∧
    (∀ k, k ≠ a → k ≠ b → extend_dashed_bond G a b n atom k = atom k) ∧
    ((extend_dashed_bond G a b n atom a).x + (extend_dashed_bond G a b n atom b).x) / 2
      = ((atom a).x + (atom b).x) / 2 ∧
    ((extend_dashed_bond G a b n atom a).y + (extend_dashed_bond G a b n atom b).y) / 2
      = ((atom a).y + (atom b).y) / 2 ∧
    (0 : ℚ) < ((n : ℚ) + 1) / ((n : ℚ) - 1) ∧
    (extend_dashed_bond G a b n atom b).x - (extend_dashed_bond G a b n atom a).x
      = ((n : ℚ) + 1) / ((n : ℚ) - 1) * ((atom b).x - (atom a).x) ∧
    (extend_dashed_bond G a b n atom b).y - (extend_dashed_bond G a b n atom a).y
      = ((n : ℚ) + 1) / ((n : ℚ) - 1) * ((atom b).y - (atom a).y) ∧
    ((extend_dashed_bond G a b n atom b).x - (extend_dashed_bond G a b n atom a).x) ^ 2
        + ((extend_dashed_bond G a b n atom b).y - (extend_dashed_bond G a b n atom a).y) ^ 2
      = (((n : ℚ) + 1) / ((n : ℚ) - 1)) ^ 2
        * (((atom b).x - (atom a).x) ^ 2 + ((atom b).y - (atom a).y) ^ 2) := by
  have hab : a ≠ b := by
    rintro rfl
    rcases hpos with h | h <;> exact h rfl
  have hn1 : (0 : ℚ) < (n : ℚ) - 1 := by
    have : (2 : ℚ) ≤ (n : ℚ) := by exact_mod_cast hn
    linarith
  have hn0 : ((n : ℚ) - 1) ≠ 0 := ne_of_gt hn1
  have hdiv : ∀ (p q l m : ℚ), l ≠ 0 → (q - p) / l * (-1 * l / m) + p = p - (q - p) / m ∧
      (q - p) / l * l / m + q = q + (q - p) / m := by
    intro p q l m hl0
    have h1 : (q - p) / l * l = q - p := div_mul_cancel₀ _ hl0
    constructor
    · have : (q - p) / l * (-1 * l / m) = -(((q - p) / l * l) / m) := by ring
      rw [this, h1]
      ring
    · rw [h1]
      ring
  have ha : extend_dashed_bond G a b n atom a
      = { atom a with
          x := (atom a).x - ((atom b).x - (atom a).x) / ((n : ℚ) - 1)
          y := (atom a).y - ((atom b).y - (atom a).y) / ((n : ℚ) - 1) } := by
    simp only [extend_dashed_bond, upd, hab, Ne.symm hab, if_true, if_false]
    rw [(hdiv (atom a).x (atom b).x _ _ hl).1, (hdiv (atom a).y (atom b).y _ _ hl).1]
  have hb : extend_dashed_bond G a b n atom b
      = { atom b with
          x := (atom b).x + ((atom b).x - (atom a).x) / ((n : ℚ) - 1)
          y := (atom b).y + ((atom b).y - (atom a).y) / ((n : ℚ) - 1) } := by
    simp only [extend_dashed_bond, upd, hab, Ne.symm hab, if_true, if_false]
    rw [(hdiv (atom a).x (atom b).x _ _ hl).2, (hdiv (atom a).y (atom b).y _ _ hl).2]
  have hvec : ∀ p q : ℚ, q + (q - p) / ((n : ℚ) - 1) - (p - (q - p) / ((n : ℚ) - 1))
      = ((n : ℚ) + 1) / ((n : ℚ) - 1) * (q - p) := by
    intro p q
    field_simp
    ring
  refine ⟨ha, hb, ?_, ?_, ?_, ?_, ?_, ?_, ?_⟩
  · intro k hka hkb
    simp only [extend_dashed_bond, upd, hka, hkb, if_false]
  · rw [ha, hb]
    show ((atom a).x - _ + ((atom b).x + _)) / 2 = _
    ring
  · rw [ha, hb]
    show ((atom a).y - _ + ((atom b).y + _)) / 2 = _
    ring
  · exact div_pos (by linarith) hn1
  · rw [ha, hb]
    exact hvec _ _
  · rw [ha, hb]
    exact hvec _ _
  · rw [ha, hb]
    show ((atom b).x + _ - ((atom a).x - _)) ^ 2 + ((atom b).y + _ - ((atom a).y - _)) ^ 2 = _
    rw [hvec, hvec]
    ring

/-- The dash extension over the exact rationals at a concrete input: two atoms 10 apart
and `n = 3`. -/
theorem extend_dashed_bond_exact_witness :
    extend_dashed_bond euclid 0 1 3 apart_atoms 0
      = { apart_atoms 0 with
          x := (apart_atoms 0).x - ((apart_atoms 1).x - (apart_atoms 0).x) / (((3 : Nat) : ℚ) - 1)
          y := (apart_atoms 0).y - ((apart_atoms 1).y - (apart_atoms 0).y) / (((3 : Nat) : ℚ) - 1) } :=
  (extend_dashed_bond_exact euclid 0 1 3 apart_atoms (by decide!) (by decide!) (by decide)).1

/-- The dash extension over the exact rationals evaluated: the atoms at `(0, 4)` and
`(10, 4)` are moved to `(-5, 4)` and `(15, 4)` for `n = 3`: the midpoint `(5, 4)` stays and
the length 10 becomes 20. -/
theorem extend_dashed_bond_example :
    (extend_dashed_bond euclid 0 1 3 apart_atoms 0).x = -5 ∧
    (extend_dashed_bond euclid 0 1 3 apart_atoms 0).y = 4 ∧
    (extend_dashed_bond euclid 0 1 3 apart_atoms 1).x = 15 ∧
    (extend_dashed_bond euclid 0 1 3 apart_atoms 1).y = 4 ∧
    euclid.distance (extend_dashed_bond euclid 0 1 3 apart_atoms 0).x
      (extend_dashed_bond euclid 0 1 3 apart_atoms 0).y
      (extend_dashed_bond euclid 0 1 3 apart_atoms 1).x
      (extend_dashed_bond euclid 0 1 3 apart_atoms 1).y = 20 := by
  decide!

/-! ## `extend_dashed_bond` in `double` arithmetic -/

theorem RoundedTo.exact (y : ℚ) : RoundedTo 0 y y := by
  unfold RoundedTo
  simp

/-- One more rounding. -/
theorem RoundedTo.round {k : Nat} {x y : ℚ} (h : RoundedTo k x y) :
    RoundedTo (k + 1) (round_double x) y := by
  unfold RoundedTo at h ⊢
  have h1 := round_double_near x
  have hx : |x| ≤ (1 + 1 / 2 ^ 53) ^ k * |y| := by
    have := abs_sub_abs_le_abs_sub x y
    linarith
  have hy : 0 ≤ |y| := abs_nonneg y
  have h2 : |x| / 2 ^ 53 ≤ (1 + 1 / 2 ^ 53) ^ k * |y| / 2 ^ 53 :=
    div_le_div_of_nonneg_right hx (by positivity)
  calc |round_double x - y| = |(round_double x - x) + (x - y)| := by ring_nf
    _ ≤ |round_double x - x| + |x - y| := abs_add _ _
    _ ≤ (1 + 1 / 2 ^ 53) ^ k * |y| / 2 ^ 53 + ((1 + 1 / 2 ^ 53) ^ k - 1) * |y| := by linarith
    _ = ((1 + 1 / 2 ^ 53) ^ (k + 1) - 1) * |y| := by
      rw [pow_succ]
      ring

/-- The product of two rounded numbers. -/
theorem RoundedTo.mul {j k : Nat} {a A b B : ℚ} (ha : RoundedTo j a A) (hb : RoundedTo k b B) :
    RoundedTo (j + k) (a * b) (A * B) := by
  unfold RoundedTo at ha hb ⊢
  have hA : 0 ≤ |A| := abs_nonneg A
  have hB : 0 ≤ |B| := abs_nonneg B
  have hj : (1 : ℚ) ≤ (1 + 1 / 2 ^ 53) ^ j := one_le_pow₀ (by norm_num)
  have hk : (1 : ℚ) ≤ (1 + 1 / 2 ^ 53) ^ k := one_le_pow₀ (by norm_num)
  have hb2 : |b| ≤ (1 + 1 / 2 ^ 53) ^ k * |B| := by
    have := abs_sub_abs_le_abs_sub b B
    linarith
  calc |a * b - A * B| = |(a - A) * b + A * (b - B)| := by ring_nf
    _ ≤ |(a - A) * b| + |A * (b - B)| := abs_add _ _
    _ = |a - A| * |b| + |A| * |b - B| := by rw [abs_mul, abs_mul]
    _ ≤ (((1 + 1 / 2 ^ 53) ^ j - 1) * |A|) * ((1 + 1 / 2 ^ 53) ^ k * |B|)
        + |A| * (((1 + 1 / 2 ^ 53) ^ k - 1) * |B|) := by
      apply add_le_add
      · exact mul_le_mul ha hb2 (abs_nonneg _) (mul_nonneg (by linarith) hA)
      · exact mul_le_mul_of_nonneg_left hb hA
    _ = ((1 + 1 / 2 ^ 53) ^ (j + k) - 1) * |A * B| := by
      rw [pow_add, abs_mul]
      ring

/-- The quotient of a rounded number by an exact one. -/
theorem RoundedTo.div {k : Nat} {a A : ℚ} (ha : RoundedTo k a A) (c : ℚ) :
    RoundedTo k (a / c) (A / c) := by
  have := ha.mul (RoundedTo.exact c⁻¹)
  rw [add_zero] at this
  rw [div_eq_mul_inv, div_eq_mul_inv]
  exact this

/-- The rounded sum of a rounded number and an exact one, against the exact sum. -/
theorem RoundedTo.add_round {k : Nat} {t T : ℚ} (h : RoundedTo k t T) (c : ℚ) :
    |round_double (t + c) - (T + c)|
      ≤ 1 / 2 ^ 53 * |T + c| + (1 + 1 / 2 ^ 53) * (((1 + 1 / 2 ^ 53) ^ k - 1) * |T|) := by
  unfold RoundedTo at h
  have h1 := round_double_near (t + c)
  have h2 : |t + c| ≤ |T + c| + |t - T| := by
    have : t + c = (T + c) + (t - T) := by ring
    rw [this]
    exact abs_add _ _
  have h3 : |t + c| / 2 ^ 53 ≤ (|T + c| + |t - T|) / 2 ^ 53 :=
    div_le_div_of_nonneg_right h2 (by positivity)
  calc |round_double (t + c) - (T + c)|
      = |(round_double (t + c) - (t + c)) + (t - T)| := by ring_nf
    _ ≤ |round_double (t + c) - (t + c)| + |t - T| := abs_add _ _
    _ ≤ (|T + c| + |t - T|) / 2 ^ 53 + |t - T| := by linarith
    _ = 1 / 2 ^ 53 * |T + c| + (1 + 1 / 2 ^ 53) * |t - T| := by ring
    _ ≤ 1 / 2 ^ 53 * |T + c| + (1 + 1 / 2 ^ 53) * (((1 + 1 / 2 ^ 53) ^ k - 1) * |T|) := by
      have : (0 : ℚ) ≤ 1 + 1 / 2 ^ 53 := by norm_num
      have := mul_le_mul_of_nonneg_left h this
      linarith

/-- The coordinate of the `a` end that `extend_dashed_bond` computes in `double`
arithmetic from the coordinates `p` of `a` and `q` of `b`, the length `l` and `m = n - 1`,
against `p - (q - p) / m`. -/
theorem extend_near_a (p q l m : ℚ) (hl : l ≠ 0) :
    |double_add (double_mul (double_div (double_sub q p) l)
        (double_div (double_mul (-1) l) m)) p - (p - (q - p) / m)|
      ≤ 7 / 2 ^ 53 * (|p - (q - p) / m| + |(q - p) / m|) := by
  have h1 : RoundedTo 2 (double_div (double_sub q p) l) ((q - p) / l) :=
    ((RoundedTo.exact (q - p)).round.div l).round
  have h2 : RoundedTo 2 (double_div (double_mul (-1) l) m) (-1 * l / m) :=
    ((RoundedTo.exact (-1 * l)).round.div m).round
  have h3 : RoundedTo 5 (double_mul (double_div (double_sub q p) l)
      (double_div (double_mul (-1) l) m)) ((q - p) / l * (-1 * l / m)) := (h1.mul h2).round
  have e : (q - p) / l * (-1 * l / m) = -((q - p) / m) := by
    have hl1 : l⁻¹ * l = 1 := inv_mul_cancel₀ hl
    calc (q - p) / l * (-1 * l / m) = -((q - p) * (l⁻¹ * l) / m) := by ring
      _ = -((q - p) / m) := by rw [hl1, mul_one]
  rw [e] at h3
  have h4 := h3.add_round p
  have e2 : -((q - p) / m) + p = p - (q - p) / m := by ring
  rw [e2, abs_neg] at h4
  unfold double_add
  have hA : 0 ≤ |p - (q - p) / m| := abs_nonneg _
  have hB : 0 ≤ |(q - p) / m| := abs_nonneg _
  have c1 : (1 : ℚ) / 2 ^ 53 ≤ 7 / 2 ^ 53 := by norm_num
  have c2 : (1 + 1 / 2 ^ 53) * ((1 + 1 / 2 ^ 53 : ℚ) ^ 5 - 1) ≤ 7 / 2 ^ 53 := by norm_num
  have := mul_le_mul_of_nonneg_right c1 hA
  have := mul_le_mul_of_nonneg_right c2 hB
  calc _ ≤ 1 / 2 ^ 53 * |p - (q - p) / m|
        + (1 + 1 / 2 ^ 53) * (((1 + 1 / 2 ^ 53) ^ 5 - 1) * |(q - p) / m|) := h4
    _ ≤ 7 / 2 ^ 53 * (|p - (q - p) / m| + |(q - p) / m|) := by linarith

/-- The coordinate of the `b` end that `extend_dashed_bond` computes in `double`
arithmetic, against `q + (q - p) / m`. -/
theorem extend_near_b (p q l m : ℚ) (hl : l ≠ 0) :
    |double_add (double_div (double_mul (double_div (double_sub q p) l) l) m) q
        - (q + (q - p) / m)|
      ≤ 7 / 2 ^ 53 * (|q + (q - p) / m| + |(q - p) / m|) := by
  have h1 : RoundedTo 2 (double_div (double_sub q p) l) ((q - p) / l) :=
    ((RoundedTo.exact (q - p)).round.div l).round
  have h2 : RoundedTo 3 (double_mul (double_div (double_sub q p) l) l) ((q - p) / l * l) := by
    have := (h1.mul (RoundedTo.exact l)).round
    exact this
  have e : (q - p) / l * l = q - p := div_mul_cancel₀ _ hl
  rw [e] at h2
  have h3 : RoundedTo 4 (double_div (double_mul (double_div (double_sub q p) l) l) m)
      ((q - p) / m) := (h2.div m).round
  have h4 := h3.add_round q
  have e2 : (q - p) / m + q = q + (q - p) / m := by ring
  rw [e2] at h4
  unfold double_add
  have hA : 0 ≤ |q + (q - p) / m| := abs_nonneg _
  have hB : 0 ≤ |(q - p) / m| := abs_nonneg _
  have c1 : (1 : ℚ) / 2 ^ 53 ≤ 7 / 2 ^ 53 := by norm_num
  have c2 : (1 + 1 / 2 ^ 53) * ((1 + 1 / 2 ^ 53 : ℚ) ^ 4 - 1) ≤ 7 / 2 ^ 53 := by norm_num
  have := mul_le_mul_of_nonneg_right c1 hA
  have := mul_le_mul_of_nonneg_right c2 hB
  calc _ ≤ 1 / 2 ^ 53 * |q + (q - p) / m|
        + (1 + 1 / 2 ^ 53) * (((1 + 1 / 2 ^ 53) ^ 4 - 1) * |(q - p) / m|) := h4
    _ ≤ 7 / 2 ^ 53 * (|q + (q - p) / m| + |(q - p) / m|) := by linarith

/-- C34, with the arithmetic of the code.  Let the atoms `a` and `b` be at the distinct
positions `P` and `Q`, with the length `l` that `distance` returns for them not zero, and
`n ≥ 2`.  In `double` arithmetic, where each of the operations of lines 1167-1173 is rounded
with a relative error of at most `2^(-53)`, `extend_dashed_bond` leaves each coordinate of
`a` within `7 * 2^(-53) * (|c| + |d|)` of the coordinate `c` of `P - (Q - P) / (n - 1)`, with
`d` the coordinate of `(Q - P) / (n - 1)`, and each coordinate of `b` within the same bound
of the coordinate of `Q + (Q - P) / (n - 1)`; it changes nothing else of `a` and `b` and no
other atom.  The positions are not exact: see `extend_dashed_bond_double_inexact`. -/
theorem extend_dashed_bond_double_near (G : Geometry) (a b n : Nat) (atom : Atoms)
    (hpos : (atom a).x ≠ (atom b).x ∨ (atom a).y ≠ (atom b).y)
    (hl : G.distance (atom a).x (atom a).y (atom b).x (atom b).y ≠ 0) (hn : 2 ≤ n) :
    (0 : ℚ) < (n : ℚ) - 1 ∧
    |(extend_dashed_bond_double G a b n atom a).x
        - ((atom a).x - ((atom b).x - (atom a).x) / ((n : ℚ) - 1))|
      ≤ 7 / 2 ^ 53 * (|(atom a).x - ((atom b).x - (atom a).x) / ((n : ℚ) - 1)|
        + |((atom b).x - (atom a).x) / ((n : ℚ) - 1)|) ∧
    |(extend_dashed_bond_double G a b n atom a).y
        - ((atom a).y - ((atom b).y - (atom a).y) / ((n : ℚ) - 1))|
      ≤ 7 / 2 ^ 53 * (|(atom a).y - ((atom b).y - (atom a).y) / ((n : ℚ) - 1)|
        + |((atom b).y - (atom a).y) / ((n : ℚ) - 1)|) ∧
    |(extend_dashed_bond_double G a b n atom b).x
        - ((atom b).x + ((atom b).x - (atom a).x) / ((n : ℚ) - 1))|
      ≤ 7 / 2 ^ 53 * (|(atom b).x + ((atom b).x - (atom a).x) / ((n : ℚ) - 1)|
        + |((atom b).x - (atom a).x) / ((n : ℚ) - 1)|) ∧
    |(extend_dashed_bond_double G a b n atom b).y
        - ((atom b).y + ((atom b).y - (atom a).y) / ((n : ℚ) - 1))|
      ≤ 7 / 2 ^ 53 * (|(atom b).y + ((atom b).y - (atom a).y) / ((n : ℚ) - 1)|
        + |((atom b).y - (atom a).y) / ((n : ℚ) - 1)|) ∧
    { extend_dashed_bond_double G a b n atom a with x := (atom a).x, y := (atom a).y }
      = atom a ∧
    { extend_dashed_bond_double G a b n atom b with x := (atom b).x, y := (atom b).y }
      = atom b ∧
    (∀ k, k ≠ a → k ≠ b → extend_dashed_bond_double G a b n atom k = atom k) := by
  have hab : a ≠ b := by
    rintro rfl
    rcases hpos with h | h <;> exact h rfl
  have hn1 : (0 : ℚ) < (n : ℚ) - 1 := by
    have : (2 : ℚ) ≤ (n : ℚ) := by exact_mod_cast hn
    linarith
  have ha : extend_dashed_bond_double G a b n atom a
      = { atom a with
          x := double_add (double_mul (double_div (double_sub (atom b).x (atom a).x)
              (G.distance (atom a).x (atom a).y (atom b).x (atom b).y))
            (double_div (double_mul (-1)
              (G.distance (atom a).x (atom a).y (atom b).x (atom b).y)) ((n : ℚ) - 1)))
            (atom a).x
          y := double_add (double_mul (double_div (double_sub (atom b).y (atom a).y)
              (G.distance (atom a).x (atom a).y (atom b).x (atom b).y))
            (double_div (double_mul (-1)
              (G.distance (atom a).x (atom a).y (atom b).x (atom b).y)) ((n : ℚ) - 1)))
            (atom a).y } := by
    simp only [extend_dashed_bond_double, upd, hab, Ne.symm hab, if_true, if_false]
  have hb : extend_dashed_bond_double G a b n atom b
      = { atom b with
          x := double_add (double_div (double_mul (double_div
              (double_sub (atom b).x (atom a).x)
              (G.distance (atom a).x (atom a).y (atom b).x (atom b).y))
              (G.distance (atom a).x (atom a).y (atom b).x (atom b).y)) ((n : ℚ) - 1))
            (atom b).x
          y := double_add (double_div (double_mul (double_div
              (double_sub (atom b).y (atom a).y)
              (G.distance (atom a).x (atom a).y (atom b).x (atom b).y))
              (G.distance (atom a).x (atom a).y (atom b).x (atom b).y)) ((n : ℚ) - 1))
            (atom b).y } := by
    simp only [extend_dashed_bond_double, upd, hab, Ne.symm hab, if_true, if_false]
  refine ⟨hn1, ?_, ?_, ?_, ?_, ?_, ?_, ?_⟩
  · rw [ha]
    exact extend_near_a _ _ _ _ hl
  · rw [ha]
    exact extend_near_a _ _ _ _ hl
  · rw [hb]
    exact extend_near_b _ _ _ _ hl
  · rw [hb]
    exact extend_near_b _ _ _ _ hl
  · rw [ha]
  · rw [hb]
  · intro k hka hkb
    simp only [extend_dashed_bond_double, upd, hka, hkb, if_false]

/-- Witness for C34: the atoms of `slanted_atoms`, 25 apart, and `n = 3`. -/
theorem extend_dashed_bond_double_near_witness :
    |(extend_dashed_bond_double euclid 0 1 3 slanted_atoms 0).x
        - ((slanted_atoms 0).x
          - ((slanted_atoms 1).x - (slanted_atoms 0).x) / (((3 : Nat) : ℚ) - 1))|
      ≤ 7 / 2 ^ 53 * (|(slanted_atoms 0).x
          - ((slanted_atoms 1).x - (slanted_atoms 0).x) / (((3 : Nat) : ℚ) - 1)|
        + |((slanted_atoms 1).x - (slanted_atoms 0).x) / (((3 : Nat) : ℚ) - 1)|) :=
  (extend_dashed_bond_double_near euclid 0 1 3 slanted_atoms (by decide!) (by decide!)
    (by decide)).2.1

/-- C34. The positions that `extend_dashed_bond` computes are not exact.  The atoms of
`slanted_atoms` are at `P = (0, 0)` and `Q = (7, 24)`, 25 apart, and `n = 3`:
`P - (Q - P) / (n - 1)` is `(-7/2, -12)`, and `-7/2` is a `double`.  In `double` arithmetic
`kx = 7 / 25` is rounded, `-1. * l / (n - 1)` is `-12.5`, their product is rounded to the
`double` next to `-3.5`, and atom `a` is left at `x = -7881299347898369 / 2^51`, which is
`-3.5000000000000004`; over the exact rationals the same formulas give `-7/2`. -/
theorem extend_dashed_bond_double_inexact :
    ((slanted_atoms 0).x ≠ (slanted_atoms 1).x ∨ (slanted_atoms 0).y ≠ (slanted_atoms 1).y) ∧
    euclid.distance (slanted_atoms 0).x (slanted_atoms 0).y (slanted_atoms 1).x
      (slanted_atoms 1).y = 25 ∧
    (slanted_atoms 0).x - ((slanted_atoms 1).x - (slanted_atoms 0).x) / (((3 : Nat) : ℚ) - 1)
      = -7 / 2 ∧
    round_double (-7 / 2) = -7 / 2 ∧
    (extend_dashed_bond_double euclid 0 1 3 slanted_atoms 0).x
      = -7881299347898369 / 2251799813685248 ∧
    (extend_dashed_bond_double euclid 0 1 3 slanted_atoms 0).x
      ≠ (slanted_atoms 0).x
        - ((slanted_atoms 1).x - (slanted_atoms 0).x) / (((3 : Nat) : ℚ) - 1) ∧
    (extend_dashed_bond_double euclid 0 1 3 slanted_atoms 0).y = -12 ∧
    (extend_dashed_bond_double euclid 0 1 3 slanted_atoms 1).x = 21 / 2 ∧
    (extend_dashed_bond_double euclid 0 1 3 slanted_atoms 1).y = 36 ∧
    (extend_dashed_bond euclid 0 1 3 slanted_atoms 0).x = -7 / 2 := by
  decide!

/-! ## `find_dashed_bonds`: the box of a curve -/

/-- The statements for one control point keep `l`, `r`, `t` the smallest `x`, the largest
`x` and the smallest `y` of the points read so far. -/
theorem add_point_sides (width height : Int) (pt : potrace_dpoint_t) (pts : List (Int × Int))
    (s : dot_box) (h : ThreeSides pts s) :
    ThreeSides (pts ++ [(clamp_coord pt.x width, clamp_coord pt.y height)])
      (add_point width height pt s) := by
  obtain ⟨h1, ⟨pl, hl1, hl2⟩, ⟨pr, hr1, hr2⟩, ⟨pt2, ht1, ht2⟩⟩ := h
  refine ⟨?_, ?_, ?_, ?_⟩
  · intro p hp
    rcases List.mem_append.1 hp with hp | hp
    · obtain ⟨a1, a2, a3⟩ := h1 p hp
      simp only [add_point]
      refine ⟨?_, ?_, ?_⟩
      · split <;> linarith
      · split <;> linarith
      · split <;> linarith
    · rw [List.mem_singleton] at hp
      subst hp
      simp only [add_point]
      refine ⟨?_, ?_, ?_⟩
      · split <;> linarith
      · split <;> linarith
      · split <;> linarith
  · simp only [add_point]
    split
    · exact ⟨_, List.mem_append_right _ (List.mem_singleton_self _), rfl⟩
    · exact ⟨pl, List.mem_append_left _ hl1, hl2⟩
  · simp only [add_point]
    split
    · exact ⟨_, List.mem_append_right _ (List.mem_singleton_self _), rfl⟩
    · exact ⟨pr, List.mem_append_left _ hr1, hr2⟩
  · simp only [add_point]
    split
    · exact ⟨_, List.mem_append_right _ (List.mem_singleton_self _), rfl⟩
    · exact ⟨pt2, List.mem_append_left _ ht1, ht2⟩

/-- The count `tot` has no part in the sides. -/
theorem ThreeSides.with_tot (pts : List (Int × Int)) (s : dot_box) (k : Int)
    (h : ThreeSides pts s) : ThreeSides pts { s with tot := k } :=
  h

/-- The body of the loop over the segments keeps the three sides, and counts the points it
reads. -/
theorem add_segment_sides (width height : Int) (n i : Nat) (sg : segment_t)
    (pts : List (Int × Int)) (s : dot_box) (h : ThreeSides pts s)
    (ht : s.tot = pts.length) :
    ThreeSides (pts ++ segment_points width height n i sg) (add_segment width height n i sg s) ∧
    (add_segment width height n i sg s).tot
      = (pts ++ segment_points width height n i sg).length := by
  unfold add_segment segment_points
  by_cases h1 : sg.tag = POTRACE_CORNER
  · simp only [if_pos h1]
    have a1 := add_point_sides width height sg.c1 pts s h
    by_cases h3 : (i != n - 1) = true
    · simp only [if_pos h3]
      have a2 := add_point_sides width height sg.c2 _ _
        (ThreeSides.with_tot _ _ (s.tot + 1) a1)
      rw [← List.append_assoc]
      refine ⟨ThreeSides.with_tot _ _ _ a2, ?_⟩
      simp only [add_point, List.length_append, List.length_singleton, ht]
      push_cast
      ring
    · simp only [if_neg h3, List.append_nil]
      refine ⟨ThreeSides.with_tot _ _ _ a1, ?_⟩
      simp only [add_point, List.length_append, List.length_singleton, ht]
      push_cast
      ring
  · simp only [if_neg h1]
    by_cases h2 : sg.tag = POTRACE_CURVETO
    · simp only [if_pos h2]
      have a0 := add_point_sides width height sg.c0 pts s h
      have a1 := add_point_sides width height sg.c1 _ _ a0
      rw [List.append_assoc] at a1
      by_cases h3 : (i != n - 1) = true
      · simp only [if_pos h3]
        have a2 := add_point_sides width height sg.c2 _ _
          (ThreeSides.with_tot _ _ (s.tot + 2) a1)
        rw [← List.append_assoc]
        refine ⟨ThreeSides.with_tot _ _ _ a2, ?_⟩
        simp only [add_point, List.length_append, List.length_singleton, List.length_cons,
          List.length_nil, List.singleton_append, ht]
        push_cast
        ring
      · simp only [if_neg h3, List.append_nil]
        refine ⟨ThreeSides.with_tot _ _ _ a1, ?_⟩
        simp only [add_point, List.length_append, List.length_singleton, List.length_cons,
          List.length_nil, List.singleton_append, ht]
        push_cast
        ring
    · simp only [if_neg h2, List.nil_append]
      by_cases h3 : (i != n - 1) = true
      · simp only [if_pos h3]
        have a2 := add_point_sides width height sg.c2 pts s h
        refine ⟨ThreeSides.with_tot _ _ _ a2, ?_⟩
        simp only [add_point, List.length_append, List.length_singleton, ht]
        push_cast
        ring
      · simp only [if_neg h3, List.append_nil]
        exact ⟨h, ht⟩

/-- For every curve the sides `l`, `r`, `t` that `find_dashed_bonds` computes are the
smallest `x`, the largest `x` and the smallest `y` of the clamped integer control points,
and `tot` is the number of these points. -/
theorem curve_box_sides (width height : Int) (curve : List segment_t) :
    ThreeSides (curve_points width height curve) (curve_box width height curve) ∧
    (curve_box width height curve).tot = (curve_points width height curve).length := by
  unfold curve_points curve_box curve_points_upto
  generalize curve.length = n
  have key : ∀ m,
      ThreeSides
        (forLoop (fun i pts => pts ++ segment_points width height n i (curve.getD i segment0)) m
          [(clamp_coord (curve.getD (n - 1) segment0).c2.x width,
            clamp_coord (curve.getD (n - 1) segment0).c2.y height)])
        (forLoop (fun i s => add_segment width height n i (curve.getD i segment0) s) m
          { x := clamp_coord (curve.getD (n - 1) segment0).c2.x width
            y := clamp_coord (curve.getD (n - 1) segment0).c2.y height
            l := clamp_coord (curve.getD (n - 1) segment0).c2.x width
            r := clamp_coord (curve.getD (n - 1) segment0).c2.x width
            t := clamp_coord (curve.getD (n - 1) segment0).c2.y height
            b := clamp_coord (curve.getD (n - 1) segment0).c2.y height
            tot := 1 }) ∧
      (forLoop (fun i s => add_segment width height n i (curve.getD i segment0) s) m
          { x := clamp_coord (curve.getD (n - 1) segment0).c2.x width
            y := clamp_coord (curve.getD (n - 1) segment0).c2.y height
            l := clamp_coord (curve.getD (n - 1) segment0).c2.x width
            r := clamp_coord (curve.getD (n - 1) segment0).c2.x width
            t := clamp_coord (curve.getD (n - 1) segment0).c2.y height
            b := clamp_coord (curve.getD (n - 1) segment0).c2.y height
            tot := 1 }).tot
        = (forLoop (fun i pts =>
            pts ++ segment_points width height n i (curve.getD i segment0)) m
          [(clamp_coord (curve.getD (n - 1) segment0).c2.x width,
            clamp_coord (curve.getD (n - 1) segment0).c2.y height)]).length := by
    intro m
    induction m with
    | zero =>
      refine ⟨⟨?_, ?_, ?_, ?_⟩, ?_⟩
      · intro p hp
        have : p = (clamp_coord (curve.getD (n - 1) segment0).c2.x width,
            clamp_coord (curve.getD (n - 1) segment0).c2.y height) := by
          simpa [forLoop] using hp
        subst this
        exact ⟨le_refl _, le_refl _, le_refl _⟩
      · exact ⟨_, List.mem_singleton_self _, rfl⟩
      · exact ⟨_, List.mem_singleton_self _, rfl⟩
      · exact ⟨_, List.mem_singleton_self _, rfl⟩
      · simp [forLoop]
    | succ m ih =>
      rw [forLoop_succ, forLoop_succ]
      exact add_segment_sides width height n m (curve.getD m segment0) _ _ ih.1 ih.2
  exact key n

/-- A solid curve of area below `max` is taken as dash candidate, below the capacity of the
array `dot`, exactly when the distance from `(l, t)` to `(r, b)` computed for it is less
than `avg / 3`. -/
theorem collect_dot_admits (G : Geometry) (img : Image) (max : Int) (avg : ℚ) (thick : Bool)
    (s : dots_t) (p : potrace_path_t) (hp : p.sign = PLUS ∧ p.area < max)
    (hcap : s.n_dot < 99) :
    ((collect_dot G img max avg thick s p).n_dot = s.n_dot + 1 ↔
      G.distance (curve_box img.columns img.rows p.curve).l
        (curve_box img.columns img.rows p.curve).t
        (curve_box img.columns img.rows p.curve).r
        (curve_box img.columns img.rows p.curve).b < avg / 3) ∧
    ((collect_dot G img max avg thick s p).n_dot = s.n_dot ↔
      ¬ G.distance (curve_box img.columns img.rows p.curve).l
        (curve_box img.columns img.rows p.curve).t
        (curve_box img.columns img.rows p.curve).r
        (curve_box img.columns img.rows p.curve).b < avg / 3) := by
  unfold collect_dot
  rw [if_pos hp]
  dsimp only
  by_cases hd : G.distance (curve_box img.columns img.rows p.curve).l
      (curve_box img.columns img.rows p.curve).t
      (curve_box img.columns img.rows p.curve).r
      (curve_box img.columns img.rows p.curve).b < avg / 3
  · simp only [hd, if_true, iff_true, not_true_eq_false, iff_false]
    rw [if_neg (by omega)]
    exact ⟨rfl, by omega⟩
  · simp only [hd, if_false, iff_false, not_false_eq_true, iff_true]
    rw [if_neg (by omega)]
    exact ⟨by omega, rfl⟩

/-- C35 fails in the code.  The curve `tall_path` is solid, of area 4 below `max = 100`, and
its clamped control points are (2,5), (2,50), (2,35), (2,20): the smallest and largest `x`
are 2, the smallest `y` is 5 and the largest `y` is 50, so the diagonal of its bounding box
is 45, not less than `avg / 3 = 10`.  The code computes `l = 2`, `r = 2`, `t = 5`, but
`b = 5`: the fourth test reads `if (cx > b) b = cy;`, and no `x` exceeds `b`.  The distance
from `(l, t)` to `(r, b)` is 0, and the curve is taken as dash candidate (`n_dot = 1`). -/
theorem find_dashed_bonds_box_bottom_not_largest_y :
    tall_path.sign = PLUS ∧ tall_path.area < 100 ∧
    curve_points 30 60 tall_path.curve = [(2, 5), (2, 50), (2, 35), (2, 20)] ∧
    (curve_box 30 60 tall_path.curve).l = 2 ∧
    (curve_box 30 60 tall_path.curve).r = 2 ∧
    (curve_box 30 60 tall_path.curve).t = 5 ∧
    (curve_box 30 60 tall_path.curve).b = 5 ∧
    euclid.distance 2 5 2 50 = 45 ∧
    ¬ (euclid.distance 2 5 2 50 < 30 / 3) ∧
    (collect_dots euclid tall_image 100 30 false [tall_path]).n_dot = 1 := by
  decide!

/-! ## `thickness_hor`: the value on a run -/

/-- The forward scan from a pixel `x` of a run that ends at `b`: the counter stops at
`b - x + 1` when the run ends at the border `hi`, and one later when it ends at a pixel that
is not 1, which the scan reads. -/
theorem scan_forward_run (pix : Int → Int) (hi x b : Int) (hb : b < hi)
    (hrun : ∀ z, x ≤ z → z ≤ b → pix z = 1) (hend : b + 1 = hi ∨ pix (b + 1) ≠ 1) :
    ∀ (fuel : Nat) (i : Int), 0 ≤ i → x + i ≤ b + 1 → (hi - x - i).toNat ≤ fuel →
      (whileLoop (fun (st : Int × Int) => decide (x + st.1 < hi) && st.2 == 1)
        (fun st => (st.1 + 1, pix (x + st.1))) fuel (i, 1)).1
        = if b + 1 = hi then b - x + 1 else b - x + 2 := by
  intro fuel
  induction fuel with
  | zero =>
    intro i h0 h1 h2
    have : x + i = b + 1 ∧ b + 1 = hi := by omega
    simp only [whileLoop, if_pos this.2]
    omega
  | succ n ih =>
    intro i h0 h1 h2
    by_cases hin : x + i ≤ b
    · rw [whileLoop_step _ _ _ _ (by simp; omega)]
      dsimp only
      rw [hrun (x + i) (by omega) hin]
      exact ih (i + 1) (by omega) (by omega) (by omega)
    · have hxi : x + i = b + 1 := by omega
      by_cases hbh : b + 1 = hi
      · rw [whileLoop_done _ _ _ _ (by simp; omega), if_pos hbh]
        dsimp only
        omega
      · have hp : pix (b + 1) ≠ 1 := hend.resolve_left hbh
        rw [whileLoop_step _ _ _ _ (by simp; omega)]
        dsimp only
        rw [hxi, whileLoop_done _ _ _ _ (by simp [hp]), if_neg hbh]
        dsimp only
        omega

/-- The backward scan from a pixel `x` of a run that starts at `a`: the counter stops at
`x - a + 1` when the run starts at the border, and one later when a pixel that is not 1
lies before it, which the scan reads. -/
theorem scan_backward_run (pix : Int → Int) (x a : Int) (ha : 0 ≤ a)
    (hrun : ∀ z, a ≤ z → z ≤ x → pix z = 1) (hend : a = 0 ∨ pix (a - 1) ≠ 1) :
    ∀ (fuel : Nat) (i : Int), 1 ≤ i → a - 1 ≤ x - i → (x - i + 1).toNat ≤ fuel →
      (whileLoop (fun (st : Int × Int) => decide (x - st.1 ≥ 0) && st.2 == 1)
        (fun st => (st.1 + 1, pix (x - st.1))) fuel (i, 1)).1
        = if a = 0 then x - a + 1 else x - a + 2 := by
  intro fuel
  induction fuel with
  | zero =>
    intro i h0 h1 h2
    have : x - i = a - 1 ∧ a = 0 := by omega
    simp only [whileLoop, if_pos this.2]
    omega
  | succ n ih =>
    intro i h0 h1 h2
    by_cases hin : a ≤ x - i
    · rw [whileLoop_step _ _ _ _ (by simp; omega)]
      dsimp only
      rw [hrun (x - i) hin (by omega)]
      exact ih (i + 1) (by omega) (by omega) (by omega)
    · have hxi : x - i = a - 1 := by omega
      by_cases ha0 : a = 0
      · rw [whileLoop_done _ _ _ _ (by simp; omega), if_pos ha0]
        dsimp only
        omega
      · have hp : pix (a - 1) ≠ 1 := hend.resolve_left ha0
        rw [whileLoop_step _ _ _ _ (by simp; omega)]
        dsimp only
        rw [hxi, whileLoop_done _ _ _ _ (by simp [hp]), if_neg ha0]
        dsimp only
        omega

/-- The value of `thickness_hor` on a run: for a foreground pixel `(x1, y1)` in the maximal
run `a .. b` of its row, the function returns the number `b - a + 1` of pixels of the run,
plus one when the run starts after a pixel that is not foreground (not at the left border),
minus one when the run ends at the right border.  It returns 0 when `(x1, y1)` and
`(x1 + 1, y1)` are 0, `x1 + 1` lies in the image, and `x1 = 0` or `(x1 - 1, y1)` is 0. -/
theorem thickness_hor_on_run (image : Image) (x1 y1 a b : Int)
    (hrun : MaximalRun image y1 a b) (hx : a ≤ x1 ∧ x1 ≤ b) :
    thickness_hor image x1 y1
      = (b - a + 1) + (if a = 0 then 0 else 1) - (if b + 1 = image.columns then 1 else 0) ∧
    (∀ x : Int, 0 ≤ x → x + 1 < image.columns → image.get_pixel x y1 = 0 →
      image.get_pixel (x + 1) y1 = 0 → (x = 0 ∨ image.get_pixel (x - 1) y1 = 0) →
      thickness_hor image x y1 = 0) := by
  obtain ⟨ha, hab, hb, hall, hleft, hright⟩ := hrun
  constructor
  · have h1 : image.get_pixel x1 y1 = 1 := hall x1 hx.1 hx.2
    have hf := scan_forward_run (fun z => image.get_pixel z y1) image.columns x1 b hb
      (fun z hz1 hz2 => hall z (by omega) hz2) hright (image.columns - x1).toNat 0 (le_refl _)
      (by omega) (by simp)
    have hbk := scan_backward_run (fun z => image.get_pixel z y1) x1 a ha
      (fun z hz1 hz2 => hall z hz1 (by omega)) hleft x1.toNat 1 (le_refl _) (by omega)
      (by simp)
    unfold thickness_hor
    simp only [h1, show ((1 : Int) == 0) = false from rfl, Bool.false_and, if_false,
      Bool.false_eq_true, show ((1 : Int) == 1) = true from rfl, if_true]
    rw [hf, hbk]
    split <;> split <;> omega
  · intro x hx0 hx1 hp0 hp1 hp2
    unfold thickness_hor
    simp only [hp0, hp1, show ((0 : Int) == 0) = true from rfl, Bool.true_and,
      decide_eq_true_eq, hx1, if_true, show x + 1 - 2 = x - 1 from by ring]
    by_cases hx2 : x - 1 ≥ 0
    · have hp : image.get_pixel (x - 1) y1 = 0 := hp2.resolve_left (by omega)
      simp only [hx2, if_true, hp, show ((0 : Int) == 1) = false from rfl, Bool.false_eq_true,
        if_false]
    · simp only [hx2, if_false, show ((0 : Int) == 1) = false from rfl, Bool.false_eq_true]

/-- The value on the run 2 .. 4 of row 0 of `run_image`, read at its middle pixel. -/
theorem thickness_hor_on_run_witness :
    thickness_hor run_image 3 0
      = (4 - 2 + 1) + (if (2 : Int) = 0 then 0 else 1)
        - (if (4 : Int) + 1 = run_image.columns then 1 else 0) :=
  (thickness_hor_on_run run_image 3 0 2 4
    ⟨by decide, by decide, by decide,
      fun x h1 h2 => by
        have : x = 2 ∨ x = 3 ∨ x = 4 := by omega
        rcases this with rfl | rfl | rfl <;> decide,
      Or.inr (by decide), Or.inr (by decide)⟩ ⟨by decide, by decide⟩).1

/-- C36 fails in the code.  In row 0 of `run_image` the maximal run of the pixel `(3, 0)` is
2 .. 4, three pixels between two white pixels, and `thickness_hor` returns 4 at each of its
pixels, not the run length 3: the backward scan counts the white pixel at which it stops.
In row 1, black from border to border (7 pixels), it returns 6; and at the pixel `(6, 2)`
on the right border, which is white like its left neighbour `(5, 2)`, it returns 2, the
value for the black pixel `(4, 2)` two to the left, not 0. -/
theorem thickness_hor_not_run_length :
    (∀ x : Int, 2 ≤ x → x ≤ 4 → run_image.get_pixel x 0 = 1) ∧
    run_image.get_pixel 1 0 = 0 ∧ run_image.get_pixel 5 0 = 0 ∧
    thickness_hor run_image 2 0 = 4 ∧
    thickness_hor run_image 3 0 = 4 ∧
    thickness_hor run_image 4 0 = 4 ∧
    thickness_hor run_image 3 1 = 6 ∧
    run_image.get_pixel 6 2 = 0 ∧ run_image.get_pixel 5 2 = 0 ∧ run_image.get_pixel 7 2 = 0 ∧
    thickness_hor run_image 6 2 = 2 := by
  refine ⟨?_, by decide, by decide, by decide, by decide, by decide, by decide, by decide,
    by decide, by decide, by decide⟩
  intro x h1 h2
  have : x = 2 ∨ x = 3 ∨ x = 4 := by omega
  rcases this with rfl | rfl | rfl <;> decide

/-! ## `extend_terminal_bond_to_bonds`: no self-loop, and the frame -/

theorem SameButEnds.refl_ends (p : bond_t) : SameButEnds p p := rfl

theorem SameButEnds.trans_ends {p q r : bond_t} (h1 : SameButEnds p q) (h2 : SameButEnds q r) :
    SameButEnds p r := by
  unfold SameButEnds at *
  rw [h2, h1]

theorem SameButPlace.refl_place (p : atom_t) : SameButPlace p p := rfl

theorem SameButPlace.trans_place {p q r : atom_t} (h1 : SameButPlace p q)
    (h2 : SameButPlace q r) : SameButPlace p r := by
  unfold SameButPlace at *
  rw [h2, h1]

theorem SnapFrame.refl_frame (s : snap_state) : SnapFrame s s :=
  ⟨fun _ => rfl, fun _ => rfl⟩

theorem SnapFrame.trans_frame {s t u : snap_state} (h1 : SnapFrame s t) (h2 : SnapFrame t u) :
    SnapFrame s u :=
  ⟨fun k => (h1.1 k).trans_ends (h2.1 k), fun k => (h1.2 k).trans_place (h2.2 k)⟩

/-- The snap of an atom changes nothing but the position of that atom. -/
theorem snap_atom_place (atom : Atoms) (e l k : Nat) :
    SameButPlace (atom k) (snap_atom atom e l k) := by
  unfold snap_atom SameButPlace
  by_cases h : k = l
  · subst h
    simp only [upd_same]
  · simp only [upd_other _ _ _ _ h]

/-- A candidate test of the search for the `a` end selects no end of bond `j`. -/
theorem try_atom_a_avoids (G : Geometry) (avg bl y_dist y_dist1 h1 xa ya xb yb : ℚ)
    (atom : Atoms) (bond : Bonds) (j p : Nat) (s : snap_t)
    (hs : s.found = true → s.l ≠ (bond j).a ∧ s.l ≠ (bond j).b)
    (hf : (try_atom_a G avg bl y_dist y_dist1 h1 xa ya xb yb atom bond j p s).found = true) :
    (try_atom_a G avg bl y_dist y_dist1 h1 xa ya xb yb atom bond j p s).l ≠ (bond j).a ∧
    (try_atom_a G avg bl y_dist y_dist1 h1 xa ya xb yb atom bond j p s).l ≠ (bond j).b := by
  revert hf
  unfold try_atom_a
  split
  · rename_i hp
    split
    · exact fun _ => hp
    · exact hs
  · exact hs

/-- A candidate test of the search for the `b` end selects no end of bond `j`. -/
theorem try_atom_b_avoids (G : Geometry) (avg bl y_dist y_dist1 h1 xa ya xb yb : ℚ)
    (atom : Atoms) (bond : Bonds) (j p : Nat) (s : snap_t)
    (hs : s.found = true → s.l ≠ (bond j).a ∧ s.l ≠ (bond j).b)
    (hf : (try_atom_b G avg bl y_dist y_dist1 h1 xa ya xb yb atom bond j p s).found = true) :
    (try_atom_b G avg bl y_dist y_dist1 h1 xa ya xb yb atom bond j p s).l ≠ (bond j).a ∧
    (try_atom_b G avg bl y_dist y_dist1 h1 xa ya xb yb atom bond j p s).l ≠ (bond j).b := by
  revert hf
  unfold try_atom_b
  split
  · rename_i hp
    split
    · exact fun _ => hp
    · exact hs
  · exact hs

/-- A successful search for the `a` end ends on an atom that is no end of bond `j`. -/
theorem snap_search_a_avoids (G : Geometry) (avg maxh max_dist_double_bond : ℚ)
    (n_bond j : Nat) (xa ya xb yb bl : ℚ) (not_corner_a : Bool) (atom : Atoms) (bond : Bonds)
    (h : (snap_search_a G avg maxh max_dist_double_bond n_bond j xa ya xb yb bl not_corner_a
      atom bond).found = true) :
    (snap_search_a G avg maxh max_dist_double_bond n_bond j xa ya xb yb bl not_corner_a
      atom bond).l ≠ (bond j).a ∧
    (snap_search_a G avg maxh max_dist_double_bond n_bond j xa ya xb yb bl not_corner_a
      atom bond).l ≠ (bond j).b := by
  revert h
  unfold snap_search_a
  refine forLoop_inv _
    (fun _ (s : snap_t) => s.found = true → s.l ≠ (bond j).a ∧ s.l ≠ (bond j).b)
    n_bond _ (fun h => absurd h (by decide)) ?_
  intro i s _ hs
  dsimp only
  split
  · split
    · exact try_atom_a_avoids G avg bl _ _ _ xa ya xb yb atom bond j _ _
        (try_atom_a_avoids G avg bl _ _ _ xa ya xb yb atom bond j _ s hs)
    · exact hs
  · exact hs

/-- A successful search for the `b` end ends on an atom that is no end of bond `j`. -/
theorem snap_search_b_avoids (G : Geometry) (avg maxh max_dist_double_bond : ℚ)
    (n_bond j : Nat) (xa ya xb yb bl : ℚ) (not_corner_b : Bool) (atom : Atoms) (bond : Bonds)
    (h : (snap_search_b G avg maxh max_dist_double_bond n_bond j xa ya xb yb bl not_corner_b
      atom bond).found = true) :
    (snap_search_b G avg maxh max_dist_double_bond n_bond j xa ya xb yb bl not_corner_b
      atom bond).l ≠ (bond j).a ∧
    (snap_search_b G avg maxh max_dist_double_bond n_bond j xa ya xb yb bl not_corner_b
      atom bond).l ≠ (bond j).b := by
  revert h
  unfold snap_search_b
  refine forLoop_inv _
    (fun _ (s : snap_t) => s.found = true → s.l ≠ (bond j).a ∧ s.l ≠ (bond j).b)
    n_bond _ (fun h => absurd h (by decide)) ?_
  intro i s _ hs
  dsimp only
  split
  · split
    · exact try_atom_b_avoids G avg bl _ _ _ xa ya xb yb atom bond j _ _
        (try_atom_b_avoids G avg bl _ _ _ xa ya xb yb atom bond j _ s hs)
    · exact hs
  · exact hs

/-- The first half of a round changes nothing but the `a` end of bond `j` and the position
of the atom snapped to, and leaves no self-loop where there was none. -/
theorem snap_a_keeps (G : Geometry) (avg maxh max_dist_double_bond : ℚ) (n_bond j : Nat)
    (xa ya xb yb bl : ℚ) (not_corner_a : Bool) (s : snap_state) :
    SnapFrame s (snap_a G avg maxh max_dist_double_bond n_bond j xa ya xb yb bl not_corner_a s) ∧
    (NoSelfLoop s.bond n_bond →
      NoSelfLoop (snap_a G avg maxh max_dist_double_bond n_bond j xa ya xb yb bl not_corner_a
        s).bond n_bond) := by
  unfold snap_a
  split
  · rename_i hf
    have hav := snap_search_a_avoids G avg maxh max_dist_double_bond n_bond j xa ya xb yb bl
      not_corner_a s.atom s.bond hf
    refine ⟨⟨?_, fun k => snap_atom_place _ _ _ k⟩, ?_⟩
    · intro k
      dsimp only
      by_cases hk : k = j
      · subst hk
        rw [upd_same]
        rfl
      · rw [upd_other _ _ _ _ hk]
        rfl
    · intro hno k hk hex
      dsimp only at hex ⊢
      by_cases hkj : k = j
      · subst hkj
        rw [upd_same]
        exact hav.2
      · rw [upd_other _ _ _ _ hkj] at hex ⊢
        exact hno k hk hex
  · exact ⟨SnapFrame.refl_frame s, id⟩

/-- The second half of a round changes nothing but the `b` end of bond `j` and the position
of the atom snapped to, and leaves no self-loop where there was none. -/
theorem snap_b_keeps (G : Geometry) (avg maxh max_dist_double_bond : ℚ) (n_bond j : Nat)
    (xa ya xb yb bl : ℚ) (not_corner_b : Bool) (s : snap_state) :
    SnapFrame s (snap_b G avg maxh max_dist_double_bond n_bond j xa ya xb yb bl not_corner_b s) ∧
    (NoSelfLoop s.bond n_bond →
      NoSelfLoop (snap_b G avg maxh max_dist_double_bond n_bond j xa ya xb yb bl not_corner_b
        s).bond n_bond) := by
  unfold snap_b
  split
  · rename_i hf
    have hav := snap_search_b_avoids G avg maxh max_dist_double_bond n_bond j xa ya xb yb bl
      not_corner_b s.atom s.bond hf
    refine ⟨⟨?_, fun k => snap_atom_place _ _ _ k⟩, ?_⟩
    · intro k
      dsimp only
      by_cases hk : k = j
      · subst hk
        rw [upd_same]
        rfl
      · rw [upd_other _ _ _ _ hk]
        rfl
    · intro hno k hk hex
      dsimp only at hex ⊢
      by_cases hkj : k = j
      · subst hkj
        rw [upd_same]
        exact fun e => hav.1 e.symm
      · rw [upd_other _ _ _ _ hkj] at hex ⊢
        exact hno k hk hex
  · exact ⟨SnapFrame.refl_frame s, id⟩

/-- The round of a bond keeps the frame and creates no self-loop. -/
theorem extend_terminal_bond_keeps (G : Geometry) (avg maxh max_dist_double_bond : ℚ)
    (n_bond j : Nat) (s : snap_state) :
    SnapFrame s (extend_terminal_bond G avg maxh max_dist_double_bond n_bond j s) ∧
    (NoSelfLoop s.bond n_bond →
      NoSelfLoop (extend_terminal_bond G avg maxh max_dist_double_bond n_bond j s).bond
        n_bond) := by
  unfold extend_terminal_bond
  split
  · have ha := snap_a_keeps G avg maxh max_dist_double_bond n_bond j
      (s.atom (s.bond j).a).x (s.atom (s.bond j).a).y (s.atom (s.bond j).b).x
      (s.atom (s.bond j).b).y (bond_length G s.bond j s.atom)
      (terminal_bond (s.bond j).a j s.bond n_bond) s
    have hb := snap_b_keeps G avg maxh max_dist_double_bond n_bond j
      (s.atom (s.bond j).a).x (s.atom (s.bond j).a).y (s.atom (s.bond j).b).x
      (s.atom (s.bond j).b).y (bond_length G s.bond j s.atom)
      (terminal_bond (s.bond j).b j s.bond n_bond)
      (snap_a G avg maxh max_dist_double_bond n_bond j
        (s.atom (s.bond j).a).x (s.atom (s.bond j).a).y (s.atom (s.bond j).b).x
        (s.atom (s.bond j).b).y (bond_length G s.bond j s.atom)
        (terminal_bond (s.bond j).a j s.bond n_bond) s)
    exact ⟨ha.1.trans_frame hb.1, fun h => hb.2 (ha.2 h)⟩
  · exact ⟨SnapFrame.refl_frame s, id⟩

/-- A pass keeps the frame and creates no self-loop. -/
theorem extend_terminal_pass_keeps (G : Geometry) (avg maxh max_dist_double_bond : ℚ)
    (n_bond : Nat) (s : snap_state) :
    SnapFrame s (extend_terminal_pass G avg maxh max_dist_double_bond n_bond s) ∧
    (NoSelfLoop s.bond n_bond →
      NoSelfLoop (extend_terminal_pass G avg maxh max_dist_double_bond n_bond s).bond
        n_bond) := by
  unfold extend_terminal_pass
  refine forLoop_inv _
    (fun _ (t : snap_state) => SnapFrame s t ∧ (NoSelfLoop s.bond n_bond →
      NoSelfLoop t.bond n_bond)) n_bond _ ⟨⟨fun _ => rfl, fun _ => rfl⟩, id⟩ ?_
  intro j t _ ht
  have h := extend_terminal_bond_keeps G avg maxh max_dist_double_bond n_bond j t
  exact ⟨ht.1.trans_frame h.1, fun h0 => h.2 (ht.2 h0)⟩

/-- C31. `extend_terminal_bond_to_bonds` never creates a self-loop: if every existing bond
below `n_bond` has `a != b` on entry, every existing bond below `n_bond` has `a != b` on
return.  Moreover every bond record is on return what it was on entry but for its ends `a`
and `b` (so no exists flag and no bond order changes), and every atom record is what it was
but for its position `x`, `y` (so no label and no exists flag changes).  This holds for
every graph, every `avg`, `maxh`, `max_dist_double_bond` and every geometry helper. -/
theorem extend_terminal_bond_to_bonds_no_self_loop (G : Geometry) (atom : Atoms)
    (bond : Bonds) (n_bond : Nat) (avg maxh max_dist_double_bond : ℚ) :
    (NoSelfLoop bond n_bond →
      NoSelfLoop
        (extend_terminal_bond_to_bonds G atom bond n_bond avg maxh max_dist_double_bond).bond
        n_bond) ∧
    (∀ k,
      (extend_terminal_bond_to_bonds G atom bond n_bond avg maxh max_dist_double_bond).bond k
        = { bond k with
            a := ((extend_terminal_bond_to_bonds G atom bond n_bond avg maxh
              max_dist_double_bond).bond k).a
            b := ((extend_terminal_bond_to_bonds G atom bond n_bond avg maxh
              max_dist_double_bond).bond k).b }) ∧
    (∀ k,
      (extend_terminal_bond_to_bonds G atom bond n_bond avg maxh max_dist_double_bond).atom k
        = { atom k with
            x := ((extend_terminal_bond_to_bonds G atom bond n_bond avg maxh
              max_dist_double_bond).atom k).x
            y := ((extend_terminal_bond_to_bonds G atom bond n_bond avg maxh
              max_dist_double_bond).atom k).y }) := by
  have key := whileLoop_keeps (fun (s : snap_state) => s.found_intersection)
    (extend_terminal_pass G avg maxh max_dist_double_bond n_bond)
    (fun t => SnapFrame { atom := atom, bond := bond, found_intersection := true } t ∧
      (NoSelfLoop bond n_bond → NoSelfLoop t.bond n_bond))
    (fun t ht _ =>
      ⟨ht.1.trans_frame (extend_terminal_pass_keeps G avg maxh max_dist_double_bond n_bond t).1,
        fun h0 => (extend_terminal_pass_keeps G avg maxh max_dist_double_bond n_bond t).2
          (ht.2 h0)⟩)
    (2 * n_bond + 1) { atom := atom, bond := bond, found_intersection := true }
    ⟨SnapFrame.refl_frame _, id⟩
  exact ⟨key.2, key.1.1, key.1.2⟩

/-- The example of C31 evaluated: `gap_bonds` has no self-loop; the call snaps the `b` end of
bond 0 from atom 1 to atom 2, which is no end of bond 0, and moves atom 2; the bond keeps
its order and its exists flag, and the atom its label. -/
theorem extend_terminal_bond_to_bonds_frame_example :
    NoSelfLoop gap_bonds 2 ∧
    ((extend_terminal_bond_to_bonds euclid gap_atoms gap_bonds 2 10 3 2).bond 0).a = 0 ∧
    ((extend_terminal_bond_to_bonds euclid gap_atoms gap_bonds 2 10 3 2).bond 0).b = 2 ∧
    ((extend_terminal_bond_to_bonds euclid gap_atoms gap_bonds 2 10 3 2).bond 0).type
      = (gap_bonds 0).type ∧
    ((extend_terminal_bond_to_bonds euclid gap_atoms gap_bonds 2 10 3 2).bond 0).exists_
      = true ∧
    ((extend_terminal_bond_to_bonds euclid gap_atoms gap_bonds 2 10 3 2).atom 2).label
      = (gap_atoms 2).label ∧
    (gap_atoms 2).x = 12 ∧
    ((extend_terminal_bond_to_bonds euclid gap_atoms gap_bonds 2 10 3 2).atom 2).x = 11 := by
  refine ⟨?_, by decide!, by decide!, by decide!, by decide!, by decide!, by decide!,
    by decide!⟩
  intro k hk _
  have : k = 0 ∨ k = 1 := by omega
  rcases this with rfl | rfl <;> decide

/-! ## `extend_terminal_bond_to_label`: the frame -/

/-- The upper case of a character that is neither `+` nor `-` is neither `+` nor `-`. -/
theorem toUpper_ne_sign (c : Char) (h : c ≠ '+' ∧ c ≠ '-') :
    c.toUpper ≠ '+' ∧ c.toUpper ≠ '-' := by
  by_cases hc : c.toNat ≥ 97 ∧ c.toNat ≤ 122
  · have e : c.toUpper = Char.ofNat (c.toNat - 32) := by
      simp only [Char.toUpper, hc, and_self, if_true]
    rw [e]
    obtain ⟨m, hm⟩ : ∃ m, m = c.toNat - 32 := ⟨_, rfl⟩
    have h1 : 65 ≤ m := by omega
    have h2 : m ≤ 90 := by omega
    rw [← hm]
    clear hm e hc h
    interval_cases m <;> decide
  · have e : c.toUpper = c := by
      simp only [Char.toUpper, hc, if_false]
    rw [e]
    exact h

/-- A candidate test keeps the pick or selects the candidate. -/
theorem pick_try_cases (avg y_dist h d r : ℚ) (near : Bool) (i : Nat) (s : label_pick) :
    pick_try avg y_dist h d r near i s = s ∨
    ((pick_try avg y_dist h d r near i s).found = true ∧
      (pick_try avg y_dist h d r near i s).l = i) := by
  unfold pick_try
  split
  · exact Or.inr ⟨rfl, rfl⟩
  · exact Or.inl rfl

/-- Two candidate tests for the same candidate keep the pick or select the candidate. -/
theorem pick_try_twice (avg y1 h1 d1 r1 : ℚ) (n1 : Bool) (y2 h2 d2 r2 : ℚ) (n2 : Bool)
    (i : Nat) (s : label_pick) (Good : Int → Prop) (hi : Good i) (hs : s.found = true → Good s.l) :
    (pick_try avg y2 h2 d2 r2 n2 i (pick_try avg y1 h1 d1 r1 n1 i s)).found = true →
    Good (pick_try avg y2 h2 d2 r2 n2 i (pick_try avg y1 h1 d1 r1 n1 i s)).l := by
  rcases pick_try_cases avg y2 h2 d2 r2 n2 i (pick_try avg y1 h1 d1 r1 n1 i s) with e | e
  · rw [e]
    rcases pick_try_cases avg y1 h1 d1 r1 n1 i s with e1 | e1
    · rw [e1]
      exact hs
    · intro _
      rw [e1.2]
      exact hi
  · intro _
    rw [e.2]
    exact hi

/-- A successful search over the labels ends on a label below `n_label` whose first
character is neither `+` nor `-`. -/
theorem label_search_a_found (G : Geometry) (label : Nat → label_t) (n_label : Nat)
    (bj : bond_t) (avg maxh max_dist_double_bond xa ya xb yb bl : ℚ) (l0 : Int) (m0 : ℚ) :
    (label_search_a G label n_label bj avg maxh max_dist_double_bond xa ya xb yb bl
      { found := false, l := l0, minb := m0 }).found = true →
    ∃ i : Nat, i < n_label ∧
      (label_search_a G label n_label bj avg maxh max_dist_double_bond xa ya xb yb bl
        { found := false, l := l0, minb := m0 }).l = i ∧
      first_char (label i).a ≠ '+' ∧ first_char (label i).a ≠ '-' := by
  unfold label_search_a
  refine forLoop_inv _
    (fun _ (s : label_pick) => s.found = true →
      ∃ i : Nat, i < n_label ∧ s.l = i ∧ first_char (label i).a ≠ '+' ∧
        first_char (label i).a ≠ '-') n_label _ (fun h => absurd h Bool.false_ne_true) ?_
  intro i s hi hs
  dsimp only
  split
  · rename_i hc
    exact pick_try_twice avg _ _ _ _ _ _ _ _ _ _ i s
      (fun l => ∃ i : Nat, i < n_label ∧ l = i ∧ first_char (label i).a ≠ '+' ∧
        first_char (label i).a ≠ '-') ⟨i, hi, rfl, hc.1, hc.2⟩ hs
  · exact hs

/-- A successful search over the labels for the `b` end ends on a label below `n_label`
whose first character is neither `+` nor `-`. -/
theorem label_search_b_found (G : Geometry) (label : Nat → label_t) (n_label : Nat)
    (bj : bond_t) (avg maxh max_dist_double_bond xa ya xb yb bl : ℚ) (l0 : Int) (m0 : ℚ) :
    (label_search_b G label n_label bj avg maxh max_dist_double_bond xa ya xb yb bl
      { found := false, l := l0, minb := m0 }).found = true →
    ∃ i : Nat, i < n_label ∧
      (label_search_b G label n_label bj avg maxh max_dist_double_bond xa ya xb yb bl
        { found := false, l := l0, minb := m0 }).l = i ∧
      first_char (label i).a ≠ '+' ∧ first_char (label i).a ≠ '-' := by
  unfold label_search_b
  refine forLoop_inv _
    (fun _ (s : label_pick) => s.found = true →
      ∃ i : Nat, i < n_label ∧ s.l = i ∧ first_char (label i).a ≠ '+' ∧
        first_char (label i).a ≠ '-') n_label _ (fun h => absurd h Bool.false_ne_true) ?_
  intro i s hi hs
  dsimp only
  split
  · rename_i hc
    exact pick_try_twice avg _ _ _ _ _ _ _ _ _ _ i s
      (fun l => ∃ i : Nat, i < n_label ∧ l = i ∧ first_char (label i).a ≠ '+' ∧
        first_char (label i).a ≠ '-') ⟨i, hi, rfl, hc.1, hc.2.1⟩ hs
  · exact hs

/-- A successful search over the letters ends on a free letter below `n_letters` that is
neither `+` nor `-`. -/
theorem letter_search_a_found (G : Geometry) (letters : Nat → letters_t) (n_letters : Nat)
    (bj : bond_t) (avg maxh max_dist_double_bond xa ya xb yb bl : ℚ) (l0 : Int) (m0 : ℚ) :
    (letter_search_a G letters n_letters bj avg maxh max_dist_double_bond xa ya xb yb bl
      { found := false, l := l0, minb := m0 }).found = true →
    ∃ i : Nat, i < n_letters ∧
      (letter_search_a G letters n_letters bj avg maxh max_dist_double_bond xa ya xb yb bl
        { found := false, l := l0, minb := m0 }).l = i ∧
      (letters i).free = true ∧ (letters i).a ≠ '+' ∧ (letters i).a ≠ '-' := by
  unfold letter_search_a
  refine forLoop_inv _
    (fun _ (s : label_pick) => s.found = true →
      ∃ i : Nat, i < n_letters ∧ s.l = i ∧ (letters i).free = true ∧ (letters i).a ≠ '+' ∧
        (letters i).a ≠ '-') n_letters _ (fun h => absurd h Bool.false_ne_true) ?_
  intro i s hi hs
  dsimp only
  split
  · rename_i hc
    rcases pick_try_cases avg _ _ _ _ _ i s with e | e
    · rw [e]
      exact hs
    · intro _
      exact ⟨i, hi, e.2, hc.1, hc.2.1, hc.2.2⟩
  · exact hs

/-- A successful search over the letters for the `b` end ends on a free letter below
`n_letters` that is neither `+` nor `-`. -/
theorem letter_search_b_found (G : Geometry) (letters : Nat → letters_t) (n_letters : Nat)
    (bj : bond_t) (avg maxh max_dist_double_bond xa ya xb yb bl : ℚ) (l0 : Int) (m0 : ℚ) :
    (letter_search_b G letters n_letters bj avg maxh max_dist_double_bond xa ya xb yb bl
      { found := false, l := l0, minb := m0 }).found = true →
    ∃ i : Nat, i < n_letters ∧
      (letter_search_b G letters n_letters bj avg maxh max_dist_double_bond xa ya xb yb bl
        { found := false, l := l0, minb := m0 }).l = i ∧
      (letters i).free = true ∧ (letters i).a ≠ '+' ∧ (letters i).a ≠ '-' := by
  unfold letter_search_b
  refine forLoop_inv _
    (fun _ (s : label_pick) => s.found = true →
      ∃ i : Nat, i < n_letters ∧ s.l = i ∧ (letters i).free = true ∧ (letters i).a ≠ '+' ∧
        (letters i).a ≠ '-') n_letters _ (fun h => absurd h Bool.false_ne_true) ?_
  intro i s hi hs
  dsimp only
  split
  · rename_i hc
    rcases pick_try_cases avg _ _ _ _ _ i s with e | e
    · rw [e]
      exact hs
    · intro _
      exact ⟨i, hi, e.2, hc.1, hc.2.1, hc.2.2.1⟩
  · exact hs

/-- A record that has been labelled stays labelled, from the same original, when it is
labelled again. -/
theorem Labelled.again (letters : Nat → letters_t) (n_letters : Nat) (label : Nat → label_t)
    (n_label : Nat) (p q r : atom_t) (h1 : Labelled letters n_letters label n_label p q)
    (h2 : Labelled letters n_letters label n_label q r) :
    Labelled letters n_letters label n_label p r := by
  have hq : ∀ (L : String) (X Y : ℚ), ({ q with label := L, x := X, y := Y } : atom_t)
      = { p with label := L, x := X, y := Y } := by
    intro L X Y
    rcases h1 with e | ⟨i, _, _, _, e⟩ | ⟨i, _, _, _, _, e⟩ <;> rw [e]
  rcases h2 with e | ⟨i, a1, a2, a3, e⟩ | ⟨i, a1, a2, a3, a4, e⟩
  · rw [e]
    exact h1
  · exact Or.inr (Or.inl ⟨i, a1, a2, a3, by rw [e, hq]⟩)
  · exact Or.inr (Or.inr ⟨i, a1, a2, a3, a4, by rw [e, hq]⟩)

/-- The assignments after two searches that were run from cleared flags write nothing but
the atom `e`, which they label from a label or a letter that passes the tests. -/
theorem put_label_spec (letters : Nat → letters_t) (n_letters : Nat) (label : Nat → label_t)
    (n_label : Nat) (e : Nat) (p1 p2 : label_pick) (atom : Atoms)
    (h1 : p1.found = true → ∃ i : Nat, i < n_label ∧ p1.l = i ∧
      first_char (label i).a ≠ '+' ∧ first_char (label i).a ≠ '-')
    (h2 : p2.found = true → ∃ i : Nat, i < n_letters ∧ p2.l = i ∧
      (letters i).free = true ∧ (letters i).a ≠ '+' ∧ (letters i).a ≠ '-') :
    (∀ k, k ≠ e → put_label letters label e p1 p2 atom k = atom k) ∧
    Labelled letters n_letters label n_label (atom e) (put_label letters label e p1 p2 atom e) := by
  unfold put_label
  split
  · rename_i hf
    obtain ⟨i, a1, a2, a3, a4, a5⟩ := h2 hf
    refine ⟨fun k hk => upd_other _ _ _ _ hk, ?_⟩
    rw [upd_same, a2, Int.toNat_ofNat]
    exact Or.inr (Or.inr ⟨i, a1, a3, a4, a5, rfl⟩)
  · split
    · rename_i hf
      obtain ⟨i, a1, a2, a3, a4⟩ := h1 hf
      refine ⟨fun k hk => upd_other _ _ _ _ hk, ?_⟩
      rw [upd_same, a2, Int.toNat_ofNat]
      exact Or.inr (Or.inl ⟨i, a1, a3, a4, rfl⟩)
    · exact ⟨fun _ _ => rfl, Or.inl rfl⟩

/-- The round of a bond labels atoms from labels and letters that pass the tests, and
leaves every atom alone whose label is not blank at the head of the round. -/
theorem label_bond_spec (G : Geometry) (letters : Nat → letters_t) (n_letters : Nat)
    (bond : Bonds) (n_bond : Nat) (label : Nat → label_t) (n_label : Nat)
    (avg maxh max_dist_double_bond : ℚ) (j : Nat) (atom : Atoms) :
    (∀ k, Labelled letters n_letters label n_label (atom k)
      (label_bond G letters n_letters bond n_bond label n_label avg maxh max_dist_double_bond j
        atom k)) ∧
    (∀ k, (atom k).label ≠ " " →
      label_bond G letters n_letters bond n_bond label n_label avg maxh max_dist_double_bond j
        atom k = atom k) := by
  unfold label_bond
  split
  swap
  · exact ⟨fun _ => Or.inl rfl, fun _ _ => rfl⟩
  dsimp only
  -- the first half
  have hA : (∀ k, Labelled letters n_letters label n_label (atom k)
        ((if (terminal_bond (bond j).a j bond n_bond &&
            decide ((atom (bond j).a).label = " ")) = true then
          put_label letters label (bond j).a
            (picks_a G letters n_letters label n_label (bond j) avg maxh max_dist_double_bond
              (atom (bond j).a).x (atom (bond j).a).y (atom (bond j).b).x (atom (bond j).b).y
              (bond_length G bond j atom)
              (terminal_bond (bond j).a j bond n_bond &&
                decide ((atom (bond j).a).label = " "))).1
            (picks_a G letters n_letters label n_label (bond j) avg maxh max_dist_double_bond
              (atom (bond j).a).x (atom (bond j).a).y (atom (bond j).b).x (atom (bond j).b).y
              (bond_length G bond j atom)
              (terminal_bond (bond j).a j bond n_bond &&
                decide ((atom (bond j).a).label = " "))).2 atom
        else atom) k)) ∧
      (∀ k, (atom k).label ≠ " " →
        (if (terminal_bond (bond j).a j bond n_bond &&
            decide ((atom (bond j).a).label = " ")) = true then
          put_label letters label (bond j).a
            (picks_a G letters n_letters label n_label (bond j) avg maxh max_dist_double_bond
              (atom (bond j).a).x (atom (bond j).a).y (atom (bond j).b).x (atom (bond j).b).y
              (bond_length G bond j atom)
              (terminal_bond (bond j).a j bond n_bond &&
                decide ((atom (bond j).a).label = " "))).1
            (picks_a G letters n_letters label n_label (bond j) avg maxh max_dist_double_bond
              (atom (bond j).a).x (atom (bond j).a).y (atom (bond j).b).x (atom (bond j).b).y
              (bond_length G bond j atom)
              (terminal_bond (bond j).a j bond n_bond &&
                decide ((atom (bond j).a).label = " "))).2 atom
        else atom) k = atom k) := by
    by_cases hn : (terminal_bond (bond j).a j bond n_bond &&
        decide ((atom (bond j).a).label = " ")) = true
    · rw [if_pos hn, hn]
      have hblank : (atom (bond j).a).label = " " := by
        simp only [Bool.and_eq_true, decide_eq_true_eq] at hn
        exact hn.2
      obtain ⟨s1, s2⟩ := put_label_spec letters n_letters label n_label (bond j).a
        (picks_a G letters n_letters label n_label (bond j) avg maxh max_dist_double_bond
          (atom (bond j).a).x (atom (bond j).a).y (atom (bond j).b).x (atom (bond j).b).y
          (bond_length G bond j atom) true).1
        (picks_a G letters n_letters label n_label (bond j) avg maxh max_dist_double_bond
          (atom (bond j).a).x (atom (bond j).a).y (atom (bond j).b).x (atom (bond j).b).y
          (bond_length G bond j atom) true).2 atom
        (label_search_a_found G label n_label (bond j) avg maxh max_dist_double_bond _ _ _ _ _
          (-1) FLT_MAX)
        (letter_search_a_found G letters n_letters (bond j) avg maxh max_dist_double_bond
          _ _ _ _ _ (-1) _)
      constructor
      · intro k
        by_cases hk : k = (bond j).a
        · subst hk
          exact s2
        · rw [s1 k hk]
          exact Or.inl rfl
      · intro k hk
        exact s1 k (fun e => hk (e ▸ hblank))
    · rw [if_neg hn]
      exact ⟨fun _ => Or.inl rfl, fun _ _ => rfl⟩
  generalize (if (terminal_bond (bond j).a j bond n_bond &&
            decide ((atom (bond j).a).label = " ")) = true then
          put_label letters label (bond j).a
            (picks_a G letters n_letters label n_label (bond j) avg maxh max_dist_double_bond
              (atom (bond j).a).x (atom (bond j).a).y (atom (bond j).b).x (atom (bond j).b).y
              (bond_length G bond j atom)
              (terminal_bond (bond j).a j bond n_bond &&
                decide ((atom (bond j).a).label = " "))).1
            (picks_a G letters n_letters label n_label (bond j) avg maxh max_dist_double_bond
              (atom (bond j).a).x (atom (bond j).a).y (atom (bond j).b).x (atom (bond j).b).y
              (bond_length G bond j atom)
              (terminal_bond (bond j).a j bond n_bond &&
                decide ((atom (bond j).a).label = " "))).2 atom
        else atom) = atom1 at hA ⊢
  obtain ⟨hA1, hA2⟩ := hA
  by_cases hn : (terminal_bond (bond j).b j bond n_bond &&
      decide ((atom (bond j).b).label = " ")) = true
  · rw [if_pos hn]
    have hblank : (atom (bond j).b).label = " " := by
      simp only [Bool.and_eq_true, decide_eq_true_eq] at hn
      exact hn.2
    obtain ⟨s1, s2⟩ := put_label_spec letters n_letters label n_label (bond j).b
      (picks_b G letters n_letters label n_label (bond j) avg maxh max_dist_double_bond
        (atom (bond j).a).x (atom (bond j).a).y (atom (bond j).b).x (atom (bond j).b).y
        (bond_length G bond j atom)
        (picks_a G letters n_letters label n_label (bond j) avg maxh max_dist_double_bond
          (atom (bond j).a).x (atom (bond j).a).y (atom (bond j).b).x (atom (bond j).b).y
          (bond_length G bond j atom)
          (terminal_bond (bond j).a j bond n_bond &&
            decide ((atom (bond j).a).label = " "))).1.l
        (picks_a G letters n_letters label n_label (bond j) avg maxh max_dist_double_bond
          (atom (bond j).a).x (atom (bond j).a).y (atom (bond j).b).x (atom (bond j).b).y
          (bond_length G bond j atom)
          (terminal_bond (bond j).a j bond n_bond &&
            decide ((atom (bond j).a).label = " "))).2.l).1
      (picks_b G letters n_letters label n_label (bond j) avg maxh max_dist_double_bond
        (atom (bond j).a).x (atom (bond j).a).y (atom (bond j).b).x (atom (bond j).b).y
        (bond_length G bond j atom)
        (picks_a G letters n_letters label n_label (bond j) avg maxh max_dist_double_bond
          (atom (bond j).a).x (atom (bond j).a).y (atom (bond j).b).x (atom (bond j).b).y
          (bond_length G bond j atom)
          (terminal_bond (bond j).a j bond n_bond &&
            decide ((atom (bond j).a).label = " "))).1.l
        (picks_a G letters n_letters label n_label (bond j) avg maxh max_dist_double_bond
          (atom (bond j).a).x (atom (bond j).a).y (atom (bond j).b).x (atom (bond j).b).y
          (bond_length G bond j atom)
          (terminal_bond (bond j).a j bond n_bond &&
            decide ((atom (bond j).a).label = " "))).2.l).2 atom1
      (label_search_b_found G label n_label (bond j) avg maxh max_dist_double_bond _ _ _ _ _
        _ FLT_MAX)
      (letter_search_b_found G letters n_letters (bond j) avg maxh max_dist_double_bond
        _ _ _ _ _ _ _)
    constructor
    · intro k
      by_cases hk : k = (bond j).b
      · subst hk
        exact Labelled.again letters n_letters label n_label _ _ _ (hA1 _) s2
      · rw [s1 k hk]
        exact hA1 k
    · intro k hk
      rw [s1 k (fun e => hk (e ▸ hblank))]
      exact hA2 k hk
  · rw [if_neg hn]
    exact ⟨hA1, hA2⟩

/-- C32. Label extension frame.  `extend_terminal_bond_to_label` leaves every atom whose
label is not blank on entry as it is (its label, its position and all its other fields).
Every atom is on return what it was on entry, or what it was but for its label and position,
which are then the text and the middle of a label below `n_label` whose first character is
neither `+` nor `-`, or the character, in upper case, and the position of a free letter
below `n_letters` that is neither `+` nor `-`; so a label that has been assigned does not
begin with `+` or `-`.  The bonds are only read. -/
theorem extend_terminal_bond_to_label_frame (G : Geometry) (atom : Atoms)
    (letters : Nat → letters_t) (n_letters : Nat) (bond : Bonds) (n_bond : Nat)
    (label : Nat → label_t) (n_label : Nat) (avg maxh max_dist_double_bond : ℚ) :
    (∀ k, (atom k).label ≠ " " →
      extend_terminal_bond_to_label G atom letters n_letters bond n_bond label n_label avg maxh
        max_dist_double_bond k = atom k) ∧
    (∀ k, Labelled letters n_letters label n_label (atom k)
      (extend_terminal_bond_to_label G atom letters n_letters bond n_bond label n_label avg maxh
        max_dist_double_bond k)) ∧
    (∀ k,
      extend_terminal_bond_to_label G atom letters n_letters bond n_bond label n_label avg maxh
        max_dist_double_bond k ≠ atom k →
      first_char (extend_terminal_bond_to_label G atom letters n_letters bond n_bond label
        n_label avg maxh max_dist_double_bond k).label ≠ '+' ∧
      first_char (extend_terminal_bond_to_label G atom letters n_letters bond n_bond label
        n_label avg maxh max_dist_double_bond k).label ≠ '-') := by
  have key : (∀ k, (atom k).label ≠ " " →
        extend_terminal_bond_to_label G atom letters n_letters bond n_bond label n_label avg
          maxh max_dist_double_bond k = atom k) ∧
      (∀ k, Labelled letters n_letters label n_label (atom k)
        (extend_terminal_bond_to_label G atom letters n_letters bond n_bond label n_label avg
          maxh max_dist_double_bond k)) := by
    unfold extend_terminal_bond_to_label
    refine forLoop_inv _
      (fun _ (cur : Atoms) => (∀ k, (atom k).label ≠ " " → cur k = atom k) ∧
        (∀ k, Labelled letters n_letters label n_label (atom k) (cur k)))
      n_bond _ ⟨fun _ _ => rfl, fun _ => Or.inl rfl⟩ ?_
    intro j cur _ hc
    obtain ⟨h1, h2⟩ := label_bond_spec G letters n_letters bond n_bond label n_label avg maxh
      max_dist_double_bond j cur
    constructor
    · intro k hk
      have e := hc.1 k hk
      rw [h2 k (by rw [e]; exact hk), e]
    · intro k
      exact Labelled.again letters n_letters label n_label _ _ _ (hc.2 k) (h1 k)
  refine ⟨key.1, key.2, ?_⟩
  intro k hne
  rcases key.2 k with e | ⟨i, _, a2, a3, e⟩ | ⟨i, _, _, a3, a4, e⟩
  · exact absurd e hne
  · rw [e]
    exact ⟨a2, a3⟩
  · rw [e]
    exact toUpper_ne_sign (letters i).a ⟨a3, a4⟩

/-- The example of C32 evaluated: the bond of `bare_bonds` has two blank terminal ends; the
`a` end takes the free letter `c` as `C` with its position, the `b` end takes the label `OH`
and not the nearer `+2`, and the atom labelled `N` is left alone. -/
theorem extend_terminal_bond_to_label_example :
    (extend_terminal_bond_to_label euclid bare_atoms near_letters 1 bare_bonds 1 near_labels 2
      10 2 2 0).label = "C" ∧
    (extend_terminal_bond_to_label euclid bare_atoms near_letters 1 bare_bonds 1 near_labels 2
      10 2 2 0).x = -4 ∧
    (extend_terminal_bond_to_label euclid bare_atoms near_letters 1 bare_bonds 1 near_labels 2
      10 2 2 1).label = "OH" ∧
    (extend_terminal_bond_to_label euclid bare_atoms near_letters 1 bare_bonds 1 near_labels 2
      10 2 2 1).x = 26 ∧
    extend_terminal_bond_to_label euclid bare_atoms near_letters 1 bare_bonds 1 near_labels 2
      10 2 2 2 = bare_atoms 2 := by
  decide!

/-! ## `find_limits_on_avg_bond` -/

/-- A loop over the indices of a list that reads the list is a fold over the list. -/
theorem forLoop_getD_foldl {α σ : Type} (l : List α) (d : α) (f : α → σ → σ) (s : σ) :
    forLoop (fun i s => f (l.getD i d) s) l.length s = l.foldl (fun s x => f x s) s := by
  have key : ∀ n, n ≤ l.length →
      forLoop (fun i s => f (l.getD i d) s) n s = (l.take n).foldl (fun s x => f x s) s := by
    intro n
    induction n with
    | zero => intro _; rfl
    | succ n ih =>
      intro h
      rw [forLoop_succ, ih (by omega), List.take_succ, List.foldl_append]
      have : l[n]? = some (l.getD n d) := by
        rw [List.getD_eq_getElem?_getD, List.getElem?_eq_getElem (by omega)]
        rfl
      rw [this]
      rfl
  rw [key l.length (le_refl _), List.take_length]

theorem getD_zip_pair (a c : List ℚ) (h : a.length = c.length) :
    ∀ i, (a.zip c).getD i (0, 0) = (a.getD i 0, c.getD i 0) := by
  induction a generalizing c with
  | nil =>
    intro i
    cases c with
    | nil => simp
    | cons y c => simp at h
  | cons x a ih =>
    intro i
    cases c with
    | nil => simp at h
    | cons y c =>
      cases i with
      | zero => simp
      | succ i =>
        simp only [List.zip_cons_cons, List.getD_cons_succ]
        exact ih c (by simpa using h) i

theorem getD_zipWith_zip (B C : List (List ℚ)) :
    ∀ l, (List.zipWith List.zip B C).getD l [] = (B.getD l []).zip (C.getD l []) := by
  induction B generalizing C with
  | nil => intro l; simp
  | cons p B ih =>
    intro l
    cases C with
    | nil => simp
    | cons q C =>
      cases l with
      | zero => simp
      | succ l =>
        simp only [List.zipWith_cons_cons, List.getD_cons_succ]
        exact ih C l

theorem SameTableShape.page_length {B C : List (List ℚ)} (h : SameTableShape B C) :
    B.length = C.length ∧ ∀ l, (B.getD l []).length = (C.getD l []).length := by
  unfold SameTableShape at h
  induction h with
  | nil => exact ⟨rfl, fun l => by simp⟩
  | cons hpq _ ih =>
    refine ⟨by simp [ih.1], ?_⟩
    intro l
    cases l with
    | zero => simpa using hpq
    | succ l => simpa using ih.2 l

/-- The loop over a page of two tables of the same shape is a fold over the pairs of the
page. -/
theorem page_loop_foldl {σ : Type} (f : ℚ → ℚ → σ → σ) (a c : List ℚ)
    (h : a.length = c.length) (s : σ) :
    forLoop (fun i s => f (a.getD i 0) (c.getD i 0) s) a.length s
      = (a.zip c).foldl (fun s p => f p.1 p.2 s) s := by
  have e : (fun i s => f (a.getD i 0) (c.getD i 0) s)
      = (fun i s => (fun (p : ℚ × ℚ) s => f p.1 p.2 s) ((a.zip c).getD i (0, 0)) s) := by
    funext i s
    rw [getD_zip_pair a c h i]
  have hl : a.length = (a.zip c).length := by simp [h]
  rw [e, hl]
  exact forLoop_getD_foldl (a.zip c) (0, 0) (fun (p : ℚ × ℚ) s => f p.1 p.2 s) s

/-- The nested loops over two tables of the same shape are a fold over the entries. -/
theorem table_loop_foldl {σ : Type} (f : ℚ → ℚ → σ → σ) (B C : List (List ℚ))
    (h : SameTableShape B C) (s : σ) :
    forLoop (fun l s =>
      forLoop (fun i s => f ((B.getD l []).getD i 0) ((C.getD l []).getD i 0) s)
        (B.getD l []).length s) B.length s
      = (table_entries B C).foldl (fun s p => f p.1 p.2 s) s := by
  have e : (fun l s =>
      forLoop (fun i s => f ((B.getD l []).getD i 0) ((C.getD l []).getD i 0) s)
        (B.getD l []).length s)
      = (fun l s => (fun (page : List (ℚ × ℚ)) s => page.foldl (fun s p => f p.1 p.2 s) s)
          ((List.zipWith List.zip B C).getD l []) s) := by
    funext l s
    rw [getD_zipWith_zip, page_loop_foldl f _ _ (h.page_length.2 l)]
  have hl : B.length = (List.zipWith List.zip B C).length := by
    simp [h.page_length.1]
  rw [e, hl]
  have := forLoop_getD_foldl (List.zipWith List.zip B C) []
    (fun (page : List (ℚ × ℚ)) s => page.foldl (fun s p => f p.1 p.2 s) s) s
  rw [this]
  unfold table_entries
  rw [List.foldl_flatten]

/-- The same for the loops that run over the shape of the second table. -/
theorem table_loop_foldl_second {σ : Type} (f : ℚ → ℚ → σ → σ) (B C : List (List ℚ))
    (h : SameTableShape B C) (s : σ) :
    forLoop (fun l s =>
      forLoop (fun i s => f ((B.getD l []).getD i 0) ((C.getD l []).getD i 0) s)
        (C.getD l []).length s) C.length s
      = (table_entries B C).foldl (fun s p => f p.1 p.2 s) s := by
  have e : (fun l s =>
      forLoop (fun i s => f ((B.getD l []).getD i 0) ((C.getD l []).getD i 0) s)
        (C.getD l []).length s)
      = (fun l s =>
      forLoop (fun i s => f ((B.getD l []).getD i 0) ((C.getD l []).getD i 0) s)
        (B.getD l []).length s) := by
    funext l s
    rw [h.page_length.2 l]
  rw [e, ← h.page_length.1]
  exact table_loop_foldl f B C h s

theorem table_entries_length (B C : List (List ℚ)) (h : SameTableShape B C) :
    (table_entries B C).length = (B.map List.length).sum := by
  unfold SameTableShape at h
  unfold table_entries
  induction h with
  | nil => rfl
  | cons hpq _ ih =>
    simp only [List.zipWith_cons_cons, List.flatten_cons, List.length_append, List.length_zip,
      List.map_cons, List.sum_cons, ih, hpq, min_self]

/-- The first loop over a list of entries: it leaves its variables alone when no confidence
exceeds `max_ind_conf`, and otherwise leaves the confidence and the bond length of the first
entry of largest confidence. -/
theorem best_fold (E : List (ℚ × ℚ)) :
    ∀ s : limits_t,
      ((∀ e, e ∈ E → e.2 ≤ s.max_ind_conf) ∧
        E.foldl (fun s p => best_entry p.1 p.2 s) s = s) ∨
      (∃ e0, FirstBest E e0 ∧ s.max_ind_conf < e0.2 ∧
        E.foldl (fun s p => best_entry p.1 p.2 s) s
          = { max_ind_conf := e0.2, min_bond := e0.1, max_bond := e0.1 }) := by
  induction E with
  | nil =>
    intro s
    exact Or.inl ⟨fun _ h => absurd h (List.not_mem_nil _), rfl⟩
  | cons e E ih =>
    intro s
    rw [List.foldl_cons]
    by_cases hc : s.max_ind_conf < e.2
    · have hb : best_entry e.1 e.2 s = { max_ind_conf := e.2, min_bond := e.1, max_bond := e.1 } := by
        unfold best_entry
        rw [if_pos hc]
      rw [hb]
      rcases ih { max_ind_conf := e.2, min_bond := e.1, max_bond := e.1 } with
        ⟨h1, h2⟩ | ⟨e0, ⟨E1, E2, h1, h2, h3⟩, h4, h5⟩
      · exact Or.inr ⟨e, ⟨[], E, rfl, fun _ h => absurd h (List.not_mem_nil _), h1⟩, hc, h2⟩
      · refine Or.inr ⟨e0, ⟨e :: E1, E2, by rw [h1]; rfl, ?_, h3⟩, lt_trans hc h4, h5⟩
        intro x hx
        rcases List.mem_cons.1 hx with rfl | hx
        · exact h4
        · exact h2 x hx
    · have hb : best_entry e.1 e.2 s = s := by
        unfold best_entry
        rw [if_neg hc]
      rw [hb]
      rcases ih s with ⟨h1, h2⟩ | ⟨e0, ⟨E1, E2, h1, h2, h3⟩, h4, h5⟩
      · refine Or.inl ⟨?_, h2⟩
        intro x hx
        rcases List.mem_cons.1 hx with rfl | hx
        · exact not_lt.1 hc
        · exact h1 x hx
      · refine Or.inr ⟨e0, ⟨e :: E1, E2, by rw [h1]; rfl, ?_, h3⟩, h4, h5⟩
        intro x hx
        rcases List.mem_cons.1 hx with rfl | hx
        · exact lt_of_le_of_lt (not_lt.1 hc) h4
        · exact h2 x hx

/-- Raising the upper limit onto an entry above it leaves fewer entries above the limit. -/
theorem countP_above_lt (E : List (ℚ × ℚ)) (hi : ℚ) (e : ℚ × ℚ) (he : e ∈ E) (h : hi < e.1) :
    E.countP (fun x => decide (x.1 > e.1)) < E.countP (fun x => decide (x.1 > hi)) := by
  induction E with
  | nil => exact absurd he (List.not_mem_nil _)
  | cons y E ih =>
    have hmono : E.countP (fun x => decide (x.1 > e.1)) ≤ E.countP (fun x => decide (x.1 > hi)) :=
      List.countP_mono_left (fun x _ hx => by
        simp only [gt_iff_lt, decide_eq_true_eq] at hx ⊢
        exact lt_trans h hx)
    rcases List.mem_cons.1 he with rfl | he
    · rw [List.countP_cons_of_neg _ _ (by simp), List.countP_cons_of_pos _ _ (by simpa using h)]
      omega
    · have := ih he
      by_cases hy : y.1 > e.1
      · rw [List.countP_cons_of_pos _ _ (by simpa using hy),
          List.countP_cons_of_pos _ _ (by simpa using lt_trans h hy)]
        omega
      · rw [List.countP_cons_of_neg _ _ (by simpa using hy)]
        by_cases hy2 : y.1 > hi
        · rw [List.countP_cons_of_pos _ _ (by simpa using hy2)]
          omega
        · rw [List.countP_cons_of_neg _ _ (by simpa using hy2)]
          exact this

/-- Lowering the lower limit onto an entry below it leaves fewer entries below the limit. -/
theorem countP_below_lt (E : List (ℚ × ℚ)) (lo : ℚ) (e : ℚ × ℚ) (he : e ∈ E) (h : e.1 < lo) :
    E.countP (fun x => decide (x.1 < e.1)) < E.countP (fun x => decide (x.1 < lo)) := by
  induction E with
  | nil => exact absurd he (List.not_mem_nil _)
  | cons y E ih =>
    have hmono : E.countP (fun x => decide (x.1 < e.1)) ≤ E.countP (fun x => decide (x.1 < lo)) :=
      List.countP_mono_left (fun x _ hx => by
        simp only [decide_eq_true_eq] at hx ⊢
        exact lt_trans hx h)
    rcases List.mem_cons.1 he with rfl | he
    · rw [List.countP_cons_of_neg _ _ (by simp), List.countP_cons_of_pos _ _ (by simpa using h)]
      omega
    · have := ih he
      by_cases hy : y.1 < e.1
      · rw [List.countP_cons_of_pos _ _ (by simpa using hy),
          List.countP_cons_of_pos _ _ (by simpa using lt_trans hy h)]
        omega
      · rw [List.countP_cons_of_neg _ _ (by simpa using hy)]
        by_cases hy2 : y.1 < lo
        · rw [List.countP_cons_of_pos _ _ (by simpa using hy2)]
          omega
        · rw [List.countP_cons_of_neg _ _ (by simpa using hy2)]
          exact this

/-- The body of a pass for an entry `e` of the list: the limits move outwards, onto `e` when
they move, the flag is raised when they move and is never cleared, an entry for which the
flag stays down is settled, and the count of entries beyond the limits, plus one for a
raised flag, does not grow. -/
theorem widen_entry_step (M : ℚ) (E : List (ℚ × ℚ)) (e : ℚ × ℚ) (he : e ∈ E) (s : window_t) :
    (widen_entry M e.1 e.2 s).min_bond ≤ s.min_bond ∧
    s.max_bond ≤ (widen_entry M e.1 e.2 s).max_bond ∧
    ((widen_entry M e.1 e.2 s).max_bond = s.max_bond ∨
      (widen_entry M e.1 e.2 s).max_bond = e.1) ∧
    ((widen_entry M e.1 e.2 s).min_bond = s.min_bond ∨
      (widen_entry M e.1 e.2 s).min_bond = e.1) ∧
    ((widen_entry M e.1 e.2 s).flag = false →
      widen_entry M e.1 e.2 s = s ∧ Settled M s.min_bond s.max_bond e) ∧
    (s.flag = true → (widen_entry M e.1 e.2 s).flag = true) ∧
    beyond E (widen_entry M e.1 e.2 s).min_bond (widen_entry M e.1 e.2 s).max_bond
        + (if (widen_entry M e.1 e.2 s).flag then 1 else 0)
      ≤ beyond E s.min_bond s.max_bond + (if s.flag then 1 else 0) := by
  by_cases c1 : e.1 > s.max_bond ∧ (double_sub e.1 s.max_bond < 5 ∨
      e.2 > double_sub M (round_double (1 / 10)))
  · have ha := countP_above_lt E s.max_bond e he c1.1
    by_cases c2 : e.1 < s.min_bond ∧ (double_sub s.min_bond e.1 < 5 ∨
      e.2 > double_sub M (round_double (1 / 10)))
    · have hb := countP_below_lt E s.min_bond e he c2.1
      have hr : widen_entry M e.1 e.2 s = { min_bond := e.1, max_bond := e.1, flag := true } := by
        simp only [widen_entry, c1, c2, and_self, if_true]
      rw [hr]
      refine ⟨le_of_lt c2.1, le_of_lt c1.1, Or.inr rfl, Or.inr rfl,
        fun h => Bool.noConfusion h, fun _ => rfl, ?_⟩
      unfold beyond
      simp only [if_true]
      split <;> omega
    · have hr : widen_entry M e.1 e.2 s = { s with max_bond := e.1, flag := true } := by
        simp only [widen_entry, c1, c2, and_self, if_true, if_false]
      rw [hr]
      refine ⟨le_refl _, le_of_lt c1.1, Or.inr rfl, Or.inl rfl,
        fun h => Bool.noConfusion h, fun _ => rfl, ?_⟩
      unfold beyond
      simp only [if_true]
      split <;> omega
  · by_cases c2 : e.1 < s.min_bond ∧ (double_sub s.min_bond e.1 < 5 ∨
      e.2 > double_sub M (round_double (1 / 10)))
    · have hb := countP_below_lt E s.min_bond e he c2.1
      have hr : widen_entry M e.1 e.2 s = { s with min_bond := e.1, flag := true } := by
        simp only [widen_entry, c1, c2, and_self, if_true, if_false]
      rw [hr]
      refine ⟨le_of_lt c2.1, le_refl _, Or.inl rfl, Or.inr rfl,
        fun h => Bool.noConfusion h, fun _ => rfl, ?_⟩
      unfold beyond
      simp only [if_true]
      split <;> omega
    · have hr : widen_entry M e.1 e.2 s = s := by
        simp only [widen_entry, c1, c2, if_false]
      rw [hr]
      exact ⟨le_refl _, le_refl _, Or.inl rfl, Or.inl rfl, fun _ => ⟨rfl, c1, c2⟩, id,
        le_refl _⟩

/-- The entries of a pass, one after the other. -/
theorem widen_fold (M : ℚ) (E : List (ℚ × ℚ)) (F : List (ℚ × ℚ)) (hF : ∀ e, e ∈ F → e ∈ E) :
    ∀ s : window_t,
      (F.foldl (fun s p => widen_entry M p.1 p.2 s) s).min_bond ≤ s.min_bond ∧
      s.max_bond ≤ (F.foldl (fun s p => widen_entry M p.1 p.2 s) s).max_bond ∧
      ((F.foldl (fun s p => widen_entry M p.1 p.2 s) s).max_bond = s.max_bond ∨
        ∃ e, e ∈ E ∧ (F.foldl (fun s p => widen_entry M p.1 p.2 s) s).max_bond = e.1) ∧
      ((F.foldl (fun s p => widen_entry M p.1 p.2 s) s).min_bond = s.min_bond ∨
        ∃ e, e ∈ E ∧ (F.foldl (fun s p => widen_entry M p.1 p.2 s) s).min_bond = e.1) ∧
      ((F.foldl (fun s p => widen_entry M p.1 p.2 s) s).flag = false →
        F.foldl (fun s p => widen_entry M p.1 p.2 s) s = s ∧
        ∀ e, e ∈ F → Settled M s.min_bond s.max_bond e) ∧
      (s.flag = true → (F.foldl (fun s p => widen_entry M p.1 p.2 s) s).flag = true) ∧
      beyond E (F.foldl (fun s p => widen_entry M p.1 p.2 s) s).min_bond
          (F.foldl (fun s p => widen_entry M p.1 p.2 s) s).max_bond
          + (if (F.foldl (fun s p => widen_entry M p.1 p.2 s) s).flag then 1 else 0)
        ≤ beyond E s.min_bond s.max_bond + (if s.flag then 1 else 0) := by
  induction F with
  | nil =>
    intro s
    exact ⟨le_refl _, le_refl _, Or.inl rfl, Or.inl rfl,
      fun _ => ⟨rfl, fun _ h => absurd h (List.not_mem_nil _)⟩, id, le_refl _⟩
  | cons e F ih =>
    intro s
    rw [List.foldl_cons]
    obtain ⟨a1, a2, a3, a4, a5, a6, a7⟩ := widen_entry_step M E e (hF e (List.mem_cons_self _ _)) s
    obtain ⟨b1, b2, b3, b4, b5, b6, b7⟩ := ih (fun x hx => hF x (List.mem_cons_of_mem _ hx))
      (widen_entry M e.1 e.2 s)
    refine ⟨le_trans b1 a1, le_trans a2 b2, ?_, ?_, ?_, fun h => b6 (a6 h), le_trans b7 a7⟩
    · rcases b3 with h | h
      · rcases a3 with h2 | h2
        · exact Or.inl (h.trans h2)
        · exact Or.inr ⟨e, hF e (List.mem_cons_self _ _), h.trans h2⟩
      · exact Or.inr h
    · rcases b4 with h | h
      · rcases a4 with h2 | h2
        · exact Or.inl (h.trans h2)
        · exact Or.inr ⟨e, hF e (List.mem_cons_self _ _), h.trans h2⟩
      · exact Or.inr h
    · intro hf
      obtain ⟨c1, c2⟩ := b5 hf
      have hflag : (widen_entry M e.1 e.2 s).flag = false := by
        rw [c1] at hf
        exact hf
      obtain ⟨d1, d2⟩ := a5 hflag
      refine ⟨c1.trans d1, ?_⟩
      intro x hx
      rcases List.mem_cons.1 hx with rfl | hx
      · exact d2
      · have := c2 x hx
        rw [d1] at this
        exact this

/-- The entries of two tables of the same shape are the pairs `(bonds[l][i], conf[l][i])`
for the indices `l`, `i` of the first table. -/
theorem mem_table_entries (B C : List (List ℚ)) (h : SameTableShape B C) (e : ℚ × ℚ) :
    e ∈ table_entries B C ↔
      ∃ l i, l < B.length ∧ i < (B.getD l []).length ∧
        e = ((B.getD l []).getD i 0, (C.getD l []).getD i 0) := by
  have hlen : (List.zipWith List.zip B C).length = B.length := by
    simp [h.page_length.1]
  unfold table_entries
  rw [List.mem_flatten]
  constructor
  · rintro ⟨page, hp, he⟩
    obtain ⟨l, hl, rfl⟩ := List.getElem_of_mem hp
    have e1 : (List.zipWith List.zip B C)[l] = (B.getD l []).zip (C.getD l []) := by
      rw [← getD_zipWith_zip B C l, List.getD_eq_getElem _ _ hl]
    rw [e1] at he
    obtain ⟨i, hi, rfl⟩ := List.getElem_of_mem he
    have hi2 : i < (B.getD l []).length := by
      simp only [List.length_zip, h.page_length.2 l, min_self] at hi
      rw [h.page_length.2 l]
      exact hi
    refine ⟨l, i, by omega, hi2, ?_⟩
    rw [← getD_zip_pair _ _ (h.page_length.2 l) i, List.getD_eq_getElem _ _ hi]
  · rintro ⟨l, i, hl, hi, rfl⟩
    refine ⟨(B.getD l []).zip (C.getD l []), ?_, ?_⟩
    · rw [← getD_zipWith_zip B C l, List.getD_eq_getElem _ _ (by omega)]
      exact List.getElem_mem _
    · have hi2 : i < ((B.getD l []).zip (C.getD l [])).length := by
        simp only [List.length_zip, ← h.page_length.2 l, min_self]
        exact hi
      rw [← getD_zip_pair _ _ (h.page_length.2 l) i, List.getD_eq_getElem _ _ hi2]
      exact List.getElem_mem _

theorem best_limits_eq_fold (lo hi : ℚ) (B C : List (List ℚ)) (h : SameTableShape B C) :
    best_limits lo hi B C
      = (table_entries B C).foldl (fun s p => best_entry p.1 p.2 s)
          { max_ind_conf := -FLT_MAX, min_bond := lo, max_bond := hi } :=
  table_loop_foldl_second best_entry B C h _

theorem widen_pass_eq_fold (M : ℚ) (B C : List (List ℚ)) (h : SameTableShape B C)
    (s : window_t) :
    widen_pass M B C s
      = (table_entries B C).foldl (fun s p => widen_entry M p.1 p.2 s) { s with flag := false } :=
  table_loop_foldl (widen_entry M) B C h _

theorem beyond_le (E : List (ℚ × ℚ)) (lo hi : ℚ) : beyond E lo hi ≤ 2 * E.length := by
  unfold beyond
  have h1 := List.countP_le_length (fun e : ℚ × ℚ => decide (e.1 > hi)) (l := E)
  have h2 := List.countP_le_length (fun e : ℚ × ℚ => decide (e.1 < lo)) (l := E)
  omega

/-- The loop `while (flag)` from limits that lie on an entry `b0`: it ends by its test within
the passes that the model gives it, and then every entry is settled at the limits, which lie
on entries on either side of `b0`. -/
theorem widen_loop_spec (B C : List (List ℚ)) (h : SameTableShape B C) (M b0 : ℚ)
    (hb : ∃ e, e ∈ table_entries B C ∧ b0 = e.1) :
    (widen_loop B C { max_ind_conf := M, min_bond := b0, max_bond := b0 }
      (2 * (B.map List.length).sum + 1)).flag = false ∧
    (∀ e, e ∈ table_entries B C →
      Settled M
        (widen_loop B C { max_ind_conf := M, min_bond := b0, max_bond := b0 }
          (2 * (B.map List.length).sum + 1)).min_bond
        (widen_loop B C { max_ind_conf := M, min_bond := b0, max_bond := b0 }
          (2 * (B.map List.length).sum + 1)).max_bond e) ∧
    (widen_loop B C { max_ind_conf := M, min_bond := b0, max_bond := b0 }
      (2 * (B.map List.length).sum + 1)).min_bond ≤ b0 ∧
    b0 ≤ (widen_loop B C { max_ind_conf := M, min_bond := b0, max_bond := b0 }
      (2 * (B.map List.length).sum + 1)).max_bond ∧
    (∃ e, e ∈ table_entries B C ∧
      (widen_loop B C { max_ind_conf := M, min_bond := b0, max_bond := b0 }
        (2 * (B.map List.length).sum + 1)).min_bond = e.1) ∧
    (∃ e, e ∈ table_entries B C ∧
      (widen_loop B C { max_ind_conf := M, min_bond := b0, max_bond := b0 }
        (2 * (B.map List.length).sum + 1)).max_bond = e.1) := by
  unfold widen_loop
  dsimp only
  have key := whileLoop_inv (fun (s : window_t) => s.flag) (widen_pass M B C)
    (fun s => (s.flag = false → ∀ e, e ∈ table_entries B C →
        Settled M s.min_bond s.max_bond e) ∧
      s.min_bond ≤ b0 ∧ b0 ≤ s.max_bond ∧
      (∃ e, e ∈ table_entries B C ∧ s.min_bond = e.1) ∧
      (∃ e, e ∈ table_entries B C ∧ s.max_bond = e.1))
    (fun s => beyond (table_entries B C) s.min_bond s.max_bond + (if s.flag then 1 else 0))
    (by
      intro s hs ht
      obtain ⟨_, i2, i3, i4, i5⟩ := hs
      rw [widen_pass_eq_fold M B C h s]
      obtain ⟨a1, a2, a3, a4, a5, _, a7⟩ := widen_fold M (table_entries B C) (table_entries B C)
        (fun _ hx => hx) { s with flag := false }
      dsimp only at a1 a2 a3 a4 a5 a7 ht
      refine ⟨⟨?_, le_trans a1 i2, le_trans i3 a2, ?_, ?_⟩, ?_⟩
      · intro hf e he
        obtain ⟨c1, c2⟩ := a5 hf
        rw [c1]
        exact c2 e he
      · rcases a4 with e1 | e1
        · rw [e1]
          exact i4
        · exact e1
      · rcases a3 with e1 | e1
        · rw [e1]
          exact i5
        · exact e1
      · have ht2 : s.flag = true := ht
        simp only [ht2, Bool.false_eq_true, if_false, add_zero, if_true] at a7 ⊢
        omega)
    (2 * (B.map List.length).sum + 1)
    { min_bond := b0, max_bond := b0, flag := true }
    ⟨fun hf => Bool.noConfusion hf, le_refl _, le_refl _, hb, hb⟩
    (by
      have := beyond_le (table_entries B C) b0 b0
      rw [table_entries_length B C h] at this
      simp only [if_true]
      omega)
  obtain ⟨⟨k1, k2, k3, k4, k5⟩, kt⟩ := key
  exact ⟨kt, k1 kt, k2, k3, k4, k5⟩

/-- C37, with the arithmetic of the code.  Let the two tables have the same shape and some
entry with a confidence above `-FLT_MAX`, the value from which the search for the largest
confidence starts.  Then the loop `while (flag)` of `find_limits_on_avg_bond` ends by its
test within twice the number of entries plus one passes (more passes allowed change
nothing), and with `e0` the first entry of largest confidence there are entries `e1` and
`e2` with bond lengths `lo ≤ hi` around the bond length of `e0` such that the function
returns the `double` values of `lo - 1` and `hi + 1`; every entry whose confidence exceeds
the `double` difference of the largest confidence and `0.1` has its bond length in
`[lo, hi]`; for every entry outside `[lo, hi]` the `double` distance from that interval is at
least 5, so that the exact distance is at least 5 up to the relative error `2^(-53)`; and
when `lo - 1` and `hi + 1` are below `2^53` in size, the returned `min_bond` is below `lo`
and the returned `max_bond` is above `hi`, so that the bond length of `e0` lies strictly
between them; when `lo - 1` and `hi + 1` are `double`s, `min_bond + 1 = lo` and
`max_bond - 1 = hi`. -/
theorem find_limits_on_avg_bond_window (lo hi : ℚ) (B C : List (List ℚ))
    (hshape : SameTableShape B C) (hne : ∃ e, e ∈ table_entries B C ∧ -FLT_MAX < e.2) :
    ∃ e0, FirstBest (table_entries B C) e0 ∧
      (widen_loop B C (best_limits lo hi B C) (2 * (B.map List.length).sum + 1)).flag = false ∧
      (∀ fuel, 2 * (B.map List.length).sum + 1 ≤ fuel →
        widen_loop B C (best_limits lo hi B C) fuel
          = widen_loop B C (best_limits lo hi B C) (2 * (B.map List.length).sum + 1)) ∧
      ∃ e1 e2, e1 ∈ table_entries B C ∧ e2 ∈ table_entries B C ∧
        find_limits_on_avg_bond lo hi B C = (double_sub e1.1 1, double_add e2.1 1) ∧
        e1.1 ≤ e0.1 ∧ e0.1 ≤ e2.1 ∧
        (∀ e, e ∈ table_entries B C → e.2 > double_sub e0.2 (round_double (1 / 10)) →
          e1.1 ≤ e.1 ∧ e.1 ≤ e2.1) ∧
        (∀ e, e ∈ table_entries B C →
          (e.1 < e1.1 → 5 ≤ double_sub e1.1 e.1 ∧ 5 ≤ (e1.1 - e.1) * (1 + 1 / 2 ^ 53)) ∧
          (e2.1 < e.1 → 5 ≤ double_sub e.1 e2.1 ∧ 5 ≤ (e.1 - e2.1) * (1 + 1 / 2 ^ 53))) ∧
        (|e1.1 - 1| < 2 ^ 53 → (find_limits_on_avg_bond lo hi B C).1 < e1.1) ∧
        (|e2.1 + 1| < 2 ^ 53 → e2.1 < (find_limits_on_avg_bond lo hi B C).2) ∧
        (round_double (e1.1 - 1) = e1.1 - 1 →
          (find_limits_on_avg_bond lo hi B C).1 + 1 = e1.1) ∧
        (round_double (e2.1 + 1) = e2.1 + 1 →
          (find_limits_on_avg_bond lo hi B C).2 - 1 = e2.1) := by
  have hbest : ∃ e0, FirstBest (table_entries B C) e0 ∧
      best_limits lo hi B C = { max_ind_conf := e0.2, min_bond := e0.1, max_bond := e0.1 } := by
    rw [best_limits_eq_fold lo hi B C hshape]
    rcases best_fold (table_entries B C)
      { max_ind_conf := -FLT_MAX, min_bond := lo, max_bond := hi } with ⟨h1, _⟩ | ⟨e0, h1, _, h3⟩
    · obtain ⟨e, he, hc⟩ := hne
      exact absurd (h1 e he) (not_le.2 hc)
    · exact ⟨e0, h1, h3⟩
  obtain ⟨e0, hfirst, hb⟩ := hbest
  have hmem : e0 ∈ table_entries B C := by
    obtain ⟨E1, E2, h1, _, _⟩ := hfirst
    rw [h1]
    exact List.mem_append_right _ (List.mem_cons_self _ _)
  obtain ⟨w1, w2, w3, w4, ⟨e1, he1, h1⟩, ⟨e2, he2, h2⟩⟩ :=
    widen_loop_spec B C hshape e0.2 e0.1 ⟨e0, hmem, rfl⟩
  have hfl : find_limits_on_avg_bond lo hi B C = (double_sub e1.1 1, double_add e2.1 1) := by
    unfold find_limits_on_avg_bond
    rw [hb]
    dsimp only
    rw [h1, h2]
  rw [hb]
  rw [h1] at w2 w3
  rw [h2] at w2 w4
  refine ⟨e0, hfirst, w1, ?_, e1, e2, he1, he2, hfl, w3, w4, ?_, ?_, ?_, ?_, ?_, ?_⟩
  · intro fuel hfuel
    unfold widen_loop
    exact whileLoop_stable _ _ _ _ w1 fuel hfuel
  · intro e he hc
    obtain ⟨s1, s2⟩ := w2 e he
    constructor
    · by_contra hlt
      exact s2 ⟨not_le.1 hlt, Or.inr hc⟩
    · by_contra hlt
      exact s1 ⟨not_le.1 hlt, Or.inr hc⟩
  · intro e he
    obtain ⟨s1, s2⟩ := w2 e he
    constructor
    · intro hlt
      have h5 : 5 ≤ double_sub e1.1 e.1 := by
        by_contra h5
        exact s2 ⟨hlt, Or.inl (not_le.1 h5)⟩
      exact ⟨h5, double_sub_far _ _ h5⟩
    · intro hlt
      have h5 : 5 ≤ double_sub e.1 e2.1 := by
        by_contra h5
        exact s1 ⟨hlt, Or.inl (not_le.1 h5)⟩
      exact ⟨h5, double_sub_far _ _ h5⟩
  · intro hsz
    rw [hfl]
    exact double_sub_one_lt _ hsz
  · intro hsz
    rw [hfl]
    exact lt_double_add_one _ hsz
  · intro hex
    rw [hfl]
    show double_sub e1.1 1 + 1 = e1.1
    unfold double_sub
    rw [hex]
    ring
  · intro hex
    rw [hfl]
    show double_add e2.1 1 - 1 = e2.1
    unfold double_add
    rw [hex]
    ring

/-- Witness for C37: the tables `bond_pages` and `conf_pages`. -/
theorem find_limits_on_avg_bond_window_witness :
    find_limits_on_avg_bond 0 0 bond_pages conf_pages = (19, 31) ∧
    ∃ e0, FirstBest (table_entries bond_pages conf_pages) e0 ∧
      ∃ e1 e2, e1 ∈ table_entries bond_pages conf_pages ∧
        e2 ∈ table_entries bond_pages conf_pages ∧
        find_limits_on_avg_bond 0 0 bond_pages conf_pages
          = (double_sub e1.1 1, double_add e2.1 1) ∧
        e1.1 ≤ e0.1 ∧ e0.1 ≤ e2.1 := by
  obtain ⟨e0, h1, _, _, e1, e2, h2, h3, h4, h5, h6, _⟩ :=
    find_limits_on_avg_bond_window 0 0 bond_pages conf_pages
      (List.Forall₂.cons rfl (List.Forall₂.cons rfl List.Forall₂.nil))
      ⟨(20, 1 / 2), by decide!, by decide!⟩
  exact ⟨by decide!, e0, h1, e1, e2, h2, h3, h4, h5, h6⟩

/-- The function on `bond_pages` and `conf_pages` evaluated: the first entry of largest
confidence has the bond length 20; the entries 23, 26 and then 30 are taken in, each less
than 5 above the upper limit reached before, and the entry 10 stays out, 10 below the lower
limit; the function returns `min_bond = 19` and `max_bond = 31`. -/
theorem find_limits_on_avg_bond_example :
    table_entries bond_pages conf_pages
      = [(20, 1 / 2), (30, 1 / 4), (23, 1 / 4), (10, 1 / 4), (26, 7 / 16)] ∧
    (best_limits 0 0 bond_pages conf_pages).max_ind_conf = 1 / 2 ∧
    (best_limits 0 0 bond_pages conf_pages).min_bond = 20 ∧
    find_limits_on_avg_bond 0 0 bond_pages conf_pages = (19, 31) := by
  decide!

/-- C37. The threshold of the code is the `double` difference of the largest confidence and
`0.1`, not the largest confidence less `1/10`.  On the tables `edge_bonds` and `edge_confs`
the entry of largest confidence is `(20, 1)`; the entry with the bond length 30 has the
confidence `0.9` as a `double`, which exceeds `1 - 1/10`; but the `double` difference
`1 - 0.1` is that same `double`, so the test `>` fails, the entry stays out of the window,
the function returns `min_bond = 19` and `max_bond = 21`, and 30 does not lie in
`[min_bond + 1, max_bond - 1]`. -/
theorem find_limits_on_avg_bond_threshold_rounds :
    SameTableShape edge_bonds edge_confs ∧
    table_entries edge_bonds edge_confs = [(20, 1), (30, round_double (9 / 10))] ∧
    FirstBest (table_entries edge_bonds edge_confs) (20, 1) ∧
    round_double (9 / 10) = 8106479329266893 / 9007199254740992 ∧
    round_double (9 / 10) > 1 - 1 / 10 ∧
    double_sub 1 (round_double (1 / 10)) = round_double (9 / 10) ∧
    find_limits_on_avg_bond 0 0 edge_bonds edge_confs = (19, 21) ∧
    ¬ ((30 : ℚ) ≤ (find_limits_on_avg_bond 0 0 edge_bonds edge_confs).2 - 1) := by
  refine ⟨List.Forall₂.cons rfl List.Forall₂.nil, by decide!, ?_, by decide!, by decide!,
    by decide!, by decide!, by decide!⟩
  refine ⟨[], [(30, round_double (9 / 10))], by decide!, ?_, ?_⟩
  · intro e he
    exact absurd he (List.not_mem_nil e)
  · intro e he
    rw [List.mem_singleton] at he
    rw [he]
    decide!

/-- The function on `edge_bonds` and `edge_confs_low` evaluated, in the arithmetic of the
code and in exact arithmetic: the largest confidence is the `double` `0.3`, and the `double`
difference `0.3 - 0.1` lies below the `double` `0.2`, so the entry with the bond length 30
and the confidence `0.2` is taken in and the function returns `min_bond = 19` and
`max_bond = 31`; for the exact numbers `3/10`, `1/5` and `1/10` the test `1/5 > 3/10 - 1/10`
fails. -/
theorem find_limits_on_avg_bond_low_example :
    table_entries edge_bonds edge_confs_low
      = [(20, round_double (3 / 10)), (30, round_double (1 / 5))] ∧
    double_sub (round_double (3 / 10)) (round_double (1 / 10)) < round_double (1 / 5) ∧
    find_limits_on_avg_bond 0 0 edge_bonds edge_confs_low = (19, 31) ∧
    ¬ ((1 : ℚ) / 5 > 3 / 10 - 1 / 10) := by
  decide!

/-! ## `fix_one_sided_bonds`: the run of the function -/

theorem split_count_zero (G : Geometry) (n : Nat) : split_count G n 0 = n := by
  unfold split_count
  omega

theorem split_count_succ (G : Geometry) (n k : Nat) :
    split_count G n (k + 1) = bump G (split_count G n k) := by
  unfold split_count bump
  split_ifs <;> omega

/-- The split of bond `i` at an end of bond `j`, for bonds `i`, `j` below `n_bond`. -/
theorem split_bond_split_at (G : Geometry) (i j : Nat) (at_a : Bool) (s : Bonds × Nat)
    (hi : i < s.2) (hj : j < s.2) :
    SplitAt G i (if at_a then (s.1 j).a else (s.1 j).b) s (split_bond G i j at_a s) := by
  have hin : i ≠ s.2 := by omega
  have hjn : j ≠ s.2 := by omega
  unfold split_bond
  refine ⟨rfl, ?_, ?_, ?_⟩
  · simp only [upd, hin, Ne.symm hin, if_false, if_true]
    cases h1 : (s.1 i).hash <;> cases h2 : (s.1 i).wedge <;> cases h3 : (s.1 i).arom <;> simp
  · cases at_a <;> simp [upd, hin, Ne.symm hin, hjn]
  · intro k h1 h2
    simp [upd, h1, h2]

/-- One round of the inner loop of `fix_one_sided_bonds` leaves the state as it is, switches
bond `j` off, or splits bond `i` at an end of bond `j`. -/
theorem one_sided_pair_cases (G : Geometry) (thickness avg l : ℚ) (atom : Atoms) (i j : Nat)
    (s : Bonds × Nat) (hi : i < s.2) (hj : j < s.2) (hex : (s.1 i).exists_ = true) :
    one_sided_pair G thickness avg l atom i j s = s ∨
    (one_sided_pair G thickness avg l atom i j s = (kill s.1 j, s.2) ∧
      DropsAt G atom avg i j s) ∨
    ∃ p, SplitsAt G atom thickness avg i j p s ∧
      SplitAt G i p s (one_sided_pair G thickness avg l atom i j s) := by
  unfold one_sided_pair
  by_cases hq : one_sided_candidate G avg atom i j s.1 = true
  · rw [if_pos hq]
    by_cases h1 : beside_line G atom s.1 i (s.1 j).a < thickness ∧
        ¬ ((s.1 j).a = (s.1 i).b ∨ (s.1 j).a = (s.1 i).a)
    · rw [if_pos h1]
      by_cases h2 : along_line G atom s.1 i (s.1 j).a > 0 ∧
          along_line G atom s.1 i (s.1 j).a < l
      · rw [if_pos h2]
        by_cases h3 : (s.1 j).b = (s.1 i).b ∨ (s.1 j).b = (s.1 i).a
        · rw [if_pos h3]
          exact Or.inr (Or.inl ⟨rfl, hi, hj, hex, hq, by tauto⟩)
        · rw [if_neg h3]
          refine Or.inr (Or.inr ⟨(s.1 j).a, ⟨hi, hj, hex, hq, Or.inl rfl, by tauto, h1.1, h2.1⟩,
            ?_⟩)
          exact split_bond_split_at G i j true s hi hj
      · rw [if_neg h2]
        exact Or.inl rfl
    · rw [if_neg h1]
      by_cases h1b : beside_line G atom s.1 i (s.1 j).b < thickness ∧
          ¬ ((s.1 j).b = (s.1 i).b ∨ (s.1 j).b = (s.1 i).a)
      · rw [if_pos h1b]
        by_cases h2 : along_line G atom s.1 i (s.1 j).b > 0 ∧
            along_line G atom s.1 i (s.1 j).b < l
        · rw [if_pos h2]
          by_cases h3 : (s.1 j).a = (s.1 i).b ∨ (s.1 j).a = (s.1 i).a
          · rw [if_pos h3]
            exact Or.inr (Or.inl ⟨rfl, hi, hj, hex, hq, by tauto⟩)
          · rw [if_neg h3]
            refine Or.inr (Or.inr ⟨(s.1 j).b,
              ⟨hi, hj, hex, hq, Or.inr rfl, by tauto, h1b.1, h2.1⟩, ?_⟩)
            exact split_bond_split_at G i j false s hi hj
        · rw [if_neg h2]
          exact Or.inl rfl
      · rw [if_neg h1b]
        exact Or.inl rfl
  · rw [if_neg hq]
    exact Or.inl rfl

/-- The invariant of the loops of `fix_one_sided_bonds`: the state is reached from the state
on entry by splits and switched-off bonds, and `n_bond` counts the splits. -/
theorem one_sided_pair_run (G : Geometry) (thickness avg l : ℚ) (atom : Atoms) (i j : Nat)
    (s0 s : Bonds × Nat) (hi : i < s.2) (hj : j < s.2) (hex : (s.1 i).exists_ = true)
    (hrun : ∃ k, OneSidedRun G atom thickness avg s0 k s ∧ s.2 = split_count G s0.2 k) :
    i < (one_sided_pair G thickness avg l atom i j s).2 ∧
    ((one_sided_pair G thickness avg l atom i j s).1 i).exists_ = true ∧
    ∃ k, OneSidedRun G atom thickness avg s0 k (one_sided_pair G thickness avg l atom i j s) ∧
      (one_sided_pair G thickness avg l atom i j s).2 = split_count G s0.2 k := by
  obtain ⟨k, hk, hc⟩ := hrun
  rcases one_sided_pair_cases G thickness avg l atom i j s hi hj hex with e | ⟨e, hd⟩ | ⟨p, hp, hs⟩
  · rw [e]
    exact ⟨hi, hex, k, hk, hc⟩
  · rw [e]
    have hji : j ≠ i := by
      have := hd.candidate
      unfold one_sided_candidate at this
      simp only [Bool.and_eq_true, bne_iff_ne, ne_eq] at this
      exact this.1.1.1.2
    refine ⟨hi, ?_, k, OneSidedRun.drop k s i j hk hd, hc⟩
    show (kill s.1 j i).exists_ = true
    unfold kill upd
    rw [if_neg (Ne.symm hji)]
    exact hex
  · refine ⟨?_, ?_, k + 1, OneSidedRun.split k s _ i j p hk hp hs, ?_⟩
    · rw [hs.count]
      exact lt_of_lt_of_le hi (bump_ge G s.2)
    · rw [hs.cut]
      exact hex
    · rw [hs.count, hc, split_count_succ]

/-- The inner loop of `fix_one_sided_bonds` keeps the invariant. -/
theorem one_sided_row_run (G : Geometry) (thickness avg l : ℚ) (atom : Atoms) (i : Nat)
    (s0 s : Bonds × Nat) (hi : i < s.2) (hex : (s.1 i).exists_ = true)
    (hrun : ∃ k, OneSidedRun G atom thickness avg s0 k s ∧ s.2 = split_count G s0.2 k) :
    ∃ k, OneSidedRun G atom thickness avg s0 k (one_sided_row G thickness avg l atom i s) ∧
      (one_sided_row G thickness avg l atom i s).2 = split_count G s0.2 k := by
  have key := whileLoop_keeps (fun (t : (Bonds × Nat) × Nat) => decide (t.2 < t.1.2))
    (fun t => (one_sided_pair G thickness avg l atom i t.2 t.1, t.2 + 1))
    (fun t => i < t.1.2 ∧ (t.1.1 i).exists_ = true ∧
      ∃ k, OneSidedRun G atom thickness avg s0 k t.1 ∧ t.1.2 = split_count G s0.2 k)
    (by
      intro t hI ht
      simp only [decide_eq_true_eq] at ht
      exact one_sided_pair_run G thickness avg l atom i t.2 s0 t.1 hI.1 ht hI.2.1 hI.2.2)
    (s.2 + G.MAX_ATOMS) (s, 0) ⟨hi, hex, hrun⟩
  exact key.2.2

/-- C25. One-sided split.  `fix_one_sided_bonds` ends by the test of its loop within the
rounds that the model allows (more rounds change nothing), and the bonds and the count that
it returns come from the bonds and the count on entry by a sequence of changes of two kinds:
bond `j` is switched off, or bond `i` is split at an end atom `p` of bond `j`.  A split
happens only when `i` and `j` are bonds below `n_bond`, bond `i` exists, bond `j` passes the
test of the inner loop, `p` is an end of `j` and not of `i`, no end of `j` is an end of `i`,
`p` is nearer than `thickness` to the line of `i` and its distance along `i` is positive
(`SplitsAt`); it writes to `bond[n_bond]` an existing bond from `p` to the former `b` end of
`i` with the order, the curve and the flags `hash`, `wedge`, `arom`, `conjoined` of `i`, sets
the `b` end of `i` to `p` and clears the wedge flag of `i`, changes no other bond, and
raises `n_bond` by one unless that would reach `MAX_ATOMS` (`SplitAt`).  With `k` the number
of the splits, the returned count is `n_bond + k`, capped at `MAX_ATOMS - 1` (at `n_bond`
when `n_bond` is larger); the atoms are `const` and not part of the state. -/
theorem fix_one_sided_bonds_splits (G : Geometry) (bond : Bonds) (n_bond : Nat) (atom : Atoms)
    (thickness avg : ℚ) :
    (∀ fuel, n_bond + G.MAX_ATOMS ≤ fuel →
      (whileLoop (fun (t : (Bonds × Nat) × Nat) => decide (t.2 < t.1.2))
        (fun t =>
          (if (t.1.1 t.2).exists_ && decide ((t.1.1 t.2).type < 3) &&
              decide (bond_length G t.1.1 t.2 atom > avg / 3)
            then one_sided_row G thickness avg (bond_length G t.1.1 t.2 atom) atom t.2 t.1
            else t.1, t.2 + 1))
        fuel ((bond, n_bond), 0)).1 = fix_one_sided_bonds G bond n_bond atom thickness avg) ∧
    ∃ k, OneSidedRun G atom thickness avg (bond, n_bond) k
        (fix_one_sided_bonds G bond n_bond atom thickness avg) ∧
      (fix_one_sided_bonds G bond n_bond atom thickness avg).2
        = min (n_bond + k) (max n_bond (G.MAX_ATOMS - 1)) := by
  constructor
  · intro fuel hfuel
    have hend := (grow_loop_ends G.MAX_ATOMS
      (fun i s =>
        if (s.1 i).exists_ && decide ((s.1 i).type < 3) &&
            decide (bond_length G s.1 i atom > avg / 3)
          then one_sided_row G thickness avg (bond_length G s.1 i atom) atom i s
          else s)
      (by
        intro i s
        dsimp only
        split
        · exact (one_sided_row_ends G thickness avg _ atom i s).2
        · exact ⟨le_refl _, Or.inl rfl⟩)
      (bond, n_bond) (n_bond + G.MAX_ATOMS) (le_refl _)).1
    unfold fix_one_sided_bonds
    rw [whileLoop_stable _ _ (n_bond + G.MAX_ATOMS) ((bond, n_bond), 0) hend fuel hfuel]
  · have key := whileLoop_keeps (fun (t : (Bonds × Nat) × Nat) => decide (t.2 < t.1.2))
      (fun t =>
        (if (t.1.1 t.2).exists_ && decide ((t.1.1 t.2).type < 3) &&
            decide (bond_length G t.1.1 t.2 atom > avg / 3)
          then one_sided_row G thickness avg (bond_length G t.1.1 t.2 atom) atom t.2 t.1
          else t.1, t.2 + 1))
      (fun t => ∃ k, OneSidedRun G atom thickness avg (bond, n_bond) k t.1 ∧
        t.1.2 = split_count G n_bond k)
      (by
        intro t hI ht
        simp only [decide_eq_true_eq] at ht
        dsimp only
        split
        · rename_i hc
          simp only [Bool.and_eq_true, decide_eq_true_eq] at hc
          exact one_sided_row_run G thickness avg _ atom t.2 (bond, n_bond) t.1 ht hc.1.1 hI
        · exact hI)
      (n_bond + G.MAX_ATOMS) ((bond, n_bond), 0)
      ⟨0, OneSidedRun.begin, (split_count_zero G n_bond).symm⟩
    exact key

/-- Witness for C25: on `tee_bonds` the run of `fix_one_sided_bonds` has one split: the long
bond 0, a wedge of order 2 from atom 0 to atom 1, is split at atom 2; it now ends at atom 2
and is no wedge, and the new bond 2 from atom 2 to atom 1 has its order and flags; three
bonds are returned. -/
theorem fix_one_sided_bonds_splits_witness :
    OneSidedRun euclid_sq tee_atoms 2 24 (tee_bonds, 2) 1
      (fix_one_sided_bonds euclid_sq tee_bonds 2 tee_atoms 2 24) ∧
    (fix_one_sided_bonds euclid_sq tee_bonds 2 tee_atoms 2 24).2 = 3 ∧
    ((fix_one_sided_bonds euclid_sq tee_bonds 2 tee_atoms 2 24).1 0).a = 0 ∧
    ((fix_one_sided_bonds euclid_sq tee_bonds 2 tee_atoms 2 24).1 0).b = 2 ∧
    ((fix_one_sided_bonds euclid_sq tee_bonds 2 tee_atoms 2 24).1 2).a = 2 ∧
    ((fix_one_sided_bonds euclid_sq tee_bonds 2 tee_atoms 2 24).1 2).b = 1 ∧
    ((fix_one_sided_bonds euclid_sq tee_bonds 2 tee_atoms 2 24).1 2).exists_ = true := by
  have h3 : (fix_one_sided_bonds euclid_sq tee_bonds 2 tee_atoms 2 24).2 = 3 := by decide!
  obtain ⟨k, hrun, hk⟩ := (fix_one_sided_bonds_splits euclid_sq tee_bonds 2 tee_atoms 2 24).2
  have hM : euclid_sq.MAX_ATOMS = 10000 := rfl
  rw [h3, hM] at hk
  have h1 : k = 1 := by omega
  rw [h1] at hrun
  exact ⟨hrun, h3, by decide!, by decide!, by decide!, by decide!, by decide!⟩

/-- The length `l` of bond `i` is taken once, when the round of bond `i` begins (line 1782),
and a split in that round shortens bond `i`.  On `comb_bonds` the first split leaves bond 0
between the atoms 0 and 2, with length 10; atom 4 then lies at distance 20 along bond 0,
beyond its `b` end, and bond 0 is split there all the same, because 20 is below the length
30 of the beginning of the round: bond 0 then runs from atom 0 to atom 4 and the new bond 4
runs back from atom 4 to atom 2.  Six bonds are returned, among them a bond from atom 2 to
atom 4 and a bond from atom 4 to atom 2. -/
theorem fix_one_sided_bonds_stale_length :
    bond_length euclid_sq comb_bonds 0 comb_atoms = 30 ∧
    ((one_sided_pair euclid_sq 2 24 30 comb_atoms 0 1 (comb_bonds, 3)).1 0).a = 0 ∧
    ((one_sided_pair euclid_sq 2 24 30 comb_atoms 0 1 (comb_bonds, 3)).1 0).b = 2 ∧
    bond_length euclid_sq (one_sided_pair euclid_sq 2 24 30 comb_atoms 0 1 (comb_bonds, 3)).1 0
      comb_atoms = 10 ∧
    along_line euclid_sq comb_atoms
      (one_sided_pair euclid_sq 2 24 30 comb_atoms 0 1 (comb_bonds, 3)).1 0 4 = 20 ∧
    ((one_sided_pair euclid_sq 2 24 30 comb_atoms 0 2
      (one_sided_pair euclid_sq 2 24 30 comb_atoms 0 1 (comb_bonds, 3))).1 0).b = 4 ∧
    ((one_sided_pair euclid_sq 2 24 30 comb_atoms 0 2
      (one_sided_pair euclid_sq 2 24 30 comb_atoms 0 1 (comb_bonds, 3))).1 4).a = 4 ∧
    ((one_sided_pair euclid_sq 2 24 30 comb_atoms 0 2
      (one_sided_pair euclid_sq 2 24 30 comb_atoms 0 1 (comb_bonds, 3))).1 4).b = 2 ∧
    (one_sided_pair euclid_sq 2 24 30 comb_atoms 0 2
      (one_sided_pair euclid_sq 2 24 30 comb_atoms 0 1 (comb_bonds, 3))).2 = 5 ∧
    (fix_one_sided_bonds euclid_sq comb_bonds 3 comb_atoms 2 24).2 = 6 ∧
    ((fix_one_sided_bonds euclid_sq comb_bonds 3 comb_atoms 2 24).1 0).a = 0 ∧
    ((fix_one_sided_bonds euclid_sq comb_bonds 3 comb_atoms 2 24).1 0).b = 4 ∧
    ((fix_one_sided_bonds euclid_sq comb_bonds 3 comb_atoms 2 24).1 3).a = 2 ∧
    ((fix_one_sided_bonds euclid_sq comb_bonds 3 comb_atoms 2 24).1 3).b = 4 ∧
    ((fix_one_sided_bonds euclid_sq comb_bonds 3 comb_atoms 2 24).1 4).a = 4 ∧
    ((fix_one_sided_bonds euclid_sq comb_bonds 3 comb_atoms 2 24).1 4).b = 2 ∧
    ((fix_one_sided_bonds euclid_sq comb_bonds 3 comb_atoms 2 24).1 5).a = 4 ∧
    ((fix_one_sided_bonds euclid_sq comb_bonds 3 comb_atoms 2 24).1 5).b = 1 := by
  decide!

end Osra
